import Mathlib

/-!
# OSD client (src/kernel/osd_client.c): shallow embedding

The request registry, the dispatch and resubmit engine, the reply path, the
map ingestion and the synchronous read of the OSD client, as Lean functions
over an explicit client state.

Conventions of the embedding.

* A pointer to a request or to a message is a natural number; the client
  state holds the two heaps `reqs` and `msgs`.
* `u64`, `u32` and `unsigned long` values are natural numbers, reduced
  modulo `2 ^ 64` or `2 ^ 32` wherever the C arithmetic can wrap.
* Calls into the collaborators of the client (messenger, monitor client,
  timer, locks, logging) are appended to `trace`, oldest first.
* A function returns `none` when the C call does not return normally: a
  `BUG_ON` fires, a null pointer is dereferenced, a division by zero
  happens, or a loop never ends.
* Functions, constants and types that the file uses but that live in other
  files of the repository (CRUSH, the map decoder, `ceph_fs.h`) are the
  fields of `Deps`.
-/

namespace Ceph

/-! ## Data model -/

/-- Errno values used by the client (`linux/errno.h`). -/
def ENOENT : Int := 2
def ENOMEM : Int := 12
def EFAULT : Int := 14
def EEXIST : Int := 17

def U64 : Nat := 2 ^ 64
def U32 : Nat := 2 ^ 32

/-- Reading of a `u32` value as an `int`. -/
def toInt32 (x : Nat) : Int :=
  if x % U32 < 2 ^ 31 then ((x % U32 : Nat) : Int) else ((x % U32 : Nat) : Int) - (U32 : Int)

/-- Reading of an `unsigned long` value as a `long`. -/
def toInt64 (x : Nat) : Int :=
  if x % U64 < 2 ^ 63 then ((x % U64 : Nat) : Int) else ((x % U64 : Nat) : Int) - (U64 : Int)

/-- Conversion of a signed value to `u64` (two's complement). -/
def toU64 (x : Int) : Nat := (x % (U64 : Int)).toNat

/-- Network address of a peer, `struct ceph_entity_addr`; the zeroed address is `0`. -/
abbrev ceph_entity_addr := Nat

/-- The fields of `union ceph_pg` read by `pick_osd`. -/
structure ceph_pg where
  preferred : Int := 0
  ps : Nat := 0
  pool : Nat := 0
  type : Nat := 0
  size : Nat := 0
deriving DecidableEq, Repr

/-- The fields of `struct ceph_osdmap` read by the client; `crush` stands for
the CRUSH map the snapshot points to. -/
structure ceph_osdmap where
  epoch : Nat := 0
  max_osd : Int := 0
  osd_addr : List ceph_entity_addr := []
  osd_state : List Nat := []
  osd_weight : List Nat := []
  pgp_num : Nat := 0
  pgp_num_mask : Nat := 0
  lpgp_num : Nat := 0
  lpgp_num_mask : Nat := 0
  crush : Nat := 0
deriving DecidableEq, Repr

/-- A message, `struct ceph_msg`: header fields, the decoded front (the
request head of an `OSD_OP`, the reply head of an `OSD_OPREPLY`), the raw
front bytes of a map message, and the pages pointer.  `pages = some p` points
to the page vector `r_pages` of the request at address `p`. -/
structure ceph_msg where
  hdr_type : Nat := 0
  hdr_dst_type : Nat := 0
  hdr_dst_num : Int := 0
  hdr_dst_addr : ceph_entity_addr := 0
  hdr_data_len : Nat := 0
  hdr_data_off : Nat := 0
  front_len : Nat := 0
  front_tid : Nat := 0
  front_flags : Nat := 0
  front_osdmap_epoch : Nat := 0
  front_result : Nat := 0
  front_num_ops : Nat := 0
  op_op : Nat := 0
  op_offset : Nat := 0
  op_length : Nat := 0
  front_bytes : List Nat := []
  pages : Option Nat := none
  nr_pages : Int := 0
deriving DecidableEq, Repr

/-- A request, `struct ceph_osd_request`.  `r_request` and `r_reply` are
message addresses; `r_callback` tells whether a callback is set. -/
structure ceph_osd_request where
  r_tid : Nat := 0
  r_pgid : ceph_pg := {}
  r_flags : Nat := 0
  r_aborted : Bool := false
  r_last_osd : Int := 0
  r_last_osd_addr : ceph_entity_addr := 0
  r_last_stamp : Nat := 0
  r_ref : Int := 0
  r_num_pages : Int := 0
  r_request : Nat := 0
  r_reply : Option Nat := none
  r_callback : Bool := false
deriving DecidableEq, Repr

/-- The striping parameters of a file, `struct ceph_file_layout`. -/
structure ceph_file_layout where
  fl_stripe_unit : Nat := 0
  fl_stripe_count : Nat := 0
  fl_object_size : Nat := 0
  fl_pg_preferred : Int := 0
  fl_pg_pool : Nat := 0
  fl_pg_type : Nat := 0
  fl_pg_size : Nat := 0
deriving DecidableEq, Repr

/-- What `calc_file_object_mapping` writes through its pointers: the shortened
file length `*plen`, the object number `oid->bno`, and the extent in the object. -/
structure ObjectExtent where
  plen : Nat := 0
  bno : Nat := 0
  objoff : Nat := 0
  objlen : Nat := 0
deriving DecidableEq, Repr

/-- Calls made by the client into its collaborators. -/
inductive Event where
  | msg_send (m : Nat) (snapshot : ceph_msg)
  | msg_get (m : Nat)
  | msg_put (m : Nat)
  | msg_maybe_dup (m : Nat)
  | request_osdmap (epoch : Nat)
  | got_osdmap (epoch : Nat)
  | ping (osd : Int) (addr : ceph_entity_addr)
  | callback (req : Nat)
  | complete (req : Nat)
  | schedule_timeout (jifs : Int)
  | cancel_timeout
  | mutex_lock
  | mutex_unlock
  | page_mutex_lock (m : Nat)
  | page_mutex_unlock (m : Nat)
  | down_read
  | up_read
  | down_write
  | up_write
  | downgrade_write
  | put_snap_context (req : Nat)
  | kfree (req : Nat)
  | alloc_page (req : Nat) (i : Nat)
  | copy_to_user (req : Nat) (i : Nat) (po : Int) (l : Int)
  | copy_from_user (req : Nat) (i : Nat) (po : Int) (l : Int)
  | free_pages (req : Nat) (i : Nat)
  | derr_wrong_fsid
  | derr_corrupt_map
  | derr_corrupt_reply
deriving DecidableEq, Repr

/-- What the client takes from the rest of the repository: constants of
`ceph_fs.h`, the CRUSH mapper, the map decoder, the file striping and the
platform constants. -/
structure Deps where
  CEPH_OSD_OP_RETRY : Nat
  CEPH_MSG_OSD_OPREPLY : Nat
  CEPH_ENTITY_TYPE_OSD : Nat
  PAGE_CACHE_SHIFT : Nat
  HZ : Int
  sizeof_reply_head : Nat
  sizeof_osd_op : Nat
  crush_find_rule : Nat → Nat → Nat → Nat → Int
  crush_do_rule : Nat → Int → Nat → Int → Int → List Nat → List Int
  ceph_stable_mod : Nat → Nat → Nat → Nat
  ceph_osd_is_up : ceph_osdmap → Int → Bool
  apply_incremental : List Nat → ceph_osdmap → Except Int ceph_osdmap
  osdmap_decode : List Nat → Except Int ceph_osdmap
  CEPH_MSG_OSD_OP : Nat
  CEPH_OSD_OP_READ : Nat
  calc_file_object_mapping : ceph_file_layout → Nat → Nat → ObjectExtent
  calc_object_layout : ceph_file_layout → Nat → Nat → Option ceph_osdmap → ceph_pg
  CEPH_OSD_OP_WRITE : Nat
  CEPH_OSD_OP_ACK : Nat
  CEPH_OSD_OP_ORDERSNAP : Nat
  CEPH_OSD_OP_MODIFY : Nat

/-- The client, `struct ceph_osd_client`, with the parts of its surroundings
it reads (`monmap_fsid`, `osd_timeout`, `jiffies`), the value `send_rc` that
the messenger returns from `ceph_msg_send`, and the two heaps.
`request_tree` is the radix tree: pairs of index and request address, in
ascending order of index. -/
structure ceph_osd_client where
  osdmap : Option ceph_osdmap := none
  last_requested_map : Nat := 0
  last_tid : Nat := 0
  request_tree : List (Nat × Nat) := []
  num_requests : Int := 0
  timeout_tid : Nat := 0
  monmap_fsid : Nat × Nat := (0, 0)
  osd_timeout : Int := 0
  jiffies : Nat := 0
  send_rc : Int := 0
  reqs : Nat → ceph_osd_request := fun _ => {}
  msgs : Nat → ceph_msg := fun _ => {}
  trace : List Event := []

/-- Pointwise update of a heap. -/
def upd {α : Type} (f : Nat → α) (p : Nat) (v : α) : Nat → α :=
  fun q => if q = p then v else f q

def ceph_osd_client.log (osdc : ceph_osd_client) (e : Event) : ceph_osd_client :=
  { osdc with trace := osdc.trace ++ [e] }

def ceph_osd_client.logs (osdc : ceph_osd_client) (es : List Event) : ceph_osd_client :=
  { osdc with trace := osdc.trace ++ es }

def ceph_osd_client.setReq (osdc : ceph_osd_client) (p : Nat) (r : ceph_osd_request) :
    ceph_osd_client :=
  { osdc with reqs := upd osdc.reqs p r }

def ceph_osd_client.setMsg (osdc : ceph_osd_client) (p : Nat) (m : ceph_msg) :
    ceph_osd_client :=
  { osdc with msgs := upd osdc.msgs p m }

/-! ## Radix tree (`linux/radix-tree.h`), as a sorted association list -/

def radix_tree_lookup (t : List (Nat × Nat)) (index : Nat) : Option Nat :=
  (t.find? (fun e => e.1 == index)).map Prod.snd

/-- Insertion in index order, without the existence check. -/
def tree_put : List (Nat × Nat) → Nat → Nat → List (Nat × Nat)
  | [], k, v => [(k, v)]
  | e :: t, k, v => if k < e.1 then (k, v) :: e :: t else e :: tree_put t k v

/-- Returns `-ENOMEM` when a node cannot be allocated (`nomem`), `-EEXIST` when
the index is taken, and `0` with the item inserted otherwise. -/
def radix_tree_insert (t : List (Nat × Nat)) (index item : Nat) (nomem : Bool) :
    Int × List (Nat × Nat) :=
  if nomem then (-ENOMEM, t)
  else if (radix_tree_lookup t index).isSome then (-EEXIST, t)
  else (0, tree_put t index item)

def radix_tree_delete (t : List (Nat × Nat)) (index : Nat) : List (Nat × Nat) :=
  t.filter (fun e => e.1 != index)

/-- The lookup `radix_tree_gang_lookup(root, results, first_index, 1)`: the
item with the smallest index that is at least `first_index`, if any. -/
def radix_tree_gang_lookup (t : List (Nat × Nat)) (first_index : Nat) : Option Nat :=
  (t.find? (fun e => decide (first_index ≤ e.1))).map Prod.snd

/-! ## Requests -/

/-- Number of pages that `off~len` maps onto (super.h), in `u64` arithmetic, returned as `int`. -/
def calc_pages_for (D : Deps) (off len : Nat) : Int :=
  toInt32 (((off + len + 2 ^ D.PAGE_CACHE_SHIFT - 1) % U64 / 2 ^ D.PAGE_CACHE_SHIFT
    + U64 - off % U64 / 2 ^ D.PAGE_CACHE_SHIFT) % U64)

/-- One more reference on the request (`atomic_inc`). -/
def get_request (osdc : ceph_osd_client) (req : Nat) : ceph_osd_client :=
  osdc.setReq req { osdc.reqs req with r_ref := (osdc.reqs req).r_ref + 1 }

/-- Drops one reference; `BUG_ON` when the count is not positive; at zero the
messages and the snapshot context are released and the request is freed. -/
def ceph_osdc_put_request (osdc : ceph_osd_client) (req : Nat) : Option ceph_osd_client :=
  let r := osdc.reqs req
  if r.r_ref ≤ 0 then none
  else if r.r_ref - 1 = 0 then
    some (((osdc.setReq req { r with r_ref := r.r_ref - 1 }).logs
      ([Event.msg_put r.r_request] ++
        (match r.r_reply with
          | some m => [Event.msg_put m]
          | none => []) ++
        [Event.put_snap_context req, Event.kfree req])))
  else some (osdc.setReq req { r with r_ref := r.r_ref - 1 })

/-! ## Registry -/

/-- Value of an `int` expression: two's complement in 32 bits. -/
def wrapInt (x : Int) : Int := (x + 2 ^ 31) % 2 ^ 32 - 2 ^ 31

/-- Value of a `long` expression: two's complement in 64 bits. -/
def wrapLong (x : Int) : Int := (x + 2 ^ 63) % 2 ^ 64 - 2 ^ 63

/-- The product `osd_timeout * HZ` of `reschedule_timeout` and `handle_timeout`,
an `int`. -/
def timer_period (D : Deps) (osdc : ceph_osd_client) : Int :=
  wrapInt (osdc.osd_timeout * D.HZ)

/-- Arms the timer; the event carries the delay before `round_jiffies_relative`.
The difference is a `long`; the remainder of C truncates towards zero; a zero
divisor faults. -/
def reschedule_timeout (D : Deps) (osdc : ceph_osd_client) (base_time : Nat) :
    Option ceph_osd_client :=
  let jifs0 : Int := if base_time ≠ 0 then toInt64 (osdc.jiffies + U64 - base_time % U64) else 0
  let jifs1 : Int := wrapLong (timer_period D osdc - jifs0)
  if jifs1 < 0 then
    if timer_period D osdc = 0 then none
    else some (osdc.log
      (Event.schedule_timeout (jifs1.tmod (timer_period D osdc) + timer_period D osdc)))
  else some (osdc.log (Event.schedule_timeout jifs1))

/-- Registers the request and assigns its tid; `nomem` tells whether the radix
tree fails to allocate.  Returns the code of `radix_tree_insert`. -/
def register_request (D : Deps) (osdc : ceph_osd_client) (req : Nat) (nomem : Bool) :
    Option (Int × ceph_osd_client) :=
  let s0 := osdc.log Event.mutex_lock
  let tid := (s0.last_tid + 1) % U64
  let s1 := { s0 with last_tid := tid }
  let s2 := s1.setReq req { s1.reqs req with r_tid := tid }
  let head := (s2.reqs req).r_request
  let s3 := s2.setMsg head { s2.msgs head with front_tid := tid }
  let ins := radix_tree_insert s3.request_tree tid req nomem
  if ins.1 < 0 then some (ins.1, s3.log Event.mutex_unlock)
  else
    let s4 := get_request { s3 with request_tree := ins.2 } req
    if s4.num_requests = 0 then
      match reschedule_timeout D { s4 with timeout_tid := tid } 0 with
      | none => none
      | some s5 =>
        some (ins.1, ({ s5 with num_requests := s5.num_requests + 1 }).log Event.mutex_unlock)
    else
      some (ins.1, ({ s4 with num_requests := s4.num_requests + 1 }).log Event.mutex_unlock)

/-- Moves `timeout_tid` to the next registered request after `req`, or to the
first one, and re-arms the timer. -/
def __register_next_request_timeout (D : Deps) (osdc : ceph_osd_client) (req : Nat) :
    Option ceph_osd_client :=
  let ret1 := radix_tree_gang_lookup osdc.request_tree (((osdc.reqs req).r_tid + 1) % U64)
  let ret2 :=
    match ret1 with
    | none => radix_tree_gang_lookup osdc.request_tree 0
    | some next_req =>
      if (osdc.reqs next_req).r_tid = osdc.timeout_tid then
        radix_tree_gang_lookup osdc.request_tree 0
      else some next_req
  match ret2 with
  | some next_req =>
    reschedule_timeout D { osdc with timeout_tid := (osdc.reqs next_req).r_tid }
      (osdc.reqs req).r_last_stamp
  | none => some osdc

/-- Removes the request from the tree (called under `request_mutex`). -/
def __unregister_request (D : Deps) (osdc : ceph_osd_client) (req : Nat) :
    Option ceph_osd_client :=
  let s1 := { osdc with
    request_tree := radix_tree_delete osdc.request_tree (osdc.reqs req).r_tid,
    num_requests := osdc.num_requests - 1 }
  if (s1.reqs req).r_tid = s1.timeout_tid then
    let s2 := s1.log Event.cancel_timeout
    if s2.num_requests ≠ 0 then
      match __register_next_request_timeout D s2 req with
      | none => none
      | some s3 => ceph_osdc_put_request s3 req
    else ceph_osdc_put_request s2 req
  else ceph_osdc_put_request s1 req

/-! ## Placement -/

/-- The scan `for (i = 0; i < num; i++) if (ceph_osd_is_up(map, osds[i])) return osds[i];`
of `pick_osd`, started at index `i`, with `-1` after the loop. -/
def pick_osd_scan (D : Deps) (osdmap : ceph_osdmap) (osds : List Int) (num : Nat) :
    Nat → Nat → Int
  | 0, _ => -1
  | fuel + 1, i =>
    if i < num then
      if D.ceph_osd_is_up osdmap (osds.getD i 0) then osds.getD i 0
      else pick_osd_scan D osdmap osds num fuel (i + 1)
    else -1

/-- The first up osd in the pg, or `-1`.  The list returned by
`D.crush_do_rule` is the filled part of the array `osds`, its length is the
returned `num`.  The `derr` line of the no-rule branch is not recorded. -/
def pick_osd (D : Deps) (osdmap : ceph_osdmap) (req : ceph_osd_request) : Int :=
  let ruleno := D.crush_find_rule osdmap.crush req.r_pgid.pool req.r_pgid.type req.r_pgid.size
  if ruleno < 0 then -1
  else
    let pps :=
      if req.r_pgid.preferred ≥ 0 then
        D.ceph_stable_mod req.r_pgid.ps osdmap.lpgp_num osdmap.lpgp_num_mask
      else
        D.ceph_stable_mod req.r_pgid.ps osdmap.pgp_num osdmap.pgp_num_mask
    let osds := D.crush_do_rule osdmap.crush ruleno pps (min (req.r_pgid.size : Int) 10)
      req.r_pgid.preferred osdmap.osd_weight
    pick_osd_scan D osdmap osds osds.length osds.length 0

/-! ## Dispatch -/

/-- The entry `osdmap->osd_addr[osd]`. -/
def osd_addr_of (osdmap : ceph_osdmap) (osd : Int) : ceph_entity_addr :=
  osdmap.osd_addr.getD osd.toNat 0

/-- Sends the request to the osd picked under the current map, or asks the
monitor for the next map when there is none.  Returns 0 or the code of
`ceph_msg_send`. -/
def send_request (D : Deps) (osdc : ceph_osd_client) (req : Nat) :
    Option (Int × ceph_osd_client) :=
  match osdc.osdmap with
  | none => none
  | some osdmap =>
    let r := osdc.reqs req
    let osd := pick_osd D osdmap r
    if osd < 0 then
      some (0, osdc.log (Event.request_osdmap ((osdmap.epoch + 1) % U32)))
    else
      let m := osdc.msgs r.r_request
      let m1 := { m with
        front_osdmap_epoch := osdmap.epoch,
        front_flags := m.front_flags ||| r.r_flags,
        hdr_dst_type := D.CEPH_ENTITY_TYPE_OSD,
        hdr_dst_num := osd,
        hdr_dst_addr := osd_addr_of osdmap osd }
      let r1 := { r with
        r_last_osd := osd,
        r_last_osd_addr := m1.hdr_dst_addr,
        r_last_stamp := osdc.jiffies }
      let s1 := (osdc.setMsg r.r_request m1).setReq req r1
      some (osdc.send_rc,
        (s1.log (Event.msg_get r.r_request)).log (Event.msg_send r.r_request m1))

/-- The front length a reply with `numops` ops must have, in `size_t` arithmetic. -/
def reply_front_len (D : Deps) (numops : Nat) : Nat :=
  toU64 ((D.sizeof_reply_head : Int) + toInt32 numops * (D.sizeof_osd_op : Int))

/-- Handles an osd op reply held at the address `msg`. -/
def ceph_osdc_handle_reply (D : Deps) (osdc : ceph_osd_client) (msg : Nat) :
    Option ceph_osd_client :=
  let m := osdc.msgs msg
  if m.front_len < D.sizeof_reply_head then some (osdc.log Event.derr_corrupt_reply)
  else if m.front_len ≠ reply_front_len D m.front_num_ops then
    some (osdc.log Event.derr_corrupt_reply)
  else
    let s0 := osdc.log Event.mutex_lock
    match radix_tree_lookup s0.request_tree m.front_tid with
    | none => some (s0.log Event.mutex_unlock)
    | some req =>
      let s1 := get_request s0 req
      let r := s1.reqs req
      if r.r_reply = none ∨ r.r_reply = some msg then
        let s2 :=
          if r.r_reply = none then
            (s1.log (Event.msg_get msg)).setReq req { r with r_reply := some msg }
          else s1
        match __unregister_request D s2 req with
        | none => none
        | some s3 =>
          let s4 := s3.log Event.mutex_unlock
          let s5 := if (s4.reqs req).r_callback then s4.log (Event.callback req)
            else s4.log (Event.complete req)
          ceph_osdc_put_request s5 req
      else ceph_osdc_put_request s1 req

/-- The body of the loop of `kick_requests` for the request `req` found by the
lookup: the client after the pass and the increment of `needmap`.  The
duplicate that `ceph_msg_maybe_dup` may make has the contents of the original
and keeps its address here. -/
def kick_one (D : Deps) (who : Option ceph_entity_addr) (osdc : ceph_osd_client) (req : Nat) :
    Option (ceph_osd_client × Int) :=
  let r := osdc.reqs req
  match osdc.osdmap with
  | none => none
  | some osdmap =>
    let osd := pick_osd D osdmap r
    if osd < 0 ∨ osd ≥ osdmap.max_osd then
      some (osdc.setReq req { r with r_last_osd := -1, r_last_osd_addr := 0 }, 1)
    else if r.r_last_osd_addr ≠ osd_addr_of osdmap osd ∨ who = some r.r_last_osd_addr then
      let s1 := ((get_request osdc req).log Event.mutex_unlock).log
        (Event.msg_maybe_dup r.r_request)
      let sent :=
        if (s1.reqs req).r_aborted then some s1
        else
          (send_request D
            (s1.setReq req { s1.reqs req with
              r_flags := (s1.reqs req).r_flags ||| D.CEPH_OSD_OP_RETRY }) req).map Prod.snd
      match sent with
      | none => none
      | some s2 =>
        match ceph_osdc_put_request s2 req with
        | none => none
        | some s3 => some (s3.log Event.mutex_lock, 0)
    else some (osdc, 0)

/-- The loop of `kick_requests`; `fuel` bounds the number of lookups. -/
def kick_loop (D : Deps) (who : Option ceph_entity_addr) :
    Nat → ceph_osd_client → Nat → Int → Option (ceph_osd_client × Int)
  | 0, _, _, _ => none
  | fuel + 1, osdc, next_tid, needmap =>
    match radix_tree_gang_lookup osdc.request_tree next_tid with
    | none => some (osdc, needmap)
    | some req =>
      match kick_one D who osdc req with
      | none => none
      | some (s1, inc) =>
        kick_loop D who fuel s1 (((osdc.reqs req).r_tid + 1) % U64) (needmap + inc)

/-- Resubmission.  The loop gets one lookup per tree entry and one more: a run
that ends visits every entry at most once, so `none` from the loop means that
the C loop does not end or the call faults. -/
def kick_requests (D : Deps) (osdc : ceph_osd_client) (who : Option ceph_entity_addr) :
    Option ceph_osd_client :=
  let s0 := osdc.log Event.mutex_lock
  match kick_loop D who (s0.request_tree.length + 1) s0 0 0 with
  | none => none
  | some (s1, needmap) =>
    let s2 := s1.log Event.mutex_unlock
    if needmap ≠ 0 then
      match s2.osdmap with
      | none => none
      | some osdmap => some (s2.log (Event.request_osdmap ((osdmap.epoch + 1) % U32)))
    else some s2

/-- The messenger reports a reset of the connection to `addr`. -/
def ceph_osdc_handle_reset (D : Deps) (osdc : ceph_osd_client) (addr : ceph_entity_addr) :
    Option ceph_osd_client :=
  match kick_requests D (osdc.log Event.down_read) (some addr) with
  | none => none
  | some s => some (s.log Event.up_read)

/-- The messenger asks for the pages that the data of the incoming message `m`
goes to: `0` on success, `-1` on failure. -/
def ceph_osdc_prepare_pages (D : Deps) (osdc : ceph_osd_client) (m : Nat) (want : Int) :
    Int × ceph_osd_client :=
  let msg := osdc.msgs m
  if msg.hdr_type ≠ D.CEPH_MSG_OSD_OPREPLY then (-1, osdc)
  else
    let s0 := osdc.log Event.mutex_lock
    match radix_tree_lookup s0.request_tree msg.front_tid with
    | none => (-1, s0.log Event.mutex_unlock)
    | some req =>
      let r := s0.reqs req
      if r.r_num_pages ≥ want ∧ r.r_reply = none then
        let s1 := s0.setMsg m { msg with pages := some req, nr_pages := r.r_num_pages }
        let s2 := (s1.log (Event.msg_get m)).setReq req { r with r_reply := some m }
        (0, s2.log Event.mutex_unlock)
      else (-1, s0.log Event.mutex_unlock)

/-- Registers the request and makes the first send. -/
def start_request (D : Deps) (osdc : ceph_osd_client) (req : Nat) (nomem : Bool) :
    Option (Int × ceph_osd_client) :=
  match register_request D osdc req nomem with
  | none => none
  | some (rc, s1) =>
    if rc < 0 then some (rc, s1)
    else
      match send_request D (s1.log Event.down_read) req with
      | none => none
      | some (rc2, s2) => some (rc2, s2.log Event.up_read)

/-- The abort path of `do_sync_request` after an interrupted wait: the client
after each of its statements, in program order.  The statements are
`req->r_aborted = 1`, then `mutex_lock(&msg->page_mutex)`, `msg->pages = NULL`
and `mutex_unlock(&msg->page_mutex)` for the outgoing message `req->r_request`,
then, when `req->r_reply` is set, the same three statements for the reply. -/
def do_sync_abort (osdc : ceph_osd_client) (req : Nat) : List ceph_osd_client :=
  let s1 := osdc.setReq req { osdc.reqs req with r_aborted := true }
  let msg := (s1.reqs req).r_request
  let s2 := s1.log (Event.page_mutex_lock msg)
  let s3 := s2.setMsg msg { s2.msgs msg with pages := none }
  let s4 := s3.log (Event.page_mutex_unlock msg)
  match (s4.reqs req).r_reply with
  | some rp =>
    let s5 := s4.log (Event.page_mutex_lock rp)
    let s6 := s5.setMsg rp { s5.msgs rp with pages := none }
    let s7 := s6.log (Event.page_mutex_unlock rp)
    [s1, s2, s3, s4, s5, s6, s7]
  | none => [s1, s2, s3, s4]

/-- The part of `do_sync_request` after `wait_for_completion_interruptible`
has returned `wait_rc`: the revocation of the pages when the wait was
interrupted (the client after the last statement of `do_sync_abort`), the
parsing of the reply otherwise. -/
def do_sync_finish (osdc : ceph_osd_client) (req : Nat) (wait_rc : Int) :
    Option (Int × ceph_osd_client) :=
  if wait_rc < 0 then some (wait_rc, ((do_sync_abort osdc req).getLast?).getD osdc)
  else
    match (osdc.reqs req).r_reply with
    | none => none
    | some rp =>
      let rc := toInt32 (osdc.msgs rp).front_result
      let bytes := toInt32 (osdc.msgs rp).hdr_data_len
      if rc < 0 then some (rc, osdc) else some (bytes, osdc)

/-- Synchronous request.  `wait` is what happens while the caller sleeps in
`wait_for_completion_interruptible`: the return code of the wait and the state
as the other threads leave it. -/
def do_sync_request (D : Deps) (osdc : ceph_osd_client) (req : Nat) (nomem : Bool)
    (wait : ceph_osd_client → Int × ceph_osd_client) : Option (Int × ceph_osd_client) :=
  match start_request D osdc req nomem with
  | none => none
  | some (rc, s1) =>
    if rc ≠ 0 then some (rc, s1)
    else do_sync_finish (wait s1).2 req (wait s1).1

/-! ## Timeout -/

/-- The comparison `time_after(a, b)` of `linux/jiffies.h`. -/
def time_after (a b : Nat) : Bool := decide (toInt64 (b + U64 - a % U64) < 0)

/-- The ping loop of `handle_timeout`; `got` is the request found by the last lookup. -/
def timeout_loop (D : Deps) : Nat → ceph_osd_client → Option Nat → Option ceph_osd_client
  | 0, _, _ => none
  | _ + 1, osdc, none => some osdc
  | fuel + 1, osdc, some req =>
    let r := osdc.reqs req
    let next_tid := (r.r_tid + 1) % U64
    let timeout := timer_period D osdc
    let s1 :=
      if time_after osdc.jiffies (toU64 ((r.r_last_stamp : Int) + timeout)) then
        osdc.log (Event.ping r.r_last_osd r.r_last_osd_addr)
      else osdc
    timeout_loop D fuel s1 (radix_tree_gang_lookup s1.request_tree next_tid)

/-- The timer handler.  The local `req` is assigned by the first lookup only
when it finds a request; `undef_req` is what the unassigned variable holds
otherwise: `none` for a value that is not the address of a request, in which
case the read of `req->r_tid` in `__register_next_request_timeout` faults, and
`some u` when the stack slot happens to hold the address `u` of a request. -/
def handle_timeout (D : Deps) (osdc : ceph_osd_client) (undef_req : Option Nat) :
    Option ceph_osd_client :=
  let s0 := osdc.log Event.down_read
  match s0.osdmap with
  | none => none
  | some osdmap =>
    let s1 := (s0.log (Event.request_osdmap ((osdmap.epoch + 1) % U32))).log Event.mutex_lock
    let got := radix_tree_gang_lookup s1.request_tree s1.timeout_tid
    match got.orElse (fun _ => undef_req) with
    | none => none
    | some req =>
      match __register_next_request_timeout D s1 req with
      | none => none
      | some s2 =>
        match timeout_loop D (s2.request_tree.length + 1) s2 got with
        | none => none
        | some s3 => some ((s3.log Event.mutex_unlock).log Event.up_read)

/-- Initialisation; the fields that the C function does not write keep their value. -/
def ceph_osdc_init (osdc : ceph_osd_client) : ceph_osd_client :=
  { osdc with
    osdmap := none,
    last_requested_map := 0,
    last_tid := 0,
    request_tree := [],
    num_requests := 0 }

/-! ## Map ingestion -/

/-- Value of a little-endian byte string. -/
def le_value : List Nat → Nat
  | [] => 0
  | b :: bs => b % 256 + 256 * le_value bs

/-- The check `ceph_decode_need(&p, end, n, bad)`: `n` bytes are left before `end`. -/
def decode_need (p : List Nat) (n : Nat) : Bool := decide (n ≤ p.length)

/-- Where the two loops of `ceph_osdc_handle_map` leave: at `bad`, or after the
loop with the read position, the client and the local `newmap`. -/
inductive MapLoop where
  | bad (osdc : ceph_osd_client)
  | next (p : List Nat) (osdc : ceph_osd_client) (newmap : Option ceph_osdmap)

/-- The loop over the incremental maps; the first argument is `nr_maps`. -/
def inc_loop (D : Deps) : Nat → List Nat → ceph_osd_client → Option ceph_osdmap → MapLoop
  | 0, p, osdc, newmap => MapLoop.next p osdc newmap
  | nr + 1, p, osdc, newmap =>
    if decode_need p 8 then
      let epoch := le_value (p.take 4)
      let maplen := le_value ((p.drop 4).take 4)
      let p1 := p.drop 8
      if decode_need p1 maplen then
        let next := p1.drop maplen
        match osdc.osdmap with
        | some cur =>
          if (cur.epoch + 1) % U32 = epoch then
            match D.apply_incremental (p1.take maplen) cur with
            | Except.error _ => MapLoop.bad osdc
            | Except.ok nm => inc_loop D nr next { osdc with osdmap := some nm } (some nm)
          else inc_loop D nr next osdc newmap
        | none => inc_loop D nr next osdc newmap
      else MapLoop.bad osdc
    else MapLoop.bad osdc

/-- The loop over the full maps; the first argument is `nr_maps`. -/
def full_loop (D : Deps) : Nat → List Nat → ceph_osd_client → Option ceph_osdmap → MapLoop
  | 0, p, osdc, newmap => MapLoop.next p osdc newmap
  | nr + 1, p, osdc, newmap =>
    if decode_need p 8 then
      let epoch := le_value (p.take 4)
      let maplen := le_value ((p.drop 4).take 4)
      let p1 := p.drop 8
      if decode_need p1 maplen then
        if nr + 1 > 1 then full_loop D nr (p1.drop maplen) osdc newmap
        else if (match osdc.osdmap with
            | some cur => decide (cur.epoch ≥ epoch)
            | none => false) then
          full_loop D nr (p1.drop maplen) osdc newmap
        else
          match D.osdmap_decode (p1.take maplen) with
          | Except.error _ => MapLoop.bad osdc
          | Except.ok nm => full_loop D nr (p1.drop maplen) { osdc with osdmap := some nm } (some nm)
      else MapLoop.bad osdc
    else MapLoop.bad osdc

/-- The client at the exit of a loop. -/
def MapLoop.client : MapLoop → ceph_osd_client
  | MapLoop.bad osdc => osdc
  | MapLoop.next _ osdc _ => osdc

/-- The exit `bad:` of `ceph_osdc_handle_map`. -/
def handle_map_bad (osdc : ceph_osd_client) : Option ceph_osd_client :=
  some ((osdc.log Event.derr_corrupt_map).log Event.up_write)

/-- The exit `done:` of `ceph_osdc_handle_map`. -/
def handle_map_done (D : Deps) (osdc : ceph_osd_client) (newmap : Option ceph_osdmap) :
    Option ceph_osd_client :=
  let s0 := osdc.log Event.downgrade_write
  match s0.osdmap with
  | none => none
  | some cur =>
    let s1 := s0.log (Event.got_osdmap cur.epoch)
    if newmap.isSome then
      match kick_requests D s1 none with
      | none => none
      | some s2 => some (s2.log Event.up_read)
    else some (s1.log Event.up_read)

/-- Processing of a map message; its front is `front_bytes`. -/
def ceph_osdc_handle_map (D : Deps) (osdc : ceph_osd_client) (msg : Nat) :
    Option ceph_osd_client :=
  let p := (osdc.msgs msg).front_bytes
  if decode_need p 16 then
    let major := le_value (p.take 8)
    let minor := le_value ((p.drop 8).take 8)
    let p1 := p.drop 16
    if (major, minor) ≠ osdc.monmap_fsid then some (osdc.log Event.derr_wrong_fsid)
    else
      let s0 := osdc.log Event.down_write
      if decode_need p1 4 then
        match inc_loop D (le_value (p1.take 4)) (p1.drop 4) s0 none with
        | MapLoop.bad s1 => handle_map_bad s1
        | MapLoop.next p2 s1 newmap =>
          if newmap.isSome then handle_map_done D s1 newmap
          else if decode_need p2 4 then
            match full_loop D (le_value (p2.take 4)) (p2.drop 4) s1 newmap with
            | MapLoop.bad s2 => handle_map_bad s2
            | MapLoop.next _ s2 newmap2 => handle_map_done D s2 newmap2
          else handle_map_bad s1
      else handle_map_bad s0
  else handle_map_bad osdc

/-! ## Synchronous read -/

/-- What the read and write paths take from their surroundings, each as a
function of the client state at the moment of the call: the address returned by
`kzalloc` for a request (`none` when it fails), the address returned by
`ceph_msg_new` (or its error), whether `alloc_page` succeeds, the number of
bytes `copy_to_user` leaves uncopied, whether the radix tree fails to allocate a
node, the wait of `do_sync_request`, and the value `copy_from_user` returns. -/
structure Env where
  kzalloc : ceph_osd_client → Option Nat
  ceph_msg_new : ceph_osd_client → Except Int Nat
  alloc_page : ceph_osd_client → Nat → Nat → Bool
  copy_to_user : ceph_osd_client → Nat → Nat → Int → Int → Int
  nomem : ceph_osd_client → Bool
  wait : Nat → ceph_osd_client → Int × ceph_osd_client
  copy_from_user : ceph_osd_client → Nat → Nat → Int → Int → Int

/-- Builds the request and its message for the extent `off~len`; returns the
error code, or the request address with the shortened length `*plen`.  The
snapshot context is not part of the embedding. -/
def ceph_osdc_new_request (D : Deps) (E : Env) (osdc : ceph_osd_client)
    (layout : ceph_file_layout) (ino : Nat) (off len : Nat) (op : Nat) :
    Except Int (Nat × Nat × ceph_osd_client) :=
  match E.kzalloc osdc with
  | none => Except.error (-ENOMEM)
  | some req =>
    match E.ceph_msg_new osdc with
    | Except.error e => Except.error e
    | Except.ok msg =>
      let ext := D.calc_file_object_mapping layout off len
      let pgid := D.calc_object_layout layout ino ext.bno osdc.osdmap
      let m : ceph_msg := {
        hdr_type := D.CEPH_MSG_OSD_OP,
        front_flags := 0,
        front_num_ops := 1,
        op_op := op,
        op_offset := ext.objoff,
        op_length := ext.objlen }
      let r : ceph_osd_request := {
        r_request := msg,
        r_num_pages := calc_pages_for D off ext.plen,
        r_pgid := pgid,
        r_ref := 1 }
      Except.ok (req, ext.plen, (osdc.setMsg msg m).setReq req r)

/-- The page allocation loop of `ceph_osdc_sync_read`, from index `i`;
`false` when `alloc_page` fails. -/
def alloc_pages_loop (E : Env) (req : Nat) (num_pages : Int) :
    Nat → Nat → ceph_osd_client → Bool × ceph_osd_client
  | 0, _, osdc => (true, osdc)
  | fuel + 1, i, osdc =>
    if (i : Int) < num_pages then
      if E.alloc_page osdc req i then
        alloc_pages_loop E req num_pages fuel (i + 1) (osdc.log (Event.alloc_page req i))
      else (false, osdc.setReq req { osdc.reqs req with r_num_pages := (i : Int) + 1 })
    else (true, osdc)

/-- The copy loop of `ceph_osdc_sync_read`; returns `false` at `-EFAULT`.  The
number of uncopied bytes is taken within `0 .. l`, the contract of `copy_to_user`. -/
def copy_loop (D : Deps) (E : Env) (req : Nat) :
    Nat → Int → Int → Nat → ceph_osd_client → Option (Bool × ceph_osd_client)
  | 0, _, _, _, _ => none
  | fuel + 1, left, po, i, osdc =>
    if left > 0 then
      let l := min left ((2 : Int) ^ D.PAGE_CACHE_SHIFT - po)
      let bad := max 0 (min l (E.copy_to_user osdc req i po l))
      let s1 := osdc.log (Event.copy_to_user req i po l)
      if bad = l then some (false, s1)
      else
        let po1 := if po ≠ 0 then
            (if po + (l - bad) = (2 : Int) ^ D.PAGE_CACHE_SHIFT then 0 else po + (l - bad))
          else po
        copy_loop D E req fuel (left - (l - bad)) po1 (i + 1) s1
    else some (true, osdc)

/-- The body of `ceph_osdc_sync_read` from the label `more`; `fuel` bounds the
number of passes. -/
def sync_read_loop (D : Deps) (E : Env) (layout : ceph_file_layout) (ino : Nat) :
    Nat → ceph_osd_client → Nat → Nat → Int → Option (Int × ceph_osd_client)
  | 0, _, _, _, _ => none
  | fuel + 1, osdc, off, len, finalrc =>
    match ceph_osdc_new_request D E osdc layout ino off len D.CEPH_OSD_OP_READ with
    | Except.error e => some (e, osdc)
    | Except.ok (req, len1, s1) =>
      let a := alloc_pages_loop E req (s1.reqs req).r_num_pages
        ((s1.reqs req).r_num_pages.toNat + 1) 0 s1
      if a.1 = false then
        match ceph_osdc_put_request a.2 req with
        | none => none
        | some s2 => some (-ENOMEM, s2)
      else
        match do_sync_request D a.2 req (E.nomem a.2) (E.wait req) with
        | none => none
        | some (rc, s3) =>
          let copied :=
            if rc > 0 then
              copy_loop D E req (rc.toNat + 1) rc ((off % 2 ^ D.PAGE_CACHE_SHIFT : Nat) : Int) 0 s3
            else some (true, s3)
          match copied with
          | none => none
          | some (ok, s4) =>
            let rc1 := if ok then rc else -EFAULT
            match ceph_osdc_put_request s4 req with
            | none => none
            | some s5 =>
              if rc1 > 0 then
                let len2 := toU64 ((len1 : Int) - rc1)
                if len2 > 0 then
                  sync_read_loop D E layout ino fuel s5 ((off + rc1.toNat) % U64) len2
                    (finalrc + rc1)
                else some (finalrc + rc1, s5)
              else some (rc1, s5)

/-- Synchronous read of `off~len`.  A run in which no reply carries more bytes
than its request asked for ends within `len + 1` passes. -/
def ceph_osdc_sync_read (D : Deps) (E : Env) (osdc : ceph_osd_client)
    (layout : ceph_file_layout) (ino : Nat) (off len : Nat) : Option (Int × ceph_osd_client) :=
  sync_read_loop D E layout ino (len + 1) osdc off len 0

/-! ## Single-page read and synchronous write -/

/-- Reads one page synchronously.  `BUG_ON` when the shortened length is not
that of a page.  The page handed in becomes `r_pages[0]`, which the embedding
does not record. -/
def ceph_osdc_readpage (D : Deps) (E : Env) (osdc : ceph_osd_client)
    (layout : ceph_file_layout) (ino : Nat) (off len : Nat) : Option (Int × ceph_osd_client) :=
  match ceph_osdc_new_request D E osdc layout ino off len D.CEPH_OSD_OP_READ with
  | Except.error e => some (e, osdc)
  | Except.ok (req, len1, s1) =>
    if len1 ≠ 2 ^ D.PAGE_CACHE_SHIFT then none
    else
      match do_sync_request D s1 req (E.nomem s1) (E.wait req) with
      | none => none
      | some (rc, s2) =>
        match ceph_osdc_put_request s2 req with
        | none => none
        | some s3 => if rc = -ENOENT then some (0, s3) else some (rc, s3)

/-- The page loop of `ceph_osdc_sync_write`, from index `i`: allocates the page
`i` and copies into it from the user buffer.  Returns 0 when every page is
filled, and `-ENOMEM` or `-EFAULT` with `r_num_pages` cut to `i + 1`.  The
locals are `int`s.  The number of uncopied bytes is taken within `0 .. l` when
`l` is not negative, the contract of `copy_from_user`. -/
def write_pages_loop (D : Deps) (E : Env) (req : Nat) (num_pages : Int) :
    Nat → Nat → Int → Int → ceph_osd_client → Int × ceph_osd_client
  | 0, _, _, _, osdc => (0, osdc)
  | fuel + 1, i, left, po, osdc =>
    if (i : Int) < num_pages then
      if E.alloc_page osdc req i then
        let s1 := osdc.log (Event.alloc_page req i)
        let l := min (wrapInt ((2 : Int) ^ D.PAGE_CACHE_SHIFT - po)) left
        let x := wrapInt (E.copy_from_user s1 req i po l)
        let bad := if 0 ≤ l then max 0 (min l x) else x
        let s2 := s1.log (Event.copy_from_user req i po l)
        if bad = l then
          (-EFAULT, s2.setReq req { s2.reqs req with r_num_pages := (i : Int) + 1 })
        else
          let po1 := if po ≠ 0 then
              (if wrapInt (po + wrapInt (l - bad)) = (2 : Int) ^ D.PAGE_CACHE_SHIFT then 0
                else wrapInt (po + wrapInt (l - bad)))
            else po
          write_pages_loop D E req num_pages fuel (i + 1) (wrapInt (left - wrapInt (l - bad)))
            po1 s2
      else (-ENOMEM, osdc.setReq req { osdc.reqs req with r_num_pages := (i : Int) + 1 })
    else (0, osdc)

/-- The loop at `out:` of `ceph_osdc_sync_write`: `__free_pages` for each of the
`r_num_pages` pages of the request. -/
def free_pages_loop (osdc : ceph_osd_client) (req : Nat) : ceph_osd_client :=
  osdc.logs ((List.range (osdc.reqs req).r_num_pages.toNat).map
    (fun i => Event.free_pages req i))

/-- The start of a pass of `ceph_osdc_sync_write` for the request `req` built
for `off~len`: the flags of the request head are set and the pages are filled;
returns 0, `-ENOMEM` or `-EFAULT`. -/
def sync_write_pages (D : Deps) (E : Env) (s1 : ceph_osd_client) (req : Nat)
    (off len : Nat) : Int × ceph_osd_client :=
  let reqm := (s1.reqs req).r_request
  let s2 := s1.setMsg reqm { s1.msgs reqm with
    front_flags := D.CEPH_OSD_OP_ACK ||| D.CEPH_OSD_OP_ORDERSNAP ||| D.CEPH_OSD_OP_MODIFY }
  write_pages_loop D E req (s2.reqs req).r_num_pages
    ((s2.reqs req).r_num_pages.toNat + 1) 0 (toInt32 len)
    (toInt32 (off % 2 ^ D.PAGE_CACHE_SHIFT)) s2

/-- One pass of `ceph_osdc_sync_write` for the request `req` built for
`off~len`, from the setting of the flags to `ceph_osdc_put_request`; returns
the local `rc`. -/
def sync_write_request (D : Deps) (E : Env) (s1 : ceph_osd_client) (req : Nat)
    (off len : Nat) : Option (Int × ceph_osd_client) :=
  let reqm := (s1.reqs req).r_request
  let w := sync_write_pages D E s1 req off len
  let out :=
    if w.1 = 0 then
      let s3 := w.2.setMsg reqm { w.2.msgs reqm with
        pages := some req,
        nr_pages := (w.2.reqs req).r_num_pages,
        hdr_data_len := len % U32,
        hdr_data_off := off % 2 ^ 16 }
      do_sync_request D s3 req (E.nomem s3) (E.wait req)
    else some (w.1, w.2)
  match out with
  | none => none
  | some (rc, s4) =>
    match ceph_osdc_put_request (free_pages_loop s4 req) req with
    | none => none
    | some s5 => some (rc, s5)

/-- The body of `ceph_osdc_sync_write` from the label `more`; `fuel` bounds the
number of passes.  The local `finalrc` is an `int`, `len` and `off` are `u64`. -/
def sync_write_loop (D : Deps) (E : Env) (layout : ceph_file_layout) (ino : Nat) :
    Nat → ceph_osd_client → Nat → Nat → Int → Option (Int × ceph_osd_client)
  | 0, _, _, _, _ => none
  | fuel + 1, osdc, off, len, finalrc =>
    match ceph_osdc_new_request D E osdc layout ino off len D.CEPH_OSD_OP_WRITE with
    | Except.error e => some (e, osdc)
    | Except.ok (req, len1, s1) =>
      match sync_write_request D E s1 req off len1 with
      | none => none
      | some (rc, s5) =>
        if rc = 0 then
          let finalrc1 := toInt32 (toU64 finalrc + len1)
          let len2 := toU64 ((len1 : Int) - (len1 : Int))
          if len2 > 0 then
            sync_write_loop D E layout ino fuel s5 ((off + len1) % U64) len2 finalrc1
          else some (finalrc1, s5)
        else some (rc, s5)

/-- Synchronous write of `off~len` from the user buffer. -/
def ceph_osdc_sync_write (D : Deps) (E : Env) (osdc : ceph_osd_client)
    (layout : ceph_file_layout) (ino : Nat) (off len : Nat) : Option (Int × ceph_osd_client) :=
  sync_write_loop D E layout ino (len + 1) osdc off len 0

/-! ## The client as a transition system -/

/-- One operation of the client, or one move of its surroundings (a message
placed in memory by the messenger, the clock, the result of the next send). -/
inductive Op where
  | register (req : Nat) (nomem : Bool)
  | unregister (req : Nat)
  | put (req : Nat)
  | send (req : Nat)
  | start (req : Nat) (nomem : Bool)
  | sync_finish (req : Nat) (wait_rc : Int)
  | handle_reply (msg : Nat)
  | kick (who : Option ceph_entity_addr)
  | handle_reset (addr : ceph_entity_addr)
  | handle_map (msg : Nat)
  | prepare_pages (m : Nat) (want : Int)
  | handle_timeout (undef_req : Option Nat)
  | env_msg (m : Nat) (msg : ceph_msg)
  | env_time (jiffies : Nat)
  | env_send_rc (rc : Int)

def run (D : Deps) (osdc : ceph_osd_client) : Op → Option ceph_osd_client
  | Op.register req nomem => (register_request D osdc req nomem).map Prod.snd
  | Op.unregister req => __unregister_request D osdc req
  | Op.put req => ceph_osdc_put_request osdc req
  | Op.send req => (send_request D osdc req).map Prod.snd
  | Op.start req nomem => (start_request D osdc req nomem).map Prod.snd
  | Op.sync_finish req wait_rc => (do_sync_finish osdc req wait_rc).map Prod.snd
  | Op.handle_reply msg => ceph_osdc_handle_reply D osdc msg
  | Op.kick who => kick_requests D osdc who
  | Op.handle_reset addr => ceph_osdc_handle_reset D osdc addr
  | Op.handle_map msg => ceph_osdc_handle_map D osdc msg
  | Op.prepare_pages m want => some (ceph_osdc_prepare_pages D osdc m want).2
  | Op.handle_timeout undef_req => handle_timeout D osdc undef_req
  | Op.env_msg m msg => some (osdc.setMsg m msg)
  | Op.env_time j => some { osdc with jiffies := j }
  | Op.env_send_rc rc => some { osdc with send_rc := rc }

/-- Number of calls of `register_request` an operation makes. -/
def Op.registrations : Op → Nat
  | Op.register _ _ => 1
  | Op.start _ _ => 1
  | _ => 0

/-- A request is registered at most once at a time: `register_request` is
called for a request that is not in the tree. -/
def Op.admissible (osdc : ceph_osd_client) : Op → Prop
  | Op.register req _ => ∀ e ∈ osdc.request_tree, e.2 ≠ req
  | Op.start req _ => ∀ e ∈ osdc.request_tree, e.2 ≠ req
  | _ => True

/-- States reachable from `ceph_osdc_init`, with the number of registrations made. -/
inductive Reach (D : Deps) : Nat → ceph_osd_client → Prop where
  | init (osdc : ceph_osd_client) : Reach D 0 (ceph_osdc_init osdc)
  | step (n : Nat) (s s' : ceph_osd_client) (op : Op) :
      Reach D n s → op.admissible s → run D s op = some s' →
      Reach D (n + op.registrations) s'

/-- Registry invariant: the tree is in strictly ascending index order, every
request is indexed under its own `r_tid`, and no index exceeds `last_tid`. -/
structure RegistryInv (s : ceph_osd_client) : Prop where
  sorted : (s.request_tree.map Prod.fst).Pairwise (fun a b => a < b)
  own_tid : ∀ e ∈ s.request_tree, (s.reqs e.2).r_tid = e.1
  le_last : ∀ e ∈ s.request_tree, e.1 ≤ s.last_tid

/-- What every operation other than a registration leaves in place: the tree
loses entries at most, `last_tid` and every `r_tid` keep their value, an
aborted request stays aborted, and flags are only ORed into `r_flags`. -/
structure Frame (s s' : ceph_osd_client) : Prop where
  tree : s'.request_tree.Sublist s.request_tree
  last : s'.last_tid = s.last_tid
  tid : ∀ p, (s'.reqs p).r_tid = (s.reqs p).r_tid
  aborted : ∀ p, (s.reqs p).r_aborted = true → (s'.reqs p).r_aborted = true
  flags : ∀ p, ∃ x, (s'.reqs p).r_flags = (s.reqs p).r_flags ||| x

/-! ## Reference definitions that follow the specification -/

/-- Reference placement, after section 4.1 of the specification: look up the
rule, compute the placement pseudo-seed, run the rule for at most
`min (size, 10)` candidates, take the first candidate that is up. -/
def pick_target (D : Deps) (osdmap : ceph_osdmap) (pgid : ceph_pg) : Int :=
  let ruleno := D.crush_find_rule osdmap.crush pgid.pool pgid.type pgid.size
  if ruleno < 0 then -1
  else
    let pps :=
      if pgid.preferred ≥ 0 then D.ceph_stable_mod pgid.ps osdmap.lpgp_num osdmap.lpgp_num_mask
      else D.ceph_stable_mod pgid.ps osdmap.pgp_num osdmap.pgp_num_mask
    let candidates := D.crush_do_rule osdmap.crush ruleno pps (min (pgid.size : Int) 10)
      pgid.preferred osdmap.osd_weight
    (candidates.find? (fun o => D.ceph_osd_is_up osdmap o)).getD (-1)

/-! ## Reading a map message -/

/-- The entries `(epoch, body)` of a list of `nr` maps at `p` that are
completely present: the list stops at the first entry whose header or body is
cut short. -/
def map_entries : Nat → List Nat → List (Nat × List Nat)
  | 0, _ => []
  | nr + 1, p =>
    if decode_need p 8 then
      if decode_need (p.drop 8) (le_value ((p.drop 4).take 4)) then
        (le_value (p.take 4), (p.drop 8).take (le_value ((p.drop 4).take 4))) ::
          map_entries nr ((p.drop 8).drop (le_value ((p.drop 4).take 4)))
      else []
    else []

/-- The position after a list of `nr` maps at `p`, when none is cut short. -/
def skip_entries : Nat → List Nat → Option (List Nat)
  | 0, p => some p
  | nr + 1, p =>
    if decode_need p 8 then
      if decode_need (p.drop 8) (le_value ((p.drop 4).take 4)) then
        skip_entries nr ((p.drop 8).drop (le_value ((p.drop 4).take 4)))
      else none
    else none

/-- The incremental maps of a map message with the front `front`. -/
def msg_incs (front : List Nat) : List (Nat × List Nat) :=
  map_entries (le_value ((front.drop 16).take 4)) ((front.drop 16).drop 4)

/-- The full maps of a map message with the front `front`. -/
def msg_fulls (front : List Nat) : List (Nat × List Nat) :=
  match skip_entries (le_value ((front.drop 16).take 4)) ((front.drop 16).drop 4) with
  | some p2 => map_entries (le_value (p2.take 4)) (p2.drop 4)
  | none => []

/-- The map reached from `cur` by the incrementals of a list, in order: an
incremental for the current epoch + 1 is applied, any other is skipped, and
the first one that fails to decode ends the run. -/
def apply_contiguous (D : Deps) : List (Nat × List Nat) → ceph_osdmap → ceph_osdmap
  | [], cur => cur
  | e :: rest, cur =>
    if (cur.epoch + 1) % U32 = e.1 then
      match D.apply_incremental e.2 cur with
      | Except.ok nm => apply_contiguous D rest nm
      | Except.error _ => cur
    else apply_contiguous D rest cur

/-- The call went through the exit `bad:`, the only one that ends with `up_write`. -/
def found_corrupt (s' : ceph_osd_client) : Prop :=
  s'.trace.getLast? = some Event.up_write

/-- Little-endian bytes of a `u32` and of a `u64`, to write messages down. -/
def u32le (x : Nat) : List Nat :=
  [x % 256, x / 256 % 256, x / 65536 % 256, x / 16777216 % 256]

def u64le (x : Nat) : List Nat :=
  u32le (x % U32) ++ u32le (x / U32)

/-- One map of a map message: epoch, length, body. -/
def map_entry (epoch : Nat) (body : List Nat) : List Nat :=
  u32le epoch ++ u32le body.length ++ body

/-! ## Reading the trace -/

/-- The sends recorded in a trace, oldest first: the message address and the
message as it was handed to the messenger. -/
def sends : List Event → List (Nat × ceph_msg)
  | [] => []
  | Event.msg_send m snapshot :: t => (m, snapshot) :: sends t
  | _ :: t => sends t

/-- The condition under which the specification has `kick_requests` resend
the request `r`: (a) placement yields an osd within `0 .. max_osd - 1`, (b)
the address of that osd differs from `r_last_osd_addr`, or `who` is given and
equals `r_last_osd_addr`, (c) `r` is not aborted. -/
def kick_resends (D : Deps) (osdmap : ceph_osdmap) (who : Option ceph_entity_addr)
    (r : ceph_osd_request) : Bool :=
  decide (0 ≤ pick_osd D osdmap r ∧ pick_osd D osdmap r < osdmap.max_osd ∧
    (r.r_last_osd_addr ≠ osd_addr_of osdmap (pick_osd D osdmap r) ∨
      who = some r.r_last_osd_addr) ∧
    r.r_aborted = false)

/-- The part of a recorded send that names the message and its destination:
message address, destination osd, destination address. -/
def send_target (e : Nat × ceph_msg) : Nat × Int × ceph_entity_addr :=
  (e.1, e.2.hdr_dst_num, e.2.hdr_dst_addr)

/-- The resends that the specification asks of `kick_requests` for the tree
`t`: in the order of the tree, for every request that satisfies
`kick_resends`, its message, the picked osd and the address of that osd. -/
def kick_expected (D : Deps) (osdmap : ceph_osdmap) (who : Option ceph_entity_addr)
    (reqs : Nat → ceph_osd_request) (t : List (Nat × Nat)) :
    List (Nat × Int × ceph_entity_addr) :=
  (t.filter (fun e => kick_resends D osdmap who (reqs e.2))).map
    (fun e => ((reqs e.2).r_request, pick_osd D osdmap (reqs e.2),
      osd_addr_of osdmap (pick_osd D osdmap (reqs e.2))))

/-- The number of requests of the tree `t` that map to no valid osd. -/
def kick_unmapped (D : Deps) (osdmap : ceph_osdmap) (reqs : Nat → ceph_osd_request)
    (t : List (Nat × Nat)) : Int :=
  ((t.filter (fun e => decide (pick_osd D osdmap (reqs e.2) < 0 ∨
    pick_osd D osdmap (reqs e.2) ≥ osdmap.max_osd))).length : Int)

/-- The RETRY bit is set in a flags word. -/
def has_retry (D : Deps) (flags : Nat) : Prop :=
  flags &&& D.CEPH_OSD_OP_RETRY = D.CEPH_OSD_OP_RETRY

/-! ## Effects of single steps -/

/-- What a call of `register_request` does to the tids and to the tree. -/
structure RegStep (s s' : ceph_osd_client) (req : Nat) : Prop where
  last : s'.last_tid = (s.last_tid + 1) % U64
  tid : ∀ p, (s'.reqs p).r_tid = if p = req then (s.last_tid + 1) % U64 else (s.reqs p).r_tid
  aborted : ∀ p, (s'.reqs p).r_aborted = (s.reqs p).r_aborted ∧
    (s'.reqs p).r_flags = (s.reqs p).r_flags
  tree : s'.request_tree = s.request_tree ∨
    s'.request_tree = tree_put s.request_tree ((s.last_tid + 1) % U64) req

/-- What a pass of the loop of `kick_requests` over the request `req` leaves in
place, what it sends, and what it does to the flags of `req`. -/
structure KickEffect (D : Deps) (s s' : ceph_osd_client) (req : Nat)
    (out : List (Nat × ceph_msg)) : Prop where
  tree : s'.request_tree = s.request_tree
  map : s'.osdmap = s.osdmap
  reqs : ∀ p, p ≠ req → s'.reqs p = s.reqs p
  tid : (s'.reqs req).r_tid = (s.reqs req).r_tid
  sent : sends s'.trace = sends s.trace ++ out
  retry : ∀ e ∈ out, has_retry D e.2.front_flags ∧ has_retry D (s'.reqs req).r_flags
  flags : ∃ x, (s'.reqs req).r_flags = (s.reqs req).r_flags ||| x
  same : (s'.reqs req).r_aborted = (s.reqs req).r_aborted ∧
    (s'.reqs req).r_request = (s.reqs req).r_request

/-! ## Concrete instances used to exercise the definitions -/

/-- Modelled from the spec: `ceph_stable_mod` (ceph_fs.h, not under src/), the
modulo variant whose value changes little when the modulus grows. -/
def ceph_stable_mod_model (x b bmask : Nat) : Nat :=
  if x &&& bmask < b then x &&& bmask else x &&& (bmask >>> 1)

/-- Modelled from the spec: `calc_file_object_mapping` (osdmap.c, not under
src/).  The extent in the object starts at the offset within the stripe unit
and is cut at the end of the stripe unit; with stripe count 1 and a stripe
unit of the object size that is the object boundary. -/
def calc_file_object_mapping_model (layout : ceph_file_layout) (off len : Nat) : ObjectExtent :=
  let su := layout.fl_stripe_unit
  let sc := layout.fl_stripe_count
  let bl := off / su
  let objsetno := (bl / sc) / (layout.fl_object_size / su)
  let objoff := off % su
  { plen := min len (su - objoff),
    bno := objsetno * sc + bl % sc,
    objoff := objoff,
    objlen := min len (su - objoff) }

/-- A collaborator instance: the CRUSH map `c` has one rule and lists the
osds `c` and `c + 1`; an osd is up when it is below `max_osd` and bit 0 of
its state is set; an incremental with a non-empty body yields the successor
epoch and takes its CRUSH map from the first byte; a full map is its epoch
and its CRUSH map in two bytes. -/
def testDeps : Deps where
  CEPH_OSD_OP_RETRY := 8
  CEPH_MSG_OSD_OPREPLY := 43
  CEPH_MSG_OSD_OP := 42
  CEPH_ENTITY_TYPE_OSD := 4
  CEPH_OSD_OP_READ := 1
  CEPH_OSD_OP_WRITE := 2
  CEPH_OSD_OP_ACK := 1
  CEPH_OSD_OP_ORDERSNAP := 32
  CEPH_OSD_OP_MODIFY := 4
  PAGE_CACHE_SHIFT := 12
  HZ := 100
  sizeof_reply_head := 40
  sizeof_osd_op := 24
  crush_find_rule := fun _ pool _ _ => if pool = 0 then 0 else -1
  crush_do_rule := fun c _ _ max _ _ => ([(c : Int), (c : Int) + 1]).take max.toNat
  ceph_stable_mod := ceph_stable_mod_model
  ceph_osd_is_up := fun m osd =>
    decide (0 ≤ osd ∧ osd < m.max_osd ∧ (m.osd_state.getD osd.toNat 0) % 2 = 1)
  apply_incremental := fun body cur =>
    match body with
    | [] => Except.error (-22)
    | c :: _ => Except.ok { cur with epoch := (cur.epoch + 1) % U32, crush := c }
  osdmap_decode := fun body =>
    match body with
    | e :: c :: _ => Except.ok {
        epoch := e, crush := c, max_osd := 8,
        osd_addr := [100, 101, 102, 103, 104, 105, 106, 107],
        osd_state := [1, 1, 1, 1, 1, 1, 1, 1] }
    | _ => Except.error (-22)
  calc_file_object_mapping := calc_file_object_mapping_model
  calc_object_layout := fun layout _ bno _ => {
    preferred := layout.fl_pg_preferred, ps := bno, pool := layout.fl_pg_pool,
    type := layout.fl_pg_type, size := layout.fl_pg_size }

/-- A map of epoch 5 with eight osds, all up, osd `i` at address `100 + i`;
its CRUSH map lists the osds 5 and 6. -/
def testMap : ceph_osdmap where
  epoch := 5
  max_osd := 8
  osd_addr := [100, 101, 102, 103, 104, 105, 106, 107]
  osd_state := [1, 1, 1, 1, 1, 1, 1, 1]
  crush := 5

/-- A client right after `ceph_osdc_init`; the request at address `p` has its
message at address `p + 1000`, one reference and a pg of size 2. -/
def testClient : ceph_osd_client :=
  ceph_osdc_init {
    osd_timeout := 30,
    monmap_fsid := (1, 2),
    reqs := fun p => { r_request := p + 1000, r_ref := 1, r_pgid := { size := 2 } } }

/-- The client `testClient` after the registration of the request at address 7. -/
def testClient1 : ceph_osd_client :=
  (run testDeps testClient (Op.register 7 false)).getD testClient

/-- The client `testClient1` once the map `testMap` is current. -/
def kickClient : ceph_osd_client :=
  { testClient1 with osdmap := some testMap }

/-- A client whose only registered request has the largest tid, 2^64 - 1. -/
def wrapClient : ceph_osd_client :=
  { kickClient with
    last_tid := 2 ^ 64 - 1,
    request_tree := [(2 ^ 64 - 1, 7)],
    reqs := fun p => { r_tid := 2 ^ 64 - 1, r_request := p + 1000, r_ref := 2,
                       r_pgid := { size := 2 } } }

/-- The client `kickClient` with its registered request aborted. -/
def abortedClient : ceph_osd_client :=
  kickClient.setReq 7 { kickClient.reqs 7 with r_aborted := true }

/-- A map message for the mount of `testClient` (fsid (1, 2)) with one
incremental that announces epoch 0. -/
def wrapEpochMsg : ceph_msg :=
  { front_bytes := u64le 1 ++ u64le 2 ++ u32le 1 ++ map_entry 0 [5] ++ u32le 0 }

/-- A client whose current map has the largest epoch, 2^32 - 1, and that holds
the message `wrapEpochMsg` at address 3000. -/
def wrapEpochClient : ceph_osd_client :=
  { testClient with
    osdmap := some { testMap with epoch := 2 ^ 32 - 1 },
    msgs := fun _ => wrapEpochMsg }

/-- A map message with the incrementals for the epochs 6 and 7 and no full map. -/
def twoIncsMsg : ceph_msg :=
  { front_bytes := u64le 1 ++ u64le 2 ++ u32le 2 ++ map_entry 6 [6] ++ map_entry 7 [4] ++
      u32le 0 }

/-- A map message announced with two incrementals: the one for epoch 6 is
whole, the second is cut short after three bytes of its header. -/
def cutMsg : ceph_msg :=
  { front_bytes := u64le 1 ++ u64le 2 ++ u32le 2 ++ map_entry 6 [9] ++ [7, 0, 0] }

/-- A map message with the filesystem identifier (9, 9) and a full map of epoch 8. -/
def foreignMsg : ceph_msg :=
  { front_bytes := u64le 9 ++ u64le 9 ++ u32le 0 ++ u32le 1 ++ map_entry 8 [8, 3] }

/-- The client `kickClient` (map of epoch 5, one registered request) holding
the message `m` at every message address. -/
def mapClient (m : ceph_msg) : ceph_osd_client :=
  { kickClient with msgs := fun _ => m }

/-- A client with the map `testMap` whose requests have one page each. -/
def syncClient : ceph_osd_client :=
  { testClient with
    osdmap := some testMap,
    reqs := fun p => { r_request := p + 1000, r_ref := 1, r_num_pages := 1,
                       r_pgid := { size := 2 } } }

/-- The client `syncClient` after `do_sync_request` for the request at address
7 was interrupted in its wait (the wait returns -512) before any reply. -/
def interruptedClient : ceph_osd_client :=
  ((do_sync_request testDeps syncClient 7 false (fun s => (-512, s))).map Prod.snd).getD
    syncClient

/-- A reply for tid 1 with one op, as the messenger holds it when it has read
the front and asks for the pages of the data. -/
def lateReply : ceph_msg :=
  { hdr_type := 43, front_tid := 1, front_len := 64, front_num_ops := 1, hdr_data_len := 8 }

/-- The layout of scenario S1: objects of 4 MiB, stripe unit 4 MiB, stripe
count 1, pgs of size 2 in pool 0. -/
def s1Layout : ceph_file_layout :=
  { fl_stripe_unit := 4194304, fl_stripe_count := 1, fl_object_size := 4194304,
    fl_pg_size := 2 }

/-- Surroundings in which every request succeeds and returns its full length:
allocations succeed, the user copy leaves nothing uncopied, and while the
caller waits the reply for its request arrives with as many data bytes as the
request asks for and goes through `ceph_osdc_prepare_pages` and
`ceph_osdc_handle_reply`. -/
def testEnv : Env where
  kzalloc := fun s => some (50 + s.last_tid)
  ceph_msg_new := fun s => Except.ok (1050 + s.last_tid)
  alloc_page := fun _ _ _ => true
  copy_to_user := fun _ _ _ _ _ => 0
  copy_from_user := fun _ _ _ _ _ => 0
  nomem := fun _ => false
  wait := fun req s =>
    let r := s.reqs req
    let m := 2000 + r.r_tid
    let s1 := s.setMsg m {
      hdr_type := 43, front_tid := r.r_tid, front_len := 64, front_num_ops := 1,
      hdr_data_len := (s.msgs r.r_request).op_length }
    let s2 := (ceph_osdc_prepare_pages testDeps s1 m r.r_num_pages).2
    match ceph_osdc_handle_reply testDeps s2 m with
    | some s3 => (0, s3)
    | none => (0, s2)

/-- What the dispatch path leaves in place of the mount and of the messages:
the filesystem identifier and the front bytes of every message. -/
structure KeepsFront (s s' : ceph_osd_client) : Prop where
  fsid : s'.monmap_fsid = s.monmap_fsid
  front : ∀ m, (s'.msgs m).front_bytes = (s.msgs m).front_bytes

/-- A map message with no incremental and the full maps of the epochs 9 and 8,
in this order. -/
def twoFullsMsg : ceph_msg :=
  { front_bytes := u64le 1 ++ u64le 2 ++ u32le 0 ++ u32le 2 ++ map_entry 9 [9, 3] ++
      map_entry 8 [8, 4] }

/-- A map message with the single incremental for epoch 6 and no full map. -/
def oneIncMsg : ceph_msg :=
  { front_bytes := u64le 1 ++ u64le 2 ++ u32le 1 ++ map_entry 6 [6] ++ u32le 0 }

/-- Follows the claim about `__unregister_request`: the smallest tid of the
tree `t` that is greater than `tid`, or, when there is none, the smallest tid
of the tree. -/
def next_timeout_tid (t : List (Nat × Nat)) (tid : Nat) : Option Nat :=
  match ((t.map Prod.fst).filter (fun k => decide (tid < k))).min? with
  | some k => some k
  | none => (t.map Prod.fst).min?

/-- The completions recorded in a trace: callbacks and completion signals. -/
def completions : List Event → List Event
  | [] => []
  | Event.callback r :: t => Event.callback r :: completions t
  | Event.complete r :: t => Event.complete r :: completions t
  | _ :: t => completions t

/-- The client `testClient1` after the registration of a second request, at
address 8: tids 1 and 2, `timeout_tid` 1. -/
def twoReqClient : ceph_osd_client :=
  (run testDeps testClient1 (Op.register 8 false)).getD testClient1

/-- The client `kickClient` with its registered request placed in pool 1, for
which the CRUSH map of `testDeps` has no rule: `pick_osd` yields -1. -/
def noTargetClient : ceph_osd_client :=
  kickClient.setReq 7 { kickClient.reqs 7 with r_pgid := { size := 2, pool := 1 } }

/-- The epochs asked of the monitor client in a trace, oldest first. -/
def map_requests : List Event → List Nat
  | [] => []
  | Event.request_osdmap e :: t => e :: map_requests t
  | _ :: t => map_requests t

/-- The request `r` maps to no valid osd under the map: `pick_osd` yields no
osd, or one that is not below `max_osd`. -/
def maps_to_no_osd (D : Deps) (osdmap : ceph_osdmap) (r : ceph_osd_request) : Bool :=
  decide (pick_osd D osdmap r < 0 ∨ pick_osd D osdmap r ≥ osdmap.max_osd)

/-- A client whose only registered request has the largest tid, 2^64 - 1, and
is placed in pool 1, for which there is no CRUSH rule. -/
def wrapNoTargetClient : ceph_osd_client :=
  { wrapClient with
    reqs := fun p => { r_tid := 2 ^ 64 - 1, r_request := p + 1000, r_ref := 2,
                       r_pgid := { size := 2, pool := 1 } } }

/-- A client with the map `testMap` and two registered requests: tid 1 placed
in pool 1, for which there is no CRUSH rule, and tid 2 placed in pool 0. -/
def mixedClient : ceph_osd_client :=
  { twoReqClient with
    osdmap := some testMap,
    reqs := fun p =>
      if p = 7 then
        { r_tid := 1, r_request := 1007, r_ref := 2, r_last_osd := 3, r_last_osd_addr := 103,
          r_pgid := { size := 2, pool := 1 } }
      else twoReqClient.reqs p }

/-- A reply for tid 1 with one op and no data, whose front has the length the
header announces. -/
def plainReply : ceph_msg :=
  { hdr_type := 43, front_tid := 1, front_len := 64, front_num_ops := 1 }

/-- The client `twoReqClient` holding the reply `plainReply` at address 2001. -/
def replyClient : ceph_osd_client :=
  twoReqClient.setMsg 2001 plainReply

/-- The client `replyClient` in which the reply slot of the request of tid 1
already holds the message at address 2000, when the reply at address 2001
arrives for the same tid. -/
def dupReplyClient : ceph_osd_client :=
  replyClient.setReq 7 { replyClient.reqs 7 with r_reply := some 2000 }

/-- A reply for tid 1 whose front is shorter than a reply head. -/
def shortReply : ceph_msg :=
  { hdr_type := 43, front_tid := 1, front_len := 12, front_num_ops := 1 }

/-- A reply for tid 1 that announces two ops in a front that has room for one. -/
def badOpsReply : ceph_msg :=
  { hdr_type := 43, front_tid := 1, front_len := 64, front_num_ops := 2 }

/-- A reply with a valid front for tid 9, which is not registered. -/
def strayReply : ceph_msg :=
  { hdr_type := 43, front_tid := 9, front_len := 64, front_num_ops := 1 }

/-- The client `syncClient` after the registration of the request at address 7
(tid 1, one page), holding the reply `lateReply` at address 2000. -/
def pagesClient : ceph_osd_client :=
  ((run testDeps syncClient (Op.register 7 false)).getD syncClient).setMsg 2000 lateReply

/-- A call of one of the two functions that write the reply slot of a request. -/
inductive ReplyCall where
  | prepare_pages (m : Nat) (want : Int)
  | handle_reply (msg : Nat)

/-- The client after one call; `none` when the call faults. -/
def reply_call (D : Deps) (osdc : ceph_osd_client) : ReplyCall → Option ceph_osd_client
  | ReplyCall.prepare_pages m want => some (ceph_osdc_prepare_pages D osdc m want).2
  | ReplyCall.handle_reply msg => ceph_osdc_handle_reply D osdc msg

/-- The client after a sequence of calls, made one after the other. -/
def reply_calls (D : Deps) : ceph_osd_client → List ReplyCall → Option ceph_osd_client
  | osdc, [] => some osdc
  | osdc, c :: cs =>
    match reply_call D osdc c with
    | none => none
    | some s1 => reply_calls D s1 cs

/-- The client `pagesClient` holding a second reply for tid 1, `plainReply`, at
address 2001. -/
def twoRepliesClient : ceph_osd_client :=
  pagesClient.setMsg 2001 plainReply

/-- The calls made when two replies arrive for one request: the pages are
prepared for the first and asked for the second, the second reply is handled,
then the first. -/
def twoRepliesCalls : List ReplyCall :=
  [ReplyCall.prepare_pages 2000 1, ReplyCall.prepare_pages 2001 1,
    ReplyCall.handle_reply 2001, ReplyCall.handle_reply 2000]

/-- What happens while the caller of `do_sync_request` sleeps, in the run used
below: the reply `lateReply` starts to arrive at address 2000, the messenger
has its pages prepared, and the wait is interrupted (-512) before the reply is
complete. -/
def interruptedWait (s : ceph_osd_client) : Int × ceph_osd_client :=
  (-512, (ceph_osdc_prepare_pages testDeps (s.setMsg 2000 lateReply) 2000 1).2)

/-- The statement `req->r_aborted = 1` of `do_sync_request`. -/
def mark_aborted (osdc : ceph_osd_client) (req : Nat) : ceph_osd_client :=
  osdc.setReq req { osdc.reqs req with r_aborted := true }

/-- The three statements of `do_sync_request` that take the pages away from
the message `m`: lock `page_mutex`, `pages = NULL`, unlock. -/
def revoke_pages (osdc : ceph_osd_client) (m : Nat) : ceph_osd_client :=
  ((osdc.log (Event.page_mutex_lock m)).setMsg m { osdc.msgs m with pages := none }).log
    (Event.page_mutex_unlock m)

/-- The client `syncClient` in which the outgoing message of the request at
address 7 carries the page vector of the request, as after
`reqm->pages = req->r_pages` in the write paths. -/
def pagedSyncClient : ceph_osd_client :=
  syncClient.setMsg 1007 { syncClient.msgs 1007 with pages := some 7, nr_pages := 1 }

/-- The test that `handle_timeout` makes on a request: `jiffies` is after
`r_last_stamp + timeout`, compared as `time_after` does. -/
def timed_out (D : Deps) (osdc : ceph_osd_client) (r : ceph_osd_request) : Bool :=
  time_after osdc.jiffies (toU64 ((r.r_last_stamp : Int) + timer_period D osdc))

/-- The pings for the requests among the entries `t` that pass the test of
`handle_timeout`, in the order of the entries, each to the last target of its
request. -/
def timeout_pings (D : Deps) (osdc : ceph_osd_client) (t : List (Nat × Nat)) : List Event :=
  (t.filter (fun e => timed_out D osdc (osdc.reqs e.2))).map
    (fun e => Event.ping (osdc.reqs e.2).r_last_osd (osdc.reqs e.2).r_last_osd_addr)

/-- The pings in a trace, oldest first. -/
def pings : List Event → List (Int × ceph_entity_addr)
  | [] => []
  | Event.ping o a :: t => (o, a) :: pings t
  | _ :: t => pings t

/-- The events that `handle_timeout` can record: the semaphore and the mutex,
the request for a map, the timer, and pings. -/
def is_timer_event : Event → Bool
  | Event.down_read => true
  | Event.up_read => true
  | Event.mutex_lock => true
  | Event.mutex_unlock => true
  | Event.request_osdmap _ => true
  | Event.schedule_timeout _ => true
  | Event.ping _ _ => true
  | _ => false

/-- A client with the map `testMap` at time 5000 and two registered requests
that were sent long ago: tid 1 to osd 5 at time 1000, tid 2 to osd 6 at time
1200; the timer period is 30 * 100 jiffies and `timeout_tid` is 1. -/
def timerClient : ceph_osd_client :=
  { twoReqClient with
    osdmap := some testMap,
    jiffies := 5000,
    reqs := fun p =>
      if p = 7 then
        { r_tid := 1, r_request := 1007, r_ref := 2, r_last_osd := 5, r_last_osd_addr := 105,
          r_last_stamp := 1000, r_pgid := { size := 2 } }
      else if p = 8 then
        { r_tid := 2, r_request := 1008, r_ref := 2, r_last_osd := 6, r_last_osd_addr := 106,
          r_last_stamp := 1200, r_pgid := { size := 2 } }
      else twoReqClient.reqs p }

/-- The client `timerClient` after the timer has fired once. -/
def timerFired : ceph_osd_client :=
  (handle_timeout testDeps timerClient none).getD timerClient

/-- The time elapsed since `base_time`, as `reschedule_timeout` computes it:
the difference `jiffies - base_time` read as a `long`, and 0 without a base
time. -/
def elapsed_since (osdc : ceph_osd_client) (base_time : Nat) : Int :=
  if base_time ≠ 0 then toInt64 (osdc.jiffies + U64 - base_time % U64) else 0

/-- The client `timerClient` mounted with `osd_timeout` = 2^30 seconds: with
`HZ` = 100 the `int` product `osd_timeout * HZ` is 2^32 * 25, which wraps
to 0. -/
def hugeTimeoutClient : ceph_osd_client :=
  { timerClient with osd_timeout := 2 ^ 30 }

/-- The request that a reply completes: the one registered under its tid,
when the front length is valid and the reply slot of the request is empty or
holds this very message; `none` on the paths of `ceph_osdc_handle_reply` that
complete nothing. -/
def reply_completes (D : Deps) (osdc : ceph_osd_client) (msg : Nat) : Option Nat :=
  if (osdc.msgs msg).front_len < D.sizeof_reply_head then none
  else if (osdc.msgs msg).front_len ≠ reply_front_len D (osdc.msgs msg).front_num_ops then none
  else
    match radix_tree_lookup osdc.request_tree (osdc.msgs msg).front_tid with
    | none => none
    | some req =>
      if (osdc.reqs req).r_reply = none ∨ (osdc.reqs req).r_reply = some msg then some req
      else none

/-- The client `timerClient` holding a reply for the tid that the next
registration assigns, 3, at address 2003. -/
def balanceClient : ceph_osd_client :=
  timerClient.setMsg 2003 { plainReply with front_tid := 3 }

/-- The client `timerClient` with `timeout_tid` at 3, beyond the two registered
tids 1 and 2: the lookup from `timeout_tid` finds no request. -/
def staleTimerClient : ceph_osd_client :=
  { timerClient with timeout_tid := 3 }

/-- Whether `request_mutex` is held after the calls of a trace, from the state
`held`: `mutex_lock` takes it, `mutex_unlock` releases it. -/
def request_mutex_held : Bool → List Event → Bool
  | held, [] => held
  | _, Event.mutex_lock :: t => request_mutex_held true t
  | _, Event.mutex_unlock :: t => request_mutex_held false t
  | held, _ :: t => request_mutex_held held t

/-- What a thread holds of `map_sem`. -/
inductive SemHold where
  | free
  | read
  | write
deriving DecidableEq, Repr

/-- One call on `map_sem` by a thread that holds `h`: `down_read` and
`down_write` need no hold, `up_write` and `downgrade_write` need the write hold,
`up_read` needs the read hold; `none` when the call does not fit the hold. -/
def map_sem_step (h : SemHold) : Event → Option SemHold
  | Event.down_read => if h = SemHold.free then some SemHold.read else none
  | Event.down_write => if h = SemHold.free then some SemHold.write else none
  | Event.up_write => if h = SemHold.write then some SemHold.free else none
  | Event.downgrade_write => if h = SemHold.write then some SemHold.read else none
  | Event.up_read => if h = SemHold.read then some SemHold.free else none
  | _ => some h

/-- The hold after the calls of a trace, or `none` at the first call that does
not fit. -/
def map_sem_run : SemHold → List Event → Option SemHold
  | h, [] => some h
  | h, e :: t =>
    match map_sem_step h e with
    | none => none
    | some h1 => map_sem_run h1 t

/-- A map message of three bytes, too short for the filesystem identifier. -/
def truncatedFsidMsg : ceph_msg :=
  { front_bytes := [1, 0, 0] }

/-- A map message for the mount of `testClient` that carries no map at all. -/
def noMapsMsg : ceph_msg :=
  { front_bytes := u64le 1 ++ u64le 2 ++ u32le 0 ++ u32le 0 }

/-- A client right after `ceph_osdc_init`, with no map yet, holding the message
`m` at every message address. -/
def freshClient (m : ceph_msg) : ceph_osd_client :=
  { testClient with msgs := fun _ => m }

/-- Surroundings like `testEnv` in which the reply that arrives during the wait
carries the result `result` and no data. -/
def resultEnv (result : Nat) : Env :=
  { testEnv with
    wait := fun req s =>
      let r := s.reqs req
      let m := 2000 + r.r_tid
      let s1 := s.setMsg m {
        hdr_type := 43, front_tid := r.r_tid, front_len := 64, front_num_ops := 1,
        front_result := result }
      match ceph_osdc_handle_reply testDeps s1 m with
      | some s3 => (0, s3)
      | none => (0, s1) }

/-- A client with the map `testMap` and no request yet. -/
def idleClient : ceph_osd_client :=
  { testClient with osdmap := some testMap }

/-- The client `idleClient` with the request for the page at offset 0 built at
address 50, and the client after the synchronous execution of that request in
the surroundings `E`. -/
def readpageBuilt : ceph_osd_client :=
  match ceph_osdc_new_request testDeps testEnv idleClient s1Layout 17 0 4096
    testDeps.CEPH_OSD_OP_READ with
  | Except.ok (_, _, s) => s
  | Except.error _ => idleClient

def readpageDone (E : Env) : ceph_osd_client :=
  ((do_sync_request testDeps readpageBuilt 50 false (E.wait 50)).map Prod.snd).getD idleClient

/-- The fields of the registry that a registration writes. -/
def registry (s : ceph_osd_client) : Nat × List (Nat × Nat) × Int × Nat :=
  (s.last_tid, s.request_tree, s.num_requests, s.timeout_tid)

/-- A layout with objects and stripe units of 2^45 bytes. -/
def hugeLayout : ceph_file_layout :=
  { fl_stripe_unit := 2 ^ 45, fl_stripe_count := 1, fl_object_size := 2 ^ 45, fl_pg_size := 2 }

/-- The client `idleClient` with the request for the extent `off~len` of the
layout `s1Layout` built at address 50 for the operation `op`. -/
def builtClient (off len op : Nat) : ceph_osd_client :=
  match ceph_osdc_new_request testDeps testEnv idleClient s1Layout 17 off len op with
  | Except.ok (_, _, s) => s
  | Except.error _ => idleClient

/-- The request handed to `__unregister_request` is a registered one: the index
holds it under its tid. -/
def Op.on_registered (osdc : ceph_osd_client) : Op → Prop
  | Op.unregister req => radix_tree_lookup osdc.request_tree (osdc.reqs req).r_tid = some req
  | _ => True

/-- States reachable from `ceph_osdc_init` by the operations of the client and
the moves of its surroundings, where `register_request` is called for a request
that is not in the index and `__unregister_request` for one that is. -/
inductive Reached (D : Deps) : ceph_osd_client → Prop where
  | init (osdc : ceph_osd_client) : Reached D (ceph_osdc_init osdc)
  | step (s s' : ceph_osd_client) (op : Op) :
      Reached D s → op.admissible s → op.on_registered s → run D s op = some s' →
      Reached D s'

/-- The counting invariant of the registry: the index is in ascending order of
tid, every request is indexed under its own `r_tid`, `num_requests` is the
number of entries, and with a request registered `timeout_tid` is an index of
the tree. -/
structure CountInv (s : ceph_osd_client) : Prop where
  sorted : (s.request_tree.map Prod.fst).Pairwise (fun a b => a < b)
  own_tid : ∀ e ∈ s.request_tree, (s.reqs e.2).r_tid = e.1
  count : s.num_requests = (s.request_tree.length : Int)
  timer : 0 < s.num_requests → ∃ e ∈ s.request_tree, e.1 = s.timeout_tid

/-- The client `twoReqClient` after the removal of the request at address 7. -/
def oneLeftClient : ceph_osd_client :=
  (run testDeps twoReqClient (Op.unregister 7)).getD twoReqClient

/-- A map message with the incrementals for the epochs 9, 6 and 8, in this
order, and no full map. -/
def skipIncsMsg : ceph_msg :=
  { front_bytes := u64le 1 ++ u64le 2 ++ u32le 3 ++ map_entry 9 [3] ++ map_entry 6 [6] ++
      map_entry 8 [2] ++ u32le 0 }

/-- The client `timerClient` mounted with `osd_timeout` = 0: the timer period
`osd_timeout * HZ` is zero. -/
def zeroTimeoutClient : ceph_osd_client :=
  { timerClient with osd_timeout := 0 }

/-- The client `zeroTimeoutClient` holding the reply `plainReply`, for tid 1,
at address 2001. -/
def zeroTimeoutReplyClient : ceph_osd_client :=
  zeroTimeoutClient.setMsg 2001 plainReply

/-! ## Theorems -/

theorem pick_osd_scan_eq_find (D : Deps) (osdmap : ceph_osdmap) (osds : List Int) :
    ∀ (fuel i : Nat), osds.length ≤ i + fuel →
      pick_osd_scan D osdmap osds osds.length fuel i =
        ((osds.drop i).find? (fun o => D.ceph_osd_is_up osdmap o)).getD (-1) := by
  intro fuel
  induction fuel with
  | zero =>
    intro i h
    have hd : osds.drop i = [] := List.drop_eq_nil_of_le (by omega)
    simp [pick_osd_scan, hd]
  | succ n ih =>
    intro i h
    unfold pick_osd_scan
    by_cases hi : i < osds.length
    · have hd : osds.drop i = osds[i] :: osds.drop (i + 1) := List.drop_eq_getElem_cons hi
      have hg : osds.getD i 0 = osds[i] := by
        simp [List.getD_eq_getElem?_getD, List.getElem?_eq_getElem hi]
      rw [if_pos hi, hd, hg, List.find?_cons]
      by_cases hu : D.ceph_osd_is_up osdmap osds[i] = true
      · simp [hu]
      · have hu2 : D.ceph_osd_is_up osdmap osds[i] = false := by simpa using hu
        rw [ih (i + 1) (by omega)]
        simp [hu2]
    · have hd : osds.drop i = [] := List.drop_eq_nil_of_le (by omega)
      simp [hi, hd]

theorem pick_osd_spec (D : Deps) (osdmap : ceph_osdmap) (req : ceph_osd_request) :
    pick_osd D osdmap req = pick_target D osdmap req.r_pgid := by
  unfold pick_osd pick_target
  by_cases hr : D.crush_find_rule osdmap.crush req.r_pgid.pool req.r_pgid.type
      req.r_pgid.size < 0
  · simp [hr]
  · simp only [hr, if_false]
    rw [pick_osd_scan_eq_find D osdmap _ _ 0 (by omega)]
    simp

theorem pick_osd_congr (D : Deps) (osdmap : ceph_osdmap) (r1 r2 : ceph_osd_request)
    (h : r1.r_pgid = r2.r_pgid) : pick_osd D osdmap r1 = pick_osd D osdmap r2 := by
  rw [pick_osd_spec, pick_osd_spec, h]

/-- C3: `pick_osd` depends on the map snapshot and the pgid of the request
only, and equals the reference placement `pick_target` (no rule gives -1; the
seed is the stable-mod by the local or the normal count; the rule runs for at
most min(size, 10) candidates; the first up candidate is returned, -1 when
none is up).  Two requests with the same pgid get the same osd. -/
theorem pick_osd_eq_pick_target (D : Deps) (osdmap : ceph_osdmap) :
    (∀ req : ceph_osd_request, pick_osd D osdmap req = pick_target D osdmap req.r_pgid) ∧
    (∀ req1 req2 : ceph_osd_request, req1.r_pgid = req2.r_pgid →
      pick_osd D osdmap req1 = pick_osd D osdmap req2) := by
  refine ⟨pick_osd_spec D osdmap, ?_⟩
  intro req1 req2 h
  rw [pick_osd_spec D osdmap req1, pick_osd_spec D osdmap req2, h]

/-! ### Frame lemmas -/

theorem Frame.refl (s : ceph_osd_client) : Frame s s :=
  ⟨List.Sublist.refl _, rfl, fun _ => rfl, fun _ h => h, fun _ => ⟨0, (Nat.or_zero _).symm⟩⟩

theorem Frame.trans {a b c : ceph_osd_client} (h1 : Frame a b) (h2 : Frame b c) : Frame a c :=
  ⟨h2.tree.trans h1.tree, h2.last.trans h1.last,
    fun p => (h2.tid p).trans (h1.tid p), fun p h => h2.aborted p (h1.aborted p h),
    fun p => by
      obtain ⟨x, hx⟩ := h1.flags p
      obtain ⟨y, hy⟩ := h2.flags p
      exact ⟨x ||| y, by rw [hy, hx, Nat.lor_assoc]⟩⟩

theorem frame_log (s : ceph_osd_client) (e : Event) : Frame s (s.log e) :=
  ⟨List.Sublist.refl _, rfl, fun _ => rfl, fun _ h => h, fun _ => ⟨0, (Nat.or_zero _).symm⟩⟩

theorem frame_logs (s : ceph_osd_client) (es : List Event) : Frame s (s.logs es) :=
  ⟨List.Sublist.refl _, rfl, fun _ => rfl, fun _ h => h, fun _ => ⟨0, (Nat.or_zero _).symm⟩⟩

theorem frame_setMsg (s : ceph_osd_client) (m : Nat) (v : ceph_msg) : Frame s (s.setMsg m v) :=
  ⟨List.Sublist.refl _, rfl, fun _ => rfl, fun _ h => h, fun _ => ⟨0, (Nat.or_zero _).symm⟩⟩

theorem frame_setReq (s : ceph_osd_client) (p : Nat) (r : ceph_osd_request)
    (ht : r.r_tid = (s.reqs p).r_tid)
    (ha : (s.reqs p).r_aborted = true → r.r_aborted = true)
    (hf : ∃ x, r.r_flags = (s.reqs p).r_flags ||| x) : Frame s (s.setReq p r) := by
  refine ⟨List.Sublist.refl _, rfl, fun q => ?_, fun q h => ?_, fun q => ?_⟩
  · by_cases hq : q = p
    · subst hq; simp [ceph_osd_client.setReq, upd, ht]
    · simp [ceph_osd_client.setReq, upd, hq]
  · by_cases hq : q = p
    · subst hq; simpa [ceph_osd_client.setReq, upd] using ha h
    · simpa [ceph_osd_client.setReq, upd, hq] using h
  · by_cases hq : q = p
    · subst hq; simpa [ceph_osd_client.setReq, upd] using hf
    · exact ⟨0, by simp [ceph_osd_client.setReq, upd, hq]⟩

theorem Frame.log_right {s t : ceph_osd_client} (e : Event) (h : Frame s t) :
    Frame s (t.log e) := h.trans (frame_log t e)

theorem Frame.logs_right {s t : ceph_osd_client} (es : List Event) (h : Frame s t) :
    Frame s (t.logs es) := h.trans (frame_logs t es)

theorem Frame.setMsg_right {s t : ceph_osd_client} (m : Nat) (v : ceph_msg) (h : Frame s t) :
    Frame s (t.setMsg m v) := h.trans (frame_setMsg t m v)

theorem Frame.setReq_right {s t : ceph_osd_client} {p : Nat} {r : ceph_osd_request}
    (h : Frame s t) (ht : r.r_tid = (t.reqs p).r_tid)
    (ha : (t.reqs p).r_aborted = true → r.r_aborted = true)
    (hf : ∃ x, r.r_flags = (t.reqs p).r_flags ||| x) : Frame s (t.setReq p r) :=
  h.trans (frame_setReq t p r ht ha hf)

theorem get_request_frame (s : ceph_osd_client) (req : Nat) : Frame s (get_request s req) :=
  frame_setReq s req _ rfl (fun h => h) ⟨0, (Nat.or_zero _).symm⟩

theorem put_request_frame {s s' : ceph_osd_client} {req : Nat}
    (h : ceph_osdc_put_request s req = some s') : Frame s s' := by
  unfold ceph_osdc_put_request at h
  simp only at h
  split_ifs at h
  · simp only [Option.some.injEq] at h
    subst h
    apply Frame.logs_right
    exact Frame.setReq_right (Frame.refl s) rfl (fun h => h) ⟨0, (Nat.or_zero _).symm⟩
  · simp only [Option.some.injEq] at h
    subst h
    exact Frame.setReq_right (Frame.refl s) rfl (fun h => h) ⟨0, (Nat.or_zero _).symm⟩

theorem reschedule_timeout_frame {D : Deps} {s s' : ceph_osd_client} {b : Nat}
    (h : reschedule_timeout D s b = some s') : Frame s s' := by
  unfold reschedule_timeout at h
  simp only at h
  split_ifs at h <;> simp only [Option.some.injEq] at h <;> subst h <;> exact frame_log _ _

theorem frame_set_timeout_tid (s : ceph_osd_client) (t : Nat) :
    Frame s { s with timeout_tid := t } :=
  ⟨List.Sublist.refl _, rfl, fun _ => rfl, fun _ h => h, fun _ => ⟨0, (Nat.or_zero _).symm⟩⟩

theorem register_next_frame {D : Deps} {s s' : ceph_osd_client} {req : Nat}
    (h : __register_next_request_timeout D s req = some s') : Frame s s' := by
  unfold __register_next_request_timeout at h
  simp only at h
  split at h
  · exact (frame_set_timeout_tid s _).trans (reschedule_timeout_frame h)
  · simp only [Option.some.injEq] at h
    subst h
    exact Frame.refl _

theorem frame_unregister_head (s : ceph_osd_client) (k : Nat) :
    Frame s { s with
      request_tree := radix_tree_delete s.request_tree k,
      num_requests := s.num_requests - 1 } :=
  ⟨List.filter_sublist _, rfl, fun _ => rfl, fun _ h => h, fun _ => ⟨0, (Nat.or_zero _).symm⟩⟩

theorem unregister_request_frame {D : Deps} {s s' : ceph_osd_client} {req : Nat}
    (h : __unregister_request D s req = some s') : Frame s s' := by
  unfold __unregister_request at h
  simp only at h
  have h0 := frame_unregister_head s (s.reqs req).r_tid
  split_ifs at h
  · split at h
    · exact absurd h (by simp)
    · rename_i s3 h3
      exact ((h0.trans (frame_log _ _)).trans (register_next_frame h3)).trans
        (put_request_frame h)
  · exact (h0.trans (frame_log _ _)).trans (put_request_frame h)
  · exact h0.trans (put_request_frame h)

theorem send_request_frame {D : Deps} {s s' : ceph_osd_client} {req : Nat} {rc : Int}
    (h : send_request D s req = some (rc, s')) : Frame s s' := by
  unfold send_request at h
  split at h
  · exact absurd h (by simp)
  · simp only at h
    split_ifs at h
    · simp only [Option.some.injEq, Prod.mk.injEq] at h
      rw [← h.2]
      exact frame_log _ _
    · simp only [Option.some.injEq, Prod.mk.injEq] at h
      rw [← h.2]
      apply Frame.log_right
      apply Frame.log_right
      refine Frame.setReq_right ?_ rfl (fun h => h) ⟨0, (Nat.or_zero _).symm⟩
      exact frame_setMsg _ _ _

theorem handle_reply_frame {D : Deps} {s s' : ceph_osd_client} {msg : Nat}
    (h : ceph_osdc_handle_reply D s msg = some s') : Frame s s' := by
  unfold ceph_osdc_handle_reply at h
  simp only at h
  split_ifs at h
  · simp only [Option.some.injEq] at h; subst h; exact frame_log _ _
  · simp only [Option.some.injEq] at h; subst h; exact frame_log _ _
  · split at h
    · simp only [Option.some.injEq] at h; subst h
      exact (frame_log _ _).log_right _
    · rename_i req hreq
      have hg : Frame s (get_request (s.log Event.mutex_lock) req) :=
        (frame_log _ _).trans (get_request_frame _ _)
      split_ifs at h with hc hn
      · split at h
        · exact absurd h (by simp)
        · rename_i s3 h3
          refine Frame.trans ?_ (put_request_frame h)
          have h4 : Frame s s3 := by
            refine Frame.trans ?_ (unregister_request_frame h3)
            exact Frame.setReq_right (hg.log_right _) rfl (fun h => h) ⟨0, (Nat.or_zero _).symm⟩
          split_ifs <;> exact (h4.log_right _).log_right _
      · split at h
        · exact absurd h (by simp)
        · rename_i s3 h3
          refine Frame.trans ?_ (put_request_frame h)
          have h4 : Frame s s3 := Frame.trans hg (unregister_request_frame h3)
          split_ifs <;> exact (h4.log_right _).log_right _
      · exact hg.trans (put_request_frame h)

theorem kick_one_frame {D : Deps} {who : Option ceph_entity_addr} {s s' : ceph_osd_client}
    {req : Nat} {inc : Int} (h : kick_one D who s req = some (s', inc)) : Frame s s' := by
  unfold kick_one at h
  simp only at h
  split at h
  · exact absurd h (by simp)
  · rename_i osdmap hmap
    have h1 : Frame s (((get_request s req).log Event.mutex_unlock).log
        (Event.msg_maybe_dup (s.reqs req).r_request)) :=
      ((get_request_frame s req).log_right _).log_right _
    split_ifs at h with hosd hkick hab
    · simp only [Option.some.injEq, Prod.mk.injEq] at h
      rw [← h.1]
      exact Frame.setReq_right (Frame.refl s) rfl (fun h => h) ⟨0, (Nat.or_zero _).symm⟩
    · split at h
      · exact absurd h (by simp)
      · rename_i s2 hs2
        split at h
        · exact absurd h (by simp)
        · rename_i s3 hs3
          simp only [Option.some.injEq, Prod.mk.injEq] at h
          rw [← h.1]
          apply Frame.log_right
          refine Frame.trans ?_ (put_request_frame hs3)
          simp only [Option.some.injEq] at hs2
          rw [← hs2]; exact h1
    · split at h
      · exact absurd h (by simp)
      · rename_i s2 hs2
        split at h
        · exact absurd h (by simp)
        · rename_i s3 hs3
          simp only [Option.some.injEq, Prod.mk.injEq] at h
          rw [← h.1]
          apply Frame.log_right
          refine Frame.trans ?_ (put_request_frame hs3)
          rw [Option.map_eq_some'] at hs2
          obtain ⟨⟨rc, s4⟩, hs4, rfl⟩ := hs2
          refine Frame.trans ?_ (send_request_frame hs4)
          exact Frame.setReq_right h1 rfl (fun h => h) ⟨D.CEPH_OSD_OP_RETRY, rfl⟩
    · simp only [Option.some.injEq, Prod.mk.injEq] at h
      rw [← h.1]
      exact Frame.refl _

theorem kick_loop_frame (D : Deps) (who : Option ceph_entity_addr) :
    ∀ (fuel : Nat) (s : ceph_osd_client) (next_tid : Nat) (needmap : Int)
      (s' : ceph_osd_client) (n' : Int),
      kick_loop D who fuel s next_tid needmap = some (s', n') → Frame s s' := by
  intro fuel
  induction fuel with
  | zero => intro s next_tid needmap s' n' h; simp [kick_loop] at h
  | succ n ih =>
    intro s next_tid needmap s' n' h
    unfold kick_loop at h
    split at h
    · simp only [Option.some.injEq, Prod.mk.injEq] at h
      rw [← h.1]; exact Frame.refl _
    · split at h
      · exact absurd h (by simp)
      · rename_i s1 inc h1
        exact (kick_one_frame h1).trans (ih _ _ _ _ _ h)

theorem kick_requests_frame {D : Deps} {s s' : ceph_osd_client} {who : Option ceph_entity_addr}
    (h : kick_requests D s who = some s') : Frame s s' := by
  unfold kick_requests at h
  simp only at h
  split at h
  · exact absurd h (by simp)
  · rename_i s1 needmap hk
    have h1 : Frame s s1 := (frame_log _ _).trans (kick_loop_frame D who _ _ _ _ _ _ hk)
    split_ifs at h
    · split at h
      · exact absurd h (by simp)
      · simp only [Option.some.injEq] at h; subst h
        exact (h1.log_right _).log_right _
    · simp only [Option.some.injEq] at h; subst h
      exact h1.log_right _

theorem handle_reset_frame {D : Deps} {s s' : ceph_osd_client} {addr : ceph_entity_addr}
    (h : ceph_osdc_handle_reset D s addr = some s') : Frame s s' := by
  unfold ceph_osdc_handle_reset at h
  split at h
  · exact absurd h (by simp)
  · rename_i s1 hk
    simp only [Option.some.injEq] at h; subst h
    exact ((frame_log _ _).trans (kick_requests_frame hk)).log_right _

theorem prepare_pages_frame (D : Deps) (s : ceph_osd_client) (m : Nat) (want : Int) :
    Frame s (ceph_osdc_prepare_pages D s m want).2 := by
  unfold ceph_osdc_prepare_pages
  simp only
  split_ifs
  · exact Frame.refl _
  · split
    · exact (frame_log _ _).log_right _
    · split_ifs
      · apply Frame.log_right
        refine Frame.setReq_right ?_ rfl (fun h => h) ⟨0, (Nat.or_zero _).symm⟩
        apply Frame.log_right
        apply Frame.setMsg_right
        exact frame_log _ _
      · exact (frame_log _ _).log_right _

theorem timeout_loop_frame (D : Deps) :
    ∀ (fuel : Nat) (s : ceph_osd_client) (got : Option Nat) (s' : ceph_osd_client),
      timeout_loop D fuel s got = some s' → Frame s s' := by
  intro fuel
  induction fuel with
  | zero => intro s got s' h; simp [timeout_loop] at h
  | succ n ih =>
    intro s got s' h
    cases got with
    | none =>
      simp only [timeout_loop, Option.some.injEq] at h
      subst h; exact Frame.refl _
    | some req =>
      simp only [timeout_loop] at h
      refine Frame.trans ?_ (ih _ _ _ h)
      split_ifs
      · exact frame_log _ _
      · exact Frame.refl _

/-- A call of `handle_timeout` that returns: the map is there, the variable
`req` holds a request (found by the lookup, or left in the unassigned slot),
the re-arm and the ping loop return, and the state is that of the loop with
the two releases recorded. -/
theorem handle_timeout_some {D : Deps} {s s' : ceph_osd_client} {u : Option Nat}
    (h : handle_timeout D s u = some s') :
    ∃ osdmap req s2 s3, s.osdmap = some osdmap ∧
      (radix_tree_gang_lookup s.request_tree s.timeout_tid).orElse (fun _ => u) = some req ∧
      __register_next_request_timeout D
        (((s.log Event.down_read).log (Event.request_osdmap ((osdmap.epoch + 1) % U32))).log
          Event.mutex_lock) req = some s2 ∧
      timeout_loop D (s2.request_tree.length + 1) s2
        (radix_tree_gang_lookup s.request_tree s.timeout_tid) = some s3 ∧
      s' = (s3.log Event.mutex_unlock).log Event.up_read := by
  unfold handle_timeout at h
  simp only at h
  split at h
  · exact absurd h (by simp)
  · rename_i osdmap hmap
    split at h
    · exact absurd h (by simp)
    · rename_i req hreq
      split at h
      · exact absurd h (by simp)
      · rename_i s2 h2
        split at h
        · exact absurd h (by simp)
        · rename_i s3 h3
          simp only [Option.some.injEq] at h
          exact ⟨osdmap, req, s2, s3, hmap, hreq, h2, h3, h.symm⟩

theorem handle_timeout_frame {D : Deps} {s s' : ceph_osd_client} {u : Option Nat}
    (h : handle_timeout D s u = some s') : Frame s s' := by
  obtain ⟨osdmap, req, s2, s3, hmap, hreq, h2, h3, rfl⟩ := handle_timeout_some h
  apply Frame.log_right
  apply Frame.log_right
  refine Frame.trans ?_ (timeout_loop_frame D _ _ _ _ h3)
  refine Frame.trans ?_ (register_next_frame h2)
  exact ((frame_log _ _).log_right _).log_right _

theorem frame_set_osdmap (s : ceph_osd_client) (m : Option ceph_osdmap) :
    Frame s { s with osdmap := m } :=
  ⟨List.Sublist.refl _, rfl, fun _ => rfl, fun _ h => h, fun _ => ⟨0, (Nat.or_zero _).symm⟩⟩

theorem inc_loop_frame (D : Deps) :
    ∀ (nr : Nat) (p : List Nat) (s : ceph_osd_client) (nm : Option ceph_osdmap),
      Frame s (inc_loop D nr p s nm).client := by
  intro nr
  induction nr with
  | zero => intro p s nm; exact Frame.refl _
  | succ n ih =>
    intro p s nm
    unfold inc_loop
    simp only
    split_ifs
    · split
      · split_ifs
        · split
          · exact Frame.refl _
          · exact (frame_set_osdmap s _).trans (ih _ _ _)
        · exact ih _ _ _
      · exact ih _ _ _
    · exact Frame.refl _
    · exact Frame.refl _

theorem full_loop_frame (D : Deps) :
    ∀ (nr : Nat) (p : List Nat) (s : ceph_osd_client) (nm : Option ceph_osdmap),
      Frame s (full_loop D nr p s nm).client := by
  intro nr
  induction nr with
  | zero => intro p s nm; exact Frame.refl _
  | succ n ih =>
    intro p s nm
    unfold full_loop
    simp only
    split_ifs
    · exact ih _ _ _
    · exact ih _ _ _
    · split
      · exact Frame.refl _
      · exact (frame_set_osdmap s _).trans (ih _ _ _)
    · exact Frame.refl _
    · exact Frame.refl _

theorem handle_map_bad_frame {s s' : ceph_osd_client} (h : handle_map_bad s = some s') :
    Frame s s' := by
  simp only [handle_map_bad, Option.some.injEq] at h
  subst h
  exact (frame_log _ _).log_right _

theorem handle_map_done_frame {D : Deps} {s s' : ceph_osd_client} {nm : Option ceph_osdmap}
    (h : handle_map_done D s nm = some s') : Frame s s' := by
  unfold handle_map_done at h
  simp only at h
  split at h
  · exact absurd h (by simp)
  · split_ifs at h
    · split at h
      · exact absurd h (by simp)
      · rename_i s2 hk
        simp only [Option.some.injEq] at h; subst h
        exact (((frame_log _ _).log_right _).trans (kick_requests_frame hk)).log_right _
    · simp only [Option.some.injEq] at h; subst h
      exact ((frame_log _ _).log_right _).log_right _

theorem handle_map_frame {D : Deps} {s s' : ceph_osd_client} {msg : Nat}
    (h : ceph_osdc_handle_map D s msg = some s') : Frame s s' := by
  unfold ceph_osdc_handle_map at h
  simp only at h
  split_ifs at h
  · simp only [Option.some.injEq] at h; subst h; exact frame_log _ _
  · split at h
    · rename_i s1 hl
      have := inc_loop_frame D (le_value (List.take 4 (List.drop 16 (s.msgs msg).front_bytes)))
        (List.drop 4 (List.drop 16 (s.msgs msg).front_bytes)) (s.log Event.down_write) none
      rw [hl] at this
      exact ((frame_log _ _).trans this).trans (handle_map_bad_frame h)
    · rename_i p2 s1 newmap hl
      have h1 := inc_loop_frame D (le_value (List.take 4 (List.drop 16 (s.msgs msg).front_bytes)))
        (List.drop 4 (List.drop 16 (s.msgs msg).front_bytes)) (s.log Event.down_write) none
      rw [hl] at h1
      have h1s : Frame s s1 := (frame_log _ _).trans h1
      split_ifs at h
      · exact h1s.trans (handle_map_done_frame h)
      · split at h
        · rename_i s2 hf
          have h2 := full_loop_frame D (le_value (List.take 4 p2)) (List.drop 4 p2) s1 newmap
          rw [hf] at h2
          exact (h1s.trans h2).trans (handle_map_bad_frame h)
        · rename_i p3 s2 nm2 hf
          have h2 := full_loop_frame D (le_value (List.take 4 p2)) (List.drop 4 p2) s1 newmap
          rw [hf] at h2
          exact (h1s.trans h2).trans (handle_map_done_frame h)
      · exact h1s.trans (handle_map_bad_frame h)
  · exact (frame_log _ _).trans (handle_map_bad_frame h)
  · exact handle_map_bad_frame h

theorem do_sync_abort_none (x : ceph_osd_client) (req : Nat)
    (hr : (x.reqs req).r_reply = none) :
    do_sync_abort x req =
      [mark_aborted x req,
       (mark_aborted x req).log (Event.page_mutex_lock (x.reqs req).r_request),
       ((mark_aborted x req).log (Event.page_mutex_lock (x.reqs req).r_request)).setMsg
         (x.reqs req).r_request { x.msgs (x.reqs req).r_request with pages := none },
       revoke_pages (mark_aborted x req) (x.reqs req).r_request] := by
  unfold do_sync_abort
  simp only [ceph_osd_client.setReq, ceph_osd_client.setMsg, ceph_osd_client.log, upd, if_true,
    hr, mark_aborted, revoke_pages]

theorem do_sync_abort_some (x : ceph_osd_client) (req rp : Nat)
    (hr : (x.reqs req).r_reply = some rp) :
    do_sync_abort x req =
      [mark_aborted x req,
       (mark_aborted x req).log (Event.page_mutex_lock (x.reqs req).r_request),
       ((mark_aborted x req).log (Event.page_mutex_lock (x.reqs req).r_request)).setMsg
         (x.reqs req).r_request { x.msgs (x.reqs req).r_request with pages := none },
       revoke_pages (mark_aborted x req) (x.reqs req).r_request,
       (revoke_pages (mark_aborted x req) (x.reqs req).r_request).log (Event.page_mutex_lock rp),
       ((revoke_pages (mark_aborted x req) (x.reqs req).r_request).log
         (Event.page_mutex_lock rp)).setMsg rp
         { (revoke_pages (mark_aborted x req) (x.reqs req).r_request).msgs rp with
           pages := none },
       revoke_pages (revoke_pages (mark_aborted x req) (x.reqs req).r_request) rp] := by
  unfold do_sync_abort
  simp only [ceph_osd_client.setReq, ceph_osd_client.setMsg, ceph_osd_client.log, upd, if_true,
    hr, mark_aborted, revoke_pages]

theorem do_sync_finish_unfold (osdc : ceph_osd_client) (req : Nat) (wait_rc : Int) :
    do_sync_finish osdc req wait_rc =
      if wait_rc < 0 then
        let s3 := osdc.setReq req { osdc.reqs req with r_aborted := true }
        let msg := (s3.reqs req).r_request
        let s4 := (((s3.log (Event.page_mutex_lock msg)).setMsg msg
          { s3.msgs msg with pages := none }).log (Event.page_mutex_unlock msg))
        match (s4.reqs req).r_reply with
        | some rp =>
          some (wait_rc, (((s4.log (Event.page_mutex_lock rp)).setMsg rp
            { s4.msgs rp with pages := none }).log (Event.page_mutex_unlock rp)))
        | none => some (wait_rc, s4)
      else
        match (osdc.reqs req).r_reply with
        | none => none
        | some rp =>
          let rc := toInt32 (osdc.msgs rp).front_result
          let bytes := toInt32 (osdc.msgs rp).hdr_data_len
          if rc < 0 then some (rc, osdc) else some (bytes, osdc) := by
  unfold do_sync_finish
  split_ifs with h
  · cases hr : (osdc.reqs req).r_reply with
    | none =>
      rw [do_sync_abort_none osdc req hr]
      simp [ceph_osd_client.setReq, ceph_osd_client.setMsg, ceph_osd_client.log, upd, hr,
        mark_aborted, revoke_pages]
    | some rp =>
      rw [do_sync_abort_some osdc req rp hr]
      simp [ceph_osd_client.setReq, ceph_osd_client.setMsg, ceph_osd_client.log, upd, hr,
        mark_aborted, revoke_pages]
  · rfl

theorem do_sync_finish_frame {s s' : ceph_osd_client} {req : Nat} {wrc rc : Int}
    (h : do_sync_finish s req wrc = some (rc, s')) : Frame s s' := by
  rw [do_sync_finish_unfold] at h
  simp only at h
  split_ifs at h
  · have h3 : Frame s (s.setReq req { s.reqs req with r_aborted := true }) :=
      Frame.setReq_right (Frame.refl s) rfl (fun _ => rfl) ⟨0, (Nat.or_zero _).symm⟩
    split at h
    · simp only [Option.some.injEq, Prod.mk.injEq] at h
      rw [← h.2]
      apply Frame.log_right
      apply Frame.setMsg_right
      apply Frame.log_right
      apply Frame.log_right
      apply Frame.setMsg_right
      apply Frame.log_right
      exact h3
    · simp only [Option.some.injEq, Prod.mk.injEq] at h
      rw [← h.2]
      apply Frame.log_right
      apply Frame.setMsg_right
      apply Frame.log_right
      exact h3
  · split at h
    · exact absurd h (by simp)
    · split_ifs at h <;> simp only [Option.some.injEq, Prod.mk.injEq] at h <;>
        (rw [← h.2]; exact Frame.refl _)

/-! ### The registry invariant -/

theorem inv_of_frame {s s' : ceph_osd_client} (hi : RegistryInv s) (hf : Frame s s') :
    RegistryInv s' := by
  refine ⟨?_, ?_, ?_⟩
  · exact hi.sorted.sublist (hf.tree.map Prod.fst)
  · intro e he
    rw [hf.tid]
    exact hi.own_tid e (hf.tree.subset he)
  · intro e he
    rw [hf.last]
    exact hi.le_last e (hf.tree.subset he)

theorem tree_put_eq_append (k v : Nat) :
    ∀ t : List (Nat × Nat), (∀ e ∈ t, e.1 < k) → tree_put t k v = t ++ [(k, v)] := by
  intro t
  induction t with
  | nil => intro _; rfl
  | cons e t ih =>
    intro h
    have he : e.1 < k := h e (List.mem_cons_self _ _)
    have hne : ¬ k < e.1 := by omega
    simp only [tree_put, hne, if_false, List.cons_append]
    rw [ih (fun x hx => h x (List.mem_cons_of_mem _ hx))]

theorem reschedule_timeout_eq {D : Deps} {s s' : ceph_osd_client} {b : Nat}
    (h : reschedule_timeout D s b = some s') : ∃ j, s' = s.log (Event.schedule_timeout j) := by
  unfold reschedule_timeout at h
  simp only at h
  split_ifs at h <;> simp only [Option.some.injEq] at h <;> exact ⟨_, h.symm⟩

theorem register_request_step {D : Deps} {s s' : ceph_osd_client} {req : Nat} {nomem : Bool}
    {rc : Int} (h : register_request D s req nomem = some (rc, s')) : RegStep s s' req := by
  unfold register_request at h
  simp only at h
  have key : ∀ (t : List (Nat × Nat)) (x : ceph_osd_client),
      x.last_tid = (s.last_tid + 1) % U64 →
      (∀ p, (x.reqs p).r_tid = if p = req then (s.last_tid + 1) % U64 else (s.reqs p).r_tid) →
      (∀ p, (x.reqs p).r_aborted = (s.reqs p).r_aborted ∧
        (x.reqs p).r_flags = (s.reqs p).r_flags) →
      (x.request_tree = s.request_tree ∨
        x.request_tree = tree_put s.request_tree ((s.last_tid + 1) % U64) req) →
      RegStep s x req := fun _ x a b c d => ⟨a, b, c, d⟩
  have htid : ∀ p, ((upd (s.log Event.mutex_lock).reqs req
      { (s.log Event.mutex_lock).reqs req with
        r_tid := ((s.log Event.mutex_lock).last_tid + 1) % U64 }) p).r_tid =
      if p = req then (s.last_tid + 1) % U64 else (s.reqs p).r_tid := by
    intro p
    by_cases hp : p = req
    · subst hp; simp [upd, ceph_osd_client.log]
    · simp [upd, hp, ceph_osd_client.log]
  have hab : ∀ p, ((upd (s.log Event.mutex_lock).reqs req
      { (s.log Event.mutex_lock).reqs req with
        r_tid := ((s.log Event.mutex_lock).last_tid + 1) % U64 }) p).r_aborted =
      (s.reqs p).r_aborted ∧
      ((upd (s.log Event.mutex_lock).reqs req
      { (s.log Event.mutex_lock).reqs req with
        r_tid := ((s.log Event.mutex_lock).last_tid + 1) % U64 }) p).r_flags =
      (s.reqs p).r_flags := by
    intro p
    by_cases hp : p = req
    · subst hp; simp [upd, ceph_osd_client.log]
    · simp [upd, hp, ceph_osd_client.log]
  have htid2 : ∀ (p : Nat) (f : Nat → ceph_osd_request) (v : Int),
      (∀ q, (f q).r_tid = if q = req then (s.last_tid + 1) % U64 else (s.reqs q).r_tid) →
      ((upd f req { f req with r_ref := v }) p).r_tid =
        if p = req then (s.last_tid + 1) % U64 else (s.reqs p).r_tid := by
    intro p f v hf
    by_cases hp : p = req
    · subst hp; simpa [upd] using hf p
    · simpa [upd, hp] using hf p
  have hab2 : ∀ (p : Nat) (f : Nat → ceph_osd_request) (v : Int),
      (∀ q, (f q).r_aborted = (s.reqs q).r_aborted ∧ (f q).r_flags = (s.reqs q).r_flags) →
      ((upd f req { f req with r_ref := v }) p).r_aborted = (s.reqs p).r_aborted ∧
      ((upd f req { f req with r_ref := v }) p).r_flags = (s.reqs p).r_flags := by
    intro p f v hf
    by_cases hp : p = req
    · subst hp; simpa [upd] using hf p
    · simpa [upd, hp] using hf p
  have hins : (radix_tree_insert s.request_tree ((s.last_tid + 1) % U64) req nomem).2 =
        s.request_tree ∨
      (radix_tree_insert s.request_tree ((s.last_tid + 1) % U64) req nomem).2 =
        tree_put s.request_tree ((s.last_tid + 1) % U64) req := by
    unfold radix_tree_insert
    split_ifs <;> simp
  split_ifs at h
  · simp only [Option.some.injEq, Prod.mk.injEq] at h
    rw [← h.2]
    exact key [] _ rfl htid hab (Or.inl rfl)
  · split at h
    · exact absurd h (by simp)
    · rename_i s5 h5
      obtain ⟨e, he⟩ := reschedule_timeout_eq h5
      simp only [Option.some.injEq, Prod.mk.injEq] at h
      rw [← h.2, he]
      exact key [] _ rfl (fun p => htid2 p _ _ htid) (fun p => hab2 p _ _ hab) hins
  · simp only [Option.some.injEq, Prod.mk.injEq] at h
    rw [← h.2]
    exact key [] _ rfl (fun p => htid2 p _ _ htid) (fun p => hab2 p _ _ hab) hins

theorem inv_of_regstep {s s' : ceph_osd_client} {req : Nat} (hi : RegistryInv s)
    (hlt : s.last_tid + 1 < U64) (hfresh : ∀ e ∈ s.request_tree, e.2 ≠ req)
    (h : RegStep s s' req) : RegistryInv s' ∧ s'.last_tid = s.last_tid + 1 := by
  have hmod : (s.last_tid + 1) % U64 = s.last_tid + 1 := Nat.mod_eq_of_lt hlt
  have hlast : s'.last_tid = s.last_tid + 1 := by rw [h.last, hmod]
  refine ⟨?_, hlast⟩
  have hold : ∀ e ∈ s.request_tree, (s'.reqs e.2).r_tid = e.1 := by
    intro e he
    rw [h.tid, if_neg (hfresh e he)]
    exact hi.own_tid e he
  rcases h.tree with ht | ht
  · refine ⟨by rw [ht]; exact hi.sorted, ?_, ?_⟩
    · intro e he; rw [ht] at he; exact hold e he
    · intro e he; rw [ht] at he
      have := hi.le_last e he
      omega
  · rw [hmod, tree_put_eq_append _ _ _ (fun e he => by
      have := hi.le_last e he
      omega)] at ht
    refine ⟨?_, ?_, ?_⟩
    · rw [ht, List.map_append, List.pairwise_append]
      refine ⟨hi.sorted, by simp, ?_⟩
      intro a ha b hb
      simp only [List.map_cons, List.map_nil, List.mem_singleton] at hb
      obtain ⟨e, he, rfl⟩ := List.mem_map.mp ha
      have := hi.le_last e he
      omega
    · intro e he
      rw [ht, List.mem_append, List.mem_singleton] at he
      rcases he with he | he
      · exact hold e he
      · subst he
        rw [h.tid]
        simp [hmod]
    · intro e he
      rw [ht, List.mem_append, List.mem_singleton] at he
      rcases he with he | he
      · have := hi.le_last e he
        omega
      · subst he
        simp [hlast]

theorem start_request_steps {D : Deps} {s s' : ceph_osd_client} {req : Nat} {nomem : Bool}
    {rc : Int} (h : start_request D s req nomem = some (rc, s')) :
    ∃ s1, RegStep s s1 req ∧ Frame s1 s' := by
  unfold start_request at h
  split at h
  · exact absurd h (by simp)
  · rename_i rc1 s1 hreg
    refine ⟨s1, register_request_step hreg, ?_⟩
    split_ifs at h
    · simp only [Option.some.injEq, Prod.mk.injEq] at h
      rw [← h.2]; exact Frame.refl _
    · split at h
      · exact absurd h (by simp)
      · rename_i rc2 s2 hsend
        simp only [Option.some.injEq, Prod.mk.injEq] at h
        rw [← h.2]
        exact ((frame_log _ _).trans (send_request_frame hsend)).log_right _

/-- Every operation that makes no registration satisfies the frame. -/
theorem run_frame {D : Deps} {s s' : ceph_osd_client} {op : Op}
    (hop : op.registrations = 0) (h : run D s op = some s') : Frame s s' := by
  cases op with
  | register req nomem => simp [Op.registrations] at hop
  | start req nomem => simp [Op.registrations] at hop
  | unregister req => exact unregister_request_frame h
  | put req => exact put_request_frame h
  | send req =>
    simp only [run, Option.map_eq_some'] at h
    obtain ⟨⟨rc, s1⟩, h1, rfl⟩ := h
    exact send_request_frame h1
  | sync_finish req wrc =>
    simp only [run, Option.map_eq_some'] at h
    obtain ⟨⟨rc, s1⟩, h1, rfl⟩ := h
    exact do_sync_finish_frame h1
  | handle_reply msg => exact handle_reply_frame h
  | kick who => exact kick_requests_frame h
  | handle_reset addr => exact handle_reset_frame h
  | handle_map msg => exact handle_map_frame h
  | prepare_pages m want =>
    simp only [run, Option.some.injEq] at h
    rw [← h]; exact prepare_pages_frame D s m want
  | handle_timeout u => exact handle_timeout_frame h
  | env_msg m msg =>
    simp only [run, Option.some.injEq] at h
    rw [← h]; exact frame_setMsg _ _ _
  | env_time j =>
    simp only [run, Option.some.injEq] at h
    rw [← h]; exact ⟨List.Sublist.refl _, rfl, fun _ => rfl, fun _ h => h, fun _ => ⟨0, (Nat.or_zero _).symm⟩⟩
  | env_send_rc rc =>
    simp only [run, Option.some.injEq] at h
    rw [← h]; exact ⟨List.Sublist.refl _, rfl, fun _ => rfl, fun _ h => h, fun _ => ⟨0, (Nat.or_zero _).symm⟩⟩

theorem reach_inv (D : Deps) :
    ∀ (n : Nat) (s : ceph_osd_client), Reach D n s → n < U64 →
      RegistryInv s ∧ s.last_tid = n := by
  intro n s h
  induction h with
  | init osdc =>
    intro _
    refine ⟨⟨?_, ?_, ?_⟩, rfl⟩ <;> simp [ceph_osdc_init]
  | step n s s' op hr hadm hrun ih =>
    intro hn
    have ihn := ih (by omega)
    by_cases h0 : op.registrations = 0
    · have hf := run_frame h0 hrun
      refine ⟨inv_of_frame ihn.1 hf, ?_⟩
      rw [hf.last, ihn.2, h0]
      rfl
    · cases op with
      | register req nomem =>
        simp only [run, Option.map_eq_some'] at hrun
        obtain ⟨⟨rc, s1⟩, h1, rfl⟩ := hrun
        simp only [Op.registrations] at hn ⊢
        have := inv_of_regstep ihn.1 (by rw [ihn.2]; exact hn) hadm (register_request_step h1)
        exact ⟨this.1, by rw [this.2, ihn.2]⟩
      | start req nomem =>
        simp only [run, Option.map_eq_some'] at hrun
        obtain ⟨⟨rc, s1⟩, h1, rfl⟩ := hrun
        simp only [Op.registrations] at hn ⊢
        obtain ⟨s2, hreg, hfr⟩ := start_request_steps h1
        have := inv_of_regstep ihn.1 (by rw [ihn.2]; exact hn) hadm hreg
        exact ⟨inv_of_frame this.1 hfr, by rw [hfr.last, this.2, ihn.2]⟩
      | _ => exact absurd rfl h0

theorem sorted_keys_inj :
    ∀ (t : List (Nat × Nat)), (t.map Prod.fst).Pairwise (fun a b => a < b) →
      ∀ e1 ∈ t, ∀ e2 ∈ t, e1.1 = e2.1 → e1 = e2 := by
  intro t
  induction t with
  | nil => intro _ e1 h1; simp at h1
  | cons a t ih =>
    intro hs e1 h1 e2 h2 hk
    rw [List.map_cons, List.pairwise_cons] at hs
    rw [List.mem_cons] at h1 h2
    rcases h1 with h1 | h1 <;> rcases h2 with h2 | h2
    · rw [h1, h2]
    · have := hs.1 e2.1 (List.mem_map_of_mem _ h2)
      rw [h1] at hk; omega
    · have := hs.1 e1.1 (List.mem_map_of_mem _ h1)
      rw [h2] at hk; omega
    · exact ih hs.2 e1 h1 e2 h2 hk

theorem lookup_of_mem_sorted :
    ∀ (t : List (Nat × Nat)), (t.map Prod.fst).Pairwise (fun a b => a < b) →
      ∀ e ∈ t, radix_tree_lookup t e.1 = some e.2 := by
  intro t
  induction t with
  | nil => intro _ e h; simp at h
  | cons a t ih =>
    intro hs e he
    rw [List.map_cons, List.pairwise_cons] at hs
    rw [List.mem_cons] at he
    by_cases hk : a.1 = e.1
    · have hae : e = a := by
        rcases he with he | he
        · exact he
        · have := hs.1 e.1 (List.mem_map_of_mem _ he)
          omega
      subst hae
      simp [radix_tree_lookup, List.find?_cons]
    · rcases he with he | he
      · exact absurd (by rw [he]) hk
      · have := ih hs.2 e he
        unfold radix_tree_lookup at this ⊢
        rw [List.find?_cons]
        have hb : (a.1 == e.1) = false := by simpa using hk
        simpa [hb] using this

/-- C2: in every state reachable from `ceph_osdc_init` by the operations of the
client with fewer than 2^64 registrations, each of a request that is not in
the registry, no two registered requests share a tid (entries with equal
`r_tid` are the same entry, and no entry occurs twice), every registered
request is found under its own `r_tid`, and every registered tid is at most
`last_tid`. -/
theorem registered_tids_unique (D : Deps) (n : Nat) (s : ceph_osd_client)
    (hreach : Reach D n s) (hn : n < 2 ^ 64) :
    (∀ e1 ∈ s.request_tree, ∀ e2 ∈ s.request_tree,
      (s.reqs e1.2).r_tid = (s.reqs e2.2).r_tid → e1 = e2) ∧
    s.request_tree.Nodup ∧
    (∀ e ∈ s.request_tree, (s.reqs e.2).r_tid = e.1 ∧
      radix_tree_lookup s.request_tree (s.reqs e.2).r_tid = some e.2) ∧
    (∀ e ∈ s.request_tree, (s.reqs e.2).r_tid ≤ s.last_tid) := by
  have hi := (reach_inv D n s hreach hn).1
  refine ⟨?_, ?_, ?_, ?_⟩
  · intro e1 h1 e2 h2 h
    rw [hi.own_tid e1 h1, hi.own_tid e2 h2] at h
    exact sorted_keys_inj _ hi.sorted e1 h1 e2 h2 h
  · have : (s.request_tree.map Prod.fst).Nodup :=
      hi.sorted.imp (fun h => Nat.ne_of_lt h)
    exact List.Nodup.of_map _ this
  · intro e he
    refine ⟨hi.own_tid e he, ?_⟩
    rw [hi.own_tid e he]
    exact lookup_of_mem_sorted _ hi.sorted e he
  · intro e he
    rw [hi.own_tid e he]
    exact hi.le_last e he

theorem testClient1_reach : Reach testDeps 1 testClient1 :=
  Reach.step 0 testClient testClient1 (Op.register 7 false) (Reach.init _)
    (by intro e he; simp [testClient, ceph_osdc_init] at he) rfl

theorem twoReqClient_reach : Reach testDeps 2 twoReqClient :=
  Reach.step 1 testClient1 twoReqClient (Op.register 8 false) testClient1_reach
    (by
      intro e he
      have ht : testClient1.request_tree = [(1, 7)] := by decide
      rw [ht] at he
      simp only [List.mem_singleton] at he
      subst he
      decide) rfl

/-- C2 at the client with two registered requests, reached from
`ceph_osdc_init` by two registrations: the requests at the addresses 7 and 8
are indexed under the tids 1 and 2, which differ. -/
theorem registered_tids_unique_witness :
    Reach testDeps 2 twoReqClient ∧ 2 < 2 ^ 64 ∧ twoReqClient.request_tree = [(1, 7), (2, 8)] ∧
    ((twoReqClient.reqs 7).r_tid, (twoReqClient.reqs 8).r_tid, twoReqClient.last_tid) =
      (1, 2, 2) ∧
    ((∀ e1 ∈ twoReqClient.request_tree, ∀ e2 ∈ twoReqClient.request_tree,
      (twoReqClient.reqs e1.2).r_tid = (twoReqClient.reqs e2.2).r_tid → e1 = e2) ∧
    twoReqClient.request_tree.Nodup ∧
    (∀ e ∈ twoReqClient.request_tree, (twoReqClient.reqs e.2).r_tid = e.1 ∧
      radix_tree_lookup twoReqClient.request_tree (twoReqClient.reqs e.2).r_tid = some e.2) ∧
    (∀ e ∈ twoReqClient.request_tree, (twoReqClient.reqs e.2).r_tid ≤ twoReqClient.last_tid)) :=
  ⟨twoReqClient_reach, by norm_num, by decide, by decide,
    registered_tids_unique testDeps 2 twoReqClient twoReqClient_reach (by norm_num)⟩

/-! ### Effects of the resubmission walk -/

theorem sends_append (a b : List Event) : sends (a ++ b) = sends a ++ sends b := by
  induction a with
  | nil => rfl
  | cons e t ih => cases e <;> simp [sends, ih]

theorem upd_same {α : Type} (f : Nat → α) (p : Nat) (v : α) : upd f p v p = v := by
  simp [upd]

theorem upd_other {α : Type} (f : Nat → α) (p q : Nat) (v : α) (h : q ≠ p) :
    upd f p v q = f q := by
  simp [upd, h]

theorem or_retry_has_retry (D : Deps) (a : Nat) : has_retry D (a ||| D.CEPH_OSD_OP_RETRY) := by
  unfold has_retry
  apply Nat.eq_of_testBit_eq
  intro i
  simp only [Nat.testBit_land, Nat.testBit_lor]
  cases a.testBit i <;> cases D.CEPH_OSD_OP_RETRY.testBit i <;> rfl

theorem or_has_retry (D : Deps) (a b : Nat) (h : has_retry D b) : has_retry D (a ||| b) := by
  unfold has_retry at h ⊢
  apply Nat.eq_of_testBit_eq
  intro i
  have hi := congrArg (fun x => x.testBit i) h
  simp only [Nat.testBit_land, Nat.testBit_lor] at hi ⊢
  cases ha : a.testBit i <;> cases hb : b.testBit i <;>
    cases hr : D.CEPH_OSD_OP_RETRY.testBit i <;> simp_all

/-- What `send_request` does under the map `osdmap`: tree, map and the other
requests are kept; without an osd nothing is sent; with an osd the message of
the request is sent once, with `r_flags` ORed into its flags and the picked
osd as its destination. -/
theorem send_request_effect {D : Deps} {s s' : ceph_osd_client} {req : Nat} {rc : Int}
    (osdmap : ceph_osdmap) (hmap : s.osdmap = some osdmap)
    (h : send_request D s req = some (rc, s')) :
    s'.request_tree = s.request_tree ∧ s'.osdmap = s.osdmap ∧
    (∀ p, p ≠ req → s'.reqs p = s.reqs p) ∧
    (s'.reqs req).r_flags = (s.reqs req).r_flags ∧
    (s'.reqs req).r_ref = (s.reqs req).r_ref ∧
    (s'.reqs req).r_reply = (s.reqs req).r_reply ∧
    (s'.reqs req).r_request = (s.reqs req).r_request ∧
    (s'.reqs req).r_aborted = (s.reqs req).r_aborted ∧
    (pick_osd D osdmap (s.reqs req) < 0 → sends s'.trace = sends s.trace) ∧
    (¬ pick_osd D osdmap (s.reqs req) < 0 →
      sends s'.trace = sends s.trace ++
        [((s.reqs req).r_request, s'.msgs (s.reqs req).r_request)] ∧
      (s'.msgs (s.reqs req).r_request).front_flags =
        (s.msgs (s.reqs req).r_request).front_flags ||| (s.reqs req).r_flags ∧
      (s'.msgs (s.reqs req).r_request).hdr_dst_num = pick_osd D osdmap (s.reqs req) ∧
      (s'.msgs (s.reqs req).r_request).hdr_dst_addr =
        osd_addr_of osdmap (pick_osd D osdmap (s.reqs req)) ∧
      (s'.msgs (s.reqs req).r_request).hdr_dst_type = D.CEPH_ENTITY_TYPE_OSD ∧
      (s'.msgs (s.reqs req).r_request).front_osdmap_epoch = osdmap.epoch) := by
  unfold send_request at h
  rw [hmap] at h
  simp only at h
  split_ifs at h with hosd
  · simp only [Option.some.injEq, Prod.mk.injEq] at h
    rw [← h.2]
    refine ⟨rfl, rfl, fun _ _ => rfl, rfl, rfl, rfl, rfl, rfl, ?_, fun hn => absurd hosd hn⟩
    intro _
    simp [ceph_osd_client.log, sends_append, sends]
  · simp only [Option.some.injEq, Prod.mk.injEq] at h
    rw [← h.2]
    refine ⟨rfl, rfl, ?_, ?_, ?_, ?_, ?_, ?_, fun hn => absurd hn hosd,
      fun _ => ⟨?_, ?_, ?_, ?_, ?_, ?_⟩⟩
    · intro p hp
      simp [ceph_osd_client.log, ceph_osd_client.setReq, ceph_osd_client.setMsg, upd, hp]
    all_goals
      simp [ceph_osd_client.log, ceph_osd_client.setReq, ceph_osd_client.setMsg, upd,
        sends_append, sends]

theorem put_request_effect {s s' : ceph_osd_client} {req : Nat}
    (h : ceph_osdc_put_request s req = some s') :
    s'.request_tree = s.request_tree ∧ s'.osdmap = s.osdmap ∧
    (∀ p, p ≠ req → s'.reqs p = s.reqs p) ∧
    (s'.reqs req).r_flags = (s.reqs req).r_flags ∧
    (s'.reqs req).r_tid = (s.reqs req).r_tid ∧
    s'.msgs = s.msgs ∧
    sends s'.trace = sends s.trace ∧
    (s'.reqs req).r_aborted = (s.reqs req).r_aborted ∧
    (s'.reqs req).r_request = (s.reqs req).r_request := by
  unfold ceph_osdc_put_request at h
  simp only at h
  split_ifs at h
  · simp only [Option.some.injEq] at h
    rw [← h]
    refine ⟨rfl, rfl, ?_, ?_, ?_, rfl, ?_, ?_, ?_⟩
    · intro p hp
      simp [ceph_osd_client.logs, ceph_osd_client.setReq, upd, hp]
    · simp [ceph_osd_client.logs, ceph_osd_client.setReq, upd]
    · simp [ceph_osd_client.logs, ceph_osd_client.setReq, upd]
    · cases hr : (s.reqs req).r_reply <;>
        simp [ceph_osd_client.logs, ceph_osd_client.setReq, sends_append, sends, hr]
    · simp [ceph_osd_client.logs, ceph_osd_client.setReq, upd]
    · simp [ceph_osd_client.logs, ceph_osd_client.setReq, upd]
  · simp only [Option.some.injEq] at h
    rw [← h]
    refine ⟨rfl, rfl, ?_, ?_, ?_, rfl, rfl, ?_, ?_⟩
    · intro p hp
      simp [ceph_osd_client.setReq, upd, hp]
    all_goals simp [ceph_osd_client.setReq, upd]

theorem send_put_effect {D : Deps} {x s4 s3 : ceph_osd_client} {req : Nat} {rc : Int}
    (osdmap : ceph_osdmap)
    (hs4 : send_request D x req = some (rc, s4)) (hs3 : ceph_osdc_put_request s4 req = some s3)
    (hx : x.osdmap = some osdmap)
    (hge : ¬ pick_osd D osdmap (x.reqs req) < 0) :
    s3.request_tree = x.request_tree ∧ s3.osdmap = x.osdmap ∧
    (∀ p, p ≠ req → s3.reqs p = x.reqs p) ∧
    (s3.reqs req).r_tid = (x.reqs req).r_tid ∧
    (s3.reqs req).r_flags = (x.reqs req).r_flags ∧
    sends s3.trace = sends x.trace ++
      [((x.reqs req).r_request, s4.msgs (x.reqs req).r_request)] ∧
    (s4.msgs (x.reqs req).r_request).front_flags =
      (x.msgs (x.reqs req).r_request).front_flags ||| (x.reqs req).r_flags ∧
    (s4.msgs (x.reqs req).r_request).hdr_dst_num = pick_osd D osdmap (x.reqs req) ∧
    (s4.msgs (x.reqs req).r_request).hdr_dst_addr =
      osd_addr_of osdmap (pick_osd D osdmap (x.reqs req)) ∧
    (s3.reqs req).r_aborted = (x.reqs req).r_aborted ∧
    (s3.reqs req).r_request = (x.reqs req).r_request := by
  obtain ⟨p1, p2, p3, p4, p5, p6, p7, p8, p9⟩ := put_request_effect hs3
  obtain ⟨q1, q2, q3, q4, q5, q6, q7, q7a, q8, q9⟩ := send_request_effect osdmap hx hs4
  obtain ⟨r1, r2, r3, r4, r5, r6⟩ := q9 hge
  refine ⟨p1.trans q1, p2.trans q2, fun p hp => (p3 p hp).trans (q3 p hp), ?_, p4.trans q4,
    p7.trans r1, r2, r3, r4, p8.trans q7a, p9.trans q7⟩
  rw [p5]
  exact (send_request_frame hs4).tid req

/-- The pass of the loop of `kick_requests` over one request: what it leaves
in place, the send it makes (message address, destination osd and address)
when the condition `kick_resends` holds, and the increment of `needmap`. -/
theorem kick_one_effect {D : Deps} {who : Option ceph_entity_addr} {s s1 : ceph_osd_client}
    {req : Nat} {inc : Int} {osdmap : ceph_osdmap} (hmap : s.osdmap = some osdmap)
    (h : kick_one D who s req = some (s1, inc)) :
    ∃ out, KickEffect D s s1 req out ∧
      out.map send_target =
        (if kick_resends D osdmap who (s.reqs req) then
          [((s.reqs req).r_request, pick_osd D osdmap (s.reqs req),
            osd_addr_of osdmap (pick_osd D osdmap (s.reqs req)))]
        else []) ∧
      inc = (if pick_osd D osdmap (s.reqs req) < 0 ∨
        pick_osd D osdmap (s.reqs req) ≥ osdmap.max_osd then 1 else 0) := by
  unfold kick_one at h
  rw [hmap] at h
  simp only at h
  split_ifs at h with hosd hkick hab
  · simp only [Option.some.injEq, Prod.mk.injEq] at h
    refine ⟨[], ⟨?_, ?_, ?_, ?_, ?_, ?_, ⟨0, ?_⟩, ?_⟩, ?_, ?_⟩
    · rw [← h.1]; rfl
    · rw [← h.1]; rfl
    · intro p hp; rw [← h.1]; simp [ceph_osd_client.setReq, upd, hp]
    · rw [← h.1]; simp [ceph_osd_client.setReq, upd]
    · rw [← h.1]; simp [ceph_osd_client.setReq]
    · intro e he; simp at he
    · rw [← h.1]; simp [ceph_osd_client.setReq, upd]
    · rw [← h.1]; simp [ceph_osd_client.setReq, upd]
    · have : kick_resends D osdmap who (s.reqs req) = false := by
        unfold kick_resends
        rw [decide_eq_false_iff_not]
        intro hc
        rcases hosd with h1 | h1 <;> omega
      simp [this]
    · rw [if_pos hosd]; exact h.2.symm
  · split at h
    · exact absurd h (by simp)
    · rename_i s2 hs2
      split at h
      · exact absurd h (by simp)
      · rename_i s3 hs3
        simp only [Option.some.injEq, Prod.mk.injEq] at h hs2
        obtain ⟨p1, p2, p3, p4, p5, p6, p7, p8, p9⟩ := put_request_effect hs3
        have hab0 : (s.reqs req).r_aborted = true := by
          simpa [get_request, ceph_osd_client.log, ceph_osd_client.setReq, upd] using hab
        refine ⟨[], ⟨?_, ?_, ?_, ?_, ?_, ?_, ⟨0, ?_⟩, ⟨?_, ?_⟩⟩, ?_, ?_⟩
        · rw [← h.1]; show s3.request_tree = _; rw [p1, ← hs2]; rfl
        · rw [← h.1]; show s3.osdmap = _; rw [p2, ← hs2]; rfl
        · intro p hp; rw [← h.1]; show s3.reqs p = _; rw [p3 p hp, ← hs2]
          simp [get_request, ceph_osd_client.log, ceph_osd_client.setReq, upd, hp]
        · rw [← h.1]; show (s3.reqs req).r_tid = _; rw [p5, ← hs2]
          simp [get_request, ceph_osd_client.log, ceph_osd_client.setReq, upd]
        · rw [← h.1]; show sends (s3.trace ++ _) = _; rw [sends_append, p7, ← hs2]
          simp [get_request, ceph_osd_client.log, ceph_osd_client.setReq, sends_append, sends]
        · intro e he; simp at he
        · rw [← h.1]; show (s3.reqs req).r_flags = _; rw [p4, ← hs2]
          simp [get_request, ceph_osd_client.log, ceph_osd_client.setReq, upd]
        · rw [← h.1]; show (s3.reqs req).r_aborted = _; rw [p8, ← hs2]
          simp [get_request, ceph_osd_client.log, ceph_osd_client.setReq, upd]
        · rw [← h.1]; show (s3.reqs req).r_request = _; rw [p9, ← hs2]
          simp [get_request, ceph_osd_client.log, ceph_osd_client.setReq, upd]
        · have : kick_resends D osdmap who (s.reqs req) = false := by
            unfold kick_resends
            rw [decide_eq_false_iff_not]
            intro hc
            rw [hab0] at hc
            exact absurd hc.2.2.2 (by simp)
          simp [this]
        · rw [if_neg hosd]; exact h.2.symm
  · split at h
    · exact absurd h (by simp)
    · rename_i s2 hs2
      split at h
      · exact absurd h (by simp)
      · rename_i s3 hs3
        simp only [Option.some.injEq, Prod.mk.injEq] at h
        rw [Option.map_eq_some'] at hs2
        obtain ⟨⟨rc, s4⟩, hs4, hs42⟩ := hs2
        simp only at hs42
        subst hs42
        have hab0 : (s.reqs req).r_aborted = false := by
          simpa [get_request, ceph_osd_client.log, ceph_osd_client.setReq, upd] using hab
        have hge : ¬ pick_osd D osdmap (s.reqs req) < 0 := fun hc => hosd (Or.inl hc)
        have key := send_put_effect osdmap hs4 hs3
        simp only [get_request, ceph_osd_client.log, ceph_osd_client.setReq, upd, if_true,
          hmap, pick_osd_spec] at key
        rw [pick_osd_spec] at hge
        obtain ⟨k1, k2, k3, k4, k5, k6, k7, k8, k9, k10, k11⟩ := key trivial hge
        refine ⟨[((s.reqs req).r_request, s4.msgs (s.reqs req).r_request)],
          ⟨?_, ?_, ?_, ?_, ?_, ?_, ⟨D.CEPH_OSD_OP_RETRY, ?_⟩, ⟨?_, ?_⟩⟩, ?_, ?_⟩
        · rw [← h.1]; exact k1
        · rw [← h.1]; exact k2.trans hmap.symm
        · intro p hp; rw [← h.1]; show s3.reqs p = _; rw [k3 p hp]; simp [hp]
        · rw [← h.1]; exact k4
        · rw [← h.1]; show sends (s3.trace ++ _) = _; rw [sends_append, k6]
          simp [sends_append, sends]
        · intro e he
          simp only [List.mem_singleton] at he
          subst he
          refine ⟨?_, ?_⟩
          · show has_retry D (s4.msgs (s.reqs req).r_request).front_flags
            rw [k7]
            exact or_has_retry D _ _ (or_retry_has_retry D _)
          · rw [← h.1]; show has_retry D (s3.reqs req).r_flags
            rw [k5]
            exact or_retry_has_retry D _
        · rw [← h.1]; exact k5
        · rw [← h.1]; exact k10
        · rw [← h.1]; exact k11
        · have : kick_resends D osdmap who (s.reqs req) = true := by
            unfold kick_resends
            rw [decide_eq_true_iff]
            refine ⟨by omega, by omega, hkick, hab0⟩
          simp [this, k8, k9, pick_osd_spec, send_target]
        · rw [if_neg hosd]; exact h.2.symm
  · simp only [Option.some.injEq, Prod.mk.injEq] at h
    refine ⟨[], ⟨?_, ?_, ?_, ?_, ?_, ?_, ⟨0, ?_⟩, ?_⟩, ?_, ?_⟩
    · rw [← h.1]
    · rw [← h.1]
    · intro p hp; rw [← h.1]
    · rw [← h.1]
    · rw [← h.1]; simp
    · intro e he; simp at he
    · rw [← h.1]; simp
    · rw [← h.1]; exact ⟨rfl, rfl⟩
    · have : kick_resends D osdmap who (s.reqs req) = false := by
        unfold kick_resends
        rw [decide_eq_false_iff_not]
        intro hc
        exact hkick hc.2.2.1
      simp [this]
    · rw [if_neg hosd]; exact h.2.symm

theorem kick_one_total (D : Deps) (who : Option ceph_entity_addr) {s : ceph_osd_client}
    {req : Nat} {osdmap : ceph_osdmap} (hmap : s.osdmap = some osdmap)
    (href : 0 ≤ (s.reqs req).r_ref) : ∃ s1 inc, kick_one D who s req = some (s1, inc) := by
  unfold kick_one
  rw [hmap]
  simp only
  split_ifs with hosd hkick hab
  · exact ⟨_, _, rfl⟩
  · have : ∃ s3, ceph_osdc_put_request (((get_request s req).log Event.mutex_unlock).log
        (Event.msg_maybe_dup (s.reqs req).r_request)) req = some s3 := by
      unfold ceph_osdc_put_request
      simp only [get_request, ceph_osd_client.log, ceph_osd_client.setReq, upd, if_true]
      have : ¬ (s.reqs req).r_ref + 1 ≤ 0 := by omega
      simp only [this, if_false]
      split_ifs <;> exact ⟨_, rfl⟩
    obtain ⟨s3, h3⟩ := this
    simp only [h3]
    exact ⟨_, _, rfl⟩
  · have hsend : ∃ rc s4, send_request D
        ((((get_request s req).log Event.mutex_unlock).log
          (Event.msg_maybe_dup (s.reqs req).r_request)).setReq req
          { ((((get_request s req).log Event.mutex_unlock).log
              (Event.msg_maybe_dup (s.reqs req).r_request)).reqs req) with
            r_flags := ((((get_request s req).log Event.mutex_unlock).log
              (Event.msg_maybe_dup (s.reqs req).r_request)).reqs req).r_flags |||
                D.CEPH_OSD_OP_RETRY }) req = some (rc, s4) := by
      unfold send_request
      simp only [get_request, ceph_osd_client.log, ceph_osd_client.setReq, hmap]
      split_ifs <;> exact ⟨_, _, rfl⟩
    obtain ⟨rc, s4, h4⟩ := hsend
    have h4ref : (s4.reqs req).r_ref = (s.reqs req).r_ref + 1 := by
      have := (send_request_effect osdmap (by
        simp [get_request, ceph_osd_client.log, ceph_osd_client.setReq, hmap]) h4).2.2.2.2.1
      rw [this]
      simp [get_request, ceph_osd_client.log, ceph_osd_client.setReq, upd]
    have : ∃ s3, ceph_osdc_put_request s4 req = some s3 := by
      unfold ceph_osdc_put_request
      have : ¬ (s4.reqs req).r_ref ≤ 0 := by omega
      simp only [this, if_false]
      split_ifs <;> exact ⟨_, rfl⟩
    obtain ⟨s3, h3⟩ := this
    simp only [h4, Option.map_some', h3]
    exact ⟨_, _, rfl⟩
  · exact ⟨_, _, rfl⟩

theorem gang_lookup_mem {t : List (Nat × Nat)} {i req : Nat}
    (h : radix_tree_gang_lookup t i = some req) : ∃ e ∈ t, e.2 = req ∧ i ≤ e.1 := by
  unfold radix_tree_gang_lookup at h
  rw [Option.map_eq_some'] at h
  obtain ⟨e, he, rfl⟩ := h
  refine ⟨e, List.mem_of_find?_eq_some he, rfl, ?_⟩
  have := List.find?_some he
  simpa using this

theorem gang_lookup_append (pre suf : List (Nat × Nat)) (i : Nat)
    (h : ∀ e ∈ pre, e.1 < i) :
    radix_tree_gang_lookup (pre ++ suf) i = radix_tree_gang_lookup suf i := by
  unfold radix_tree_gang_lookup
  rw [List.find?_append]
  have : List.find? (fun e => decide (i ≤ e.1)) pre = none := by
    rw [List.find?_eq_none]
    intro e he
    have := h e he
    simp only [decide_eq_true_eq]
    omega
  rw [this]
  rfl

theorem has_retry_or_right (D : Deps) (a x : Nat) (h : has_retry D a) : has_retry D (a ||| x) := by
  rw [Nat.lor_comm]
  exact or_has_retry D x a h

theorem kick_one_out {D : Deps} {who : Option ceph_entity_addr} {s s1 : ceph_osd_client}
    {req : Nat} {inc : Int} (h : kick_one D who s req = some (s1, inc)) :
    ∃ osdmap out, s.osdmap = some osdmap ∧ KickEffect D s s1 req out ∧
      out.map send_target = (if kick_resends D osdmap who (s.reqs req) then
          [((s.reqs req).r_request, pick_osd D osdmap (s.reqs req),
            osd_addr_of osdmap (pick_osd D osdmap (s.reqs req)))]
        else []) ∧
      (∀ e ∈ out, e.1 = (s.reqs req).r_request ∧ (s.reqs req).r_aborted = false) := by
  cases hmap : s.osdmap with
  | none => simp [kick_one, hmap] at h
  | some osdmap =>
    obtain ⟨out, he, hout, _⟩ := kick_one_effect hmap h
    refine ⟨osdmap, out, rfl, he, hout, ?_⟩
    intro e hmem
    by_cases hk : kick_resends D osdmap who (s.reqs req) = true
    · rw [if_pos hk] at hout
      have hm : send_target e ∈ out.map send_target := List.mem_map_of_mem _ hmem
      rw [hout, List.mem_singleton] at hm
      refine ⟨congrArg Prod.fst hm, ?_⟩
      unfold kick_resends at hk
      rw [decide_eq_true_iff] at hk
      exact hk.2.2.2
    · rw [if_neg hk] at hout
      have : out = [] := List.map_eq_nil_iff.mp hout
      rw [this] at hmem
      simp at hmem

/-- What a walk of `kick_requests` that returns has done, for any client:
tree and map are kept, every send carries RETRY and is the message of a
registered request that is not aborted and ends with RETRY in its flags. -/
theorem kick_loop_info (D : Deps) (who : Option ceph_entity_addr) :
    ∀ (fuel : Nat) (s : ceph_osd_client) (next_tid : Nat) (needmap : Int)
      (s' : ceph_osd_client) (n' : Int),
      kick_loop D who fuel s next_tid needmap = some (s', n') →
      s'.request_tree = s.request_tree ∧ s'.osdmap = s.osdmap ∧
      (∀ p, (s'.reqs p).r_aborted = (s.reqs p).r_aborted ∧
        (s'.reqs p).r_request = (s.reqs p).r_request) ∧
      ∃ new, sends s'.trace = sends s.trace ++ new ∧
        ∀ e ∈ new, has_retry D e.2.front_flags ∧
          ∃ req, req ∈ s.request_tree.map Prod.snd ∧ e.1 = (s.reqs req).r_request ∧
            (s.reqs req).r_aborted = false ∧ has_retry D (s'.reqs req).r_flags := by
  intro fuel
  induction fuel with
  | zero => intro s next_tid needmap s' n' h; simp [kick_loop] at h
  | succ n ih =>
    intro s next_tid needmap s' n' h
    unfold kick_loop at h
    split at h
    · simp only [Option.some.injEq, Prod.mk.injEq] at h
      rw [← h.1]
      exact ⟨rfl, rfl, fun _ => ⟨rfl, rfl⟩, [], by simp, by simp⟩
    · rename_i req hreq
      split at h
      · exact absurd h (by simp)
      · rename_i s1 inc h1
        obtain ⟨osdmap, out, hmap, he, _, hout⟩ := kick_one_out h1
        obtain ⟨i1, i2, i3, new, i4, i5⟩ := ih _ _ _ _ _ h
        have hsame : ∀ p, (s1.reqs p).r_aborted = (s.reqs p).r_aborted ∧
            (s1.reqs p).r_request = (s.reqs p).r_request := by
          intro p
          by_cases hp : p = req
          · subst hp; exact he.same
          · rw [he.reqs p hp]; exact ⟨rfl, rfl⟩
        have hfl := (kick_loop_frame D who _ _ _ _ _ _ h).flags
        refine ⟨i1.trans he.tree, i2.trans he.map, ?_, out ++ new, ?_, ?_⟩
        · intro p
          exact ⟨(i3 p).1.trans (hsame p).1, (i3 p).2.trans (hsame p).2⟩
        · rw [i4, he.sent, List.append_assoc]
        · intro e hmem
          rw [List.mem_append] at hmem
          rcases hmem with hmem | hmem
          · obtain ⟨e1, e2⟩ := hout e hmem
            obtain ⟨g, _, hg⟩ := gang_lookup_mem hreq
            refine ⟨(he.retry e hmem).1, req, ?_, e1, e2, ?_⟩
            · rw [← hg.1]; exact List.mem_map_of_mem _ (by assumption)
            · obtain ⟨x, hx⟩ := hfl req
              rw [hx]
              exact has_retry_or_right D _ _ (he.retry e hmem).2
          · obtain ⟨j1, r, j2, j3, j4, j5⟩ := i5 e hmem
            refine ⟨j1, r, ?_, ?_, ?_, j5⟩
            · rw [he.tree] at j2; exact j2
            · rw [j3, (hsame r).2]
            · rw [← (hsame r).1]; exact j4

theorem kick_expected_cons (D : Deps) (osdmap : ceph_osdmap) (who : Option ceph_entity_addr)
    (reqs : Nat → ceph_osd_request) (e : Nat × Nat) (t : List (Nat × Nat)) :
    kick_expected D osdmap who reqs (e :: t) =
      (if kick_resends D osdmap who (reqs e.2) then
        [((reqs e.2).r_request, pick_osd D osdmap (reqs e.2),
          osd_addr_of osdmap (pick_osd D osdmap (reqs e.2)))]
      else []) ++ kick_expected D osdmap who reqs t := by
  unfold kick_expected
  by_cases h : kick_resends D osdmap who (reqs e.2) = true
  · simp [List.filter_cons, h]
  · simp [List.filter_cons, h]

theorem kick_unmapped_cons (D : Deps) (osdmap : ceph_osdmap)
    (reqs : Nat → ceph_osd_request) (e : Nat × Nat) (t : List (Nat × Nat)) :
    kick_unmapped D osdmap reqs (e :: t) =
      (if pick_osd D osdmap (reqs e.2) < 0 ∨ pick_osd D osdmap (reqs e.2) ≥ osdmap.max_osd
        then 1 else 0) + kick_unmapped D osdmap reqs t := by
  unfold kick_unmapped
  by_cases h : pick_osd D osdmap (reqs e.2) < 0 ∨ pick_osd D osdmap (reqs e.2) ≥ osdmap.max_osd
  · simp only [List.filter_cons, h, decide_True, if_true, List.length_cons]
    push_cast
    ring
  · simp only [List.filter_cons, h, decide_False, if_false]
    simp

/-- The walk of `kick_requests` over a well-formed registry: it ends, and it
sends exactly the expected resends of the part of the tree not yet visited, in
the order of the tree. -/
theorem kick_loop_walk (D : Deps) (who : Option ceph_entity_addr) (osdmap : ceph_osdmap)
    (s0 : ceph_osd_client)
    (hsorted : (s0.request_tree.map Prod.fst).Pairwise (fun a b => a < b))
    (hown : ∀ e ∈ s0.request_tree, (s0.reqs e.2).r_tid = e.1)
    (hwf : ∀ e ∈ s0.request_tree, e.1 + 1 < U64 ∧ 0 < (s0.reqs e.2).r_ref) :
    ∀ (suf pre : List (Nat × Nat)) (s : ceph_osd_client) (next_tid : Nat) (needmap : Int)
      (fuel : Nat),
      s0.request_tree = pre ++ suf →
      s.request_tree = s0.request_tree → s.osdmap = some osdmap →
      (∀ e ∈ suf, s.reqs e.2 = s0.reqs e.2) →
      (∀ e ∈ pre, e.1 < next_tid) → (∀ e ∈ suf, next_tid ≤ e.1) →
      suf.length < fuel →
      ∃ s' n', kick_loop D who fuel s next_tid needmap = some (s', n') ∧
        s'.request_tree = s0.request_tree ∧ s'.osdmap = some osdmap ∧
        (sends s'.trace).map send_target =
          (sends s.trace).map send_target ++ kick_expected D osdmap who s0.reqs suf ∧
        n' = needmap + kick_unmapped D osdmap s0.reqs suf := by
  intro suf
  induction suf with
  | nil =>
    intro pre s next_tid needmap fuel hsplit htree hmap _ hpre _ hfuel
    obtain ⟨f, rfl⟩ : ∃ f, fuel = f + 1 := ⟨fuel - 1, by simp at hfuel; omega⟩
    have hl : radix_tree_gang_lookup s.request_tree next_tid = none := by
      rw [htree, hsplit, gang_lookup_append _ _ _ hpre]
      rfl
    refine ⟨s, needmap, ?_, htree, hmap, ?_, ?_⟩
    · unfold kick_loop
      rw [hl]
    · simp [kick_expected]
    · simp [kick_unmapped]
  | cons e suf ih =>
    intro pre s next_tid needmap fuel hsplit htree hmap hreqs hpre hsuf hfuel
    obtain ⟨f, rfl⟩ : ∃ f, fuel = f + 1 := ⟨fuel - 1, by simp at hfuel; omega⟩
    have hemem : e ∈ s0.request_tree := by rw [hsplit]; simp
    have hl : radix_tree_gang_lookup s.request_tree next_tid = some e.2 := by
      rw [htree, hsplit, gang_lookup_append _ _ _ hpre]
      have := hsuf e (List.mem_cons_self _ _)
      simp [radix_tree_gang_lookup, List.find?_cons, this]
    have hre : s.reqs e.2 = s0.reqs e.2 := hreqs e (List.mem_cons_self _ _)
    obtain ⟨s1, inc, h1⟩ := kick_one_total D who hmap
      (show 0 ≤ (s.reqs e.2).r_ref by rw [hre]; exact le_of_lt (hwf e hemem).2)
    obtain ⟨out, he, hout, hinc⟩ := kick_one_effect hmap h1
    have hlt : ∀ x ∈ suf, e.1 < x.1 := by
      intro x hx
      rw [hsplit, List.map_append, List.pairwise_append] at hsorted
      have := hsorted.2.1
      rw [List.map_cons, List.pairwise_cons] at this
      exact this.1 x.1 (List.mem_map_of_mem _ hx)
    have hnext : ((s.reqs e.2).r_tid + 1) % U64 = e.1 + 1 := by
      rw [hre, hown e hemem]
      exact Nat.mod_eq_of_lt (hwf e hemem).1
    obtain ⟨s', n', k1, k2, k3, k4, k5⟩ := ih (pre ++ [e]) s1 (e.1 + 1) (needmap + inc) f
      (by rw [hsplit]; simp) (he.tree.trans htree) (he.map.trans hmap)
      (by
        intro x hx
        have hxm : x ∈ s0.request_tree := by rw [hsplit]; simp [hx]
        have hne : x.2 ≠ e.2 := by
          intro hc
          have h1 := hown x hxm
          have h2 := hown e hemem
          rw [hc, h2] at h1
          have := hlt x hx
          omega
        rw [he.reqs x.2 hne]
        exact hreqs x (List.mem_cons_of_mem _ hx))
      (by
        intro x hx
        rw [List.mem_append, List.mem_singleton] at hx
        rcases hx with hx | hx
        · have := hpre x hx
          have := hsuf e (List.mem_cons_self _ _)
          omega
        · rw [hx]; omega)
      (by
        intro x hx
        have := hlt x hx
        omega)
      (by simp at hfuel; omega)
    refine ⟨s', n', ?_, k2, k3, ?_, ?_⟩
    · unfold kick_loop
      rw [hl]
      simp only [h1, hnext]
      exact k1
    · rw [k4, he.sent, List.map_append, hout, kick_expected_cons, hre, List.append_assoc]
    · rw [k5, hinc, kick_unmapped_cons, hre]
      ring

theorem kick_requests_info {D : Deps} {s s' : ceph_osd_client} {who : Option ceph_entity_addr}
    (h : kick_requests D s who = some s') :
    s'.request_tree = s.request_tree ∧ s'.osdmap = s.osdmap ∧
    ∃ new, sends s'.trace = sends s.trace ++ new ∧
      ∀ e ∈ new, has_retry D e.2.front_flags ∧
        ∃ req, req ∈ s.request_tree.map Prod.snd ∧ e.1 = (s.reqs req).r_request ∧
          (s.reqs req).r_aborted = false ∧ has_retry D (s'.reqs req).r_flags := by
  unfold kick_requests at h
  simp only at h
  split at h
  · exact absurd h (by simp)
  · rename_i s1 needmap hk
    obtain ⟨i1, i2, i3, new, i4, i5⟩ := kick_loop_info D who _ _ _ _ _ _ hk
    have hs : sends s1.trace = sends s.trace ++ new := by
      rw [i4]; simp [ceph_osd_client.log, sends_append, sends]
    split_ifs at h
    · split at h
      · exact absurd h (by simp)
      · simp only [Option.some.injEq] at h
        rw [← h]
        refine ⟨i1, i2, new, ?_, i5⟩
        simp [ceph_osd_client.log, sends_append, sends, hs]
    · simp only [Option.some.injEq] at h
      rw [← h]
      refine ⟨i1, i2, new, ?_, i5⟩
      simp [ceph_osd_client.log, sends_append, sends, hs]

theorem register_request_keeps {D : Deps} {s s' : ceph_osd_client} {req : Nat} {nomem : Bool}
    {rc : Int} (h : register_request D s req nomem = some (rc, s')) :
    (∀ m, (s'.msgs m).front_flags = (s.msgs m).front_flags) ∧
    (∀ p, (s'.reqs p).r_request = (s.reqs p).r_request) ∧
    sends s'.trace = sends s.trace ∧ s'.osdmap = s.osdmap := by
  unfold register_request at h
  simp only at h
  have hm : ∀ (m t : Nat) (req : Nat), ((upd (s.log Event.mutex_lock).msgs
      ((upd (s.log Event.mutex_lock).reqs req
        { (s.log Event.mutex_lock).reqs req with r_tid := t }) req).r_request
      { (s.log Event.mutex_lock).msgs
          ((upd (s.log Event.mutex_lock).reqs req
            { (s.log Event.mutex_lock).reqs req with r_tid := t }) req).r_request with
        front_tid := t }) m).front_flags = (s.msgs m).front_flags := by
    intro m t req
    simp only [upd, if_true, ceph_osd_client.log]
    split_ifs with hc
    · rw [hc]
    · rfl
  have hr : ∀ (p t : Nat), ((upd (s.log Event.mutex_lock).reqs req
      { (s.log Event.mutex_lock).reqs req with r_tid := t }) p).r_request =
      (s.reqs p).r_request := by
    intro p t
    by_cases hp : p = req
    · subst hp; simp [upd, ceph_osd_client.log]
    · simp [upd, hp, ceph_osd_client.log]
  have hr2 : ∀ (p : Nat) (f : Nat → ceph_osd_request) (v : Int),
      (∀ q, (f q).r_request = (s.reqs q).r_request) →
      ((upd f req { f req with r_ref := v }) p).r_request = (s.reqs p).r_request := by
    intro p f v hf
    by_cases hp : p = req
    · subst hp; simpa [upd] using hf p
    · simpa [upd, hp] using hf p
  split_ifs at h
  · simp only [Option.some.injEq, Prod.mk.injEq] at h
    rw [← h.2]
    refine ⟨fun m => hm m _ req, fun p => hr p _, ?_, rfl⟩
    simp [ceph_osd_client.log, ceph_osd_client.setReq, ceph_osd_client.setMsg, sends_append,
      sends]
  · split at h
    · exact absurd h (by simp)
    · rename_i s5 h5
      obtain ⟨e, he⟩ := reschedule_timeout_eq h5
      simp only [Option.some.injEq, Prod.mk.injEq] at h
      rw [← h.2, he]
      refine ⟨fun m => hm m _ req, fun p => hr2 p _ _ (fun q => hr q _), ?_, rfl⟩
      simp [ceph_osd_client.log, ceph_osd_client.setReq, ceph_osd_client.setMsg, sends_append,
        sends, get_request]
  · simp only [Option.some.injEq, Prod.mk.injEq] at h
    rw [← h.2]
    refine ⟨fun m => hm m _ req, fun p => hr2 p _ _ (fun q => hr q _), ?_, rfl⟩
    simp [ceph_osd_client.log, ceph_osd_client.setReq, ceph_osd_client.setMsg, sends_append,
      sends, get_request]

/-- Every operation keeps an aborted request aborted and only ORs into `r_flags`. -/
theorem run_keeps {D : Deps} {s s' : ceph_osd_client} {op : Op} (h : run D s op = some s') :
    (∀ p, (s.reqs p).r_aborted = true → (s'.reqs p).r_aborted = true) ∧
    (∀ p, ∃ x, (s'.reqs p).r_flags = (s.reqs p).r_flags ||| x) := by
  by_cases h0 : op.registrations = 0
  · exact ⟨(run_frame h0 h).aborted, (run_frame h0 h).flags⟩
  · cases op with
    | register req nomem =>
      simp only [run, Option.map_eq_some'] at h
      obtain ⟨⟨rc, s1⟩, h1, rfl⟩ := h
      have hs := register_request_step h1
      exact ⟨fun p hp => by rw [(hs.aborted p).1]; exact hp,
        fun p => ⟨0, by rw [(hs.aborted p).2]; exact (Nat.or_zero _).symm⟩⟩
    | start req nomem =>
      simp only [run, Option.map_eq_some'] at h
      obtain ⟨⟨rc, s1⟩, h1, rfl⟩ := h
      obtain ⟨s2, hreg, hfr⟩ := start_request_steps h1
      refine ⟨fun p hp => hfr.aborted p (by rw [(hreg.aborted p).1]; exact hp), fun p => ?_⟩
      obtain ⟨x, hx⟩ := hfr.flags p
      exact ⟨x, by rw [hx, (hreg.aborted p).2]⟩
    | _ => exact absurd rfl h0

/-! ### Resubmission: the claims -/

theorem kick_loop_wraps (D : Deps) (who : Option ceph_entity_addr) (p : Nat) :
    ∀ (fuel : Nat) (s : ceph_osd_client) (n : Int),
      s.request_tree = [(U64 - 1, p)] → (s.reqs p).r_tid = U64 - 1 →
      kick_loop D who fuel s 0 n = none := by
  intro fuel
  induction fuel with
  | zero => intro s n _ _; rfl
  | succ f ih =>
    intro s n htree htid
    unfold kick_loop
    have hl : radix_tree_gang_lookup s.request_tree 0 = some p := by
      rw [htree]; simp [radix_tree_gang_lookup]
    rw [hl]
    simp only
    cases h1 : kick_one D who s p with
    | none => rfl
    | some r =>
      obtain ⟨s1, inc⟩ := r
      obtain ⟨_, _, _, he, _, _⟩ := kick_one_out h1
      have hz : ((s.reqs p).r_tid + 1) % U64 = 0 := by
        rw [htid]; decide
      simp only [hz]
      exact ih s1 _ (he.tree.trans htree) (he.tid.trans htid)

theorem send_request_keeps_retry {D : Deps} {s s' : ceph_osd_client} {req : Nat} {rc : Int}
    (h : send_request D s req = some (rc, s')) (hr : has_retry D (s.reqs req).r_flags) :
    ∃ new, sends s'.trace = sends s.trace ++ new ∧ ∀ e ∈ new, has_retry D e.2.front_flags := by
  cases hmap : s.osdmap with
  | none => simp [send_request, hmap] at h
  | some osdmap =>
    obtain ⟨_, _, _, _, _, _, _, _, q8, q9⟩ := send_request_effect osdmap hmap h
    by_cases hosd : pick_osd D osdmap (s.reqs req) < 0
    · exact ⟨[], by rw [q8 hosd]; simp, by simp⟩
    · obtain ⟨r1, r2, _⟩ := q9 hosd
      refine ⟨_, r1, ?_⟩
      intro e he
      rw [List.mem_singleton] at he
      subst he
      show has_retry D (s'.msgs (s.reqs req).r_request).front_flags
      rw [r2]
      exact or_has_retry D _ _ hr

theorem start_request_first_send {D : Deps} {s s' : ceph_osd_client} {req : Nat} {nomem : Bool}
    {rc : Int} (hf : (s.reqs req).r_flags = 0)
    (hm : (s.msgs (s.reqs req).r_request).front_flags &&& D.CEPH_OSD_OP_RETRY = 0)
    (h : start_request D s req nomem = some (rc, s')) :
    ∃ new, sends s'.trace = sends s.trace ++ new ∧
      ∀ e ∈ new, e.2.front_flags &&& D.CEPH_OSD_OP_RETRY = 0 := by
  unfold start_request at h
  split at h
  · exact absurd h (by simp)
  · rename_i rc1 s1 hreg
    obtain ⟨g1, g2, g3, g4⟩ := register_request_keeps hreg
    have hfl := ((register_request_step hreg).aborted req).2
    split_ifs at h
    · simp only [Option.some.injEq, Prod.mk.injEq] at h
      rw [← h.2]
      exact ⟨[], by rw [g3]; simp, by simp⟩
    · split at h
      · exact absurd h (by simp)
      · rename_i rc2 s2 hsend
        simp only [Option.some.injEq, Prod.mk.injEq] at h
        rw [← h.2]
        cases hmap : s1.osdmap with
        | none => simp [send_request, ceph_osd_client.log, hmap] at hsend
        | some osdmap =>
          obtain ⟨_, _, _, _, _, _, _, _, q8, q9⟩ :=
            send_request_effect osdmap (show (s1.log Event.down_read).osdmap = _ from hmap) hsend
          have hs1 : sends (s1.log Event.down_read).trace = sends s.trace := by
            rw [← g3]; simp [ceph_osd_client.log, sends_append, sends]
          by_cases hosd : pick_osd D osdmap ((s1.log Event.down_read).reqs req) < 0
          · refine ⟨[], ?_, by simp⟩
            have := q8 hosd
            simp only [ceph_osd_client.log, sends_append, sends, List.append_nil] at this hs1 ⊢
            rw [this, hs1]
          · obtain ⟨r1, r2, _⟩ := q9 hosd
            refine ⟨[(((s1.log Event.down_read).reqs req).r_request,
              s2.msgs ((s1.log Event.down_read).reqs req).r_request)], ?_, ?_⟩
            · have : sends (s2.log Event.up_read).trace = sends s2.trace := by
                simp [ceph_osd_client.log, sends_append, sends]
              rw [this, r1, hs1]
            · intro e he
              rw [List.mem_singleton] at he
              subst he
              show (s2.msgs ((s1.log Event.down_read).reqs req).r_request).front_flags &&& _ = 0
              rw [r2]
              show ((s1.msgs (s1.reqs req).r_request).front_flags ||| (s1.reqs req).r_flags)
                &&& _ = 0
              rw [hfl, hf, g2 req, g1, Nat.or_zero, hm]

/-- C5: every send made by `kick_requests` has the RETRY bit set in the
outgoing header and leaves it set in `r_flags` of the request it resends; no
operation of the client clears the bit in `r_flags`, and a send of a request
whose `r_flags` hold the bit carries it in the header; the send made by
`start_request` for a request with `r_flags = 0` whose header flags do not
hold RETRY leaves the bit clear in the outgoing header. -/
theorem retry_marking (D : Deps) :
    (∀ (s s' : ceph_osd_client) (who : Option ceph_entity_addr),
      kick_requests D s who = some s' →
      ∃ new, sends s'.trace = sends s.trace ++ new ∧
        ∀ e ∈ new, has_retry D e.2.front_flags ∧
          ∃ req, req ∈ s.request_tree.map Prod.snd ∧ e.1 = (s.reqs req).r_request ∧
            has_retry D (s'.reqs req).r_flags) ∧
    (∀ (s s' : ceph_osd_client) (op : Op) (p : Nat), run D s op = some s' →
      has_retry D (s.reqs p).r_flags → has_retry D (s'.reqs p).r_flags) ∧
    (∀ (s s' : ceph_osd_client) (req : Nat) (rc : Int), send_request D s req = some (rc, s') →
      has_retry D (s.reqs req).r_flags →
      ∃ new, sends s'.trace = sends s.trace ++ new ∧ ∀ e ∈ new, has_retry D e.2.front_flags) ∧
    (∀ (s s' : ceph_osd_client) (req : Nat) (nomem : Bool) (rc : Int),
      (s.reqs req).r_flags = 0 →
      (s.msgs (s.reqs req).r_request).front_flags &&& D.CEPH_OSD_OP_RETRY = 0 →
      start_request D s req nomem = some (rc, s') →
      ∃ new, sends s'.trace = sends s.trace ++ new ∧
        ∀ e ∈ new, e.2.front_flags &&& D.CEPH_OSD_OP_RETRY = 0) := by
  refine ⟨?_, ?_, ?_, ?_⟩
  · intro s s' who h
    obtain ⟨_, _, new, h1, h2⟩ := kick_requests_info h
    refine ⟨new, h1, ?_⟩
    intro e he
    obtain ⟨a, req, b, c, _, d⟩ := h2 e he
    exact ⟨a, req, b, c, d⟩
  · intro s s' op p h hr
    obtain ⟨x, hx⟩ := (run_keeps h).2 p
    rw [hx]
    exact has_retry_or_right D _ _ hr
  · intro s s' req rc h hr
    exact send_request_keeps_retry h hr
  · intro s s' req nomem rc hf hm h
    exact start_request_first_send hf hm h

/-- C5 on concrete clients: the resend of the registered request of
`kickClient` carries the flags word 8 (RETRY), the first send of a new request
through `start_request` carries the flags word 0. -/
theorem retry_marking_witness :
    (kick_requests testDeps kickClient none).map
      (fun s => (sends s.trace).map (fun e => e.2.front_flags)) = some [8] ∧
    (start_request testDeps { testClient with osdmap := some testMap } 7 false).map
      (fun r => (sends r.2.trace).map (fun e => e.2.front_flags)) = some [0] ∧
    (∀ (s s' : ceph_osd_client) (req : Nat) (rc : Int),
      send_request testDeps s req = some (rc, s') →
      has_retry testDeps (s.reqs req).r_flags →
      ∃ new, sends s'.trace = sends s.trace ++ new ∧
        ∀ e ∈ new, has_retry testDeps e.2.front_flags) :=
  ⟨by decide, by decide, (retry_marking testDeps).2.2.1⟩

/-- C6: no operation of the client clears `r_aborted`; the pass of
`kick_requests` over an aborted request makes no send, whatever the map and
the reset address; every send that `kick_requests` makes is the message of a
registered request that is not aborted; and the request constructor writes
the new request only. -/
theorem aborted_never_resent (D : Deps) :
    (∀ (s s' : ceph_osd_client) (op : Op) (p : Nat), run D s op = some s' →
      (s.reqs p).r_aborted = true → (s'.reqs p).r_aborted = true) ∧
    (∀ (s s1 : ceph_osd_client) (who : Option ceph_entity_addr) (req : Nat) (inc : Int),
      kick_one D who s req = some (s1, inc) → (s.reqs req).r_aborted = true →
      sends s1.trace = sends s.trace) ∧
    (∀ (s s' : ceph_osd_client) (who : Option ceph_entity_addr),
      kick_requests D s who = some s' →
      ∃ new, sends s'.trace = sends s.trace ++ new ∧
        ∀ e ∈ new, ∃ req, req ∈ s.request_tree.map Prod.snd ∧
          e.1 = (s.reqs req).r_request ∧ (s.reqs req).r_aborted = false) ∧
    (∀ (E : Env) (s s1 : ceph_osd_client) (layout : ceph_file_layout)
      (ino off len op req len1 : Nat),
      ceph_osdc_new_request D E s layout ino off len op = Except.ok (req, len1, s1) →
      ∀ p, p ≠ req → s1.reqs p = s.reqs p) := by
  refine ⟨?_, ?_, ?_, ?_⟩
  rotate_left 3
  · intro E s s1 layout ino off len op req len1 h p hp
    unfold ceph_osdc_new_request at h
    split at h
    · exact absurd h (by simp)
    · split at h
      · exact absurd h (by simp)
      · simp only [Except.ok.injEq, Prod.mk.injEq] at h
        obtain ⟨h1, _, h3⟩ := h
        rw [← h3]
        have hp2 : p ≠ _ := fun hc => hp (hc.trans h1)
        simp [ceph_osd_client.setReq, ceph_osd_client.setMsg, upd, hp2]
  · intro s s' op p h ha
    exact (run_keeps h).1 p ha
  · intro s s1 who req inc h ha
    obtain ⟨_, out, _, he, _, hout⟩ := kick_one_out h
    have : out = [] := by
      cases out with
      | nil => rfl
      | cons e t =>
        have := (hout e (List.mem_cons_self _ _)).2
        rw [ha] at this
        exact absurd this (by simp)
    rw [he.sent, this, List.append_nil]
  · intro s s' who h
    obtain ⟨_, _, new, h1, h2⟩ := kick_requests_info h
    refine ⟨new, h1, ?_⟩
    intro e he
    obtain ⟨_, req, b, c, d, _⟩ := h2 e he
    exact ⟨req, b, c, d⟩

/-- C6 on a concrete client: with the registered request aborted,
`kick_requests` returns without any send, for no peer and for the peer 105,
while the same request not aborted is resent. -/
theorem aborted_never_resent_witness :
    (kick_requests testDeps abortedClient none).map (fun s => sends s.trace) = some [] ∧
    (kick_requests testDeps abortedClient (some 105)).map (fun s => sends s.trace) = some [] ∧
    (kick_requests testDeps kickClient none).map (fun s => (sends s.trace).length) = some 1 ∧
    (∀ (s s1 : ceph_osd_client) (who : Option ceph_entity_addr) (req : Nat) (inc : Int),
      kick_one testDeps who s req = some (s1, inc) → (s.reqs req).r_aborted = true →
      sends s1.trace = sends s.trace) :=
  ⟨by decide, by decide, by decide, (aborted_never_resent testDeps).2.1⟩

/-! ### Map ingestion -/

theorem inc_loop_none (D : Deps) :
    ∀ (nr : Nat) (p : List Nat) (s : ceph_osd_client) (nm : Option ceph_osdmap),
      s.osdmap = none → (inc_loop D nr p s nm).client = s := by
  intro nr
  induction nr with
  | zero => intro p s nm _; rfl
  | succ n ih =>
    intro p s nm h
    unfold inc_loop
    simp only [h]
    split_ifs
    · exact ih _ _ _ h
    · rfl
    · rfl

theorem inc_loop_client (D : Deps) :
    ∀ (nr : Nat) (p : List Nat) (s : ceph_osd_client) (nm : Option ceph_osdmap)
      (cur : ceph_osdmap), s.osdmap = some cur →
      (inc_loop D nr p s nm).client =
        { s with osdmap := some (apply_contiguous D (map_entries nr p) cur) } := by
  intro nr
  induction nr with
  | zero =>
    intro p s nm cur h
    simp only [inc_loop, MapLoop.client, map_entries, apply_contiguous]
    rw [← h]
  | succ n ih =>
    intro p s nm cur h
    unfold inc_loop map_entries
    simp only [h]
    split_ifs with h8 hl he
    · simp only [apply_contiguous, he, if_true]
      cases ha : D.apply_incremental (List.take (le_value (List.take 4 (List.drop 4 p)))
          (List.drop 8 p)) cur with
      | error e =>
        simp only [MapLoop.client]
        rw [← h]
      | ok nm2 =>
        simp only
        rw [ih _ _ _ nm2 rfl]
    · simp only [apply_contiguous, he, if_false]
      exact ih _ _ _ cur h
    · simp only [MapLoop.client, apply_contiguous]
      rw [← h]
    · simp only [MapLoop.client, apply_contiguous]
      rw [← h]

theorem inc_loop_next (D : Deps) :
    ∀ (nr : Nat) (p : List Nat) (s : ceph_osd_client) (nm : Option ceph_osdmap)
      (p2 : List Nat) (s1 : ceph_osd_client) (nm2 : Option ceph_osdmap),
      inc_loop D nr p s nm = MapLoop.next p2 s1 nm2 → skip_entries nr p = some p2 := by
  intro nr
  induction nr with
  | zero =>
    intro p s nm p2 s1 nm2 h
    simp only [inc_loop, MapLoop.next.injEq] at h
    simp [skip_entries, h.1]
  | succ n ih =>
    intro p s nm p2 s1 nm2 h
    unfold inc_loop at h
    unfold skip_entries
    simp only at h
    split_ifs at h with h8 hl
    · simp only [h8, hl, if_true]
      split at h
      · split_ifs at h
        · split at h
          · exact absurd h (by simp)
          · exact ih _ _ _ _ _ _ h
        · exact ih _ _ _ _ _ _ h
      · exact ih _ _ _ _ _ _ h

theorem full_loop_bad (D : Deps) :
    ∀ (nr : Nat) (p : List Nat) (s : ceph_osd_client) (nm : Option ceph_osdmap)
      (s1 : ceph_osd_client), full_loop D nr p s nm = MapLoop.bad s1 → s1 = s := by
  intro nr
  induction nr with
  | zero => intro p s nm s1 h; simp [full_loop] at h
  | succ n ih =>
    intro p s nm s1 h
    unfold full_loop at h
    simp only at h
    split_ifs at h with h8 hl h1 h2
    · exact ih _ _ _ _ h
    · exact ih _ _ _ _ h
    · split at h
      · simp only [MapLoop.bad.injEq] at h; exact h.symm
      · have hn : n = 0 := by omega
        subst hn
        simp [full_loop] at h
    · simp only [MapLoop.bad.injEq] at h; exact h.symm
    · simp only [MapLoop.bad.injEq] at h; exact h.symm

theorem full_loop_client (D : Deps) :
    ∀ (nr : Nat) (p : List Nat) (s : ceph_osd_client) (nm : Option ceph_osdmap)
      (cur : ceph_osdmap), s.osdmap = some cur →
      (∀ e ∈ map_entries nr p, ∀ m, D.osdmap_decode e.2 = Except.ok m → m.epoch = e.1) →
      ∃ Y, (full_loop D nr p s nm).client = { s with osdmap := some Y } ∧
        cur.epoch ≤ Y.epoch ∧ (Y ≠ cur → cur.epoch < Y.epoch) := by
  intro nr
  induction nr with
  | zero =>
    intro p s nm cur h _
    exact ⟨cur, by simp only [full_loop, MapLoop.client]; rw [← h], le_refl _, fun hc => absurd rfl hc⟩
  | succ n ih =>
    intro p s nm cur h hfull
    unfold full_loop
    unfold map_entries at hfull
    simp only
    split_ifs with h8 hl h1 h2
    · simp only [h8, hl, if_true] at hfull
      exact ih _ _ _ cur h (fun e he => hfull e (List.mem_cons_of_mem _ he))
    · simp only [h8, hl, if_true] at hfull
      exact ih _ _ _ cur h (fun e he => hfull e (List.mem_cons_of_mem _ he))
    · simp only [h8, hl, if_true] at hfull
      have hlt : cur.epoch < le_value (List.take 4 p) := by
        simp only [h] at h2
        simpa using h2
      cases hd : D.osdmap_decode (List.take (le_value (List.take 4 (List.drop 4 p)))
          (List.drop 8 p)) with
      | error e =>
        exact ⟨cur, by simp only [MapLoop.client]; rw [← h], le_refl _,
          fun hc => absurd rfl hc⟩
      | ok nm2 =>
        simp only
        have hn : n = 0 := by omega
        subst hn
        have hep : nm2.epoch = le_value (List.take 4 p) :=
          hfull _ (List.mem_cons_self _ _) nm2 hd
        refine ⟨nm2, by simp only [full_loop, MapLoop.client], ?_, ?_⟩
        · omega
        · intro _; omega
    · exact ⟨cur, by simp only [MapLoop.client]; rw [← h], le_refl _, fun hc => absurd rfl hc⟩
    · exact ⟨cur, by simp only [MapLoop.client]; rw [← h], le_refl _, fun hc => absurd rfl hc⟩

theorem map_entries_length : ∀ (nr : Nat) (p : List Nat), (map_entries nr p).length ≤ nr := by
  intro nr
  induction nr with
  | zero => intro p; simp [map_entries]
  | succ n ih =>
    intro p
    unfold map_entries
    split_ifs
    · simp only [List.length_cons]
      have := ih ((p.drop 8).drop (le_value ((p.drop 4).take 4)))
      omega
    · simp
    · simp

theorem apply_contiguous_epoch (D : Deps) :
    ∀ (es : List (Nat × List Nat)) (cur : ceph_osdmap),
      (∀ e ∈ es, ∀ c m, (c.epoch + 1) % U32 = e.1 →
        D.apply_incremental e.2 c = Except.ok m → m.epoch = e.1) →
      cur.epoch + es.length < U32 →
      cur.epoch ≤ (apply_contiguous D es cur).epoch ∧
      (apply_contiguous D es cur).epoch ≤ cur.epoch + es.length ∧
      (apply_contiguous D es cur ≠ cur → cur.epoch < (apply_contiguous D es cur).epoch) := by
  intro es
  induction es with
  | nil => intro cur _ _; simp [apply_contiguous]
  | cons e rest ih =>
    intro cur hinc hlen
    simp only [List.length_cons] at hlen
    unfold apply_contiguous
    have hrest : ∀ x ∈ rest, ∀ c m, (c.epoch + 1) % U32 = x.1 →
        D.apply_incremental x.2 c = Except.ok m → m.epoch = x.1 :=
      fun x hx => hinc x (List.mem_cons_of_mem _ hx)
    split_ifs with he
    · cases ha : D.apply_incremental e.2 cur with
      | error _ => simp
      | ok nm =>
        simp only
        have hmod : (cur.epoch + 1) % U32 = cur.epoch + 1 := Nat.mod_eq_of_lt (by omega)
        have hep : nm.epoch = cur.epoch + 1 := by
          rw [hinc e (List.mem_cons_self _ _) cur nm he ha, ← he, hmod]
        obtain ⟨i1, i2, _⟩ := ih nm hrest (by omega)
        refine ⟨by omega, by simp only [List.length_cons]; omega, fun _ => by omega⟩
    · obtain ⟨i1, i2, i3⟩ := ih cur hrest (by omega)
      exact ⟨i1, by simp only [List.length_cons]; omega, i3⟩

theorem map_entries_nil (nr : Nat) : map_entries nr [] = [] := by
  cases nr with
  | zero => rfl
  | succ n => simp [map_entries, decode_need]

theorem apply_contiguous_skip (D : Deps) :
    ∀ (es : List (Nat × List Nat)) (cur : ceph_osdmap),
      (∀ e ∈ es, e.1 ≠ (cur.epoch + 1) % U32) → apply_contiguous D es cur = cur := by
  intro es
  induction es with
  | nil => intro cur _; rfl
  | cons e rest ih =>
    intro cur h
    unfold apply_contiguous
    have he : ¬ (cur.epoch + 1) % U32 = e.1 := fun hc => h e (List.mem_cons_self _ _) hc.symm
    simp only [he, if_false]
    exact ih cur (fun x hx => h x (List.mem_cons_of_mem _ hx))

theorem handle_map_bad_out {s s' : ceph_osd_client} (h : handle_map_bad s = some s') :
    s'.osdmap = s.osdmap ∧ found_corrupt s' := by
  simp only [handle_map_bad, Option.some.injEq] at h
  subst h
  exact ⟨rfl, by simp [found_corrupt, ceph_osd_client.log]⟩

theorem handle_map_done_out {D : Deps} {s s' : ceph_osd_client} {nm : Option ceph_osdmap}
    (h : handle_map_done D s nm = some s') : s'.osdmap = s.osdmap ∧ ¬ found_corrupt s' := by
  unfold handle_map_done at h
  simp only at h
  split at h
  · exact absurd h (by simp)
  · split_ifs at h
    · split at h
      · exact absurd h (by simp)
      · rename_i s2 hk
        simp only [Option.some.injEq] at h; subst h
        exact ⟨(kick_requests_info hk).2.1, by simp [found_corrupt, ceph_osd_client.log]⟩
    · simp only [Option.some.injEq] at h; subst h
      exact ⟨rfl, by simp [found_corrupt, ceph_osd_client.log]⟩

/-- The map that `ceph_osdc_handle_map` leaves: on the exit `bad:` the map
reached by the incrementals applied so far; otherwise the map before the call,
that map, or the outcome of the loop over the full maps started from it. -/
theorem handle_map_outcome {D : Deps} {s s' : ceph_osd_client} {msg : Nat}
    (h : ceph_osdc_handle_map D s msg = some s') :
    (found_corrupt s' →
      s'.osdmap = s.osdmap.map (apply_contiguous D (msg_incs (s.msgs msg).front_bytes))) ∧
    (s'.osdmap = s.osdmap ∨
      s'.osdmap = s.osdmap.map (apply_contiguous D (msg_incs (s.msgs msg).front_bytes)) ∨
      ∃ s1 nm p2, skip_entries (le_value (((s.msgs msg).front_bytes.drop 16).take 4))
          (((s.msgs msg).front_bytes.drop 16).drop 4) = some p2 ∧
        s1.osdmap = s.osdmap.map (apply_contiguous D (msg_incs (s.msgs msg).front_bytes)) ∧
        s'.osdmap = (full_loop D (le_value (p2.take 4)) (p2.drop 4) s1 nm).client.osdmap) := by
  have hA : ∀ nm, (inc_loop D (le_value (((s.msgs msg).front_bytes.drop 16).take 4))
      (((s.msgs msg).front_bytes.drop 16).drop 4) (s.log Event.down_write) nm).client.osdmap =
      s.osdmap.map (apply_contiguous D (msg_incs (s.msgs msg).front_bytes)) := by
    intro nm
    cases hcur : s.osdmap with
    | none => rw [inc_loop_none D _ _ (s.log Event.down_write) _ hcur]; exact hcur
    | some cur => rw [inc_loop_client D _ _ (s.log Event.down_write) _ cur hcur]; rfl
  unfold ceph_osdc_handle_map at h
  simp only at h
  split_ifs at h with h16 hfsid h4
  · simp only [Option.some.injEq] at h; subst h
    exact ⟨fun hc => by simp [found_corrupt, ceph_osd_client.log] at hc, Or.inl rfl⟩
  · split at h
    · rename_i s1 hl
      have h1 := hA none
      rw [hl] at h1
      obtain ⟨b1, _⟩ := handle_map_bad_out h
      exact ⟨fun _ => b1.trans h1, Or.inr (Or.inl (b1.trans h1))⟩
    · rename_i p2 s1 newmap hl
      have h1 := hA none
      rw [hl] at h1
      have hskip := inc_loop_next D _ _ _ _ _ _ _ hl
      split_ifs at h with hnm hf4
      · obtain ⟨d1, d2⟩ := handle_map_done_out h
        exact ⟨fun hc => absurd hc d2, Or.inr (Or.inl (d1.trans h1))⟩
      · split at h
        · rename_i s2 hf
          have := full_loop_bad D _ _ _ _ _ hf
          subst this
          obtain ⟨b1, _⟩ := handle_map_bad_out h
          exact ⟨fun _ => b1.trans h1, Or.inr (Or.inl (b1.trans h1))⟩
        · rename_i p3 s2 nm2 hf
          obtain ⟨d1, d2⟩ := handle_map_done_out h
          refine ⟨fun hc => absurd hc d2, Or.inr (Or.inr ⟨s1, newmap, p2, hskip, h1, ?_⟩)⟩
          rw [d1, hf]
          rfl
      · obtain ⟨b1, _⟩ := handle_map_bad_out h
        exact ⟨fun _ => b1.trans h1, Or.inr (Or.inl (b1.trans h1))⟩
  · obtain ⟨b1, _⟩ := handle_map_bad_out h
    have hnil : msg_incs (s.msgs msg).front_bytes = [] := by
      unfold msg_incs
      have : ((s.msgs msg).front_bytes.drop 16).drop 4 = [] := by
        apply List.drop_eq_nil_of_le
        have : ((s.msgs msg).front_bytes.drop 16).length < 4 := by
          simpa [decode_need] using h4
        omega
      rw [this, map_entries_nil]
    have : s.osdmap.map (apply_contiguous D (msg_incs (s.msgs msg).front_bytes)) = s.osdmap := by
      rw [hnil]; cases s.osdmap <;> rfl
    exact ⟨fun _ => by rw [this]; exact b1, Or.inl b1⟩
  · obtain ⟨b1, _⟩ := handle_map_bad_out h
    have hnil : msg_incs (s.msgs msg).front_bytes = [] := by
      unfold msg_incs
      have : ((s.msgs msg).front_bytes.drop 16).drop 4 = [] := by
        apply List.drop_eq_nil_of_le
        have : (s.msgs msg).front_bytes.length < 16 := by simpa [decode_need] using h16
        simp only [List.length_drop]
        omega
      rw [this, map_entries_nil]
    have : s.osdmap.map (apply_contiguous D (msg_incs (s.msgs msg).front_bytes)) = s.osdmap := by
      rw [hnil]; cases s.osdmap <;> rfl
    exact ⟨fun _ => by rw [this]; exact b1, Or.inl b1⟩

/-- C8, as stated, fails when the 32-bit epoch wraps: the current epoch is
2^32 - 1, the message carries one incremental that announces epoch 0 and
yields a map of epoch 0 as assumed; `epoch + 1 == epoch` holds in `u32`, the
incremental is applied, and the epoch after the call is 0. -/
theorem handle_map_epoch_wraps :
    wrapEpochClient.osdmap.map (fun m => m.epoch) = some 4294967295 ∧
    msg_incs wrapEpochMsg.front_bytes = [(0, [5])] ∧
    msg_fulls wrapEpochMsg.front_bytes = [] ∧
    (∀ c m, (c.epoch + 1) % U32 = 0 →
      testDeps.apply_incremental [5] c = Except.ok m → m.epoch = 0) ∧
    (ceph_osdc_handle_map testDeps wrapEpochClient 3000).map
      (fun s => s.osdmap.map (fun m => m.epoch)) = some (some 0) := by
  refine ⟨by decide, by decide, by decide, ?_, by decide⟩
  intro c m hc h
  simp only [testDeps, Except.ok.injEq] at h
  rw [← h]
  exact hc

/-- C8, amended: assuming that every incremental and every full map of the
message decodes to a map of the epoch announced in its entry, and that the
32-bit epoch does not wrap (current epoch + number of incrementals of the
message < 2^32), the epoch of the current map after `ceph_osdc_handle_map`
is at least the epoch before the call, and strictly greater whenever the
current map is another map than before. -/
theorem handle_map_epoch_monotone (D : Deps) (s s' : ceph_osd_client) (msg : Nat)
    (cur : ceph_osdmap) (hcur : s.osdmap = some cur)
    (hinc : ∀ e ∈ msg_incs (s.msgs msg).front_bytes, ∀ c m, (c.epoch + 1) % U32 = e.1 →
      D.apply_incremental e.2 c = Except.ok m → m.epoch = e.1)
    (hfull : ∀ e ∈ msg_fulls (s.msgs msg).front_bytes, ∀ m,
      D.osdmap_decode e.2 = Except.ok m → m.epoch = e.1)
    (hwrap : cur.epoch + (msg_incs (s.msgs msg).front_bytes).length < 2 ^ 32)
    (h : ceph_osdc_handle_map D s msg = some s') :
    ∃ cur', s'.osdmap = some cur' ∧ cur.epoch ≤ cur'.epoch ∧
      (cur' ≠ cur → cur.epoch < cur'.epoch) := by
  obtain ⟨a1, a2, a3⟩ := apply_contiguous_epoch D _ cur hinc hwrap
  rcases (handle_map_outcome h).2 with h1 | h1 | ⟨s1, nm, p2, hskip, hs1, h1⟩
  · exact ⟨cur, by rw [h1, hcur], le_refl _, fun hc => absurd rfl hc⟩
  · rw [hcur] at h1
    exact ⟨_, h1, a1, a3⟩
  · rw [hcur] at hs1
    have hf : ∀ e ∈ map_entries (le_value (p2.take 4)) (p2.drop 4), ∀ m,
        D.osdmap_decode e.2 = Except.ok m → m.epoch = e.1 := by
      intro e he
      apply hfull
      unfold msg_fulls
      rw [hskip]
      exact he
    obtain ⟨Y, y1, y2, y3⟩ := full_loop_client D _ _ s1 nm _ hs1 hf
    rw [y1] at h1
    refine ⟨Y, h1, by omega, ?_⟩
    intro hne
    by_cases hY : Y = apply_contiguous D (msg_incs (s.msgs msg).front_bytes) cur
    · rw [hY] at hne ⊢
      exact a3 hne
    · have := y3 hY
      omega

/-- C8 on a concrete message: the client at epoch 5 handles the incrementals
for the epochs 6 and 7 and ends at epoch 7. -/
theorem handle_map_epoch_monotone_witness :
    (ceph_osdc_handle_map testDeps (mapClient twoIncsMsg) 3000).map
      (fun s => s.osdmap.map (fun m => m.epoch)) = some (some 7) ∧
    (∀ s', ceph_osdc_handle_map testDeps (mapClient twoIncsMsg) 3000 = some s' →
      ∃ cur', s'.osdmap = some cur' ∧ testMap.epoch ≤ cur'.epoch ∧
        (cur' ≠ testMap → testMap.epoch < cur'.epoch)) :=
  ⟨by decide, fun s' h =>
    handle_map_epoch_monotone testDeps (mapClient twoIncsMsg) s' 3000 testMap rfl
      (by
        intro e he c m hc hm
        have hb : e.2 = [6] ∨ e.2 = [4] := by
          have : msg_incs twoIncsMsg.front_bytes = [(6, [6]), (7, [4])] := by decide
          have he2 : e ∈ [((6 : Nat), [(6 : Nat)]), (7, [4])] := by rw [← this]; exact he
          simp only [List.mem_cons, List.mem_singleton, List.not_mem_nil, or_false] at he2
          rcases he2 with rfl | rfl <;> simp
        rcases hb with hb | hb <;>
          (rw [hb] at hm
           simp only [testDeps, Except.ok.injEq] at hm
           rw [← hm]
           exact hc))
      (by
        intro e he
        have : msg_fulls twoIncsMsg.front_bytes = [] := by decide
        have he2 : e ∈ ([] : List (Nat × List Nat)) := by rw [← this]; exact he
        simp at he2)
      (by
        have : (msg_incs twoIncsMsg.front_bytes).length = 2 := by decide
        show testMap.epoch + (msg_incs twoIncsMsg.front_bytes).length < 2 ^ 32
        rw [this]
        decide)
      h⟩

/-- C9: a map message that carries a filesystem identifier other than the one
of the mount is dropped whole: `ceph_osdc_handle_map` returns with the current
map, the registry, the requests and the messages as they were; the only thing
it does is log the mismatch, so no `got_osdmap` reaches the monitor client and
no request is kicked, whatever incrementals and full maps follow. -/
theorem handle_map_wrong_fsid (D : Deps) (s : ceph_osd_client) (msg : Nat)
    (hlen : 16 ≤ (s.msgs msg).front_bytes.length)
    (hfsid : (le_value ((s.msgs msg).front_bytes.take 8),
      le_value (((s.msgs msg).front_bytes.drop 8).take 8)) ≠ s.monmap_fsid) :
    ∃ s', ceph_osdc_handle_map D s msg = some s' ∧
      s'.osdmap = s.osdmap ∧ s'.trace = s.trace ++ [Event.derr_wrong_fsid] ∧
      s'.request_tree = s.request_tree ∧ s'.reqs = s.reqs ∧ s'.msgs = s.msgs ∧
      s'.last_tid = s.last_tid ∧ s'.num_requests = s.num_requests ∧
      s'.timeout_tid = s.timeout_tid := by
  refine ⟨s.log Event.derr_wrong_fsid, ?_, rfl, rfl, rfl, rfl, rfl, rfl, rfl, rfl⟩
  unfold ceph_osdc_handle_map
  have h16 : decode_need (s.msgs msg).front_bytes 16 = true := by
    simpa [decode_need] using hlen
  simp only [h16, if_true]
  rw [if_pos hfsid]

/-- C9 on a concrete message: the client of the mount (1, 2) at epoch 5 gets a
message of the filesystem (9, 9) with a full map of epoch 8 and keeps epoch 5. -/
theorem handle_map_wrong_fsid_witness :
    16 ≤ ((mapClient foreignMsg).msgs 3000).front_bytes.length ∧
    (le_value (((mapClient foreignMsg).msgs 3000).front_bytes.take 8),
      le_value ((((mapClient foreignMsg).msgs 3000).front_bytes.drop 8).take 8)) ≠
        (mapClient foreignMsg).monmap_fsid ∧
    msg_fulls foreignMsg.front_bytes = [(8, [8, 3])] ∧
    ∃ s', ceph_osdc_handle_map testDeps (mapClient foreignMsg) 3000 = some s' ∧
      s'.osdmap = (mapClient foreignMsg).osdmap ∧
      s'.trace = (mapClient foreignMsg).trace ++ [Event.derr_wrong_fsid] ∧
      s'.request_tree = (mapClient foreignMsg).request_tree ∧
      s'.reqs = (mapClient foreignMsg).reqs ∧ s'.msgs = (mapClient foreignMsg).msgs ∧
      s'.last_tid = (mapClient foreignMsg).last_tid ∧
      s'.num_requests = (mapClient foreignMsg).num_requests ∧
      s'.timeout_tid = (mapClient foreignMsg).timeout_tid :=
  ⟨by decide, by decide, by decide,
    handle_map_wrong_fsid testDeps (mapClient foreignMsg) 3000 (by decide) (by decide)⟩

/-- C10, as stated, fails when an incremental was applied before the
corruption is found: the client at epoch 5 gets a message announced with two
incrementals, applies the first (epoch 6), finds the second cut short, leaves
through `bad:`, and the current map is the map of epoch 6. -/
theorem handle_map_corrupt_keeps_applied :
    (mapClient cutMsg).osdmap.map (fun m => m.epoch) = some 5 ∧
    (ceph_osdc_handle_map testDeps (mapClient cutMsg) 3000).map
      (fun s => (s.trace.getLast?, s.osdmap.map (fun m => (m.epoch, m.crush)))) =
        some (some Event.up_write, some (6, 9)) := by
  exact ⟨by decide, by decide⟩

/-- C10, amended: when a map message is found corrupt, the current map after
`ceph_osdc_handle_map` is the map before the call advanced by the
incrementals of the message that were applied before the corruption was found
(each for the current epoch + 1 at its turn); no full map of the message is
published, and the map is exactly the map before the call when no incremental
of the message is for the successor of the current epoch. -/
theorem handle_map_corrupt_map (D : Deps) (s s' : ceph_osd_client) (msg : Nat)
    (h : ceph_osdc_handle_map D s msg = some s') (hc : found_corrupt s') :
    s'.osdmap = s.osdmap.map (apply_contiguous D (msg_incs (s.msgs msg).front_bytes)) ∧
    ((∀ cur, s.osdmap = some cur →
        ∀ e ∈ msg_incs (s.msgs msg).front_bytes, e.1 ≠ (cur.epoch + 1) % U32) →
      s'.osdmap = s.osdmap) := by
  have h1 := (handle_map_outcome h).1 hc
  refine ⟨h1, ?_⟩
  intro hno
  rw [h1]
  cases hcur : s.osdmap with
  | none => rfl
  | some cur =>
    simp only [Option.map_some']
    rw [apply_contiguous_skip D _ cur (hno cur hcur)]

/-- C10 on the concrete message: the map left by the corrupt message is the
map of epoch 5 advanced by the one incremental that precedes the cut. -/
theorem handle_map_corrupt_map_witness :
    ∃ s', ceph_osdc_handle_map testDeps (mapClient cutMsg) 3000 = some s' ∧
      found_corrupt s' ∧
      msg_incs cutMsg.front_bytes = [(6, [9])] ∧
      s'.osdmap = (mapClient cutMsg).osdmap.map
        (apply_contiguous testDeps (msg_incs ((mapClient cutMsg).msgs 3000).front_bytes)) ∧
      ((∀ cur, (mapClient cutMsg).osdmap = some cur →
          ∀ e ∈ msg_incs ((mapClient cutMsg).msgs 3000).front_bytes,
            e.1 ≠ (cur.epoch + 1) % U32) →
        s'.osdmap = (mapClient cutMsg).osdmap) :=
  ⟨(ceph_osdc_handle_map testDeps (mapClient cutMsg) 3000).getD (mapClient cutMsg), rfl,
    by unfold found_corrupt; decide, by decide,
    handle_map_corrupt_map testDeps (mapClient cutMsg) _ 3000 rfl
      (by unfold found_corrupt; decide)⟩

/-! ### Aborted requests and the reply path -/

/-- The check of `ceph_osdc_prepare_pages` does not read `r_aborted`: for a
registered request with enough pages and an empty reply slot the pages are
installed, aborted or not. -/
theorem prepare_pages_installs (D : Deps) (s : ceph_osd_client) (m req : Nat) (want : Int)
    (htype : (s.msgs m).hdr_type = D.CEPH_MSG_OSD_OPREPLY)
    (hreg : radix_tree_lookup s.request_tree (s.msgs m).front_tid = some req)
    (hpages : (s.reqs req).r_num_pages ≥ want) (hslot : (s.reqs req).r_reply = none) :
    (ceph_osdc_prepare_pages D s m want).1 = 0 ∧
    ((ceph_osdc_prepare_pages D s m want).2.msgs m).pages = some req ∧
    ((ceph_osdc_prepare_pages D s m want).2.reqs req).r_aborted = (s.reqs req).r_aborted := by
  unfold ceph_osdc_prepare_pages
  have h1 : ¬ (s.msgs m).hdr_type ≠ D.CEPH_MSG_OSD_OPREPLY := fun hc => hc htype
  have h2 : radix_tree_lookup (s.log Event.mutex_lock).request_tree (s.msgs m).front_tid =
      some req := hreg
  have h3 : ((s.log Event.mutex_lock).reqs req).r_num_pages ≥ want ∧
      ((s.log Event.mutex_lock).reqs req).r_reply = none := ⟨hpages, hslot⟩
  simp only [h1, if_false, h2, h3, and_self, if_true]
  simp [ceph_osd_client.log, ceph_osd_client.setReq, ceph_osd_client.setMsg, upd]

/-- C7 fails on the code: the waiter of the registered request 7 (tid 1, one
page, no reply yet) is interrupted, `do_sync_request` returns -512 with
`r_aborted` set and the request still registered; the reply for tid 1 arrives
afterwards, and `ceph_osdc_prepare_pages` returns 0, points the pages of the
incoming message to the page vector of request 7 and fills the reply slot. -/
theorem prepare_pages_after_abort :
    (do_sync_request testDeps syncClient 7 false (fun s => (-512, s))).map Prod.fst =
      some (-512) ∧
    (interruptedClient.reqs 7).r_aborted = true ∧
    (interruptedClient.msgs 1007).pages = none ∧
    radix_tree_lookup interruptedClient.request_tree 1 = some 7 ∧
    (ceph_osdc_prepare_pages testDeps (interruptedClient.setMsg 2000 lateReply) 2000 1).1 = 0 ∧
    ((ceph_osdc_prepare_pages testDeps (interruptedClient.setMsg 2000 lateReply) 2000 1).2.msgs
      2000).pages = some 7 ∧
    ((ceph_osdc_prepare_pages testDeps (interruptedClient.setMsg 2000 lateReply) 2000 1).2.reqs
      7).r_reply = some 2000 := by
  decide

/-! ### Synchronous read across an object boundary -/

/-- A pass of `ceph_osdc_sync_read` that reads the whole extent of its request
is the last one: the constructor has put the shortened length `len1` into
`len`, so after `len -= rc` nothing is left, whatever the caller asked for. -/
theorem sync_read_full_pass_is_last (D : Deps) (E : Env) (layout : ceph_file_layout)
    (ino fuel off len req len1 : Nat) (finalrc rc : Int) (s s1 s3 s4 s5 : ceph_osd_client)
    (hnew : ceph_osdc_new_request D E s layout ino off len D.CEPH_OSD_OP_READ =
      Except.ok (req, len1, s1))
    (halloc : (alloc_pages_loop E req (s1.reqs req).r_num_pages
      ((s1.reqs req).r_num_pages.toNat + 1) 0 s1).1 = true)
    (hsync : do_sync_request D (alloc_pages_loop E req (s1.reqs req).r_num_pages
        ((s1.reqs req).r_num_pages.toNat + 1) 0 s1).2 req
      (E.nomem (alloc_pages_loop E req (s1.reqs req).r_num_pages
        ((s1.reqs req).r_num_pages.toNat + 1) 0 s1).2) (E.wait req) = some (rc, s3))
    (hfull : rc = (len1 : Int)) (hpos : 0 < len1)
    (hcopy : copy_loop D E req (rc.toNat + 1) rc ((off % 2 ^ D.PAGE_CACHE_SHIFT : Nat) : Int) 0 s3 =
      some (true, s4))
    (hput : ceph_osdc_put_request s4 req = some s5) :
    sync_read_loop D E layout ino (fuel + 1) s off len finalrc = some (finalrc + len1, s5) := by
  unfold sync_read_loop
  have hrc : rc > 0 := by rw [hfull]; exact_mod_cast hpos
  have hz : toU64 ((len1 : Int) - rc) = 0 := by rw [hfull]; simp [toU64]
  simp only [hnew, halloc, hsync, hrc, if_true, hcopy, hput, hz]
  simp [hfull]

/-- C1 fails on the code: in scenario S1 (`off = 4194296`, `len = 16`, objects
of 4 MiB) with every request succeeding in full, `ceph_osdc_sync_read` makes
one pass, for the extent `4194296~8`, and returns 8: the request constructor
has written the shortened length 8 into `len`, so `len -= rc` leaves 0 and the
remainder `4194304~8` is never read. -/
theorem sync_read_stops_at_object_boundary :
    (ceph_osdc_sync_read testDeps testEnv { testClient with osdmap := some testMap }
        s1Layout 17 4194296 16).map
      (fun r => (r.1, (sends r.2.trace).map (fun e => (e.2.op_offset, e.2.op_length)),
        r.2.last_tid)) = some (8, [(4194296, 8)], 1) ∧
    (testDeps.calc_file_object_mapping s1Layout 4194296 16).plen = 8 ∧
    (testDeps.calc_file_object_mapping s1Layout 4194304 8).plen = 8 := by
  decide

/-! ### Map ingestion: the rules for incrementals and full maps -/

/-- One more pass of the loop over the incrementals is the loop so far followed
by a single pass from where it stands. -/
theorem inc_loop_succ (D : Deps) :
    ∀ (k : Nat) (p : List Nat) (s : ceph_osd_client) (nm : Option ceph_osdmap),
      inc_loop D (k + 1) p s nm =
        match inc_loop D k p s nm with
        | MapLoop.bad x => MapLoop.bad x
        | MapLoop.next pk sk nmk => inc_loop D 1 pk sk nmk := by
  intro k
  induction k with
  | zero => intro p s nm; simp only [inc_loop]
  | succ n ih =>
    intro p s nm
    rw [inc_loop]
    conv => rhs; rw [inc_loop]
    simp only
    split_ifs with h8 hl
    · split
      · rename_i cur hcur
        split_ifs with he
        · split
          · rfl
          · exact ih _ _ _
        · exact ih _ _ _
      · exact ih _ _ _
    · rfl
    · rfl

/-- A single pass of the loop over the incrementals at a whole entry. -/
theorem inc_loop_one (D : Deps) (p : List Nat) (s : ceph_osd_client) (nm : Option ceph_osdmap)
    (h8 : 8 ≤ p.length) (hl : le_value ((p.drop 4).take 4) ≤ (p.drop 8).length) :
    inc_loop D 1 p s nm =
      match s.osdmap with
      | some cur =>
        if (cur.epoch + 1) % U32 = le_value (p.take 4) then
          match D.apply_incremental ((p.drop 8).take (le_value ((p.drop 4).take 4))) cur with
          | Except.error _ => MapLoop.bad s
          | Except.ok m =>
            MapLoop.next ((p.drop 8).drop (le_value ((p.drop 4).take 4)))
              { s with osdmap := some m } (some m)
        else MapLoop.next ((p.drop 8).drop (le_value ((p.drop 4).take 4))) s nm
      | none => MapLoop.next ((p.drop 8).drop (le_value ((p.drop 4).take 4))) s nm := by
  have d8 : decode_need p 8 = true := by simpa [decode_need] using h8
  have dl : decode_need (p.drop 8) (le_value ((p.drop 4).take 4)) = true := by
    simpa [decode_need] using hl
  rw [inc_loop]
  simp only [d8, dl, if_true]
  cases s.osdmap with
  | none => simp only [inc_loop]
  | some cur =>
    simp only
    split_ifs
    · cases D.apply_incremental ((p.drop 8).take (le_value ((p.drop 4).take 4))) cur <;>
        simp only [inc_loop]
    · simp only [inc_loop]

/-- One pass of the loop of `ceph_osdc_handle_map` over the incremental maps, at the
moment it has processed `k` incrementals and stands at a whole entry with the
client `sk`: if a current map exists and its epoch + 1 (in `u32`, as the code
computes it) equals the epoch of the entry, the entry is handed to
`apply_incremental` and its result becomes the current map (a failure leaves
for `bad:`); in every other case the entry is skipped, and the client, its
current map included, and `newmap` stay as they are.  The next entry is judged
against the map that is current then, so a run e+1, e+2, ... is applied one
after another. -/
theorem inc_loop_entry_rule (D : Deps) (k : Nat) (p : List Nat) (s : ceph_osd_client)
    (nm : Option ceph_osdmap) (pk : List Nat) (sk : ceph_osd_client) (nmk : Option ceph_osdmap)
    (hk : inc_loop D k p s nm = MapLoop.next pk sk nmk)
    (h8 : 8 ≤ pk.length) (hl : le_value ((pk.drop 4).take 4) ≤ (pk.drop 8).length) :
    (∀ cur, sk.osdmap = some cur → (cur.epoch + 1) % U32 = le_value (pk.take 4) →
      inc_loop D (k + 1) p s nm =
        match D.apply_incremental ((pk.drop 8).take (le_value ((pk.drop 4).take 4))) cur with
        | Except.ok m =>
          MapLoop.next ((pk.drop 8).drop (le_value ((pk.drop 4).take 4)))
            { sk with osdmap := some m } (some m)
        | Except.error _ => MapLoop.bad sk) ∧
    ((∀ cur, sk.osdmap = some cur → (cur.epoch + 1) % U32 ≠ le_value (pk.take 4)) →
      inc_loop D (k + 1) p s nm =
        MapLoop.next ((pk.drop 8).drop (le_value ((pk.drop 4).take 4))) sk nmk) := by
  have h1 := inc_loop_one D pk sk nmk h8 hl
  constructor
  · intro cur hcur he
    rw [inc_loop_succ, hk]
    simp only
    rw [h1, hcur]
    simp only [he, if_true]
    cases D.apply_incremental ((pk.drop 8).take (le_value ((pk.drop 4).take 4))) cur <;> rfl
  · intro hne
    rw [inc_loop_succ, hk]
    simp only
    rw [h1]
    cases hcur : sk.osdmap with
    | none => rfl
    | some cur =>
      simp only [hne cur hcur, if_false]

/-- The loop over the incrementals for the epochs 6 and 7, started
at epoch 5: the first is applied (epoch 6), the second is then judged against
epoch 6 and applied (epoch 7); an entry for another epoch would be skipped. -/
theorem inc_loop_entry_rule_example :
    (inc_loop testDeps 2 ((twoIncsMsg.front_bytes.drop 16).drop 4)
      ((mapClient twoIncsMsg).log Event.down_write) none).client.osdmap.map
        (fun m => (m.epoch, m.crush)) = some (7, 4) ∧
    ∃ pk sk nmk,
      inc_loop testDeps 1 ((twoIncsMsg.front_bytes.drop 16).drop 4)
        ((mapClient twoIncsMsg).log Event.down_write) none = MapLoop.next pk sk nmk ∧
      sk.osdmap.map (fun m => m.epoch) = some 6 ∧ le_value (pk.take 4) = 7 ∧
      8 ≤ pk.length ∧ le_value ((pk.drop 4).take 4) ≤ (pk.drop 8).length ∧
      (∀ cur, sk.osdmap = some cur → (cur.epoch + 1) % U32 = le_value (pk.take 4) →
        inc_loop testDeps (1 + 1) ((twoIncsMsg.front_bytes.drop 16).drop 4)
            ((mapClient twoIncsMsg).log Event.down_write) none =
          match testDeps.apply_incremental
              ((pk.drop 8).take (le_value ((pk.drop 4).take 4))) cur with
          | Except.ok m =>
            MapLoop.next ((pk.drop 8).drop (le_value ((pk.drop 4).take 4)))
              { sk with osdmap := some m } (some m)
          | Except.error _ => MapLoop.bad sk) ∧
      ((∀ cur, sk.osdmap = some cur → (cur.epoch + 1) % U32 ≠ le_value (pk.take 4)) →
        inc_loop testDeps (1 + 1) ((twoIncsMsg.front_bytes.drop 16).drop 4)
            ((mapClient twoIncsMsg).log Event.down_write) none =
          MapLoop.next ((pk.drop 8).drop (le_value ((pk.drop 4).take 4))) sk nmk) :=
  ⟨by decide, _, _, _, rfl, by decide, by decide, by decide, by decide,
    inc_loop_entry_rule testDeps 1 ((twoIncsMsg.front_bytes.drop 16).drop 4)
      ((mapClient twoIncsMsg).log Event.down_write) none _ _ _ rfl (by decide) (by decide)⟩

/-- What the loop over the incrementals leaves when it ends: nothing changed
when no entry is for the successor of the current epoch, and otherwise the
client with a new current map, which is also `newmap`. -/
theorem inc_loop_shape (D : Deps) :
    ∀ (nr : Nat) (p : List Nat) (s : ceph_osd_client) (nm : Option ceph_osdmap)
      (p2 : List Nat) (s1 : ceph_osd_client) (nm2 : Option ceph_osdmap),
      inc_loop D nr p s nm = MapLoop.next p2 s1 nm2 →
      ((∀ cur, s.osdmap = some cur → ∀ e ∈ map_entries nr p, e.1 ≠ (cur.epoch + 1) % U32) →
        s1 = s ∧ nm2 = nm) ∧
      ((s1 = s ∧ nm2 = nm) ∨ ∃ m, s1 = { s with osdmap := some m } ∧ nm2 = some m) ∧
      (∀ cur, s.osdmap = some cur → (∃ e ∈ map_entries nr p, e.1 = (cur.epoch + 1) % U32) →
        ∃ m, s1 = { s with osdmap := some m } ∧ nm2 = some m) := by
  intro nr
  induction nr with
  | zero =>
    intro p s nm p2 s1 nm2 h
    simp only [inc_loop, MapLoop.next.injEq] at h
    obtain ⟨_, h2, h3⟩ := h
    refine ⟨fun _ => ⟨h2.symm, h3.symm⟩, Or.inl ⟨h2.symm, h3.symm⟩, ?_⟩
    intro cur _ he
    simp [map_entries] at he
  | succ n ih =>
    intro p s nm p2 s1 nm2 h
    unfold inc_loop at h
    unfold map_entries
    simp only at h
    split_ifs at h with h8 hl
    simp only [h8, hl, if_true]
    split at h
    · rename_i cur hcur
      split_ifs at h with he
      · split at h
        · exact absurd h (by simp)
        · rename_i m0 hm0
          have hex : ∃ m, s1 = { s with osdmap := some m } ∧ nm2 = some m := by
            rcases (ih _ _ _ _ _ _ h).2.1 with ⟨a, b⟩ | ⟨m, a, b⟩
            · exact ⟨m0, a, b⟩
            · exact ⟨m, a, b⟩
          refine ⟨?_, Or.inr hex, fun _ _ _ => hex⟩
          intro hno
          exact absurd he.symm (hno cur hcur _ (List.mem_cons_self _ _))
      · obtain ⟨i1, i2, i3⟩ := ih _ _ _ _ _ _ h
        refine ⟨fun hno => i1 (fun c hc e hmem => hno c hc e (List.mem_cons_of_mem _ hmem)),
          i2, ?_⟩
        intro c hc hex
        obtain ⟨e, hmem, heq⟩ := hex
        rw [List.mem_cons] at hmem
        rcases hmem with rfl | hmem
        · rw [hcur] at hc
          simp only [Option.some.injEq] at hc
          subst hc
          exact absurd heq.symm he
        · exact i3 c hc ⟨e, hmem, heq⟩
    · rename_i hnone
      obtain ⟨i1, i2, _⟩ := ih _ _ _ _ _ _ h
      refine ⟨fun _ => i1 (fun c hc => by rw [hnone] at hc; exact absurd hc (by simp)), i2, ?_⟩
      intro c hc
      rw [hnone] at hc
      exact absurd hc (by simp)

/-- A list of maps that can be skipped whole has all its entries. -/
theorem skip_entries_length :
    ∀ (nr : Nat) (p p2 : List Nat), skip_entries nr p = some p2 →
      (map_entries nr p).length = nr := by
  intro nr
  induction nr with
  | zero => intro p p2 _; simp [map_entries]
  | succ n ih =>
    intro p p2 h
    unfold skip_entries at h
    unfold map_entries
    split_ifs at h with h8 hl
    simp only [h8, hl, if_true, List.length_cons]
    rw [ih _ _ h]

/-- What the loop over the full maps leaves when it ends: every entry is
whole, and only the last one counts: it is decoded and becomes the current
map when there is no current map or the current epoch is below its epoch, and
nothing changes otherwise. -/
theorem full_loop_next (D : Deps) :
    ∀ (nr : Nat) (p : List Nat) (s : ceph_osd_client) (nm : Option ceph_osdmap)
      (p3 : List Nat) (s2 : ceph_osd_client) (nm2 : Option ceph_osdmap),
      full_loop D nr p s nm = MapLoop.next p3 s2 nm2 →
      (map_entries nr p).length = nr ∧
      ((map_entries nr p).getLast? = none → s2 = s ∧ nm2 = nm) ∧
      (∀ e, (map_entries nr p).getLast? = some e →
        ((∀ c, s.osdmap = some c → c.epoch < e.1) →
          ∃ m, D.osdmap_decode e.2 = Except.ok m ∧ s2 = { s with osdmap := some m } ∧
            nm2 = some m) ∧
        ((∃ c, s.osdmap = some c ∧ e.1 ≤ c.epoch) → s2 = s ∧ nm2 = nm)) := by
  intro nr
  induction nr with
  | zero =>
    intro p s nm p3 s2 nm2 h
    simp only [full_loop, MapLoop.next.injEq] at h
    obtain ⟨_, h2, h3⟩ := h
    refine ⟨by simp [map_entries], fun _ => ⟨h2.symm, h3.symm⟩, ?_⟩
    intro e he
    simp [map_entries] at he
  | succ n ih =>
    intro p s nm p3 s2 nm2 h
    unfold full_loop at h
    unfold map_entries
    simp only at h
    split_ifs at h with h8 hl h1 h2
    · simp only [h8, hl, if_true]
      obtain ⟨i1, i2, i3⟩ := ih _ _ _ _ _ _ h
      have hne : ∃ b l, map_entries n (List.drop (le_value (List.take 4 (List.drop 4 p)))
          (List.drop 8 p)) = b :: l := by
        cases hm : map_entries n (List.drop (le_value (List.take 4 (List.drop 4 p)))
          (List.drop 8 p)) with
        | nil => rw [hm] at i1; simp at i1; omega
        | cons b l => exact ⟨b, l, rfl⟩
      obtain ⟨b, l, hbl⟩ := hne
      refine ⟨by simp only [List.length_cons, i1], ?_, ?_⟩
      · intro hc
        rw [hbl] at hc
        simp at hc
      · intro e he
        rw [hbl, List.getLast?_cons_cons, ← hbl] at he
        exact i3 e he
    · simp only [h8, hl, if_true]
      have hn : n = 0 := by omega
      subst hn
      simp only [full_loop, MapLoop.next.injEq] at h
      obtain ⟨_, e2, e3⟩ := h
      refine ⟨by simp [map_entries], fun hc => by simp [map_entries] at hc, ?_⟩
      intro e he
      simp only [map_entries, List.getLast?_singleton, Option.some.injEq] at he
      subst he
      refine ⟨?_, fun _ => ⟨e2.symm, e3.symm⟩⟩
      intro hnew
      cases hcur : s.osdmap with
      | none => rw [hcur] at h2; simp at h2
      | some cur =>
        rw [hcur] at h2
        simp only [ge_iff_le, decide_eq_true_eq] at h2
        have := hnew cur hcur
        simp only at this
        omega
    · simp only [h8, hl, if_true]
      have hn : n = 0 := by omega
      subst hn
      split at h
      · exact absurd h (by simp)
      · rename_i m hm
        simp only [full_loop, MapLoop.next.injEq] at h
        obtain ⟨_, e2, e3⟩ := h
        refine ⟨by simp [map_entries], fun hc => by simp [map_entries] at hc, ?_⟩
        intro e he
        simp only [map_entries, List.getLast?_singleton, Option.some.injEq] at he
        subst he
        refine ⟨fun _ => ⟨m, hm, e2.symm, e3.symm⟩, ?_⟩
        rintro ⟨c, hc, hle⟩
        rw [hc] at h2
        simp only [ge_iff_le, decide_eq_true_eq] at h2
        simp only at hle
        omega

/-- The three ways in which `ceph_osdc_handle_map` leaves through `done:` on a
message of the mount: after an incremental was applied, after the last full
map was taken, or with nothing applied; each with the call of the exit it
amounts to. -/
theorem handle_map_accepted {D : Deps} {s s' : ceph_osd_client} {msg : Nat}
    (h : ceph_osdc_handle_map D s msg = some s')
    (hfsid : (le_value ((s.msgs msg).front_bytes.take 8),
      le_value (((s.msgs msg).front_bytes.drop 8).take 8)) = s.monmap_fsid)
    (hok : ¬ found_corrupt s') :
    (∃ c m, s.osdmap = some c ∧
        (∃ e ∈ msg_incs (s.msgs msg).front_bytes, e.1 = (c.epoch + 1) % U32) ∧
        m = apply_contiguous D (msg_incs (s.msgs msg).front_bytes) c ∧
        handle_map_done D (({ s with osdmap := some m }).log Event.down_write) (some m) =
          some s') ∨
    ((∀ c, s.osdmap = some c →
        ∀ e ∈ msg_incs (s.msgs msg).front_bytes, e.1 ≠ (c.epoch + 1) % U32) ∧
      ∃ e m, (msg_fulls (s.msgs msg).front_bytes).getLast? = some e ∧
        (∀ c, s.osdmap = some c → c.epoch < e.1) ∧
        D.osdmap_decode e.2 = Except.ok m ∧
        handle_map_done D (({ s with osdmap := some m }).log Event.down_write) (some m) =
          some s') ∨
    ((∀ c, s.osdmap = some c →
        ∀ e ∈ msg_incs (s.msgs msg).front_bytes, e.1 ≠ (c.epoch + 1) % U32) ∧
      (∀ e, (msg_fulls (s.msgs msg).front_bytes).getLast? = some e →
        ∃ c, s.osdmap = some c ∧ e.1 ≤ c.epoch) ∧
      handle_map_done D (s.log Event.down_write) none = some s') := by
  unfold ceph_osdc_handle_map at h
  simp only at h
  split_ifs at h with h16 hfs h4
  · exact absurd hfsid hfs
  · split at h
    · exact absurd (handle_map_bad_out h).2 hok
    · rename_i p2 s1 newmap hl
      obtain ⟨sh1, sh2, sh3⟩ := inc_loop_shape D _ _ _ _ _ _ _ hl
      have hskip := inc_loop_next D _ _ _ _ _ _ _ hl
      split_ifs at h with hnm hf4
      · -- an incremental was applied
        rcases sh2 with ⟨_, b⟩ | ⟨m, a, b⟩
        · rw [b] at hnm; simp at hnm
        · left
          cases hcur : s.osdmap with
          | none =>
            have := inc_loop_none D (le_value (((s.msgs msg).front_bytes.drop 16).take 4))
              (((s.msgs msg).front_bytes.drop 16).drop 4) (s.log Event.down_write) none hcur
            rw [hl] at this
            simp only [MapLoop.client] at this
            rw [a] at this
            have h2 := congrArg (fun x => x.osdmap) this
            simp only [ceph_osd_client.log, hcur] at h2
            exact absurd h2 (by simp)
          | some c =>
            have hc0 : (s.log Event.down_write).osdmap = some c := hcur
            have hex : ∃ e ∈ msg_incs (s.msgs msg).front_bytes, e.1 = (c.epoch + 1) % U32 := by
              by_contra hno
              push_neg at hno
              have := sh1 (fun cur hcur2 e he => by
                rw [hc0] at hcur2
                simp only [Option.some.injEq] at hcur2
                subst hcur2
                exact hno e he)
              rw [this.2] at hnm
              simp at hnm
            have hcl := inc_loop_client D (le_value (((s.msgs msg).front_bytes.drop 16).take 4))
              (((s.msgs msg).front_bytes.drop 16).drop 4) (s.log Event.down_write) none c hc0
            rw [hl] at hcl
            simp only [MapLoop.client] at hcl
            have hm : m = apply_contiguous D (msg_incs (s.msgs msg).front_bytes) c := by
              rw [a] at hcl
              have h2 := congrArg (fun x => x.osdmap) hcl
              simp only [Option.some.injEq] at h2
              exact h2
            refine ⟨c, m, rfl, hex, hm, ?_⟩
            rw [a, b] at h
            exact h
      · -- no incremental was applied
        have hnone : newmap = none := by
          cases newmap with
          | none => rfl
          | some x => simp at hnm
        have hs1 : s1 = s.log Event.down_write := by
          rcases sh2 with ⟨a, _⟩ | ⟨m, _, b⟩
          · exact a
          · rw [b] at hnone; exact absurd hnone (by simp)
        have hno : ∀ c, s.osdmap = some c →
            ∀ e ∈ msg_incs (s.msgs msg).front_bytes, e.1 ≠ (c.epoch + 1) % U32 := by
          intro c hc e he heq
          obtain ⟨m, _, b⟩ := sh3 c hc ⟨e, he, heq⟩
          rw [b] at hnone
          exact absurd hnone (by simp)
        have hfulls : msg_fulls (s.msgs msg).front_bytes =
            map_entries (le_value (p2.take 4)) (p2.drop 4) := by
          unfold msg_fulls
          rw [hskip]
        split at h
        · exact absurd (handle_map_bad_out h).2 hok
        · rename_i p3 s2 nm2 hf
          obtain ⟨_, f2, f3⟩ := full_loop_next D _ _ _ _ _ _ _ hf
          rw [← hfulls] at f2 f3
          subst hs1
          subst hnone
          right
          cases hlast : (msg_fulls (s.msgs msg).front_bytes).getLast? with
          | none =>
            obtain ⟨a, b⟩ := f2 hlast
            right
            refine ⟨hno, fun e he => absurd he (by simp), ?_⟩
            rw [a, b] at h
            exact h
          | some e =>
            by_cases hnew : ∀ c, s.osdmap = some c → c.epoch < e.1
            · obtain ⟨m, hm, a, b⟩ := (f3 e hlast).1 hnew
              left
              refine ⟨hno, e, m, rfl, hnew, hm, ?_⟩
              rw [a, b] at h
              exact h
            · push_neg at hnew
              obtain ⟨c, hc, hle⟩ := hnew
              obtain ⟨a, b⟩ := (f3 e hlast).2 ⟨c, hc, hle⟩
              right
              refine ⟨hno, fun e2 he2 => ?_, ?_⟩
              · simp only [Option.some.injEq] at he2
                subst he2
                exact ⟨c, hc, hle⟩
              · rw [a, b] at h
                exact h
      · exact absurd (handle_map_bad_out h).2 hok
  · exact absurd (handle_map_bad_out h).2 hok
  · exact absurd (handle_map_bad_out h).2 hok

/-- The exit `done:` without a new map: the monitor client is told the current
epoch and nothing else happens. -/
theorem handle_map_done_quiet {D : Deps} {x s' : ceph_osd_client}
    (h : handle_map_done D x none = some s') :
    ∃ cur, x.osdmap = some cur ∧
      s' = ((x.log Event.downgrade_write).log (Event.got_osdmap cur.epoch)).log Event.up_read := by
  unfold handle_map_done at h
  simp only [Option.isSome_none, Bool.false_eq_true, if_false] at h
  cases hcur : x.osdmap with
  | none =>
    have : (x.log Event.downgrade_write).osdmap = none := hcur
    rw [this] at h
    exact absurd h (by simp)
  | some cur =>
    have : (x.log Event.downgrade_write).osdmap = some cur := hcur
    rw [this] at h
    simp only [Option.some.injEq] at h
    exact ⟨cur, rfl, h.symm⟩

/-- The exit `done:` with a new map: the monitor client is told the epoch of
the current map, then the requests are kicked with no peer address. -/
theorem handle_map_done_kicks {D : Deps} {x s' : ceph_osd_client} {m cur : ceph_osdmap}
    (hcur : x.osdmap = some cur) (h : handle_map_done D x (some m) = some s') :
    ∃ s2, kick_requests D ((x.log Event.downgrade_write).log (Event.got_osdmap cur.epoch))
        none = some s2 ∧ s' = s2.log Event.up_read := by
  unfold handle_map_done at h
  have : (x.log Event.downgrade_write).osdmap = some cur := hcur
  simp only [this, Option.isSome_some, if_true] at h
  split at h
  · exact absurd h (by simp)
  · rename_i s2 hk
    simp only [Option.some.injEq] at h
    exact ⟨s2, hk, h.symm⟩

theorem keeps_front_refl (s : ceph_osd_client) : KeepsFront s s := ⟨rfl, fun _ => rfl⟩

theorem keeps_front_trans {a b c : ceph_osd_client} (h1 : KeepsFront a b) (h2 : KeepsFront b c) :
    KeepsFront a c :=
  ⟨h2.fsid.trans h1.fsid, fun m => (h2.front m).trans (h1.front m)⟩

theorem put_request_keeps_front {s s' : ceph_osd_client} {req : Nat}
    (h : ceph_osdc_put_request s req = some s') : KeepsFront s s' := by
  unfold ceph_osdc_put_request at h
  simp only at h
  split_ifs at h <;> simp only [Option.some.injEq] at h <;> subst h <;>
    exact ⟨rfl, fun _ => rfl⟩

theorem send_request_keeps_front {D : Deps} {s s' : ceph_osd_client} {req : Nat} {rc : Int}
    (h : send_request D s req = some (rc, s')) : KeepsFront s s' := by
  unfold send_request at h
  split at h
  · exact absurd h (by simp)
  · simp only at h
    split_ifs at h
    · simp only [Option.some.injEq, Prod.mk.injEq] at h
      rw [← h.2]
      exact ⟨rfl, fun _ => rfl⟩
    · simp only [Option.some.injEq, Prod.mk.injEq] at h
      rw [← h.2]
      refine ⟨rfl, fun m => ?_⟩
      simp only [ceph_osd_client.log, ceph_osd_client.setReq, ceph_osd_client.setMsg, upd]
      split_ifs with hm
      · rw [hm]
      · rfl

theorem kick_one_keeps_front {D : Deps} {who : Option ceph_entity_addr} {s s' : ceph_osd_client}
    {req : Nat} {inc : Int} (h : kick_one D who s req = some (s', inc)) : KeepsFront s s' := by
  unfold kick_one at h
  simp only at h
  split at h
  · exact absurd h (by simp)
  · split_ifs at h with hosd hkick hab
    · simp only [Option.some.injEq, Prod.mk.injEq] at h
      rw [← h.1]
      exact ⟨rfl, fun _ => rfl⟩
    · split at h
      · exact absurd h (by simp)
      · rename_i s2 hs2
        split at h
        · exact absurd h (by simp)
        · rename_i s3 hs3
          simp only [Option.some.injEq, Prod.mk.injEq] at h
          rw [← h.1]
          have h3 := put_request_keeps_front hs3
          simp only [Option.some.injEq] at hs2
          rw [← hs2] at h3
          exact ⟨h3.fsid, h3.front⟩
    · split at h
      · exact absurd h (by simp)
      · rename_i s2 hs2
        split at h
        · exact absurd h (by simp)
        · rename_i s3 hs3
          simp only [Option.some.injEq, Prod.mk.injEq] at h
          rw [← h.1]
          have h3 := put_request_keeps_front hs3
          rw [Option.map_eq_some'] at hs2
          obtain ⟨⟨rc, s4⟩, hs4, rfl⟩ := hs2
          have h4 := send_request_keeps_front hs4
          exact ⟨h3.fsid.trans h4.fsid, fun m => (h3.front m).trans (h4.front m)⟩
    · simp only [Option.some.injEq, Prod.mk.injEq] at h
      rw [← h.1]
      exact keeps_front_refl _

theorem kick_loop_keeps_front (D : Deps) (who : Option ceph_entity_addr) :
    ∀ (fuel : Nat) (s : ceph_osd_client) (next_tid : Nat) (needmap : Int)
      (s' : ceph_osd_client) (n' : Int),
      kick_loop D who fuel s next_tid needmap = some (s', n') → KeepsFront s s' := by
  intro fuel
  induction fuel with
  | zero => intro s next_tid needmap s' n' h; simp [kick_loop] at h
  | succ n ih =>
    intro s next_tid needmap s' n' h
    unfold kick_loop at h
    split at h
    · simp only [Option.some.injEq, Prod.mk.injEq] at h
      rw [← h.1]; exact keeps_front_refl _
    · split at h
      · exact absurd h (by simp)
      · rename_i s1 inc h1
        exact keeps_front_trans (kick_one_keeps_front h1) (ih _ _ _ _ _ h)

theorem kick_requests_keeps_front {D : Deps} {s s' : ceph_osd_client}
    {who : Option ceph_entity_addr} (h : kick_requests D s who = some s') : KeepsFront s s' := by
  unfold kick_requests at h
  simp only at h
  split at h
  · exact absurd h (by simp)
  · rename_i s1 needmap hk
    have h1 := kick_loop_keeps_front D who _ _ _ _ _ _ hk
    split_ifs at h
    · split at h
      · exact absurd h (by simp)
      · simp only [Option.some.injEq] at h; subst h
        exact ⟨h1.fsid, h1.front⟩
    · simp only [Option.some.injEq] at h; subst h
      exact ⟨h1.fsid, h1.front⟩

theorem handle_map_done_keeps_front {D : Deps} {x s' : ceph_osd_client}
    {nm : Option ceph_osdmap} (h : handle_map_done D x nm = some s') : KeepsFront x s' := by
  unfold handle_map_done at h
  simp only at h
  split at h
  · exact absurd h (by simp)
  · split_ifs at h
    · split at h
      · exact absurd h (by simp)
      · rename_i s2 hk
        simp only [Option.some.injEq] at h; subst h
        have := kick_requests_keeps_front hk
        exact ⟨this.fsid, this.front⟩
    · simp only [Option.some.injEq] at h; subst h
      exact ⟨rfl, fun _ => rfl⟩

/-- The loop over the incrementals changes nothing when no entry is for the
successor of the current epoch. -/
theorem inc_loop_skip (D : Deps) (nr : Nat) (p : List Nat) (s : ceph_osd_client)
    (nm : Option ceph_osdmap)
    (hno : ∀ cur, s.osdmap = some cur → ∀ e ∈ map_entries nr p, e.1 ≠ (cur.epoch + 1) % U32) :
    inc_loop D nr p s nm = MapLoop.bad s ∨
      ∃ p2, inc_loop D nr p s nm = MapLoop.next p2 s nm ∧ skip_entries nr p = some p2 := by
  cases hres : inc_loop D nr p s nm with
  | bad s1 =>
    left
    cases hcur : s.osdmap with
    | none =>
      have := inc_loop_none D nr p s nm hcur
      rw [hres] at this
      simp only [MapLoop.client] at this
      rw [this]
    | some cur =>
      have := inc_loop_client D nr p s nm cur hcur
      rw [hres, apply_contiguous_skip D _ cur (hno cur hcur), ← hcur] at this
      simp only [MapLoop.client] at this
      rw [this]
  | next p2 s1 nm2 =>
    right
    obtain ⟨a, b⟩ := (inc_loop_shape D _ _ _ _ _ _ _ hres).1 hno
    exact ⟨p2, by rw [a, b], inc_loop_next D _ _ _ _ _ _ _ hres⟩

/-- The loop over the full maps changes nothing when the last whole entry is
not newer than the current map. -/
theorem full_loop_skip (D : Deps) (nr : Nat) (p : List Nat) (s : ceph_osd_client)
    (nm : Option ceph_osdmap)
    (hold : ∀ e, (map_entries nr p).getLast? = some e → ∃ c, s.osdmap = some c ∧ e.1 ≤ c.epoch) :
    full_loop D nr p s nm = MapLoop.bad s ∨ ∃ p3, full_loop D nr p s nm = MapLoop.next p3 s nm := by
  cases hres : full_loop D nr p s nm with
  | bad s1 =>
    left
    rw [full_loop_bad D _ _ _ _ _ hres]
  | next p3 s2 nm2 =>
    right
    obtain ⟨_, f2, f3⟩ := full_loop_next D _ _ _ _ _ _ _ hres
    cases hlast : (map_entries nr p).getLast? with
    | none =>
      obtain ⟨a, b⟩ := f2 hlast
      exact ⟨p3, by rw [a, b]⟩
    | some e =>
      obtain ⟨a, b⟩ := (f3 e hlast).2 (hold e hlast)
      exact ⟨p3, by rw [a, b]⟩

/-- A message that carries no incremental for the successor of the current
epoch and whose last full map is not newer than the current map is handled
without a kick: the call returns, and all it does is append events, none of
them the `mutex_lock` that `kick_requests` starts with. -/
theorem handle_map_quiet (D : Deps) (x : ceph_osd_client) (msg : Nat) (c : ceph_osdmap)
    (hc : x.osdmap = some c)
    (hinc : ∀ e ∈ msg_incs (x.msgs msg).front_bytes, e.1 ≠ (c.epoch + 1) % U32)
    (hfull : ∀ e, (msg_fulls (x.msgs msg).front_bytes).getLast? = some e → e.1 ≤ c.epoch) :
    ∃ t, ceph_osdc_handle_map D x msg = some (x.logs t) ∧ Event.mutex_lock ∉ t := by
  have e1 : ∀ a, x.log a = x.logs [a] := fun _ => rfl
  have e2 : ∀ (t : List Event) a, (x.logs t).log a = x.logs (t ++ [a]) := by
    intro t a
    simp [ceph_osd_client.log, ceph_osd_client.logs]
  unfold ceph_osdc_handle_map
  simp only
  split_ifs with h16 hfs h4
  · exact ⟨[Event.derr_wrong_fsid], rfl, by simp⟩
  · have hno : ∀ cur, (x.log Event.down_write).osdmap = some cur →
        ∀ e ∈ map_entries (le_value (((x.msgs msg).front_bytes.drop 16).take 4))
          (((x.msgs msg).front_bytes.drop 16).drop 4), e.1 ≠ (cur.epoch + 1) % U32 := by
      intro cur hcur e he
      have : cur = c := by
        have h2 : x.osdmap = some cur := hcur
        rw [hc] at h2
        simp only [Option.some.injEq] at h2
        exact h2.symm
      subst this
      exact hinc e he
    rcases inc_loop_skip D _ _ (x.log Event.down_write) none hno with hb | ⟨p2, hn, hskip⟩
    · rw [hb]
      simp only [handle_map_bad]
      refine ⟨[Event.down_write, Event.derr_corrupt_map, Event.up_write], ?_, by simp⟩
      simp [ceph_osd_client.log, ceph_osd_client.logs]
    · rw [hn]
      simp only [Option.isSome_none, Bool.false_eq_true, if_false]
      split_ifs with hf4
      · have hfulls : msg_fulls (x.msgs msg).front_bytes =
            map_entries (le_value (p2.take 4)) (p2.drop 4) := by
          unfold msg_fulls
          rw [hskip]
        have hold : ∀ e, (map_entries (le_value (p2.take 4)) (p2.drop 4)).getLast? = some e →
            ∃ c2, (x.log Event.down_write).osdmap = some c2 ∧ e.1 ≤ c2.epoch := by
          intro e he
          rw [← hfulls] at he
          exact ⟨c, hc, hfull e he⟩
        rcases full_loop_skip D _ _ (x.log Event.down_write) none hold with hb | ⟨p3, hn2⟩
        · rw [hb]
          simp only [handle_map_bad]
          refine ⟨[Event.down_write, Event.derr_corrupt_map, Event.up_write], ?_, by simp⟩
          simp [ceph_osd_client.log, ceph_osd_client.logs]
        · rw [hn2]
          simp only
          unfold handle_map_done
          have : ((x.log Event.down_write).log Event.downgrade_write).osdmap = some c := hc
          simp only [this, Option.isSome_none, Bool.false_eq_true, if_false]
          refine ⟨[Event.down_write, Event.downgrade_write, Event.got_osdmap c.epoch,
            Event.up_read], ?_, by simp⟩
          simp [ceph_osd_client.log, ceph_osd_client.logs]
      · simp only [handle_map_bad]
        refine ⟨[Event.down_write, Event.derr_corrupt_map, Event.up_write], ?_, by simp⟩
        simp [ceph_osd_client.log, ceph_osd_client.logs]
  · simp only [handle_map_bad]
    refine ⟨[Event.down_write, Event.derr_corrupt_map, Event.up_write], ?_, by simp⟩
    simp [ceph_osd_client.log, ceph_osd_client.logs]
  · simp only [handle_map_bad]
    refine ⟨[Event.derr_corrupt_map, Event.up_write], ?_, by simp⟩
    simp [ceph_osd_client.log, ceph_osd_client.logs]

/-- When the loop over the incrementals ends and its first entry is for the
successor of the current epoch, that entry was applied with success. -/
theorem inc_loop_first_applied (D : Deps) (nr : Nat) (p : List Nat) (s : ceph_osd_client)
    (nm : Option ceph_osdmap) (p2 : List Nat) (s1 : ceph_osd_client) (nm2 : Option ceph_osdmap)
    (h : inc_loop D nr p s nm = MapLoop.next p2 s1 nm2)
    (cur : ceph_osdmap) (hcur : s.osdmap = some cur) (e : Nat × List Nat)
    (rest : List (Nat × List Nat)) (hent : map_entries nr p = e :: rest)
    (he : e.1 = (cur.epoch + 1) % U32) :
    ∃ m, D.apply_incremental e.2 cur = Except.ok m := by
  cases nr with
  | zero => simp [map_entries] at hent
  | succ n =>
    unfold inc_loop at h
    unfold map_entries at hent
    simp only at h
    split_ifs at h with h8 hl
    simp only [h8, hl, if_true, List.cons.injEq] at hent
    obtain ⟨h1, _⟩ := hent
    rw [hcur] at h
    simp only at h
    have he2 : (cur.epoch + 1) % U32 = le_value (List.take 4 p) := by
      rw [← he, ← h1]
    simp only [he2, if_true] at h
    rw [← h1]
    simp only
    split at h
    · exact absurd h (by simp)
    · rename_i m hm
      exact ⟨m, hm⟩

/-- In a message that is handled through `done:`, a first incremental for the
successor of the current epoch was applied with success. -/
theorem handle_map_first_applied {D : Deps} {s s' : ceph_osd_client} {msg : Nat}
    (h : ceph_osdc_handle_map D s msg = some s')
    (hfsid : (le_value ((s.msgs msg).front_bytes.take 8),
      le_value (((s.msgs msg).front_bytes.drop 8).take 8)) = s.monmap_fsid)
    (hok : ¬ found_corrupt s')
    (c : ceph_osdmap) (hc : s.osdmap = some c) (e : Nat × List Nat)
    (rest : List (Nat × List Nat)) (hent : msg_incs (s.msgs msg).front_bytes = e :: rest)
    (he : e.1 = (c.epoch + 1) % U32) :
    ∃ m, D.apply_incremental e.2 c = Except.ok m := by
  unfold ceph_osdc_handle_map at h
  simp only at h
  split_ifs at h with h16 hfs h4
  · exact absurd hfsid hfs
  · split at h
    · exact absurd (handle_map_bad_out h).2 hok
    · rename_i p2 s1 newmap hl
      exact inc_loop_first_applied D _ _ _ _ _ _ _ hl c hc e rest hent he
  · exact absurd (handle_map_bad_out h).2 hok
  · exact absurd (handle_map_bad_out h).2 hok

/-- The rule for full maps, for a message of the mount that
`ceph_osdc_handle_map` handles through `done:`.  If no incremental of the
message is applied (none is for the successor of the current epoch), only the last full map of the message counts:
with no full map the current map stays; the last full map replaces the current
map, decoded from its bytes, if and only if there is no current map or the
current epoch is strictly below its epoch, and is skipped otherwise; the full
maps before the last have no part in the outcome, whatever their epochs.  If
an incremental is applied, the current map is the one reached by the
incrementals, and the call is the exit `done:` taken from there: no full map
of the message is read. -/
theorem handle_map_full_map_rule_of_done (D : Deps) (s s' : ceph_osd_client) (msg : Nat)
    (h : ceph_osdc_handle_map D s msg = some s')
    (hfsid : (le_value ((s.msgs msg).front_bytes.take 8),
      le_value (((s.msgs msg).front_bytes.drop 8).take 8)) = s.monmap_fsid)
    (hok : ¬ found_corrupt s') :
    ((∀ c, s.osdmap = some c →
        ∀ e ∈ msg_incs (s.msgs msg).front_bytes, e.1 ≠ (c.epoch + 1) % U32) →
      ((msg_fulls (s.msgs msg).front_bytes).getLast? = none → s'.osdmap = s.osdmap) ∧
      (∀ e, (msg_fulls (s.msgs msg).front_bytes).getLast? = some e →
        ((∀ c, s.osdmap = some c → c.epoch < e.1) →
          ∃ m, D.osdmap_decode e.2 = Except.ok m ∧ s'.osdmap = some m) ∧
        ((∃ c, s.osdmap = some c ∧ e.1 ≤ c.epoch) → s'.osdmap = s.osdmap))) ∧
    (∀ c m, s.osdmap = some c →
      (∃ e ∈ msg_incs (s.msgs msg).front_bytes, e.1 = (c.epoch + 1) % U32) →
      m = apply_contiguous D (msg_incs (s.msgs msg).front_bytes) c →
      s'.osdmap = some m ∧
      handle_map_done D (({ s with osdmap := some m }).log Event.down_write) (some m) =
        some s') := by
  rcases handle_map_accepted h hfsid hok with
    ⟨c, m, hc, hex, hm, hd⟩ | ⟨hno, e, m, hlast, hnew, hdec, hd⟩ | ⟨hno, hold, hd⟩
  · constructor
    · intro hno
      obtain ⟨e, he, heq⟩ := hex
      exact absurd heq (hno c hc e he)
    · intro c2 m2 hc2 _ hm2
      rw [hc] at hc2
      simp only [Option.some.injEq] at hc2
      subst hc2
      rw [← hm] at hm2
      subst hm2
      exact ⟨(handle_map_done_out hd).1, hd⟩
  · constructor
    · intro _
      refine ⟨fun hn => ?_, fun e2 he2 => ?_⟩
      · rw [hn] at hlast
        exact absurd hlast (by simp)
      · rw [hlast] at he2
        simp only [Option.some.injEq] at he2
        subst he2
        refine ⟨fun _ => ⟨m, hdec, (handle_map_done_out hd).1⟩, ?_⟩
        rintro ⟨c, hc, hle⟩
        have := hnew c hc
        omega
    · intro c _ hc hex _
      obtain ⟨e2, he2, heq⟩ := hex
      exact absurd heq (hno c hc e2 he2)
  · constructor
    · intro _
      refine ⟨fun _ => (handle_map_done_out hd).1, fun e he => ⟨fun hnew => ?_, fun _ =>
        (handle_map_done_out hd).1⟩⟩
      obtain ⟨c, hc, hle⟩ := hold e he
      have := hnew c hc
      omega
    · intro c _ hc hex _
      obtain ⟨e2, he2, heq⟩ := hex
      exact absurd heq (hno c hc e2 he2)

/-- C13: the code at the failing input.  The client at epoch 5 gets a message
announced with two incrementals, applies the first, so that the current map is
replaced by the map of epoch 6, finds the second cut short and leaves through
`bad:`.  The whole call logs `down_write`, the corruption and `up_write`: the
map was replaced, yet the monitor client is not told the new epoch and
`kick_requests` is not called, although one request is registered.  The same
message without the cut, handled through `done:`, replaces the map by the same
incremental and then tells the monitor client epoch 6 and starts the walk of
`kick_requests`. -/
theorem handle_map_replaces_without_kick :
    (mapClient cutMsg).osdmap.map (fun m => m.epoch) = some 5 ∧
    (mapClient cutMsg).request_tree = [(1, 7)] ∧
    msg_incs cutMsg.front_bytes = [(6, [9])] ∧
    (ceph_osdc_handle_map testDeps (mapClient cutMsg) 3000).map
      (fun s => (s.osdmap.map (fun m => m.epoch),
        s.trace.drop (mapClient cutMsg).trace.length)) =
      some (some 6, [Event.down_write, Event.derr_corrupt_map, Event.up_write]) ∧
    msg_incs oneIncMsg.front_bytes = [(6, [6])] ∧
    (ceph_osdc_handle_map testDeps (mapClient oneIncMsg) 3000).map
      (fun s => (s.osdmap.map (fun m => m.epoch),
        (s.trace.drop (mapClient oneIncMsg).trace.length).take 4)) =
      some (some 6, [Event.down_write, Event.downgrade_write, Event.got_osdmap 6,
        Event.mutex_lock]) := by
  exact ⟨by decide, by decide, by decide, by decide, by decide, by decide⟩

/-- Notification and kick, for a message of the mount that
`ceph_osdc_handle_map` handles through `done:` (it is not found corrupt).
Whenever the current map is replaced, by an incremental for the successor of the current epoch or by the
last full map when it is newer, and in particular whenever the map after the
call differs from the map before, the call is: take `map_sem`, install the new
map, downgrade, tell the monitor client the epoch of the new current map, then
`kick_requests` with no peer address, then `up_read`.  When no map is applied,
the call only tells the monitor client the current epoch: `kick_requests` is
not called. -/
theorem handle_map_notifies_then_kicks_of_done (D : Deps) (s s' : ceph_osd_client) (msg : Nat)
    (h : ceph_osdc_handle_map D s msg = some s')
    (hfsid : (le_value ((s.msgs msg).front_bytes.take 8),
      le_value (((s.msgs msg).front_bytes.drop 8).take 8)) = s.monmap_fsid)
    (hok : ¬ found_corrupt s') :
    (((∃ c, s.osdmap = some c ∧
          ∃ e ∈ msg_incs (s.msgs msg).front_bytes, e.1 = (c.epoch + 1) % U32) ∨
        (∃ e, (msg_fulls (s.msgs msg).front_bytes).getLast? = some e ∧
          ∀ c, s.osdmap = some c → c.epoch < e.1) ∨
        s'.osdmap ≠ s.osdmap) →
      ∃ m s2, s'.osdmap = some m ∧
        kick_requests D
          (((({ s with osdmap := some m }).log Event.down_write).log
            Event.downgrade_write).log (Event.got_osdmap m.epoch)) none = some s2 ∧
        s' = s2.log Event.up_read) ∧
    (((∀ c, s.osdmap = some c →
          ∀ e ∈ msg_incs (s.msgs msg).front_bytes, e.1 ≠ (c.epoch + 1) % U32) ∧
        (∀ e, (msg_fulls (s.msgs msg).front_bytes).getLast? = some e →
          ∃ c, s.osdmap = some c ∧ e.1 ≤ c.epoch)) →
      ∃ cur, s.osdmap = some cur ∧
        s' = (((s.log Event.down_write).log Event.downgrade_write).log
          (Event.got_osdmap cur.epoch)).log Event.up_read) := by
  rcases handle_map_accepted h hfsid hok with
    ⟨c, m, hc, hex, hm, hd⟩ | ⟨hno, e, m, hlast, hnew, hdec, hd⟩ | ⟨hno, hold, hd⟩
  · constructor
    · intro _
      obtain ⟨s2, hk, hs⟩ := handle_map_done_kicks
        (show (({ s with osdmap := some m }).log Event.down_write).osdmap = some m from rfl) hd
      exact ⟨m, s2, (handle_map_done_out hd).1, hk, hs⟩
    · rintro ⟨hno, _⟩
      obtain ⟨e, he, heq⟩ := hex
      exact absurd heq (hno c hc e he)
  · constructor
    · intro _
      obtain ⟨s2, hk, hs⟩ := handle_map_done_kicks
        (show (({ s with osdmap := some m }).log Event.down_write).osdmap = some m from rfl) hd
      exact ⟨m, s2, (handle_map_done_out hd).1, hk, hs⟩
    · rintro ⟨_, hold⟩
      obtain ⟨c, hc, hle⟩ := hold e hlast
      have := hnew c hc
      omega
  · obtain ⟨cur, hcur, hs⟩ := handle_map_done_quiet hd
    constructor
    · rintro (⟨c, hc, e, he, heq⟩ | ⟨e, he, hnew⟩ | hne)
      · exact absurd heq (hno c hc e he)
      · obtain ⟨c, hc, hle⟩ := hold e he
        have := hnew c hc
        omega
      · exact absurd (handle_map_done_out hd).1 hne
    · intro _
      exact ⟨cur, hcur, hs⟩

/-- C14: handling a message a second time is a no-op.  Assume that the
decoders yield maps of the epochs announced in the entries, and that the
client has just handled, through `done:`, a message of the mount that carries
a single full map and no incremental, or a single incremental for the current
epoch + 1 (in `u32`) and no full map.  Then a second call on the same message
returns, it only appends events to the log, none of them the `mutex_lock`
that `kick_requests` starts with, and the current map is the one the first
call left.  After the first handling of the incremental the current epoch is
the old epoch + 1 (in `u32`). -/
theorem handle_map_rehandle_noop (D : Deps) (s s1 : ceph_osd_client) (msg : Nat)
    (hinc : ∀ e ∈ msg_incs (s.msgs msg).front_bytes, ∀ c m, (c.epoch + 1) % U32 = e.1 →
      D.apply_incremental e.2 c = Except.ok m → m.epoch = e.1)
    (hfull : ∀ e ∈ msg_fulls (s.msgs msg).front_bytes, ∀ m,
      D.osdmap_decode e.2 = Except.ok m → m.epoch = e.1)
    (hmsg : (msg_incs (s.msgs msg).front_bytes = [] ∧
        ∃ e, msg_fulls (s.msgs msg).front_bytes = [e]) ∨
      (∃ c e, s.osdmap = some c ∧ msg_incs (s.msgs msg).front_bytes = [e] ∧
        e.1 = (c.epoch + 1) % U32 ∧ msg_fulls (s.msgs msg).front_bytes = []))
    (h1 : ceph_osdc_handle_map D s msg = some s1)
    (hfsid : (le_value ((s.msgs msg).front_bytes.take 8),
      le_value (((s.msgs msg).front_bytes.drop 8).take 8)) = s.monmap_fsid)
    (hok : ¬ found_corrupt s1) :
    (∃ s2 t, ceph_osdc_handle_map D s1 msg = some s2 ∧ s2 = s1.logs t ∧
      s2.osdmap = s1.osdmap ∧ Event.mutex_lock ∉ t) ∧
    (∀ c e, s.osdmap = some c → msg_incs (s.msgs msg).front_bytes = [e] →
      e.1 = (c.epoch + 1) % U32 →
      ∃ m, s1.osdmap = some m ∧ m.epoch = (c.epoch + 1) % U32) := by
  have hacc := handle_map_accepted h1 hfsid hok
  -- the epoch after the first handling of the incremental
  have hp2 : ∀ c e, s.osdmap = some c → msg_incs (s.msgs msg).front_bytes = [e] →
      e.1 = (c.epoch + 1) % U32 →
      ∃ m, s1.osdmap = some m ∧ m.epoch = (c.epoch + 1) % U32 := by
    intro c e hc hent he
    have hmem : e ∈ msg_incs (s.msgs msg).front_bytes := by rw [hent]; simp
    rcases hacc with ⟨c2, m, hc2, _, hm, hd⟩ | ⟨hno, _⟩ | ⟨hno, _⟩
    · rw [hc] at hc2
      simp only [Option.some.injEq] at hc2
      subst hc2
      obtain ⟨nm, hnm⟩ := handle_map_first_applied h1 hfsid hok c hc e [] hent he
      have hmn : m = nm := by
        rw [hm, hent]
        simp only [apply_contiguous, he, if_true, hnm]
      refine ⟨m, (handle_map_done_out hd).1, ?_⟩
      rw [hmn, hinc e hmem c nm he.symm hnm, he]
    · exact absurd he (hno c hc e hmem)
    · exact absurd he (hno c hc e hmem)
  refine ⟨?_, hp2⟩
  -- the second handling is quiet as soon as the map left by the first is not older
  have hquiet : ∀ m, s1.osdmap = some m →
      (s1.msgs msg).front_bytes = (s.msgs msg).front_bytes →
      (∀ e ∈ msg_incs (s.msgs msg).front_bytes, e.1 ≠ (m.epoch + 1) % U32) →
      (∀ e, (msg_fulls (s.msgs msg).front_bytes).getLast? = some e → e.1 ≤ m.epoch) →
      ∃ s2 t, ceph_osdc_handle_map D s1 msg = some s2 ∧ s2 = s1.logs t ∧
        s2.osdmap = s1.osdmap ∧ Event.mutex_lock ∉ t := by
    intro m hm hfront hi hf
    obtain ⟨t, ht, hnot⟩ := handle_map_quiet D s1 msg m hm (by rw [hfront]; exact hi)
      (by rw [hfront]; exact hf)
    exact ⟨s1.logs t, t, ht, rfl, rfl, hnot⟩
  rcases hacc with ⟨c, m, hc, hex, hm, hd⟩ | ⟨hno, e, m, hlast, hnew, hdec, hd⟩ |
      ⟨hno, hold, hd⟩
  · have hfront := (handle_map_done_keeps_front hd).front msg
    rcases hmsg with ⟨hnil, _⟩ | ⟨c2, e, hc2, hent, he, hfl⟩
    · obtain ⟨e, he, _⟩ := hex
      rw [hnil] at he
      simp at he
    · obtain ⟨m2, hs1, hep⟩ := hp2 c2 e hc2 hent he
      refine hquiet m2 hs1 hfront ?_ ?_
      · intro e2 he2
        rw [hent, List.mem_singleton] at he2
        subst he2
        rw [he, hep]
        have : (c2.epoch + 1) % U32 < U32 := Nat.mod_lt _ (by decide)
        unfold U32 at this ⊢
        omega
      · intro e2 he2
        rw [hfl] at he2
        simp at he2
  · have hfront := (handle_map_done_keeps_front hd).front msg
    have hs1 : s1.osdmap = some m := (handle_map_done_out hd).1
    rcases hmsg with ⟨hnil, e0, hfl⟩ | ⟨_, _, _, _, _, hfl⟩
    · refine hquiet m hs1 hfront ?_ ?_
      · intro e2 he2
        rw [hnil] at he2
        simp at he2
      · intro e2 he2
        rw [hlast] at he2
        simp only [Option.some.injEq] at he2
        subst he2
        have hmem : e ∈ msg_fulls (s.msgs msg).front_bytes := by
          rw [hfl] at hlast ⊢
          simp only [List.getLast?_singleton, Option.some.injEq] at hlast
          rw [hlast]
          exact List.mem_singleton.mpr rfl
        rw [hfull e hmem m hdec]
    · rw [hfl] at hlast
      simp at hlast
  · have hfront := (handle_map_done_keeps_front hd).front msg
    obtain ⟨cur, hcur, _⟩ := handle_map_done_quiet hd
    have hs1 : s1.osdmap = some cur := by
      rw [(handle_map_done_out hd).1]
      exact hcur
    have hcur2 : s.osdmap = some cur := hcur
    refine hquiet cur hs1 hfront (hno cur hcur2) ?_
    intro e he
    obtain ⟨c, hc, hle⟩ := hold e he
    rw [hcur2] at hc
    simp only [Option.some.injEq] at hc
    subst hc
    exact hle

/-- C14 on the message with the single incremental for epoch 6, handled at
epoch 5: the first call applies it and kicks, the epoch is 6; the second call
on the same message leaves the map of epoch 6 and does not kick. -/
theorem handle_map_rehandle_noop_witness :
    msg_incs oneIncMsg.front_bytes = [(6, [6])] ∧ msg_fulls oneIncMsg.front_bytes = [] ∧
    ∃ s1, ceph_osdc_handle_map testDeps (mapClient oneIncMsg) 3000 = some s1 ∧
      ¬ found_corrupt s1 ∧ s1.osdmap.map (fun m => m.epoch) = some 6 ∧
      (ceph_osdc_handle_map testDeps s1 3000).map
        (fun s2 => (s2.osdmap.map (fun m => m.epoch), s2.trace.drop s1.trace.length)) =
        some (some 6, [Event.down_write, Event.downgrade_write, Event.got_osdmap 6,
          Event.up_read]) ∧
      (∃ s2 t, ceph_osdc_handle_map testDeps s1 3000 = some s2 ∧ s2 = s1.logs t ∧
        s2.osdmap = s1.osdmap ∧ Event.mutex_lock ∉ t) ∧
      (∀ c e, (mapClient oneIncMsg).osdmap = some c →
        msg_incs ((mapClient oneIncMsg).msgs 3000).front_bytes = [e] →
        e.1 = (c.epoch + 1) % U32 →
        ∃ m, s1.osdmap = some m ∧ m.epoch = (c.epoch + 1) % U32) :=
  ⟨by decide, by decide,
    (ceph_osdc_handle_map testDeps (mapClient oneIncMsg) 3000).getD (mapClient oneIncMsg),
    rfl, by unfold found_corrupt; decide, by decide, by decide,
    handle_map_rehandle_noop testDeps (mapClient oneIncMsg) _ 3000
      (by
        intro e he c m hc hm
        have hb : e.2 = [6] := by
          have : msg_incs oneIncMsg.front_bytes = [(6, [6])] := by decide
          have he2 : e ∈ [((6 : Nat), [(6 : Nat)])] := by rw [← this]; exact he
          simp only [List.mem_singleton] at he2
          rw [he2]
        rw [hb] at hm
        simp only [testDeps, Except.ok.injEq] at hm
        rw [← hm]
        exact hc)
      (by
        intro e he
        have : msg_fulls oneIncMsg.front_bytes = [] := by decide
        have he2 : e ∈ ([] : List (Nat × List Nat)) := by rw [← this]; exact he
        simp at he2)
      (Or.inr ⟨testMap, (6, [6]), rfl, by decide, by decide, by decide⟩)
      rfl (by decide) (by unfold found_corrupt; decide)⟩

/-! ### The registry: registration and removal -/

theorem wrapInt_range (x : Int) : -2 ^ 31 ≤ wrapInt x ∧ wrapInt x < 2 ^ 31 := by
  unfold wrapInt
  omega

theorem wrapInt_of_range (x : Int) (h1 : -2 ^ 31 ≤ x) (h2 : x < 2 ^ 31) : wrapInt x = x := by
  unfold wrapInt
  omega

theorem wrapLong_of_range (x : Int) (h1 : -2 ^ 63 ≤ x) (h2 : x < 2 ^ 63) : wrapLong x = x := by
  unfold wrapLong
  omega

/-- The timer period is an `int`, so that it is its own value as a `long`. -/
theorem wrapLong_timer_period (D : Deps) (x : ceph_osd_client) :
    wrapLong (timer_period D x) = timer_period D x := by
  have h := wrapInt_range (x.osd_timeout * D.HZ)
  unfold timer_period
  apply wrapLong_of_range <;> omega

/-- Armed without a base time, the timer gets the whole period. -/
theorem reschedule_timeout_zero (D : Deps) (x : ceph_osd_client) :
    reschedule_timeout D x 0 = some (x.log (Event.schedule_timeout (timer_period D x))) := by
  unfold reschedule_timeout
  simp only [ne_eq, not_true_eq_false, if_false, sub_zero, wrapLong_timer_period]
  split_ifs with h1 h2
  · omega
  · rw [Int.tmod_self, zero_add]
  · rfl

theorem lookup_tree_put (k v : Nat) :
    ∀ t : List (Nat × Nat), radix_tree_lookup t k = none →
      radix_tree_lookup (tree_put t k v) k = some v := by
  intro t
  induction t with
  | nil => intro _; simp [tree_put, radix_tree_lookup]
  | cons e t ih =>
    intro h
    have he : (e.1 == k) = false := by
      by_contra hc
      simp only [Bool.not_eq_false] at hc
      simp [radix_tree_lookup, List.find?_cons, hc] at h
    have ht : radix_tree_lookup t k = none := by
      simpa [radix_tree_lookup, List.find?_cons, he] using h
    unfold tree_put
    split_ifs
    · simp [radix_tree_lookup, List.find?_cons]
    · have := ih ht
      simpa [radix_tree_lookup, List.find?_cons, he] using this

/-- C15, as stated, fails at the largest tid: with `last_tid` = 2^64 - 1 the
increment `++osdc->last_tid` wraps, a successful `register_request` assigns
tid 0, which is not the previous `last_tid` + 1 and is below the tid 2^64 - 1
registered before it. -/
theorem register_request_wraps_at_max_tid :
    wrapClient.last_tid = 2 ^ 64 - 1 ∧ wrapClient.request_tree = [(2 ^ 64 - 1, 7)] ∧
    (register_request testDeps wrapClient 8 false).map
      (fun r => (r.1, (r.2.reqs 8).r_tid, r.2.last_tid, r.2.request_tree)) =
      some (0, 0, 0, [(0, 8), (2 ^ 64 - 1, 7)]) := by
  refine ⟨by decide, by decide, by decide⟩

/-- C15, amended: for every registry state with `last_tid` below 2^64 - 1 and
every request, `register_request` returns; it succeeds (returns 0) exactly
when the tree can allocate and the new tid is not taken; and a successful call
assigns tid = previous `last_tid` + 1, which is above every tid registered
before when those are at most `last_tid`, writes that tid into the request and
into the header of its message, makes a lookup of that tid return the
request, adds exactly one reference and increases `num_requests` by one.  If
`num_requests` was 0 before the call, `timeout_tid` becomes the new tid and
the timer is armed with the timeout period; otherwise `timeout_tid` is
unchanged and the timer is not touched. -/
theorem register_request_assigns (D : Deps) (s : ceph_osd_client) (req : Nat) (nomem : Bool)
    (hwrap : s.last_tid + 1 < 2 ^ 64) :
    ∃ rc s', register_request D s req nomem = some (rc, s') ∧
      (0 ≤ rc ↔ nomem = false ∧ radix_tree_lookup s.request_tree (s.last_tid + 1) = none) ∧
      (0 ≤ rc →
        rc = 0 ∧
        s'.last_tid = s.last_tid + 1 ∧ (s'.reqs req).r_tid = s.last_tid + 1 ∧
        ((∀ e ∈ s.request_tree, e.1 ≤ s.last_tid) →
          ∀ e ∈ s.request_tree, e.1 < (s'.reqs req).r_tid) ∧
        (s'.msgs (s.reqs req).r_request).front_tid = s.last_tid + 1 ∧
        radix_tree_lookup s'.request_tree (s.last_tid + 1) = some req ∧
        (s'.reqs req).r_ref = (s.reqs req).r_ref + 1 ∧
        s'.num_requests = s.num_requests + 1 ∧
        (s.num_requests = 0 →
          s'.timeout_tid = s.last_tid + 1 ∧
          s'.trace = s.trace ++ [Event.mutex_lock,
            Event.schedule_timeout (timer_period D s), Event.mutex_unlock]) ∧
        (s.num_requests ≠ 0 →
          s'.timeout_tid = s.timeout_tid ∧
          s'.trace = s.trace ++ [Event.mutex_lock, Event.mutex_unlock])) := by
  have hmod : (s.last_tid + 1) % U64 = s.last_tid + 1 := Nat.mod_eq_of_lt hwrap
  have hres : ∀ x : ceph_osd_client,
      reschedule_timeout D x 0 =
        some (x.log (Event.schedule_timeout (timer_period D x))) := by
    intro x
    exact reschedule_timeout_zero D x
  unfold register_request
  simp only [ceph_osd_client.log, ceph_osd_client.setReq, ceph_osd_client.setMsg, hmod]
  cases nomem with
  | true =>
    refine ⟨_, _, by simp only [radix_tree_insert, if_true]; rfl, ?_, ?_⟩
    · simp [ENOMEM]
    · intro h; simp [ENOMEM] at h
  | false =>
    cases hl : radix_tree_lookup s.request_tree (s.last_tid + 1) with
    | some x =>
      refine ⟨_, _, by simp only [radix_tree_insert, hl]; rfl, ?_, ?_⟩
      · simp [EEXIST]
      · intro h; simp [EEXIST] at h
    | none =>
      have hins : radix_tree_insert s.request_tree (s.last_tid + 1) req false =
          (0, tree_put s.request_tree (s.last_tid + 1) req) := by
        simp [radix_tree_insert, hl]
      simp only [hins, lt_self_iff_false, if_false]
      by_cases hz : s.num_requests = 0
      · simp only [get_request, ceph_osd_client.setReq, hz, if_true]
        rw [hres]
        simp only [ceph_osd_client.log]
        refine ⟨0, _, rfl, by simp, fun _ => ⟨rfl, rfl, ?_, ?_, ?_, ?_, ?_, ?_, ?_, ?_⟩⟩
        · simp [upd]
        · intro hle e he
          have := hle e he
          simp only [upd, if_true]
          omega
        · simp [upd]
        · exact lookup_tree_put _ _ _ hl
        · simp [upd]
        · simp [hz]
        · intro _
          exact ⟨rfl, by simp [timer_period]⟩
        · intro hn
          exact absurd rfl hn
      · simp only [get_request, ceph_osd_client.setReq, hz, if_false]
        refine ⟨0, _, rfl, by simp, fun _ => ⟨rfl, rfl, ?_, ?_, ?_, ?_, ?_, ?_, ?_, ?_⟩⟩
        · simp [upd]
        · intro hle e he
          have := hle e he
          simp only [upd, if_true]
          omega
        · simp [upd]
        · exact lookup_tree_put _ _ _ hl
        · simp [upd]
        · rfl
        · intro hn
          exact hn.elim
        · intro _
          exact ⟨rfl, by simp⟩

/-- C15 on the first registration of a client: the request at address 7 gets
tid 1, `timeout_tid` becomes 1 and the timer is armed for 30 s. -/
theorem register_request_assigns_witness :
    testClient.last_tid + 1 < 2 ^ 64 ∧
    (register_request testDeps testClient 7 false).map
      (fun r => (r.1, (r.2.reqs 7).r_tid, (r.2.msgs 1007).front_tid, r.2.timeout_tid)) =
      some (0, 1, 1, 1) ∧
    (register_request testDeps testClient 7 false).map
      (fun r => (r.2.num_requests, r.2.trace)) =
      some (1, [Event.mutex_lock, Event.schedule_timeout 3000, Event.mutex_unlock]) ∧
    ∃ rc s', register_request testDeps testClient 7 false = some (rc, s') ∧
      (0 ≤ rc ↔ false = false ∧
        radix_tree_lookup testClient.request_tree (testClient.last_tid + 1) = none) ∧
      (0 ≤ rc →
        rc = 0 ∧
        s'.last_tid = testClient.last_tid + 1 ∧ (s'.reqs 7).r_tid = testClient.last_tid + 1 ∧
        ((∀ e ∈ testClient.request_tree, e.1 ≤ testClient.last_tid) →
          ∀ e ∈ testClient.request_tree, e.1 < (s'.reqs 7).r_tid) ∧
        (s'.msgs (testClient.reqs 7).r_request).front_tid = testClient.last_tid + 1 ∧
        radix_tree_lookup s'.request_tree (testClient.last_tid + 1) = some 7 ∧
        (s'.reqs 7).r_ref = (testClient.reqs 7).r_ref + 1 ∧
        s'.num_requests = testClient.num_requests + 1 ∧
        (testClient.num_requests = 0 →
          s'.timeout_tid = testClient.last_tid + 1 ∧
          s'.trace = testClient.trace ++ [Event.mutex_lock,
            Event.schedule_timeout (timer_period testDeps testClient),
            Event.mutex_unlock]) ∧
        (testClient.num_requests ≠ 0 →
          s'.timeout_tid = testClient.timeout_tid ∧
          s'.trace = testClient.trace ++ [Event.mutex_lock, Event.mutex_unlock])) :=
  ⟨by decide, by decide, by decide,
    register_request_assigns testDeps testClient 7 false (by decide)⟩

theorem foldl_min_of_le (a : Nat) :
    ∀ l : List Nat, (∀ x ∈ l, a ≤ x) → l.foldl min a = a := by
  intro l
  induction l with
  | nil => intro _; rfl
  | cons b l ih =>
    intro h
    have hb : a ≤ b := h b (List.mem_cons_self _ _)
    rw [List.foldl_cons, Nat.min_eq_left hb]
    exact ih (fun x hx => h x (List.mem_cons_of_mem _ hx))

/-- The smallest element of a list in ascending order is its head. -/
theorem min_of_sorted (l : List Nat) (h : l.Pairwise (fun a b => a < b)) :
    l.min? = l.head? := by
  cases l with
  | nil => rfl
  | cons a l =>
    rw [List.pairwise_cons] at h
    simp only [List.min?, List.head?_cons]
    rw [foldl_min_of_le a l (fun x hx => le_of_lt (h.1 x hx))]

theorem head_filter_eq_find {α : Type} (p : α → Bool) :
    ∀ l : List α, (l.filter p).head? = l.find? p := by
  intro l
  induction l with
  | nil => rfl
  | cons a l ih =>
    by_cases h : p a = true
    · simp [List.filter_cons, List.find?_cons, h]
    · simp only [List.filter_cons, List.find?_cons, h]
      simp [ih]

/-- On a tree in ascending order the next tid is found by a scan. -/
theorem next_timeout_tid_sorted (t : List (Nat × Nat)) (tid : Nat)
    (h : (t.map Prod.fst).Pairwise (fun a b => a < b)) :
    next_timeout_tid t tid =
      match t.find? (fun e => decide (tid < e.1)) with
      | some e => some e.1
      | none => t.head?.map Prod.fst := by
  unfold next_timeout_tid
  rw [min_of_sorted _ (List.Pairwise.filter _ h), head_filter_eq_find, List.find?_map,
    min_of_sorted _ h, List.head?_map]
  cases hf : List.find? ((fun k => decide (tid < k)) ∘ Prod.fst) t with
  | none =>
    have : List.find? (fun e => decide (tid < e.1)) t = none := hf
    rw [this]
    rfl
  | some e =>
    have : List.find? (fun e => decide (tid < e.1)) t = some e := hf
    rw [this]
    rfl

/-- Deleting the index of an entry of a tree in ascending order removes one
entry. -/
theorem delete_length :
    ∀ (t : List (Nat × Nat)), (t.map Prod.fst).Pairwise (fun a b => a < b) →
      ∀ e ∈ t, (radix_tree_delete t e.1).length + 1 = t.length := by
  intro t
  induction t with
  | nil => intro _ e he; simp at he
  | cons a t ih =>
    intro hs e he
    rw [List.map_cons, List.pairwise_cons] at hs
    unfold radix_tree_delete
    rw [List.mem_cons] at he
    rcases he with rfl | he
    · have hall : t.filter (fun x => x.1 != e.1) = t := by
        rw [List.filter_eq_self]
        intro x hx
        have := hs.1 x.1 (List.mem_map_of_mem _ hx)
        simp only [bne_iff_ne, ne_eq]
        omega
      simp [List.filter_cons, hall]
    · have hne : (a.1 != e.1) = true := by
        have := hs.1 e.1 (List.mem_map_of_mem _ he)
        simp only [bne_iff_ne, ne_eq]
        omega
      have := ih hs.2 e he
      unfold radix_tree_delete at this
      simp only [List.filter_cons, hne, if_true, List.length_cons]
      omega

theorem lookup_delete (t : List (Nat × Nat)) (k : Nat) :
    radix_tree_lookup (radix_tree_delete t k) k = none := by
  unfold radix_tree_lookup radix_tree_delete
  rw [Option.map_eq_none', List.find?_eq_none]
  intro x hx
  rw [List.mem_filter] at hx
  simpa using hx.2

/-- With a timer period other than zero `reschedule_timeout` returns. -/
theorem reschedule_timeout_total (D : Deps) (x : ceph_osd_client) (b : Nat)
    (htimer : timer_period D x ≠ 0) :
    ∃ j, reschedule_timeout D x b = some (x.log (Event.schedule_timeout j)) := by
  unfold reschedule_timeout
  simp only
  split_ifs <;> exact ⟨_, rfl⟩

/-- Dropping a reference of a request that holds one: the call returns, the
count goes down by one, and nothing else of the registry, of the requests or
of the messages changes; no completion is recorded. -/
theorem put_request_total (x : ceph_osd_client) (req : Nat) (href : 0 < (x.reqs req).r_ref) :
    ∃ s', ceph_osdc_put_request x req = some s' ∧
      s'.request_tree = x.request_tree ∧ s'.num_requests = x.num_requests ∧
      s'.timeout_tid = x.timeout_tid ∧
      s'.reqs = upd x.reqs req { x.reqs req with r_ref := (x.reqs req).r_ref - 1 } ∧
      s'.msgs = x.msgs ∧ completions s'.trace = completions x.trace := by
  have hc : ∀ (a : List Event) (m : Nat),
      completions (a ++ [Event.msg_put m]) = completions a := by
    intro a m
    induction a with
    | nil => rfl
    | cons e a ih => cases e <;> simp [completions, ih]
  have hc2 : ∀ (a : List Event) (r : Nat),
      completions (a ++ [Event.put_snap_context r, Event.kfree r]) = completions a := by
    intro a r
    induction a with
    | nil => rfl
    | cons e a ih => cases e <;> simp [completions, ih]
  unfold ceph_osdc_put_request
  simp only
  have : ¬ (x.reqs req).r_ref ≤ 0 := by omega
  simp only [this, if_false]
  split_ifs
  · refine ⟨_, rfl, rfl, rfl, rfl, rfl, rfl, ?_⟩
    simp only [ceph_osd_client.logs, ceph_osd_client.setReq]
    cases (x.reqs req).r_reply with
    | none =>
      simp only [List.append_nil]
      rw [show x.trace ++ ([Event.msg_put (x.reqs req).r_request] ++
          [Event.put_snap_context req, Event.kfree req]) =
        (x.trace ++ [Event.msg_put (x.reqs req).r_request]) ++
          [Event.put_snap_context req, Event.kfree req] by simp, hc2, hc]
    | some m =>
      rw [show x.trace ++ ([Event.msg_put (x.reqs req).r_request] ++ [Event.msg_put m] ++
          [Event.put_snap_context req, Event.kfree req]) =
        ((x.trace ++ [Event.msg_put (x.reqs req).r_request]) ++ [Event.msg_put m]) ++
          [Event.put_snap_context req, Event.kfree req] by simp, hc2, hc, hc]
  · exact ⟨_, rfl, rfl, rfl, rfl, rfl, rfl, rfl⟩

/-- The move of `timeout_tid` after the removal of the request it named: on a
well-formed tree that is not empty and no longer holds the tid of `req`, the
call returns, `timeout_tid` is the next tid after that of `req` with
wrap-around, and the timer is armed anew. -/
theorem register_next_spec (D : Deps) (x : ceph_osd_client) (req : Nat)
    (hsorted : (x.request_tree.map Prod.fst).Pairwise (fun a b => a < b))
    (hown : ∀ e ∈ x.request_tree, (x.reqs e.2).r_tid = e.1)
    (hfit : ∀ e ∈ x.request_tree, e.1 < U64)
    (htid : (x.reqs req).r_tid < U64)
    (hnot : ∀ e ∈ x.request_tree, e.1 ≠ (x.reqs req).r_tid)
    (hto : x.timeout_tid = (x.reqs req).r_tid)
    (hne : x.request_tree ≠ [])
    (htimer : timer_period D x ≠ 0) :
    ∃ k j, next_timeout_tid x.request_tree (x.reqs req).r_tid = some k ∧
      __register_next_request_timeout D x req =
        some (({ x with timeout_tid := k }).log (Event.schedule_timeout j)) := by
  obtain ⟨hd, tl, htree⟩ : ∃ hd tl, x.request_tree = hd :: tl := by
    cases hx : x.request_tree with
    | nil => exact absurd hx hne
    | cons a b => exact ⟨a, b, rfl⟩
  have hzero : radix_tree_gang_lookup x.request_tree 0 = some hd.2 := by
    rw [htree]
    simp [radix_tree_gang_lookup, List.find?_cons]
  have hhd : hd ∈ x.request_tree := by rw [htree]; exact List.mem_cons_self _ _
  rw [next_timeout_tid_sorted _ _ hsorted]
  unfold __register_next_request_timeout
  simp only
  by_cases hw : (x.reqs req).r_tid + 1 < U64
  · rw [Nat.mod_eq_of_lt hw]
    have hgl : radix_tree_gang_lookup x.request_tree ((x.reqs req).r_tid + 1) =
        (x.request_tree.find? (fun e => decide ((x.reqs req).r_tid < e.1))).map Prod.snd := rfl
    rw [hgl]
    cases hf : x.request_tree.find? (fun e => decide ((x.reqs req).r_tid < e.1)) with
    | none =>
      simp only [Option.map_none', hzero]
      obtain ⟨j, hj⟩ := reschedule_timeout_total D
        ({ x with timeout_tid := (x.reqs hd.2).r_tid }) (x.reqs req).r_last_stamp htimer
      refine ⟨hd.1, j, by rw [htree]; rfl, ?_⟩
      rw [hj, hown hd hhd]
    | some e =>
      have hmem := List.mem_of_find?_eq_some hf
      have hlt : (x.reqs req).r_tid < e.1 := by
        have := List.find?_some hf
        simpa using this
      have hne2 : ¬ (x.reqs e.2).r_tid = x.timeout_tid := by
        rw [hown e hmem, hto]
        omega
      simp only [Option.map_some', hne2, if_false]
      obtain ⟨j, hj⟩ := reschedule_timeout_total D
        ({ x with timeout_tid := (x.reqs e.2).r_tid }) (x.reqs req).r_last_stamp htimer
      refine ⟨e.1, j, rfl, ?_⟩
      rw [hj, hown e hmem]
  · have hmax : (x.reqs req).r_tid + 1 = U64 := by omega
    rw [hmax, Nat.mod_self, hzero]
    have hne2 : ¬ (x.reqs hd.2).r_tid = x.timeout_tid := by
      rw [hown hd hhd, hto]
      exact hnot hd hhd
    simp only [hne2, if_false]
    have hf : x.request_tree.find? (fun e => decide ((x.reqs req).r_tid < e.1)) = none := by
      rw [List.find?_eq_none]
      intro e he
      have := hfit e he
      simp only [decide_eq_true_eq]
      omega
    rw [hf]
    obtain ⟨j, hj⟩ := reschedule_timeout_total D
      ({ x with timeout_tid := (x.reqs hd.2).r_tid }) (x.reqs req).r_last_stamp htimer
    refine ⟨hd.1, j, by rw [htree]; rfl, ?_⟩
    rw [hj, hown hd hhd]

theorem completions_append (a b : List Event) :
    completions (a ++ b) = completions a ++ completions b := by
  induction a with
  | nil => rfl
  | cons e a ih => cases e <;> simp [completions, ih]

/-- Removal of a registered request from a well-formed registry, with a timer
period other than zero: the call returns; the tree loses the tid of the
request, the count goes down by one and stays the number of entries, the
request loses one reference, no completion is recorded, and `timeout_tid`
moves to the next tid when it named the request and others remain. -/
theorem unregister_request_spec (D : Deps) (s : ceph_osd_client) (req : Nat)
    (hsorted : (s.request_tree.map Prod.fst).Pairwise (fun a b => a < b))
    (hown : ∀ e ∈ s.request_tree, (s.reqs e.2).r_tid = e.1)
    (hreg : ((s.reqs req).r_tid, req) ∈ s.request_tree)
    (hfit : ∀ e ∈ s.request_tree, e.1 < U64)
    (href : 0 < (s.reqs req).r_ref)
    (hnum : s.num_requests = s.request_tree.length)
    (htimer : (s.reqs req).r_tid = s.timeout_tid → s.num_requests ≠ 1 → timer_period D s ≠ 0) :
    ∃ s', __unregister_request D s req = some s' ∧
      s'.request_tree = radix_tree_delete s.request_tree (s.reqs req).r_tid ∧
      s'.num_requests = s.num_requests - 1 ∧
      s'.reqs = upd s.reqs req { s.reqs req with r_ref := (s.reqs req).r_ref - 1 } ∧
      s'.msgs = s.msgs ∧ completions s'.trace = completions s.trace ∧
      ((s.reqs req).r_tid = s.timeout_tid → s'.request_tree ≠ [] →
        next_timeout_tid s'.request_tree (s.reqs req).r_tid = some s'.timeout_tid) ∧
      ((s.reqs req).r_tid ≠ s.timeout_tid → s'.timeout_tid = s.timeout_tid) ∧
      s'.num_requests = s'.request_tree.length := by
  have hlen := delete_length _ hsorted _ hreg
  simp only at hlen
  have hnum' : s.num_requests - 1 =
      ((radix_tree_delete s.request_tree (s.reqs req).r_tid).length : Int) := by
    rw [hnum, ← hlen]
    push_cast
    ring
  have hsub : ∀ e ∈ radix_tree_delete s.request_tree (s.reqs req).r_tid,
      e ∈ s.request_tree ∧ e.1 ≠ (s.reqs req).r_tid := by
    intro e he
    unfold radix_tree_delete at he
    rw [List.mem_filter] at he
    exact ⟨he.1, by simpa using he.2⟩
  unfold __unregister_request
  simp only
  split_ifs with h1 h2
  · -- the request named by timeout_tid goes, others remain
    have h1' : (s.reqs req).r_tid = s.timeout_tid := h1
    have hne : radix_tree_delete s.request_tree (s.reqs req).r_tid ≠ [] := by
      intro hc
      have h2' : s.num_requests - 1 ≠ 0 := h2
      rw [hnum', hc] at h2'
      simp at h2'
    obtain ⟨k, j, hk, hcall⟩ := register_next_spec D
      (({ s with
        request_tree := radix_tree_delete s.request_tree (s.reqs req).r_tid,
        num_requests := s.num_requests - 1 }).log Event.cancel_timeout) req
      (List.Pairwise.sublist (List.Sublist.map _ (List.filter_sublist _)) hsorted)
      (fun e he => hown e (hsub e he).1)
      (fun e he => hfit e (hsub e he).1)
      (hfit _ hreg)
      (fun e he => (hsub e he).2)
      h1'.symm hne (htimer h1' (fun hc => h2 (by
        show s.num_requests - 1 = 0
        omega)))
    rw [hcall]
    simp only
    obtain ⟨s', hp, p1, p2, p3, p4, p5, p6⟩ := put_request_total
      (({ (({ s with
        request_tree := radix_tree_delete s.request_tree (s.reqs req).r_tid,
        num_requests := s.num_requests - 1 }).log Event.cancel_timeout) with
          timeout_tid := k }).log (Event.schedule_timeout j)) req href
    refine ⟨s', hp, p1, p2, p4, p5, ?_, ?_, fun hn => absurd h1' hn, ?_⟩
    · rw [p6]
      simp [ceph_osd_client.log, completions_append, completions]
    · intro _ _
      rw [p1, p3]
      exact hk
    · rw [p2, p1]
      exact hnum'
  · -- the last request goes
    have h1' : (s.reqs req).r_tid = s.timeout_tid := h1
    have h2' : s.num_requests - 1 = 0 := by
      by_contra hc
      exact h2 hc
    obtain ⟨s', hp, p1, p2, p3, p4, p5, p6⟩ := put_request_total
      (({ s with
        request_tree := radix_tree_delete s.request_tree (s.reqs req).r_tid,
        num_requests := s.num_requests - 1 }).log Event.cancel_timeout) req href
    refine ⟨s', hp, p1, p2, p4, p5, ?_, ?_, fun hn => absurd h1' hn, ?_⟩
    · rw [p6]
      simp [ceph_osd_client.log, completions_append, completions]
    · intro _ hne
      exfalso
      apply hne
      rw [p1]
      have : ((radix_tree_delete s.request_tree (s.reqs req).r_tid).length : Int) = 0 := by
        rw [← hnum']; exact h2'
      exact List.length_eq_zero.mp (by exact_mod_cast this)
    · rw [p2, p1]
      exact hnum'
  · have h1' : ¬ (s.reqs req).r_tid = s.timeout_tid := h1
    obtain ⟨s', hp, p1, p2, p3, p4, p5, p6⟩ := put_request_total
      ({ s with
        request_tree := radix_tree_delete s.request_tree (s.reqs req).r_tid,
        num_requests := s.num_requests - 1 }) req href
    refine ⟨s', hp, p1, p2, p4, p5, p6, fun hc => absurd hc h1', fun _ => p3, ?_⟩
    rw [p2, p1]
    exact hnum'

/-- C16 (amended): for every well-formed registry that contains `req` (tree in
ascending order, every request under its own tid, tids within `u64`,
`num_requests` the number of entries, the request holding a reference) in
which the timer period `osd_timeout * HZ` is not zero when the tid of `req`
equals `timeout_tid` and other requests remain, `__unregister_request`
returns; it removes `req` from the index, so that a lookup of its tid finds
nothing, decreases `num_requests` by one and releases exactly one reference of
`req`, no other request being touched.  If the tid of `req` equals
`timeout_tid` and other requests remain, `timeout_tid` becomes the smallest
registered tid greater than that of `req`, or, when there is none, the
smallest registered tid; if the tid of `req` differs from `timeout_tid`,
`timeout_tid` is unchanged. -/
theorem unregister_request_effect (D : Deps) (s : ceph_osd_client) (req : Nat)
    (hinv : RegistryInv s)
    (hreg : ((s.reqs req).r_tid, req) ∈ s.request_tree)
    (hfit : ∀ e ∈ s.request_tree, e.1 < 2 ^ 64)
    (href : 0 < (s.reqs req).r_ref)
    (hnum : s.num_requests = s.request_tree.length)
    (htimer : (s.reqs req).r_tid = s.timeout_tid → s.num_requests ≠ 1 → timer_period D s ≠ 0) :
    ∃ s', __unregister_request D s req = some s' ∧
      s'.request_tree = radix_tree_delete s.request_tree (s.reqs req).r_tid ∧
      radix_tree_lookup s'.request_tree (s.reqs req).r_tid = none ∧
      (∀ e ∈ s.request_tree, e.2 ≠ req → radix_tree_lookup s'.request_tree e.1 = some e.2) ∧
      s'.num_requests = s.num_requests - 1 ∧
      (s'.reqs req).r_ref = (s.reqs req).r_ref - 1 ∧
      (∀ p, p ≠ req → s'.reqs p = s.reqs p) ∧
      ((s.reqs req).r_tid = s.timeout_tid → s'.request_tree ≠ [] →
        next_timeout_tid s'.request_tree (s.reqs req).r_tid = some s'.timeout_tid) ∧
      ((s.reqs req).r_tid ≠ s.timeout_tid → s'.timeout_tid = s.timeout_tid) := by
  obtain ⟨s', h, p1, p2, p3, _, _, p6, p7, _⟩ :=
    unregister_request_spec D s req hinv.sorted hinv.own_tid hreg hfit href hnum htimer
  refine ⟨s', h, p1, ?_, ?_, p2, ?_, ?_, p6, p7⟩
  · rw [p1]
    exact lookup_delete _ _
  · intro e he hne
    rw [p1]
    have hk : e.1 ≠ (s.reqs req).r_tid := by
      intro hc
      have := sorted_keys_inj _ hinv.sorted e he _ hreg hc
      rw [this] at hne
      exact hne rfl
    have hmem : e ∈ radix_tree_delete s.request_tree (s.reqs req).r_tid := by
      unfold radix_tree_delete
      rw [List.mem_filter]
      exact ⟨he, by simpa using hk⟩
    exact lookup_of_mem_sorted _
      (List.Pairwise.sublist (List.Sublist.map _ (List.filter_sublist _)) hinv.sorted) e hmem
  · rw [p3]
    simp [upd]
  · intro p hp
    rw [p3]
    simp [upd, hp]

/-- C16 on a registry with the tids 1 and 2 and `timeout_tid` 1: removing the
request of tid 1 leaves tid 2 alone in the tree and moves `timeout_tid` to 2. -/
theorem unregister_request_effect_witness :
    twoReqClient.request_tree = [(1, 7), (2, 8)] ∧ twoReqClient.timeout_tid = 1 ∧
    (__unregister_request testDeps twoReqClient 7).map
      (fun s => (s.request_tree, s.timeout_tid, s.num_requests, (s.reqs 7).r_ref)) =
      some ([(2, 8)], 2, 1, 1) ∧
    ∃ s', __unregister_request testDeps twoReqClient 7 = some s' ∧
      s'.request_tree = radix_tree_delete twoReqClient.request_tree (twoReqClient.reqs 7).r_tid ∧
      radix_tree_lookup s'.request_tree (twoReqClient.reqs 7).r_tid = none ∧
      (∀ e ∈ twoReqClient.request_tree, e.2 ≠ 7 →
        radix_tree_lookup s'.request_tree e.1 = some e.2) ∧
      s'.num_requests = twoReqClient.num_requests - 1 ∧
      (s'.reqs 7).r_ref = (twoReqClient.reqs 7).r_ref - 1 ∧
      (∀ p, p ≠ 7 → s'.reqs p = twoReqClient.reqs p) ∧
      ((twoReqClient.reqs 7).r_tid = twoReqClient.timeout_tid → s'.request_tree ≠ [] →
        next_timeout_tid s'.request_tree (twoReqClient.reqs 7).r_tid = some s'.timeout_tid) ∧
      ((twoReqClient.reqs 7).r_tid ≠ twoReqClient.timeout_tid →
        s'.timeout_tid = twoReqClient.timeout_tid) :=
  ⟨by decide, by decide, by decide,
    unregister_request_effect testDeps twoReqClient 7 ⟨by decide, by decide, by decide⟩
      (by decide) (by decide) (by decide) (by decide) (by decide)⟩

/-! ### Dispatch of a single request -/

/-- C17: for every request and current map for which `pick_osd` yields an osd,
`send_request` returns the code of `ceph_msg_send`; in the header of the
outgoing message it sets `osdmap_epoch` to the epoch of the map, ORs `r_flags`
into the flags, so that no flag set before is cleared, and sets the
destination to the entity (OSD, osd) at the address of that osd in the map; it
records `r_last_osd`, `r_last_osd_addr` and `r_last_stamp` = `jiffies`; it
takes one reference on the message and hands it to the messenger once; the tid
and the pgid of the request, the other requests, the other messages and the
registry are unchanged. -/
theorem send_request_dispatch (D : Deps) (s : ceph_osd_client) (req : Nat)
    (osdmap : ceph_osdmap) (hmap : s.osdmap = some osdmap)
    (hosd : 0 ≤ pick_osd D osdmap (s.reqs req)) :
    ∃ s', send_request D s req = some (s.send_rc, s') ∧
      (s'.msgs (s.reqs req).r_request).front_osdmap_epoch = osdmap.epoch ∧
      (s'.msgs (s.reqs req).r_request).front_flags =
        (s.msgs (s.reqs req).r_request).front_flags ||| (s.reqs req).r_flags ∧
      (∀ i, (s.msgs (s.reqs req).r_request).front_flags.testBit i = true →
        (s'.msgs (s.reqs req).r_request).front_flags.testBit i = true) ∧
      (s'.msgs (s.reqs req).r_request).hdr_dst_type = D.CEPH_ENTITY_TYPE_OSD ∧
      (s'.msgs (s.reqs req).r_request).hdr_dst_num = pick_osd D osdmap (s.reqs req) ∧
      (s'.msgs (s.reqs req).r_request).hdr_dst_addr =
        osd_addr_of osdmap (pick_osd D osdmap (s.reqs req)) ∧
      (s'.reqs req).r_last_osd = pick_osd D osdmap (s.reqs req) ∧
      (s'.reqs req).r_last_osd_addr = osd_addr_of osdmap (pick_osd D osdmap (s.reqs req)) ∧
      (s'.reqs req).r_last_stamp = s.jiffies ∧
      s'.trace = s.trace ++ [Event.msg_get (s.reqs req).r_request,
        Event.msg_send (s.reqs req).r_request (s'.msgs (s.reqs req).r_request)] ∧
      sends s'.trace = sends s.trace ++
        [((s.reqs req).r_request, s'.msgs (s.reqs req).r_request)] ∧
      (s'.reqs req).r_tid = (s.reqs req).r_tid ∧ (s'.reqs req).r_pgid = (s.reqs req).r_pgid ∧
      (∀ p, p ≠ req → s'.reqs p = s.reqs p) ∧
      (∀ m, m ≠ (s.reqs req).r_request → s'.msgs m = s.msgs m) ∧
      s'.request_tree = s.request_tree ∧ s'.num_requests = s.num_requests ∧
      s'.osdmap = s.osdmap := by
  have hge : ¬ pick_osd D osdmap (s.reqs req) < 0 := by omega
  unfold send_request
  rw [hmap]
  simp only [hge, if_false]
  refine ⟨_, rfl, ?_, ?_, ?_, ?_, ?_, ?_, ?_, ?_, ?_, ?_, ?_, ?_, ?_, ?_, ?_, rfl, rfl, hmap⟩
  · simp [ceph_osd_client.log, ceph_osd_client.setReq, ceph_osd_client.setMsg, upd]
  · simp [ceph_osd_client.log, ceph_osd_client.setReq, ceph_osd_client.setMsg, upd]
  · intro i hi
    simp [ceph_osd_client.log, ceph_osd_client.setReq, ceph_osd_client.setMsg, upd, hi]
  · simp [ceph_osd_client.log, ceph_osd_client.setReq, ceph_osd_client.setMsg, upd]
  · simp [ceph_osd_client.log, ceph_osd_client.setReq, ceph_osd_client.setMsg, upd]
  · simp [ceph_osd_client.log, ceph_osd_client.setReq, ceph_osd_client.setMsg, upd]
  · simp [ceph_osd_client.log, ceph_osd_client.setReq, ceph_osd_client.setMsg, upd]
  · simp [ceph_osd_client.log, ceph_osd_client.setReq, ceph_osd_client.setMsg, upd]
  · simp [ceph_osd_client.log, ceph_osd_client.setReq, ceph_osd_client.setMsg, upd]
  · simp [ceph_osd_client.log, ceph_osd_client.setReq, ceph_osd_client.setMsg, upd]
  · simp [ceph_osd_client.log, ceph_osd_client.setReq, ceph_osd_client.setMsg, upd,
      sends_append, sends]
  · simp [ceph_osd_client.log, ceph_osd_client.setReq, ceph_osd_client.setMsg, upd]
  · simp [ceph_osd_client.log, ceph_osd_client.setReq, ceph_osd_client.setMsg, upd]
  · intro p hp
    simp [ceph_osd_client.log, ceph_osd_client.setReq, ceph_osd_client.setMsg, upd, hp]
  · intro m hm
    simp [ceph_osd_client.log, ceph_osd_client.setReq, ceph_osd_client.setMsg, upd, hm]

/-- C17 on the client with the map of epoch 5 and the request of tid 1: the
message goes to osd 5 at address 105 with epoch 5 in its header. -/
theorem send_request_dispatch_witness :
    kickClient.osdmap = some testMap ∧ 0 ≤ pick_osd testDeps testMap (kickClient.reqs 7) ∧
    (send_request testDeps kickClient 7).map
      (fun r => ((r.2.msgs 1007).front_osdmap_epoch, (r.2.msgs 1007).hdr_dst_num,
        (r.2.msgs 1007).hdr_dst_addr, (r.2.reqs 7).r_last_osd)) = some (5, 5, 105, 5) ∧
    ∃ s', send_request testDeps kickClient 7 = some (kickClient.send_rc, s') ∧
      (s'.msgs (kickClient.reqs 7).r_request).front_osdmap_epoch = testMap.epoch ∧
      (s'.msgs (kickClient.reqs 7).r_request).front_flags =
        (kickClient.msgs (kickClient.reqs 7).r_request).front_flags |||
          (kickClient.reqs 7).r_flags ∧
      (∀ i, (kickClient.msgs (kickClient.reqs 7).r_request).front_flags.testBit i = true →
        (s'.msgs (kickClient.reqs 7).r_request).front_flags.testBit i = true) ∧
      (s'.msgs (kickClient.reqs 7).r_request).hdr_dst_type = testDeps.CEPH_ENTITY_TYPE_OSD ∧
      (s'.msgs (kickClient.reqs 7).r_request).hdr_dst_num =
        pick_osd testDeps testMap (kickClient.reqs 7) ∧
      (s'.msgs (kickClient.reqs 7).r_request).hdr_dst_addr =
        osd_addr_of testMap (pick_osd testDeps testMap (kickClient.reqs 7)) ∧
      (s'.reqs 7).r_last_osd = pick_osd testDeps testMap (kickClient.reqs 7) ∧
      (s'.reqs 7).r_last_osd_addr =
        osd_addr_of testMap (pick_osd testDeps testMap (kickClient.reqs 7)) ∧
      (s'.reqs 7).r_last_stamp = kickClient.jiffies ∧
      s'.trace = kickClient.trace ++ [Event.msg_get (kickClient.reqs 7).r_request,
        Event.msg_send (kickClient.reqs 7).r_request
          (s'.msgs (kickClient.reqs 7).r_request)] ∧
      sends s'.trace = sends kickClient.trace ++
        [((kickClient.reqs 7).r_request, s'.msgs (kickClient.reqs 7).r_request)] ∧
      (s'.reqs 7).r_tid = (kickClient.reqs 7).r_tid ∧
      (s'.reqs 7).r_pgid = (kickClient.reqs 7).r_pgid ∧
      (∀ p, p ≠ 7 → s'.reqs p = kickClient.reqs p) ∧
      (∀ m, m ≠ (kickClient.reqs 7).r_request → s'.msgs m = kickClient.msgs m) ∧
      s'.request_tree = kickClient.request_tree ∧
      s'.num_requests = kickClient.num_requests ∧
      s'.osdmap = kickClient.osdmap :=
  ⟨rfl, by decide, by decide, send_request_dispatch testDeps kickClient 7 testMap rfl (by decide)⟩

/-- C18: for every request and current map for which `pick_osd` yields no
osd, `send_request` returns 0 and all it does is ask the monitor client for
the map of epoch current epoch + 1 (computed in `u32`, as the code does; the
plain sum while it does not wrap): nothing is handed to the messenger, and the
requests, the messages and the registry are unchanged, so that the request
remains registered. -/
theorem send_request_no_target (D : Deps) (s : ceph_osd_client) (req : Nat)
    (osdmap : ceph_osdmap) (hmap : s.osdmap = some osdmap)
    (hosd : pick_osd D osdmap (s.reqs req) < 0) :
    ∃ s', send_request D s req = some (0, s') ∧
      s' = s.log (Event.request_osdmap ((osdmap.epoch + 1) % U32)) ∧
      (osdmap.epoch + 1 < 2 ^ 32 →
        s'.trace = s.trace ++ [Event.request_osdmap (osdmap.epoch + 1)]) ∧
      sends s'.trace = sends s.trace ∧
      s'.reqs = s.reqs ∧ s'.msgs = s.msgs ∧
      s'.request_tree = s.request_tree ∧ s'.num_requests = s.num_requests ∧
      s'.timeout_tid = s.timeout_tid ∧ s'.last_tid = s.last_tid ∧ s'.osdmap = s.osdmap ∧
      (∀ tid, radix_tree_lookup s'.request_tree tid = radix_tree_lookup s.request_tree tid) := by
  unfold send_request
  rw [hmap]
  simp only [hosd, if_true]
  refine ⟨_, rfl, rfl, ?_, ?_, rfl, rfl, rfl, rfl, rfl, rfl, hmap, fun _ => rfl⟩
  · intro hw
    have : (osdmap.epoch + 1) % U32 = osdmap.epoch + 1 := Nat.mod_eq_of_lt hw
    simp only [ceph_osd_client.log, this]
  · simp [ceph_osd_client.log, sends_append, sends]

/-- C18 on a request placed in a pool without a CRUSH rule, at epoch 5: the
monitor client is asked for epoch 6 and the request of tid 1 stays
registered. -/
theorem send_request_no_target_witness :
    noTargetClient.osdmap = some testMap ∧
    pick_osd testDeps testMap (noTargetClient.reqs 7) < 0 ∧
    (send_request testDeps noTargetClient 7).map
      (fun r => (r.1, r.2.trace.drop noTargetClient.trace.length,
        radix_tree_lookup r.2.request_tree 1)) =
      some (0, [Event.request_osdmap 6], some 7) ∧
    ∃ s', send_request testDeps noTargetClient 7 = some (0, s') ∧
      s' = noTargetClient.log (Event.request_osdmap ((testMap.epoch + 1) % U32)) ∧
      (testMap.epoch + 1 < 2 ^ 32 →
        s'.trace = noTargetClient.trace ++ [Event.request_osdmap (testMap.epoch + 1)]) ∧
      sends s'.trace = sends noTargetClient.trace ∧
      s'.reqs = noTargetClient.reqs ∧ s'.msgs = noTargetClient.msgs ∧
      s'.request_tree = noTargetClient.request_tree ∧
      s'.num_requests = noTargetClient.num_requests ∧
      s'.timeout_tid = noTargetClient.timeout_tid ∧ s'.last_tid = noTargetClient.last_tid ∧
      s'.osdmap = noTargetClient.osdmap ∧
      (∀ tid, radix_tree_lookup s'.request_tree tid =
        radix_tree_lookup noTargetClient.request_tree tid) :=
  ⟨rfl, by decide, by decide,
    send_request_no_target testDeps noTargetClient 7 testMap rfl (by decide)⟩

/-! ### Resubmission: requests without a valid target -/

theorem map_requests_append (a b : List Event) :
    map_requests (a ++ b) = map_requests a ++ map_requests b := by
  induction a with
  | nil => rfl
  | cons e a ih => cases e <;> simp [map_requests, ih]

theorem put_request_quiet {s s' : ceph_osd_client} {req : Nat}
    (h : ceph_osdc_put_request s req = some s') :
    map_requests s'.trace = map_requests s.trace ∧
    (∀ p, (s'.reqs p).r_pgid = (s.reqs p).r_pgid) := by
  unfold ceph_osdc_put_request at h
  simp only at h
  split_ifs at h
  · simp only [Option.some.injEq] at h
    rw [← h]
    constructor
    · cases hr : (s.reqs req).r_reply <;>
        simp [ceph_osd_client.logs, ceph_osd_client.setReq, map_requests_append, map_requests]
    · intro p
      by_cases hp : p = req
      · subst hp; simp [ceph_osd_client.logs, ceph_osd_client.setReq, upd]
      · simp [ceph_osd_client.logs, ceph_osd_client.setReq, upd, hp]
  · simp only [Option.some.injEq] at h
    rw [← h]
    refine ⟨rfl, fun p => ?_⟩
    by_cases hp : p = req
    · subst hp; simp [ceph_osd_client.setReq, upd]
    · simp [ceph_osd_client.setReq, upd, hp]

theorem send_request_quiet {D : Deps} {s s' : ceph_osd_client} {req : Nat} {rc : Int}
    {osdmap : ceph_osdmap} (hmap : s.osdmap = some osdmap)
    (hosd : ¬ pick_osd D osdmap (s.reqs req) < 0)
    (h : send_request D s req = some (rc, s')) :
    map_requests s'.trace = map_requests s.trace ∧
    (∀ p, (s'.reqs p).r_pgid = (s.reqs p).r_pgid) := by
  unfold send_request at h
  rw [hmap] at h
  simp only [hosd, if_false, Option.some.injEq, Prod.mk.injEq] at h
  rw [← h.2]
  constructor
  · simp [ceph_osd_client.log, ceph_osd_client.setReq, ceph_osd_client.setMsg,
      map_requests_append, map_requests]
  · intro p
    by_cases hp : p = req
    · subst hp
      simp [ceph_osd_client.log, ceph_osd_client.setReq, ceph_osd_client.setMsg, upd]
    · simp [ceph_osd_client.log, ceph_osd_client.setReq, ceph_osd_client.setMsg, upd, hp]

theorem send_put_quiet {D : Deps} {x s4 s3 : ceph_osd_client} {req : Nat} {rc : Int}
    (osdmap : ceph_osdmap)
    (hs4 : send_request D x req = some (rc, s4)) (hs3 : ceph_osdc_put_request s4 req = some s3)
    (hx : x.osdmap = some osdmap)
    (hge : ¬ pick_osd D osdmap (x.reqs req) < 0) :
    map_requests s3.trace = map_requests x.trace ∧
    (∀ p, (s3.reqs p).r_pgid = (x.reqs p).r_pgid) := by
  obtain ⟨q1, q2⟩ := put_request_quiet hs3
  obtain ⟨r1, r2⟩ := send_request_quiet hx hge hs4
  exact ⟨q1.trans r1, fun p => (q2 p).trans (r2 p)⟩

/-- A pass of the walk of `kick_requests` asks nothing of the monitor client,
keeps every pgid, and leaves a request that maps to no valid osd with
`r_last_osd` = -1 and a zeroed `r_last_osd_addr`. -/
theorem kick_one_unmapped {D : Deps} {who : Option ceph_entity_addr} {s s1 : ceph_osd_client}
    {req : Nat} {inc : Int} {osdmap : ceph_osdmap} (hmap : s.osdmap = some osdmap)
    (h : kick_one D who s req = some (s1, inc)) :
    map_requests s1.trace = map_requests s.trace ∧
    (∀ p, (s1.reqs p).r_pgid = (s.reqs p).r_pgid) ∧
    (maps_to_no_osd D osdmap (s.reqs req) = true →
      (s1.reqs req).r_last_osd = -1 ∧ (s1.reqs req).r_last_osd_addr = 0) := by
  unfold kick_one at h
  rw [hmap] at h
  simp only at h
  split_ifs at h with hosd hkick hab
  · simp only [Option.some.injEq, Prod.mk.injEq] at h
    rw [← h.1]
    refine ⟨rfl, fun p => ?_, fun _ => ?_⟩
    · by_cases hp : p = req
      · subst hp; simp [ceph_osd_client.setReq, upd]
      · simp [ceph_osd_client.setReq, upd, hp]
    · simp [ceph_osd_client.setReq, upd]
  · split at h
    · exact absurd h (by simp)
    · rename_i s2 hs2
      split at h
      · exact absurd h (by simp)
      · rename_i s3 hs3
        simp only [Option.some.injEq, Prod.mk.injEq] at h
        rw [← h.1]
        obtain ⟨q1, q2⟩ := put_request_quiet hs3
        simp only [Option.some.injEq] at hs2
        rw [← hs2] at q1 q2
        refine ⟨?_, fun p => ?_, fun hu => ?_⟩
        · simp only [ceph_osd_client.log, map_requests_append, map_requests,
            List.append_nil]
          rw [q1]
          simp [ceph_osd_client.log, get_request, ceph_osd_client.setReq,
            map_requests_append, map_requests]
        · rw [show ((s3.log Event.mutex_lock).reqs p) = s3.reqs p from rfl, q2 p]
          by_cases hp : p = req
          · subst hp
            simp [ceph_osd_client.log, get_request, ceph_osd_client.setReq, upd]
          · simp [ceph_osd_client.log, get_request, ceph_osd_client.setReq, upd, hp]
        · simp only [maps_to_no_osd, decide_eq_true_eq] at hu
          exact absurd hu hosd
  · split at h
    · exact absurd h (by simp)
    · rename_i s2 hs2
      split at h
      · exact absurd h (by simp)
      · rename_i s3 hs3
        simp only [Option.some.injEq, Prod.mk.injEq] at h
        rw [← h.1]
        rw [Option.map_eq_some'] at hs2
        obtain ⟨⟨rc, s4⟩, hs4, hs42⟩ := hs2
        simp only at hs42
        subst hs42
        have hge : ¬ pick_osd D osdmap (s.reqs req) < 0 := fun hc => hosd (Or.inl hc)
        have key := send_put_quiet osdmap hs4 hs3
        simp only [get_request, ceph_osd_client.log, ceph_osd_client.setReq, upd, if_true,
          hmap, pick_osd_spec] at key
        rw [pick_osd_spec] at hge
        obtain ⟨k1, k2⟩ := key trivial hge
        refine ⟨?_, fun p => ?_, fun hu => ?_⟩
        · show map_requests (s3.trace ++ _) = _
          rw [map_requests_append, k1]
          simp [map_requests_append, map_requests]
        · show (s3.reqs p).r_pgid = _
          rw [k2 p]
          by_cases hp : p = req
          · subst hp; simp
          · simp [hp]
        · simp only [maps_to_no_osd, decide_eq_true_eq] at hu
          exact absurd hu hosd
  · simp only [Option.some.injEq, Prod.mk.injEq] at h
    rw [← h.1]
    refine ⟨rfl, fun _ => rfl, fun hu => ?_⟩
    simp only [maps_to_no_osd, decide_eq_true_eq] at hu
    exact absurd hu hosd

theorem maps_to_no_osd_congr (D : Deps) (osdmap : ceph_osdmap) (r1 r2 : ceph_osd_request)
    (h : r1.r_pgid = r2.r_pgid) : maps_to_no_osd D osdmap r1 = maps_to_no_osd D osdmap r2 := by
  unfold maps_to_no_osd
  rw [pick_osd_congr D osdmap r1 r2 h]

/-- The walk of `kick_requests` over a well-formed registry, when it returns:
nothing was asked of the monitor client during the walk, and every registered
request that maps to no valid osd is left with `r_last_osd` = -1 and a zeroed
`r_last_osd_addr`. -/
theorem kick_loop_walk_unmapped (D : Deps) (who : Option ceph_entity_addr)
    (osdmap : ceph_osdmap) (s0 : ceph_osd_client)
    (hsorted : (s0.request_tree.map Prod.fst).Pairwise (fun a b => a < b))
    (hown : ∀ e ∈ s0.request_tree, (s0.reqs e.2).r_tid = e.1)
    (hwf : ∀ e ∈ s0.request_tree, e.1 + 1 < U64) :
    ∀ (suf pre : List (Nat × Nat)) (s : ceph_osd_client) (next_tid : Nat) (needmap : Int)
      (fuel : Nat) (s' : ceph_osd_client) (n' : Int),
      s0.request_tree = pre ++ suf →
      s.request_tree = s0.request_tree → s.osdmap = some osdmap →
      (∀ p, (s.reqs p).r_tid = (s0.reqs p).r_tid) →
      (∀ p, (s.reqs p).r_pgid = (s0.reqs p).r_pgid) →
      (∀ e ∈ pre, maps_to_no_osd D osdmap (s0.reqs e.2) = true →
        (s.reqs e.2).r_last_osd = -1 ∧ (s.reqs e.2).r_last_osd_addr = 0) →
      (∀ e ∈ pre, e.1 < next_tid) → (∀ e ∈ suf, next_tid ≤ e.1) →
      kick_loop D who fuel s next_tid needmap = some (s', n') →
      map_requests s'.trace = map_requests s.trace ∧
      (∀ e ∈ s0.request_tree, maps_to_no_osd D osdmap (s0.reqs e.2) = true →
        (s'.reqs e.2).r_last_osd = -1 ∧ (s'.reqs e.2).r_last_osd_addr = 0) := by
  intro suf
  induction suf with
  | nil =>
    intro pre s next_tid needmap fuel s' n' hsplit htree hmap _ _ hdone hpre _ h
    cases fuel with
    | zero => simp [kick_loop] at h
    | succ f =>
      have hl : radix_tree_gang_lookup s.request_tree next_tid = none := by
        rw [htree, hsplit, gang_lookup_append _ _ _ hpre]
        rfl
      unfold kick_loop at h
      rw [hl] at h
      simp only [Option.some.injEq, Prod.mk.injEq] at h
      rw [← h.1]
      refine ⟨rfl, fun e he => ?_⟩
      rw [hsplit, List.append_nil] at he
      exact hdone e he
  | cons e suf ih =>
    intro pre s next_tid needmap fuel s' n' hsplit htree hmap htid hpg hdone hpre hsuf h
    cases fuel with
    | zero => simp [kick_loop] at h
    | succ f =>
      have hemem : e ∈ s0.request_tree := by rw [hsplit]; simp
      have hl : radix_tree_gang_lookup s.request_tree next_tid = some e.2 := by
        rw [htree, hsplit, gang_lookup_append _ _ _ hpre]
        have := hsuf e (List.mem_cons_self _ _)
        simp [radix_tree_gang_lookup, List.find?_cons, this]
      unfold kick_loop at h
      rw [hl] at h
      simp only at h
      split at h
      · exact absurd h (by simp)
      · rename_i s1 inc h1
        obtain ⟨out, he, _, _⟩ := kick_one_effect hmap h1
        obtain ⟨u1, u2, u3⟩ := kick_one_unmapped hmap h1
        have hlt : ∀ x ∈ suf, e.1 < x.1 := by
          intro x hx
          rw [hsplit, List.map_append, List.pairwise_append] at hsorted
          have := hsorted.2.1
          rw [List.map_cons, List.pairwise_cons] at this
          exact this.1 x.1 (List.mem_map_of_mem _ hx)
        have hnext : ((s.reqs e.2).r_tid + 1) % U64 = e.1 + 1 := by
          rw [htid, hown e hemem]
          exact Nat.mod_eq_of_lt (hwf e hemem)
        rw [hnext] at h
        have htid1 : ∀ p, (s1.reqs p).r_tid = (s0.reqs p).r_tid := by
          intro p
          by_cases hp : p = e.2
          · rw [hp, he.tid, htid]
          · rw [he.reqs p hp, htid]
        obtain ⟨r1, r2⟩ := ih (pre ++ [e]) s1 (e.1 + 1) (needmap + inc) f s' n'
          (by rw [hsplit]; simp) (he.tree.trans htree) (he.map.trans hmap) htid1
          (fun p => (u2 p).trans (hpg p))
          (by
            intro x hx hu
            rw [List.mem_append, List.mem_singleton] at hx
            rcases hx with hx | hx
            · have hxm : x ∈ s0.request_tree := by rw [hsplit]; simp [hx]
              have hne : x.2 ≠ e.2 := by
                intro hc
                have h1 := hown x hxm
                have h2 := hown e hemem
                rw [hc, h2] at h1
                have := hpre x hx
                have := hsuf e (List.mem_cons_self _ _)
                omega
              rw [he.reqs x.2 hne]
              exact hdone x hx hu
            · subst hx
              apply u3
              rw [maps_to_no_osd_congr D osdmap _ _ (hpg x.2)]
              exact hu)
          (by
            intro x hx
            rw [List.mem_append, List.mem_singleton] at hx
            rcases hx with hx | hx
            · have := hpre x hx
              have := hsuf e (List.mem_cons_self _ _)
              omega
            · rw [hx]; omega)
          (by
            intro x hx
            have := hlt x hx
            omega)
          h
        exact ⟨r1.trans u1, r2⟩

theorem kick_unmapped_eq_zero (D : Deps) (osdmap : ceph_osdmap) (reqs : Nat → ceph_osd_request)
    (t : List (Nat × Nat)) :
    kick_unmapped D osdmap reqs t ≠ 0 ↔
      t.any (fun e => maps_to_no_osd D osdmap (reqs e.2)) = true := by
  induction t with
  | nil => simp [kick_unmapped]
  | cons e t ih =>
    rw [kick_unmapped_cons, List.any_cons, Bool.or_eq_true, ← ih]
    have hnn : 0 ≤ kick_unmapped D osdmap reqs t := by
      unfold kick_unmapped
      exact Int.natCast_nonneg _
    by_cases hu : pick_osd D osdmap (reqs e.2) < 0 ∨ pick_osd D osdmap (reqs e.2) ≥ osdmap.max_osd
    · have : maps_to_no_osd D osdmap (reqs e.2) = true := by
        unfold maps_to_no_osd; exact decide_eq_true hu
      simp only [hu, if_true, this, true_or, iff_true]
      omega
    · have : maps_to_no_osd D osdmap (reqs e.2) = false := by
        unfold maps_to_no_osd; exact decide_eq_false hu
      simp only [hu, if_false, this, zero_add, Bool.false_eq_true, false_or]

/-- C19, as stated, fails at the largest tid: the only registered request of
`wrapNoTargetClient` has tid 2^64 - 1 and maps to no osd.  Each pass of the
walk counts it in `needmap` and asks nothing of the monitor client, the walk
computes `next_tid = r_tid + 1 = 0`, the lookup finds the same request again,
and the walk never ends, whatever the number of lookups allowed: the monitor
client is never asked for a map although a registered request maps to no
osd. -/
theorem kick_requests_never_asks_at_max_tid :
    RegistryInv wrapNoTargetClient ∧ wrapNoTargetClient.request_tree = [(2 ^ 64 - 1, 7)] ∧
    maps_to_no_osd testDeps testMap (wrapNoTargetClient.reqs 7) = true ∧
    (kick_one testDeps none (wrapNoTargetClient.log Event.mutex_lock) 7).map
      (fun r => (r.2, map_requests r.1.trace,
        radix_tree_gang_lookup r.1.request_tree (((r.1.reqs 7).r_tid + 1) % U64))) =
      some (1, [], some 7) ∧
    kick_requests testDeps wrapNoTargetClient none = none ∧
    (∀ (fuel : Nat) (n : Int),
      kick_loop testDeps none fuel (wrapNoTargetClient.log Event.mutex_lock) 0 n = none) := by
  refine ⟨⟨by decide, by decide, by decide⟩, rfl, by decide, by decide, rfl, ?_⟩
  intro fuel n
  exact kick_loop_wraps testDeps none 7 fuel _ n rfl rfl

/-- C19, amended: for every client with a current map whose registry is well
formed (the registry invariant, every registered request holding a reference),
whose tids are below 2^64 - 1 and which holds fewer than 2^31 requests (the
range of the counter `needmap`), and for every optional peer address,
`kick_requests` returns.  It asks the monitor client for the map of epoch
current epoch + 1 (in `u32`) exactly once, as the last thing it does, if at
least one registered request maps to no osd or to an osd >= `max_osd`, and not
at all otherwise.  Each such request is left with `r_last_osd` = -1 and a
zeroed `r_last_osd_addr`, and is not among the requests sent: the sends are
those of the requests that have a valid target and satisfy the resend
condition. -/
theorem kick_requests_asks_for_map (D : Deps) (s : ceph_osd_client)
    (who : Option ceph_entity_addr) (osdmap : ceph_osdmap) (hmap : s.osdmap = some osdmap)
    (hinv : RegistryInv s)
    (hwf : ∀ e ∈ s.request_tree, e.1 + 1 < 2 ^ 64 ∧ 0 < (s.reqs e.2).r_ref)
    (_hlen : s.request_tree.length < 2 ^ 31) :
    ∃ s', kick_requests D s who = some s' ∧
      map_requests s'.trace = map_requests s.trace ++
        (if s.request_tree.any (fun e => maps_to_no_osd D osdmap (s.reqs e.2)) then
          [(osdmap.epoch + 1) % U32]
        else []) ∧
      (s.request_tree.any (fun e => maps_to_no_osd D osdmap (s.reqs e.2)) = true →
        s'.trace.getLast? = some (Event.request_osdmap ((osdmap.epoch + 1) % U32))) ∧
      (∀ e ∈ s.request_tree, maps_to_no_osd D osdmap (s.reqs e.2) = true →
        (s'.reqs e.2).r_last_osd = -1 ∧ (s'.reqs e.2).r_last_osd_addr = 0 ∧
        kick_resends D osdmap who (s.reqs e.2) = false) ∧
      (sends s'.trace).map send_target =
        (sends s.trace).map send_target ++ kick_expected D osdmap who s.reqs s.request_tree := by
  obtain ⟨s1, n1, k1, k2, k3, k4, k5⟩ :=
    kick_loop_walk D who osdmap (s.log Event.mutex_lock) hinv.sorted hinv.own_tid hwf
      s.request_tree [] (s.log Event.mutex_lock) 0 0 (s.request_tree.length + 1)
      rfl rfl hmap (fun _ _ => rfl) (by simp) (by simp) (by simp [ceph_osd_client.log])
  obtain ⟨u1, u2⟩ :=
    kick_loop_walk_unmapped D who osdmap (s.log Event.mutex_lock) hinv.sorted hinv.own_tid
      (fun e he => (hwf e he).1)
      s.request_tree [] (s.log Event.mutex_lock) 0 0 (s.request_tree.length + 1) s1 n1
      rfl rfl hmap (fun _ => rfl) (fun _ => rfl) (by simp) (by simp) (by simp) k1
  have hs : (sends (s.log Event.mutex_lock).trace) = sends s.trace := by
    simp [ceph_osd_client.log, sends_append, sends]
  rw [hs] at k4
  have hm : map_requests (s.log Event.mutex_lock).trace = map_requests s.trace := by
    simp [ceph_osd_client.log, map_requests_append, map_requests]
  rw [hm] at u1
  have hk : kick_loop D who ((s.log Event.mutex_lock).request_tree.length + 1)
      (s.log Event.mutex_lock) 0 0 = some (s1, n1) := k1
  have hn : n1 ≠ 0 ↔
      s.request_tree.any (fun e => maps_to_no_osd D osdmap (s.reqs e.2)) = true := by
    rw [k5, zero_add]
    exact kick_unmapped_eq_zero D osdmap s.reqs s.request_tree
  have hun : ∀ e ∈ s.request_tree, maps_to_no_osd D osdmap (s.reqs e.2) = true →
      (s1.reqs e.2).r_last_osd = -1 ∧ (s1.reqs e.2).r_last_osd_addr = 0 ∧
      kick_resends D osdmap who (s.reqs e.2) = false := by
    intro e he hu
    obtain ⟨a, b⟩ := u2 e he hu
    refine ⟨a, b, ?_⟩
    unfold kick_resends
    rw [decide_eq_false_iff_not]
    intro hc
    simp only [maps_to_no_osd, decide_eq_true_eq] at hu
    rcases hu with h1 | h1 <;> omega
  unfold kick_requests
  simp only [hk]
  by_cases hz : n1 ≠ 0
  · have hany := hn.mp hz
    have hmap1 : (s1.log Event.mutex_unlock).osdmap = some osdmap := k3
    rw [if_pos hz, if_pos hany]
    simp only [hmap1]
    refine ⟨_, rfl, ?_, fun _ => ?_, hun, ?_⟩
    · simp [ceph_osd_client.log, map_requests_append, map_requests, u1]
    · simp [ceph_osd_client.log]
    · simpa [ceph_osd_client.log, sends_append, sends] using k4
  · have hany : ¬ s.request_tree.any (fun e => maps_to_no_osd D osdmap (s.reqs e.2)) = true :=
      fun hc => hz (hn.mpr hc)
    rw [if_neg hz, if_neg hany]
    refine ⟨_, rfl, ?_, fun hc => absurd hc hany, hun, ?_⟩
    · simp [ceph_osd_client.log, map_requests_append, map_requests, u1]
    · simpa [ceph_osd_client.log, sends_append, sends] using k4

/-- C19 on a registry with two requests, tid 1 without a CRUSH rule and tid 2
with the target osd 5: the walk zeroes the last target of tid 1, sends tid 2
to osd 5, and then asks the monitor client once, for epoch 6. -/
theorem kick_requests_asks_for_map_witness :
    mixedClient.osdmap = some testMap ∧ RegistryInv mixedClient ∧
    (∀ e ∈ mixedClient.request_tree, e.1 + 1 < 2 ^ 64 ∧ 0 < (mixedClient.reqs e.2).r_ref) ∧
    mixedClient.request_tree.length < 2 ^ 31 ∧
    mixedClient.request_tree.map (fun e => maps_to_no_osd testDeps testMap (mixedClient.reqs e.2))
      = [true, false] ∧
    (kick_requests testDeps mixedClient none).map
      (fun r => (map_requests r.trace, (r.reqs 7).r_last_osd, (r.reqs 7).r_last_osd_addr)) =
      some ([6], -1, 0) ∧
    (kick_requests testDeps mixedClient none).map
      (fun r => (sends r.trace).map send_target) = some [(1008, 5, 105)] ∧
    ∃ s', kick_requests testDeps mixedClient none = some s' ∧
      map_requests s'.trace = map_requests mixedClient.trace ++
        (if mixedClient.request_tree.any
            (fun e => maps_to_no_osd testDeps testMap (mixedClient.reqs e.2)) then
          [(testMap.epoch + 1) % U32]
        else []) ∧
      (mixedClient.request_tree.any
          (fun e => maps_to_no_osd testDeps testMap (mixedClient.reqs e.2)) = true →
        s'.trace.getLast? = some (Event.request_osdmap ((testMap.epoch + 1) % U32))) ∧
      (∀ e ∈ mixedClient.request_tree,
        maps_to_no_osd testDeps testMap (mixedClient.reqs e.2) = true →
        (s'.reqs e.2).r_last_osd = -1 ∧ (s'.reqs e.2).r_last_osd_addr = 0 ∧
        kick_resends testDeps testMap none (mixedClient.reqs e.2) = false) ∧
      (sends s'.trace).map send_target =
        (sends mixedClient.trace).map send_target ++
          kick_expected testDeps testMap none mixedClient.reqs mixedClient.request_tree :=
  ⟨rfl, ⟨by decide, by decide, by decide⟩, by decide, by decide, by decide, by decide,
    by decide,
    kick_requests_asks_for_map testDeps mixedClient none testMap rfl
      ⟨by decide, by decide, by decide⟩ (by decide) (by decide)⟩

/-! ### The reply path -/

theorem lookup_mem {t : List (Nat × Nat)} {k v : Nat} (h : radix_tree_lookup t k = some v) :
    (k, v) ∈ t := by
  unfold radix_tree_lookup at h
  rw [Option.map_eq_some'] at h
  obtain ⟨e, he, rfl⟩ := h
  have hm := List.mem_of_find?_eq_some he
  have hk := List.find?_some he
  simp only [beq_iff_eq] at hk
  rw [← hk]
  exact hm

/-- The end of `ceph_osdc_handle_reply` once the reply slot holds the message:
the request is unregistered, the mutex released, one completion fired, and the
reference taken for the call dropped. -/
theorem handle_reply_tail (D : Deps) (x : ceph_osd_client) (req msg : Nat)
    (hsorted : (x.request_tree.map Prod.fst).Pairwise (fun a b => a < b))
    (hown : ∀ e ∈ x.request_tree, (x.reqs e.2).r_tid = e.1)
    (hreg : ((x.reqs req).r_tid, req) ∈ x.request_tree)
    (hfit : ∀ e ∈ x.request_tree, e.1 < U64)
    (href : 1 < (x.reqs req).r_ref)
    (hnum : x.num_requests = x.request_tree.length)
    (htimer : (x.reqs req).r_tid = x.timeout_tid → x.num_requests ≠ 1 → timer_period D x ≠ 0)
    (hslot : (x.reqs req).r_reply = some msg) :
    ∃ s3 s', __unregister_request D x req = some s3 ∧
      s3.request_tree = radix_tree_delete x.request_tree (x.reqs req).r_tid ∧
      completions s3.trace = completions x.trace ∧
      ceph_osdc_put_request
        (if ((s3.log Event.mutex_unlock).reqs req).r_callback then
          (s3.log Event.mutex_unlock).log (Event.callback req)
        else (s3.log Event.mutex_unlock).log (Event.complete req)) req = some s' ∧
      s'.request_tree = radix_tree_delete x.request_tree (x.reqs req).r_tid ∧
      s'.num_requests = x.num_requests - 1 ∧
      (s'.reqs req).r_reply = some msg ∧ (s'.reqs req).r_ref = (x.reqs req).r_ref - 2 ∧
      (∀ p, p ≠ req → s'.reqs p = x.reqs p) ∧
      completions s'.trace = completions x.trace ++
        [if (x.reqs req).r_callback then Event.callback req else Event.complete req] := by
  obtain ⟨s3, h3, p1, p2, p3, _, p5, _, _, _⟩ :=
    unregister_request_spec D x req hsorted hown hreg hfit (by omega) hnum htimer
  have hcb : ((s3.log Event.mutex_unlock).reqs req).r_callback = (x.reqs req).r_callback := by
    show (s3.reqs req).r_callback = _
    rw [p3]
    simp [upd]
  have href3 : (s3.reqs req).r_ref = (x.reqs req).r_ref - 1 := by
    rw [p3]
    simp [upd]
  have hrep3 : (s3.reqs req).r_reply = some msg := by
    rw [p3]
    simp [upd, hslot]
  refine ⟨s3, ?_⟩
  by_cases hc : (x.reqs req).r_callback = true
  · rw [hcb, if_pos hc, if_pos hc]
    obtain ⟨s', hp, q1, q2, _, q4, _, q6⟩ := put_request_total
      ((s3.log Event.mutex_unlock).log (Event.callback req)) req
      (by show 0 < (s3.reqs req).r_ref; rw [href3]; omega)
    refine ⟨s', h3, p1, p5, hp, q1.trans p1, q2.trans p2, ?_, ?_, ?_, ?_⟩
    · rw [q4]
      simp only [upd, if_true]
      exact hrep3
    · rw [q4]
      simp only [upd, if_true]
      show (s3.reqs req).r_ref - 1 = _
      rw [href3]
      ring
    · intro p hp2
      rw [q4]
      simp only [upd, hp2, if_false]
      show s3.reqs p = _
      rw [p3]
      simp [upd, hp2]
    · rw [q6]
      simp [ceph_osd_client.log, completions_append, completions, p5]
  · rw [hcb, if_neg hc, if_neg hc]
    obtain ⟨s', hp, q1, q2, _, q4, _, q6⟩ := put_request_total
      ((s3.log Event.mutex_unlock).log (Event.complete req)) req
      (by show 0 < (s3.reqs req).r_ref; rw [href3]; omega)
    refine ⟨s', h3, p1, p5, hp, q1.trans p1, q2.trans p2, ?_, ?_, ?_, ?_⟩
    · rw [q4]
      simp only [upd, if_true]
      exact hrep3
    · rw [q4]
      simp only [upd, if_true]
      show (s3.reqs req).r_ref - 1 = _
      rw [href3]
      ring
    · intro p hp2
      rw [q4]
      simp only [upd, hp2, if_false]
      show s3.reqs p = _
      rw [p3]
      simp [upd, hp2]
    · rw [q6]
      simp [ceph_osd_client.log, completions_append, completions, p5]

/-- C20 (amended): for every reply with a valid front length whose tid names
a request registered in a well-formed registry, the request holding a
reference and its reply slot being empty or holding this very message, in a
client whose timer period `osd_timeout * HZ` is not zero when that request is
the one named by `timeout_tid` and other requests remain,
`ceph_osdc_handle_reply` returns; the slot holds this message afterwards; the
request is unregistered under the mutex, so that a lookup of the tid finds
nothing, at a moment when no completion has fired; and then exactly one
completion fires: the callback if one is set, otherwise the completion
signal, never both.  The registry loses this one request and its
reference. -/
theorem handle_reply_completes (D : Deps) (s : ceph_osd_client) (msg req : Nat)
    (hlen1 : D.sizeof_reply_head ≤ (s.msgs msg).front_len)
    (hlen2 : (s.msgs msg).front_len = reply_front_len D (s.msgs msg).front_num_ops)
    (hinv : RegistryInv s)
    (hfit : ∀ e ∈ s.request_tree, e.1 < 2 ^ 64)
    (hnum : s.num_requests = s.request_tree.length)
    (htimer : (s.reqs req).r_tid = s.timeout_tid → s.num_requests ≠ 1 → timer_period D s ≠ 0)
    (hlook : radix_tree_lookup s.request_tree (s.msgs msg).front_tid = some req)
    (hslot : (s.reqs req).r_reply = none ∨ (s.reqs req).r_reply = some msg)
    (href : 0 < (s.reqs req).r_ref) :
    ∃ s', ceph_osdc_handle_reply D s msg = some s' ∧
      (s'.reqs req).r_reply = some msg ∧
      s'.request_tree = radix_tree_delete s.request_tree (s.msgs msg).front_tid ∧
      radix_tree_lookup s'.request_tree (s.msgs msg).front_tid = none ∧
      s'.num_requests = s.num_requests - 1 ∧
      (s'.reqs req).r_ref = (s.reqs req).r_ref - 1 ∧
      completions s'.trace = completions s.trace ++
        [if (s.reqs req).r_callback then Event.callback req else Event.complete req] ∧
      (∃ s3 : ceph_osd_client,
        radix_tree_lookup s3.request_tree (s.msgs msg).front_tid = none ∧
        completions s3.trace = completions s.trace ∧
        ceph_osdc_put_request
          ((s3.log Event.mutex_unlock).log
            (if (s.reqs req).r_callback then Event.callback req else Event.complete req))
          req = some s') := by
  have hmem := lookup_mem hlook
  have htid : (s.reqs req).r_tid = (s.msgs msg).front_tid := hinv.own_tid _ hmem
  have c1 : ¬ (s.msgs msg).front_len < D.sizeof_reply_head := by omega
  have c2 : ¬ (s.msgs msg).front_len ≠ reply_front_len D (s.msgs msg).front_num_ops := by
    simpa using hlen2
  have hl : radix_tree_lookup (s.log Event.mutex_lock).request_tree (s.msgs msg).front_tid =
      some req := hlook
  -- the state in which the slot holds the message
  have hx : ∃ x : ceph_osd_client,
      (if ((get_request (s.log Event.mutex_lock) req).reqs req).r_reply = none then
        ((get_request (s.log Event.mutex_lock) req).log (Event.msg_get msg)).setReq req
          { (get_request (s.log Event.mutex_lock) req).reqs req with r_reply := some msg }
      else get_request (s.log Event.mutex_lock) req) = x ∧
      x.request_tree = s.request_tree ∧ x.num_requests = s.num_requests ∧
      x.osd_timeout = s.osd_timeout ∧
      (∀ p, (x.reqs p).r_tid = (s.reqs p).r_tid) ∧
      (x.reqs req).r_ref = (s.reqs req).r_ref + 1 ∧ (x.reqs req).r_reply = some msg ∧
      (x.reqs req).r_callback = (s.reqs req).r_callback ∧
      completions x.trace = completions s.trace := by
    have hr : ((get_request (s.log Event.mutex_lock) req).reqs req).r_reply =
        (s.reqs req).r_reply := by
      simp [get_request, ceph_osd_client.setReq, ceph_osd_client.log, upd]
    rw [hr]
    by_cases hnone : (s.reqs req).r_reply = none
    · rw [if_pos hnone]
      refine ⟨_, rfl, rfl, rfl, rfl, fun p => ?_, ?_, ?_, ?_, ?_⟩
      · by_cases hp : p = req
        · subst hp
          simp [get_request, ceph_osd_client.setReq, ceph_osd_client.log, upd]
        · simp [get_request, ceph_osd_client.setReq, ceph_osd_client.log, upd, hp]
      · simp [get_request, ceph_osd_client.setReq, ceph_osd_client.log, upd]
      · simp [get_request, ceph_osd_client.setReq, ceph_osd_client.log, upd]
      · simp [get_request, ceph_osd_client.setReq, ceph_osd_client.log, upd]
      · simp [get_request, ceph_osd_client.setReq, ceph_osd_client.log, completions_append,
          completions]
    · rw [if_neg hnone]
      have hsome : (s.reqs req).r_reply = some msg := by
        rcases hslot with h | h
        · exact absurd h hnone
        · exact h
      refine ⟨_, rfl, rfl, rfl, rfl, fun p => ?_, ?_, ?_, ?_, ?_⟩
      · by_cases hp : p = req
        · subst hp
          simp [get_request, ceph_osd_client.setReq, ceph_osd_client.log, upd]
        · simp [get_request, ceph_osd_client.setReq, ceph_osd_client.log, upd, hp]
      · simp [get_request, ceph_osd_client.setReq, ceph_osd_client.log, upd]
      · simp [get_request, ceph_osd_client.setReq, ceph_osd_client.log, upd, hsome]
      · simp [get_request, ceph_osd_client.setReq, ceph_osd_client.log, upd]
      · simp [get_request, ceph_osd_client.setReq, ceph_osd_client.log, completions_append,
          completions]
  obtain ⟨x, hxe, x1, x2, x3, x4, x5, x6, x7, x8⟩ := hx
  have x9 : x.timeout_tid = s.timeout_tid := by
    rw [← hxe]
    split_ifs <;> rfl
  have htimerx : (x.reqs req).r_tid = x.timeout_tid → x.num_requests ≠ 1 →
      timer_period D x ≠ 0 := by
    intro h1 h2
    have ht := htimer (by rw [← x4 req, ← x9]; exact h1) (by rw [← x2]; exact h2)
    unfold timer_period at ht ⊢
    rw [x3]
    exact ht
  have hslot1 : ((get_request (s.log Event.mutex_lock) req).reqs req).r_reply = none ∨
      ((get_request (s.log Event.mutex_lock) req).reqs req).r_reply = some msg := by
    have hr : ((get_request (s.log Event.mutex_lock) req).reqs req).r_reply =
        (s.reqs req).r_reply := by
      simp [get_request, ceph_osd_client.setReq, ceph_osd_client.log, upd]
    rw [hr]
    exact hslot
  obtain ⟨s3, s', t1, t2, t3, t4, t5, t6, t7, t8, _, t10⟩ := handle_reply_tail D x req msg
    (by rw [x1]; exact hinv.sorted)
    (by intro e he; rw [x1] at he; rw [x4]; exact hinv.own_tid e he)
    (by rw [x1, x4, htid]; exact hmem)
    (by intro e he; rw [x1] at he; exact hfit e he)
    (by rw [x5]; omega)
    (by rw [x1, x2]; exact hnum)
    htimerx
    x6
  have hcb3 : ((s3.log Event.mutex_unlock).reqs req).r_callback = (s.reqs req).r_callback := by
    obtain ⟨s3b, h3b, _, _, p3, _⟩ := unregister_request_spec D x req
      (by rw [x1]; exact hinv.sorted)
      (by intro e he; rw [x1] at he; rw [x4]; exact hinv.own_tid e he)
      (by rw [x1, x4, htid]; exact hmem)
      (by intro e he; rw [x1] at he; exact hfit e he)
      (by rw [x5]; omega)
      (by rw [x1, x2]; exact hnum)
      htimerx
    rw [t1] at h3b
    simp only [Option.some.injEq] at h3b
    subst h3b
    show (s3.reqs req).r_callback = _
    rw [p3]
    simp [upd, x7]
  refine ⟨s', ?_, t7, ?_, ?_, ?_, ?_, ?_, ⟨s3, ?_, ?_, ?_⟩⟩
  · unfold ceph_osdc_handle_reply
    simp only [c1, c2, if_false, hl, hslot1, if_true, hxe, t1]
    exact t4
  · rw [t5, x1, x4, htid]
  · rw [t5, x4, htid]
    exact lookup_delete _ _
  · rw [t6, x2]
  · rw [t8, x5]
    ring
  · rw [t10, x8, x7]
  · rw [t2, x4, htid]
    exact lookup_delete _ _
  · rw [t3, x8]
  · rw [← t4, hcb3]
    by_cases hc : (s.reqs req).r_callback = true
    · simp only [hc, if_true]
    · simp only [hc, if_false]
      rfl

/-- C20 on the registry with the tids 1 and 2 and a reply for tid 1: the slot
of the request holds the reply, tid 1 is no longer found, the request has no
callback and its completion is signalled once. -/
theorem handle_reply_completes_witness :
    testDeps.sizeof_reply_head ≤ (replyClient.msgs 2001).front_len ∧
    (replyClient.msgs 2001).front_len =
      reply_front_len testDeps (replyClient.msgs 2001).front_num_ops ∧
    radix_tree_lookup replyClient.request_tree (replyClient.msgs 2001).front_tid = some 7 ∧
    (replyClient.reqs 7).r_reply = none ∧
    (ceph_osdc_handle_reply testDeps replyClient 2001).map
      (fun r => ((r.reqs 7).r_reply, r.request_tree, completions r.trace)) =
      some (some 2001, [(2, 8)], [Event.complete 7]) ∧
    ∃ s', ceph_osdc_handle_reply testDeps replyClient 2001 = some s' ∧
      (s'.reqs 7).r_reply = some 2001 ∧
      s'.request_tree =
        radix_tree_delete replyClient.request_tree (replyClient.msgs 2001).front_tid ∧
      radix_tree_lookup s'.request_tree (replyClient.msgs 2001).front_tid = none ∧
      s'.num_requests = replyClient.num_requests - 1 ∧
      (s'.reqs 7).r_ref = (replyClient.reqs 7).r_ref - 1 ∧
      completions s'.trace = completions replyClient.trace ++
        [if (replyClient.reqs 7).r_callback then Event.callback 7 else Event.complete 7] ∧
      (∃ s3 : ceph_osd_client,
        radix_tree_lookup s3.request_tree (replyClient.msgs 2001).front_tid = none ∧
        completions s3.trace = completions replyClient.trace ∧
        ceph_osdc_put_request
          ((s3.log Event.mutex_unlock).log
            (if (replyClient.reqs 7).r_callback then Event.callback 7 else Event.complete 7))
          7 = some s') :=
  ⟨by decide, by decide, by decide, by decide, by decide,
    handle_reply_completes testDeps replyClient 2001 7 (by decide) (by decide)
      ⟨by decide, by decide, by decide⟩ (by decide) (by decide) (by decide) (by decide)
      (Or.inl (by decide)) (by decide)⟩

/-! ### Map ingestion: the call returns -/

/-- Over a well-formed registry whose tids are below 2^64 - 1 the walk of
`kick_requests` ends and the call returns. -/
theorem kick_requests_total (D : Deps) (s : ceph_osd_client) (who : Option ceph_entity_addr)
    (osdmap : ceph_osdmap) (hmap : s.osdmap = some osdmap)
    (hsorted : (s.request_tree.map Prod.fst).Pairwise (fun a b => a < b))
    (hown : ∀ e ∈ s.request_tree, (s.reqs e.2).r_tid = e.1)
    (hwf : ∀ e ∈ s.request_tree, e.1 + 1 < U64 ∧ 0 < (s.reqs e.2).r_ref) :
    ∃ s', kick_requests D s who = some s' := by
  obtain ⟨s1, n1, k1, _, k3, _, _⟩ :=
    kick_loop_walk D who osdmap (s.log Event.mutex_lock) hsorted hown hwf
      s.request_tree [] (s.log Event.mutex_lock) 0 0 (s.request_tree.length + 1)
      rfl rfl hmap (fun _ _ => rfl) (by simp) (by simp) (by simp [ceph_osd_client.log])
  have hk : kick_loop D who ((s.log Event.mutex_lock).request_tree.length + 1)
      (s.log Event.mutex_lock) 0 0 = some (s1, n1) := k1
  unfold kick_requests
  simp only [hk]
  split_ifs
  · have : (s1.log Event.mutex_unlock).osdmap = some osdmap := k3
    simp only [this]
    exact ⟨_, rfl⟩
  · exact ⟨_, rfl⟩

/-- With a current map and a well-formed registry the exit `done:` returns. -/
theorem handle_map_done_total (D : Deps) (x : ceph_osd_client) (nm : Option ceph_osdmap)
    (c : ceph_osdmap) (hc : x.osdmap = some c)
    (hsorted : (x.request_tree.map Prod.fst).Pairwise (fun a b => a < b))
    (hown : ∀ e ∈ x.request_tree, (x.reqs e.2).r_tid = e.1)
    (hwf : ∀ e ∈ x.request_tree, e.1 + 1 < U64 ∧ 0 < (x.reqs e.2).r_ref) :
    ∃ s', handle_map_done D x nm = some s' := by
  unfold handle_map_done
  have : (x.log Event.downgrade_write).osdmap = some c := hc
  simp only [this]
  split_ifs
  · obtain ⟨s2, h2⟩ := kick_requests_total D
      ((x.log Event.downgrade_write).log (Event.got_osdmap c.epoch)) none c hc hsorted hown hwf
    rw [h2]
    exact ⟨_, rfl⟩
  · exact ⟨_, rfl⟩

/-- `ceph_osdc_handle_map` returns on every message, given a well-formed
registry whose tids are below 2^64 - 1 and, when there is no current map, a
message that brings a full map. -/
theorem handle_map_total (D : Deps) (s : ceph_osd_client) (msg : Nat)
    (hinv : RegistryInv s)
    (hwf : ∀ e ∈ s.request_tree, e.1 + 1 < U64 ∧ 0 < (s.reqs e.2).r_ref)
    (hcur : s.osdmap = none → msg_fulls (s.msgs msg).front_bytes ≠ []) :
    ∃ s', ceph_osdc_handle_map D s msg = some s' := by
  unfold ceph_osdc_handle_map
  simp only
  split_ifs with h16 hfs h4
  · exact ⟨_, rfl⟩
  · cases hres : inc_loop D (le_value (((s.msgs msg).front_bytes.drop 16).take 4))
        (((s.msgs msg).front_bytes.drop 16).drop 4) (s.log Event.down_write) none with
    | bad s1 => exact ⟨_, rfl⟩
    | next p2 s1 nm =>
      obtain ⟨_, sh2, _⟩ := inc_loop_shape D _ _ _ _ _ _ _ hres
      have hskip := inc_loop_next D _ _ _ _ _ _ _ hres
      simp only
      rcases sh2 with ⟨a, b⟩ | ⟨m, a, b⟩
      · subst a
        subst b
        simp only [Option.isSome_none, Bool.false_eq_true, if_false]
        split_ifs with hf4
        · have hfulls : msg_fulls (s.msgs msg).front_bytes =
              map_entries (le_value (p2.take 4)) (p2.drop 4) := by
            unfold msg_fulls
            rw [hskip]
          cases hres2 : full_loop D (le_value (p2.take 4)) (p2.drop 4)
              (s.log Event.down_write) none with
          | bad s2 => exact ⟨_, rfl⟩
          | next p3 s2 nm2 =>
            simp only
            obtain ⟨_, f2, f3⟩ := full_loop_next D _ _ _ _ _ _ _ hres2
            rw [← hfulls] at f2 f3
            cases hlast : (msg_fulls (s.msgs msg).front_bytes).getLast? with
            | none =>
              obtain ⟨a, b⟩ := f2 hlast
              subst a
              cases hc : s.osdmap with
              | none =>
                exfalso
                apply hcur hc
                exact List.getLast?_eq_none_iff.mp hlast
              | some c =>
                exact handle_map_done_total D _ _ c hc hinv.sorted hinv.own_tid hwf
            | some e =>
              by_cases hnew : ∀ c, s.osdmap = some c → c.epoch < e.1
              · obtain ⟨m, _, a, _⟩ := (f3 e hlast).1 hnew
                subst a
                exact handle_map_done_total D _ _ m rfl hinv.sorted hinv.own_tid hwf
              · push_neg at hnew
                obtain ⟨c, hc, hle⟩ := hnew
                obtain ⟨a, _⟩ := (f3 e hlast).2 ⟨c, hc, hle⟩
                subst a
                exact handle_map_done_total D _ _ c hc hinv.sorted hinv.own_tid hwf
        · exact ⟨_, rfl⟩
      · subst a
        subst b
        simp only [Option.isSome_some, if_true]
        exact handle_map_done_total D _ _ m rfl hinv.sorted hinv.own_tid hwf
  · exact ⟨_, rfl⟩
  · exact ⟨_, rfl⟩

/-- C12: `ceph_osdc_handle_map` returns on a message of the mount, given a
well-formed registry whose tids are below 2^64 - 1 and, when there is no
current map, a message that brings a full map; and when it leaves through
`done:` (the message is not found corrupt) the full maps are treated as
follows.  If no incremental of the message is applied (none is for the
successor of the current epoch), only the last full map of the message counts:
with no full map the current map stays; the last full map replaces the current
map, decoded from its bytes, if and only if there is no current map or the
current epoch is strictly below its epoch, and is skipped otherwise; the full
maps before the last have no part in the outcome, whatever their epochs.  If
an incremental is applied, the current map is the one reached by the
incrementals, and the call is the exit `done:` taken from there: no full map
of the message is read. -/
theorem handle_map_full_map_rule (D : Deps) (s : ceph_osd_client) (msg : Nat)
    (hfsid : (le_value ((s.msgs msg).front_bytes.take 8),
      le_value (((s.msgs msg).front_bytes.drop 8).take 8)) = s.monmap_fsid)
    (hinv : RegistryInv s)
    (hwf : ∀ e ∈ s.request_tree, e.1 + 1 < 2 ^ 64 ∧ 0 < (s.reqs e.2).r_ref)
    (hcur : s.osdmap = none → msg_fulls (s.msgs msg).front_bytes ≠ []) :
    ∃ s', ceph_osdc_handle_map D s msg = some s' ∧
      (¬ found_corrupt s' →
        ((∀ c, s.osdmap = some c →
            ∀ e ∈ msg_incs (s.msgs msg).front_bytes, e.1 ≠ (c.epoch + 1) % U32) →
          ((msg_fulls (s.msgs msg).front_bytes).getLast? = none → s'.osdmap = s.osdmap) ∧
          (∀ e, (msg_fulls (s.msgs msg).front_bytes).getLast? = some e →
            ((∀ c, s.osdmap = some c → c.epoch < e.1) →
              ∃ m, D.osdmap_decode e.2 = Except.ok m ∧ s'.osdmap = some m) ∧
            ((∃ c, s.osdmap = some c ∧ e.1 ≤ c.epoch) → s'.osdmap = s.osdmap))) ∧
        (∀ c m, s.osdmap = some c →
          (∃ e ∈ msg_incs (s.msgs msg).front_bytes, e.1 = (c.epoch + 1) % U32) →
          m = apply_contiguous D (msg_incs (s.msgs msg).front_bytes) c →
          s'.osdmap = some m ∧
          handle_map_done D (({ s with osdmap := some m }).log Event.down_write) (some m) =
            some s')) := by
  obtain ⟨s', h⟩ := handle_map_total D s msg hinv hwf hcur
  exact ⟨s', h, fun hok => handle_map_full_map_rule_of_done D s s' msg h hfsid hok⟩

/-- C12 on the message with the full maps of the epochs 9 and 8, in this
order, handled at epoch 5: the map of epoch 9 is passed over, the last one is
taken, and the current map is the map of epoch 8. -/
theorem handle_map_full_map_rule_witness :
    msg_incs twoFullsMsg.front_bytes = [] ∧
    msg_fulls twoFullsMsg.front_bytes = [(9, [9, 3]), (8, [8, 4])] ∧
    (ceph_osdc_handle_map testDeps (mapClient twoFullsMsg) 3000).map
      (fun s => (s.trace.getLast?, s.osdmap.map (fun m => (m.epoch, m.crush)))) =
      some (some Event.up_read, some (8, 4)) ∧
    ∃ s', ceph_osdc_handle_map testDeps (mapClient twoFullsMsg) 3000 = some s' ∧
      (¬ found_corrupt s' →
        ((∀ c, (mapClient twoFullsMsg).osdmap = some c →
            ∀ e ∈ msg_incs ((mapClient twoFullsMsg).msgs 3000).front_bytes,
              e.1 ≠ (c.epoch + 1) % U32) →
          ((msg_fulls ((mapClient twoFullsMsg).msgs 3000).front_bytes).getLast? = none →
            s'.osdmap = (mapClient twoFullsMsg).osdmap) ∧
          (∀ e, (msg_fulls ((mapClient twoFullsMsg).msgs 3000).front_bytes).getLast? = some e →
            ((∀ c, (mapClient twoFullsMsg).osdmap = some c → c.epoch < e.1) →
              ∃ m, testDeps.osdmap_decode e.2 = Except.ok m ∧ s'.osdmap = some m) ∧
            ((∃ c, (mapClient twoFullsMsg).osdmap = some c ∧ e.1 ≤ c.epoch) →
              s'.osdmap = (mapClient twoFullsMsg).osdmap))) ∧
        (∀ c m, (mapClient twoFullsMsg).osdmap = some c →
          (∃ e ∈ msg_incs ((mapClient twoFullsMsg).msgs 3000).front_bytes,
            e.1 = (c.epoch + 1) % U32) →
          m = apply_contiguous testDeps
            (msg_incs ((mapClient twoFullsMsg).msgs 3000).front_bytes) c →
          s'.osdmap = some m ∧
          handle_map_done testDeps
            (({ mapClient twoFullsMsg with osdmap := some m }).log Event.down_write) (some m) =
              some s')) :=
  ⟨by decide, by decide, by decide,
    handle_map_full_map_rule testDeps (mapClient twoFullsMsg) 3000 (by decide)
      ⟨by decide, by decide, by decide⟩ (by decide) (fun h => by cases h)⟩

/-- The exit `done:` of the handler, with the call shown to return:
`ceph_osdc_handle_map` returns on a message of the mount,
given a well-formed registry whose tids are below 2^64 - 1 and, when there is
no current map, a message that brings a full map; and when it leaves through
`done:` (the message is not found corrupt): whenever the current map is
replaced, by an incremental for the successor of the current epoch or by the
last full map when it is newer, and in particular whenever the map after the
call differs from the map before, the call is: take `map_sem`, install the new
map, downgrade, tell the monitor client the epoch of the new current map, then
`kick_requests` with no peer address, then `up_read`.  When no map is applied,
the call only tells the monitor client the current epoch: `kick_requests` is
not called. -/
theorem handle_map_notifies_then_kicks (D : Deps) (s : ceph_osd_client) (msg : Nat)
    (hfsid : (le_value ((s.msgs msg).front_bytes.take 8),
      le_value (((s.msgs msg).front_bytes.drop 8).take 8)) = s.monmap_fsid)
    (hinv : RegistryInv s)
    (hwf : ∀ e ∈ s.request_tree, e.1 + 1 < 2 ^ 64 ∧ 0 < (s.reqs e.2).r_ref)
    (hcur : s.osdmap = none → msg_fulls (s.msgs msg).front_bytes ≠ []) :
    ∃ s', ceph_osdc_handle_map D s msg = some s' ∧
      (¬ found_corrupt s' →
        (((∃ c, s.osdmap = some c ∧
              ∃ e ∈ msg_incs (s.msgs msg).front_bytes, e.1 = (c.epoch + 1) % U32) ∨
            (∃ e, (msg_fulls (s.msgs msg).front_bytes).getLast? = some e ∧
              ∀ c, s.osdmap = some c → c.epoch < e.1) ∨
            s'.osdmap ≠ s.osdmap) →
          ∃ m s2, s'.osdmap = some m ∧
            kick_requests D
              (((({ s with osdmap := some m }).log Event.down_write).log
                Event.downgrade_write).log (Event.got_osdmap m.epoch)) none = some s2 ∧
            s' = s2.log Event.up_read) ∧
        (((∀ c, s.osdmap = some c →
              ∀ e ∈ msg_incs (s.msgs msg).front_bytes, e.1 ≠ (c.epoch + 1) % U32) ∧
            (∀ e, (msg_fulls (s.msgs msg).front_bytes).getLast? = some e →
              ∃ c, s.osdmap = some c ∧ e.1 ≤ c.epoch)) →
          ∃ cur, s.osdmap = some cur ∧
            s' = (((s.log Event.down_write).log Event.downgrade_write).log
              (Event.got_osdmap cur.epoch)).log Event.up_read)) := by
  obtain ⟨s', h⟩ := handle_map_total D s msg hinv hwf hcur
  exact ⟨s', h, fun hok => handle_map_notifies_then_kicks_of_done D s s' msg h hfsid hok⟩

/-- The exit `done:` on the message with the incrementals for the epochs 6
and 7, handled at epoch 5: the monitor client is told epoch 7, then the walk of
`kick_requests` starts. -/
theorem handle_map_notifies_then_kicks_witness :
    (ceph_osdc_handle_map testDeps (mapClient twoIncsMsg) 3000).map
      (fun s => (s.trace.drop (mapClient twoIncsMsg).trace.length).take 4) =
      some [Event.down_write, Event.downgrade_write, Event.got_osdmap 7, Event.mutex_lock] ∧
    ∃ s', ceph_osdc_handle_map testDeps (mapClient twoIncsMsg) 3000 = some s' ∧
      (¬ found_corrupt s' →
        (((∃ c, (mapClient twoIncsMsg).osdmap = some c ∧
              ∃ e ∈ msg_incs ((mapClient twoIncsMsg).msgs 3000).front_bytes,
                e.1 = (c.epoch + 1) % U32) ∨
            (∃ e, (msg_fulls ((mapClient twoIncsMsg).msgs 3000).front_bytes).getLast? =
                some e ∧
              ∀ c, (mapClient twoIncsMsg).osdmap = some c → c.epoch < e.1) ∨
            s'.osdmap ≠ (mapClient twoIncsMsg).osdmap) →
          ∃ m s2, s'.osdmap = some m ∧
            kick_requests testDeps
              (((({ mapClient twoIncsMsg with osdmap := some m }).log Event.down_write).log
                Event.downgrade_write).log (Event.got_osdmap m.epoch)) none = some s2 ∧
            s' = s2.log Event.up_read) ∧
        (((∀ c, (mapClient twoIncsMsg).osdmap = some c →
              ∀ e ∈ msg_incs ((mapClient twoIncsMsg).msgs 3000).front_bytes,
                e.1 ≠ (c.epoch + 1) % U32) ∧
            (∀ e, (msg_fulls ((mapClient twoIncsMsg).msgs 3000).front_bytes).getLast? =
                some e →
              ∃ c, (mapClient twoIncsMsg).osdmap = some c ∧ e.1 ≤ c.epoch)) →
          ∃ cur, (mapClient twoIncsMsg).osdmap = some cur ∧
            s' = ((((mapClient twoIncsMsg).log Event.down_write).log
              Event.downgrade_write).log (Event.got_osdmap cur.epoch)).log Event.up_read)) :=
  ⟨by decide,
    handle_map_notifies_then_kicks testDeps (mapClient twoIncsMsg) 3000 (by decide)
      ⟨by decide, by decide, by decide⟩ (by decide) (fun h => by cases h)⟩

/-! ### The reply path: replies that complete nothing -/

/-- The state that `get_request` followed by `ceph_osdc_put_request` leaves for
a request that holds a reference: the one before. -/
theorem get_put_request (x : ceph_osd_client) (req : Nat) (href : 0 < (x.reqs req).r_ref) :
    ∃ s', ceph_osdc_put_request (get_request x req) req = some s' ∧
      s'.reqs = x.reqs ∧ s'.msgs = x.msgs ∧ s'.request_tree = x.request_tree ∧
      s'.num_requests = x.num_requests ∧ s'.timeout_tid = x.timeout_tid ∧
      s'.last_tid = x.last_tid ∧ s'.osdmap = x.osdmap ∧ s'.trace = x.trace := by
  have h1 : ¬ ((get_request x req).reqs req).r_ref ≤ 0 := by
    simp only [get_request, ceph_osd_client.setReq, upd, if_true]
    omega
  have h2 : ¬ ((get_request x req).reqs req).r_ref - 1 = 0 := by
    simp only [get_request, ceph_osd_client.setReq, upd, if_true]
    omega
  unfold ceph_osdc_put_request
  simp only [h1, h2, if_false]
  refine ⟨_, rfl, ?_, rfl, rfl, rfl, rfl, rfl, rfl, rfl⟩
  funext p
  by_cases hp : p = req
  · subst hp
    simp [get_request, ceph_osd_client.setReq, upd]
  · simp [get_request, ceph_osd_client.setReq, upd, hp]

/-- C21, as stated, fails: the request of tid 1 holds the message at address
2000 in its reply slot when the reply at address 2001, with a valid front,
arrives for tid 1.  `ceph_osdc_handle_reply` takes the branch `goto done`: the
request is still found under tid 1 afterwards, `num_requests` is still 2, and
neither the callback nor the completion has fired; the slot keeps the first
message. -/
theorem handle_reply_second_reply_not_completed :
    testDeps.sizeof_reply_head ≤ (dupReplyClient.msgs 2001).front_len ∧
    (dupReplyClient.msgs 2001).front_len =
      reply_front_len testDeps (dupReplyClient.msgs 2001).front_num_ops ∧
    radix_tree_lookup dupReplyClient.request_tree (dupReplyClient.msgs 2001).front_tid =
      some 7 ∧
    (dupReplyClient.reqs 7).r_reply = some 2000 ∧ dupReplyClient.num_requests = 2 ∧
    completions dupReplyClient.trace = [] ∧
    (ceph_osdc_handle_reply testDeps dupReplyClient 2001).map
      (fun s => (radix_tree_lookup s.request_tree 1, s.num_requests, completions s.trace,
        (s.reqs 7).r_reply)) = some (some 7, 2, [], some 2000) := by
  refine ⟨by decide, by decide, by decide, by decide, by decide, by decide, by decide⟩

/-- C21, amended: when a reply with a valid front length arrives for a
registered request that holds a reference and whose reply slot already holds a
different message, `ceph_osdc_handle_reply` returns and drops the reply: the
request is not unregistered (the tree, `num_requests` and `timeout_tid` are
unchanged and a lookup of the tid still finds the request), neither the
callback nor the completion fires, no reference is taken on the message, and
every request is as before, so that the slot keeps the first message and the
reference taken for the handling is released again. -/
theorem handle_reply_second_reply (D : Deps) (s : ceph_osd_client) (msg req other : Nat)
    (hlen1 : D.sizeof_reply_head ≤ (s.msgs msg).front_len)
    (hlen2 : (s.msgs msg).front_len = reply_front_len D (s.msgs msg).front_num_ops)
    (hlook : radix_tree_lookup s.request_tree (s.msgs msg).front_tid = some req)
    (hslot : (s.reqs req).r_reply = some other) (hne : other ≠ msg)
    (href : 0 < (s.reqs req).r_ref) :
    ∃ s', ceph_osdc_handle_reply D s msg = some s' ∧
      s'.request_tree = s.request_tree ∧ s'.num_requests = s.num_requests ∧
      s'.timeout_tid = s.timeout_tid ∧
      radix_tree_lookup s'.request_tree (s.msgs msg).front_tid = some req ∧
      completions s'.trace = completions s.trace ∧
      Event.msg_get msg ∉ s'.trace.drop s.trace.length ∧
      s'.reqs = s.reqs ∧ s'.msgs = s.msgs ∧
      (s'.reqs req).r_reply = some other ∧ (s'.reqs req).r_ref = (s.reqs req).r_ref := by
  have c1 : ¬ (s.msgs msg).front_len < D.sizeof_reply_head := by omega
  have c2 : ¬ (s.msgs msg).front_len ≠ reply_front_len D (s.msgs msg).front_num_ops := by
    simpa using hlen2
  have hl : radix_tree_lookup (s.log Event.mutex_lock).request_tree (s.msgs msg).front_tid =
      some req := hlook
  have hs1 : ((get_request (s.log Event.mutex_lock) req).reqs req).r_reply = some other := by
    simp [get_request, ceph_osd_client.setReq, ceph_osd_client.log, upd, hslot]
  have c3 : ¬ (((get_request (s.log Event.mutex_lock) req).reqs req).r_reply = none ∨
      ((get_request (s.log Event.mutex_lock) req).reqs req).r_reply = some msg) := by
    rw [hs1]
    simp [hne]
  obtain ⟨s', hp, q1, q2, q3, q4, q5, _, _, q8⟩ :=
    get_put_request (s.log Event.mutex_lock) req href
  unfold ceph_osdc_handle_reply
  simp only [c1, c2, if_false, hl, c3]
  refine ⟨s', hp, q3, q4, q5, ?_, ?_, ?_, q1, q2, ?_, ?_⟩
  · rw [q3]; exact hlook
  · rw [q8]
    simp [ceph_osd_client.log, completions_append, completions]
  · rw [q8]
    simp [ceph_osd_client.log]
  · rw [q1]; exact hslot
  · rw [q1]; rfl

/-- C21 on the client whose request of tid 1 already holds the message at
address 2000: the reply at address 2001 is dropped and the request stays
registered with its two references. -/
theorem handle_reply_second_reply_witness :
    (dupReplyClient.reqs 7).r_ref = 2 ∧
    ∃ s', ceph_osdc_handle_reply testDeps dupReplyClient 2001 = some s' ∧
      s'.request_tree = dupReplyClient.request_tree ∧
      s'.num_requests = dupReplyClient.num_requests ∧
      s'.timeout_tid = dupReplyClient.timeout_tid ∧
      radix_tree_lookup s'.request_tree (dupReplyClient.msgs 2001).front_tid = some 7 ∧
      completions s'.trace = completions dupReplyClient.trace ∧
      Event.msg_get 2001 ∉ s'.trace.drop dupReplyClient.trace.length ∧
      s'.reqs = dupReplyClient.reqs ∧ s'.msgs = dupReplyClient.msgs ∧
      (s'.reqs 7).r_reply = some 2000 ∧ (s'.reqs 7).r_ref = (dupReplyClient.reqs 7).r_ref :=
  ⟨by decide, handle_reply_second_reply testDeps dupReplyClient 2001 7 2000
    (by decide) (by decide) (by decide) (by decide) (by decide) (by decide)⟩

/-- C22: for every reply whose front is shorter than a reply head, or whose
front length differs from `sizeof(reply_head) + num_ops * sizeof(op)`,
`ceph_osdc_handle_reply` returns and only reports the corruption: the tree,
`num_requests`, `timeout_tid`, every request (its reply slot and its reference
count included) and every message are unchanged, a request registered under
the tid of the reply is still found there, and neither a callback nor a
completion fires. -/
theorem handle_reply_bad_length (D : Deps) (s : ceph_osd_client) (msg : Nat)
    (hbad : (s.msgs msg).front_len < D.sizeof_reply_head ∨
      (s.msgs msg).front_len ≠ reply_front_len D (s.msgs msg).front_num_ops) :
    ∃ s', ceph_osdc_handle_reply D s msg = some s' ∧
      s' = s.log Event.derr_corrupt_reply ∧
      s'.request_tree = s.request_tree ∧ s'.num_requests = s.num_requests ∧
      s'.timeout_tid = s.timeout_tid ∧ s'.reqs = s.reqs ∧ s'.msgs = s.msgs ∧
      (∀ req, radix_tree_lookup s.request_tree (s.msgs msg).front_tid = some req →
        radix_tree_lookup s'.request_tree (s.msgs msg).front_tid = some req ∧
        (s'.reqs req).r_reply = (s.reqs req).r_reply ∧
        (s'.reqs req).r_ref = (s.reqs req).r_ref) ∧
      completions s'.trace = completions s.trace ∧ sends s'.trace = sends s.trace := by
  have h : ceph_osdc_handle_reply D s msg = some (s.log Event.derr_corrupt_reply) := by
    unfold ceph_osdc_handle_reply
    simp only
    split_ifs with h1 h2
    · rfl
    · rfl
    · rcases hbad with hb | hb
      · exact absurd hb h1
      · exact absurd hb h2
  refine ⟨_, h, rfl, rfl, rfl, rfl, rfl, rfl, fun req hl => ⟨hl, rfl, rfl⟩, ?_, ?_⟩
  · simp [ceph_osd_client.log, completions_append, completions]
  · simp [ceph_osd_client.log, sends_append, sends]

/-- C22 on a reply for the registered tid 1 that announces two ops in a front
with room for one: the request of tid 1 stays registered with its two
references and an empty reply slot. -/
theorem handle_reply_bad_length_witness :
    ¬ (badOpsReply.front_len < testDeps.sizeof_reply_head) ∧
    badOpsReply.front_len ≠ reply_front_len testDeps badOpsReply.front_num_ops ∧
    (ceph_osdc_handle_reply testDeps (twoReqClient.setMsg 2001 badOpsReply) 2001).map
      (fun s => (radix_tree_lookup s.request_tree 1, (s.reqs 7).r_reply, (s.reqs 7).r_ref,
        s.trace.drop twoReqClient.trace.length)) =
      some (some 7, none, 2, [Event.derr_corrupt_reply]) ∧
    (ceph_osdc_handle_reply testDeps (twoReqClient.setMsg 2001 shortReply) 2001).map
      (fun s => (radix_tree_lookup s.request_tree 1, (s.reqs 7).r_reply, (s.reqs 7).r_ref,
        s.trace.drop twoReqClient.trace.length)) =
      some (some 7, none, 2, [Event.derr_corrupt_reply]) ∧
    ∃ s', ceph_osdc_handle_reply testDeps (twoReqClient.setMsg 2001 badOpsReply) 2001 =
        some s' ∧
      s' = (twoReqClient.setMsg 2001 badOpsReply).log Event.derr_corrupt_reply ∧
      s'.request_tree = (twoReqClient.setMsg 2001 badOpsReply).request_tree ∧
      s'.num_requests = (twoReqClient.setMsg 2001 badOpsReply).num_requests ∧
      s'.timeout_tid = (twoReqClient.setMsg 2001 badOpsReply).timeout_tid ∧
      s'.reqs = (twoReqClient.setMsg 2001 badOpsReply).reqs ∧
      s'.msgs = (twoReqClient.setMsg 2001 badOpsReply).msgs ∧
      (∀ req, radix_tree_lookup (twoReqClient.setMsg 2001 badOpsReply).request_tree
          (((twoReqClient.setMsg 2001 badOpsReply).msgs 2001).front_tid) = some req →
        radix_tree_lookup s'.request_tree
          (((twoReqClient.setMsg 2001 badOpsReply).msgs 2001).front_tid) = some req ∧
        (s'.reqs req).r_reply = ((twoReqClient.setMsg 2001 badOpsReply).reqs req).r_reply ∧
        (s'.reqs req).r_ref = ((twoReqClient.setMsg 2001 badOpsReply).reqs req).r_ref) ∧
      completions s'.trace = completions (twoReqClient.setMsg 2001 badOpsReply).trace ∧
      sends s'.trace = sends (twoReqClient.setMsg 2001 badOpsReply).trace :=
  ⟨by decide, by decide, by decide, by decide,
    handle_reply_bad_length testDeps (twoReqClient.setMsg 2001 badOpsReply) 2001
      (Or.inr (by decide))⟩

/-- C23: for every reply with a valid front length whose tid is not in the
registry, `ceph_osdc_handle_reply` returns and does nothing but take and
release `request_mutex`: the tree, `num_requests`, `timeout_tid`, every request
and every message are unchanged, no reference is taken on the message, and
neither a callback nor a completion fires. -/
theorem handle_reply_unknown_tid (D : Deps) (s : ceph_osd_client) (msg : Nat)
    (hlen1 : D.sizeof_reply_head ≤ (s.msgs msg).front_len)
    (hlen2 : (s.msgs msg).front_len = reply_front_len D (s.msgs msg).front_num_ops)
    (hlook : radix_tree_lookup s.request_tree (s.msgs msg).front_tid = none) :
    ∃ s', ceph_osdc_handle_reply D s msg = some s' ∧
      s' = (s.log Event.mutex_lock).log Event.mutex_unlock ∧
      s'.request_tree = s.request_tree ∧ s'.num_requests = s.num_requests ∧
      s'.timeout_tid = s.timeout_tid ∧ s'.last_tid = s.last_tid ∧
      s'.reqs = s.reqs ∧ s'.msgs = s.msgs ∧
      s'.trace = s.trace ++ [Event.mutex_lock, Event.mutex_unlock] ∧
      Event.msg_get msg ∉ s'.trace.drop s.trace.length ∧
      completions s'.trace = completions s.trace ∧ sends s'.trace = sends s.trace := by
  have c1 : ¬ (s.msgs msg).front_len < D.sizeof_reply_head := by omega
  have c2 : ¬ (s.msgs msg).front_len ≠ reply_front_len D (s.msgs msg).front_num_ops := by
    simpa using hlen2
  have hl : radix_tree_lookup (s.log Event.mutex_lock).request_tree (s.msgs msg).front_tid =
      none := hlook
  have h : ceph_osdc_handle_reply D s msg =
      some ((s.log Event.mutex_lock).log Event.mutex_unlock) := by
    unfold ceph_osdc_handle_reply
    simp only [c1, c2, if_false, hl]
  refine ⟨_, h, rfl, rfl, rfl, rfl, rfl, rfl, rfl, ?_, ?_, ?_, ?_⟩
  · simp [ceph_osd_client.log]
  · simp [ceph_osd_client.log]
  · simp [ceph_osd_client.log, completions_append, completions]
  · simp [ceph_osd_client.log, sends_append, sends]

/-- C23 on a valid reply for tid 9 while the tids 1 and 2 are registered. -/
theorem handle_reply_unknown_tid_witness :
    (twoReqClient.setMsg 2001 strayReply).request_tree = [(1, 7), (2, 8)] ∧
    ∃ s', ceph_osdc_handle_reply testDeps (twoReqClient.setMsg 2001 strayReply) 2001 =
        some s' ∧
      s' = ((twoReqClient.setMsg 2001 strayReply).log Event.mutex_lock).log
        Event.mutex_unlock ∧
      s'.request_tree = (twoReqClient.setMsg 2001 strayReply).request_tree ∧
      s'.num_requests = (twoReqClient.setMsg 2001 strayReply).num_requests ∧
      s'.timeout_tid = (twoReqClient.setMsg 2001 strayReply).timeout_tid ∧
      s'.last_tid = (twoReqClient.setMsg 2001 strayReply).last_tid ∧
      s'.reqs = (twoReqClient.setMsg 2001 strayReply).reqs ∧
      s'.msgs = (twoReqClient.setMsg 2001 strayReply).msgs ∧
      s'.trace = (twoReqClient.setMsg 2001 strayReply).trace ++
        [Event.mutex_lock, Event.mutex_unlock] ∧
      Event.msg_get 2001 ∉
        s'.trace.drop (twoReqClient.setMsg 2001 strayReply).trace.length ∧
      completions s'.trace = completions (twoReqClient.setMsg 2001 strayReply).trace ∧
      sends s'.trace = sends (twoReqClient.setMsg 2001 strayReply).trace :=
  ⟨by decide, handle_reply_unknown_tid testDeps (twoReqClient.setMsg 2001 strayReply) 2001
    (by decide) (by decide) (by decide)⟩

/-! ### Preparing the pages of an incoming reply -/

/-- The call that installs the pages. -/
theorem prepare_pages_ok (D : Deps) (s : ceph_osd_client) (m req : Nat) (want : Int)
    (htype : (s.msgs m).hdr_type = D.CEPH_MSG_OSD_OPREPLY)
    (hl : radix_tree_lookup s.request_tree (s.msgs m).front_tid = some req)
    (hc : (s.reqs req).r_num_pages ≥ want ∧ (s.reqs req).r_reply = none) :
    ceph_osdc_prepare_pages D s m want =
      (0, { s with
        msgs := upd s.msgs m
          { s.msgs m with pages := some req, nr_pages := (s.reqs req).r_num_pages }
        reqs := upd s.reqs req { s.reqs req with r_reply := some m }
        trace := s.trace ++ [Event.mutex_lock, Event.msg_get m, Event.mutex_unlock] }) := by
  have h1 : ¬ (s.msgs m).hdr_type ≠ D.CEPH_MSG_OSD_OPREPLY := fun hc => hc htype
  have h2 : radix_tree_lookup (s.log Event.mutex_lock).request_tree (s.msgs m).front_tid =
      some req := hl
  have h3 : ((s.log Event.mutex_lock).reqs req).r_num_pages ≥ want ∧
      ((s.log Event.mutex_lock).reqs req).r_reply = none := hc
  unfold ceph_osdc_prepare_pages
  simp only [h1, if_false, h2, h3, and_self, if_true]
  simp [ceph_osd_client.log, ceph_osd_client.setReq, ceph_osd_client.setMsg]

/-- The call for a tid that is not registered, or for a request with too few
pages or a reply slot that is taken. -/
theorem prepare_pages_refused (D : Deps) (s : ceph_osd_client) (m : Nat) (want : Int)
    (htype : (s.msgs m).hdr_type = D.CEPH_MSG_OSD_OPREPLY)
    (hc : ∀ req, radix_tree_lookup s.request_tree (s.msgs m).front_tid = some req →
      ¬ ((s.reqs req).r_num_pages ≥ want ∧ (s.reqs req).r_reply = none)) :
    ceph_osdc_prepare_pages D s m want =
      (-1, { s with trace := s.trace ++ [Event.mutex_lock, Event.mutex_unlock] }) := by
  have h1 : ¬ (s.msgs m).hdr_type ≠ D.CEPH_MSG_OSD_OPREPLY := fun hc => hc htype
  unfold ceph_osdc_prepare_pages
  simp only [h1, if_false]
  cases hl : radix_tree_lookup s.request_tree (s.msgs m).front_tid with
  | none =>
    have h2 : radix_tree_lookup (s.log Event.mutex_lock).request_tree (s.msgs m).front_tid =
        none := hl
    simp only [h2]
    simp [ceph_osd_client.log]
  | some req =>
    have h2 : radix_tree_lookup (s.log Event.mutex_lock).request_tree (s.msgs m).front_tid =
        some req := hl
    have h3 : ¬ (((s.log Event.mutex_lock).reqs req).r_num_pages ≥ want ∧
        ((s.log Event.mutex_lock).reqs req).r_reply = none) := hc req hl
    simp only [h2, h3, if_false]
    simp [ceph_osd_client.log]

/-- The call for a message of another type. -/
theorem prepare_pages_wrong_type (D : Deps) (s : ceph_osd_client) (m : Nat) (want : Int)
    (htype : (s.msgs m).hdr_type ≠ D.CEPH_MSG_OSD_OPREPLY) :
    ceph_osdc_prepare_pages D s m want = (-1, s) := by
  unfold ceph_osdc_prepare_pages
  simp only [htype, ne_eq, not_false_eq_true, if_true]

/-- C25: `ceph_osdc_prepare_pages` returns 0 if and only if the type of the
message is `CEPH_MSG_OSD_OPREPLY`, its tid names a registered request, that
request has at least `want` pages and its reply slot is empty.  In that case
the page vector and the page count of the request are installed in the
message, a reference is taken on the message, and the reply slot of the
request is set to the message, nothing else of the request changing.  In every
other case it returns -1 and changes neither a message nor a request.  The
registry is unchanged in all cases. -/
theorem prepare_pages_result (D : Deps) (s : ceph_osd_client) (m : Nat) (want : Int) :
    ((ceph_osdc_prepare_pages D s m want).1 = 0 ↔
      ((s.msgs m).hdr_type = D.CEPH_MSG_OSD_OPREPLY ∧
        ∃ req, radix_tree_lookup s.request_tree (s.msgs m).front_tid = some req ∧
          (s.reqs req).r_num_pages ≥ want ∧ (s.reqs req).r_reply = none)) ∧
    (∀ req, (ceph_osdc_prepare_pages D s m want).1 = 0 →
      radix_tree_lookup s.request_tree (s.msgs m).front_tid = some req →
      ((ceph_osdc_prepare_pages D s m want).2.msgs m).pages = some req ∧
      ((ceph_osdc_prepare_pages D s m want).2.msgs m).nr_pages = (s.reqs req).r_num_pages ∧
      ((ceph_osdc_prepare_pages D s m want).2.reqs req).r_reply = some m ∧
      (ceph_osdc_prepare_pages D s m want).2.msgs =
        upd s.msgs m { s.msgs m with pages := some req, nr_pages := (s.reqs req).r_num_pages } ∧
      (ceph_osdc_prepare_pages D s m want).2.reqs =
        upd s.reqs req { s.reqs req with r_reply := some m } ∧
      (ceph_osdc_prepare_pages D s m want).2.trace =
        s.trace ++ [Event.mutex_lock, Event.msg_get m, Event.mutex_unlock]) ∧
    ((ceph_osdc_prepare_pages D s m want).1 ≠ 0 →
      (ceph_osdc_prepare_pages D s m want).1 = -1 ∧
      (ceph_osdc_prepare_pages D s m want).2.msgs = s.msgs ∧
      (ceph_osdc_prepare_pages D s m want).2.reqs = s.reqs ∧
      Event.msg_get m ∉ (ceph_osdc_prepare_pages D s m want).2.trace.drop s.trace.length) ∧
    (ceph_osdc_prepare_pages D s m want).2.request_tree = s.request_tree ∧
    (ceph_osdc_prepare_pages D s m want).2.num_requests = s.num_requests ∧
    (ceph_osdc_prepare_pages D s m want).2.timeout_tid = s.timeout_tid := by
  have hm1 : ¬ ((-1 : Int) = 0) := by decide
  by_cases htype : (s.msgs m).hdr_type = D.CEPH_MSG_OSD_OPREPLY
  · by_cases hex : ∃ req, radix_tree_lookup s.request_tree (s.msgs m).front_tid = some req ∧
        (s.reqs req).r_num_pages ≥ want ∧ (s.reqs req).r_reply = none
    · obtain ⟨req, hl, hc⟩ := hex
      rw [prepare_pages_ok D s m req want htype hl hc]
      refine ⟨⟨fun _ => ⟨htype, req, hl, hc⟩, fun _ => rfl⟩, ?_, fun h0 => absurd rfl h0,
        rfl, rfl, rfl⟩
      intro r2 _ hr2
      rw [hl] at hr2
      simp only [Option.some.injEq] at hr2
      subst hr2
      refine ⟨?_, ?_, ?_, rfl, rfl, rfl⟩
      · simp only [upd, if_true]
      · simp only [upd, if_true]
      · simp only [upd, if_true]
    · rw [prepare_pages_refused D s m want htype (fun req hl hc => hex ⟨req, hl, hc⟩)]
      refine ⟨⟨fun h0 => absurd h0 hm1, fun h => absurd h.2 hex⟩, ?_, ?_, rfl, rfl, rfl⟩
      · intro r2 h0
        exact absurd h0 hm1
      · intro _
        refine ⟨rfl, rfl, rfl, ?_⟩
        simp
  · rw [prepare_pages_wrong_type D s m want htype]
    refine ⟨⟨fun h0 => absurd h0 hm1, fun h => absurd h.1 htype⟩, ?_, ?_, rfl, rfl, rfl⟩
    · intro r2 h0
      exact absurd h0 hm1
    · intro _
      refine ⟨rfl, rfl, rfl, ?_⟩
      simp

/-- C25 on the reply for the registered tid 1, whose request has one page: a
call that wants one page installs it and fills the slot, a call that wants two
pages returns -1 and leaves the message and the request alone. -/
theorem prepare_pages_result_witness :
    (ceph_osdc_prepare_pages testDeps pagesClient 2000 1).1 = 0 ∧
    ((ceph_osdc_prepare_pages testDeps pagesClient 2000 1).2.msgs 2000).pages = some 7 ∧
    ((ceph_osdc_prepare_pages testDeps pagesClient 2000 1).2.reqs 7).r_reply = some 2000 ∧
    (ceph_osdc_prepare_pages testDeps pagesClient 2000 2).1 = -1 ∧
    ((ceph_osdc_prepare_pages testDeps pagesClient 2000 2).2.msgs 2000).pages = none ∧
    ((ceph_osdc_prepare_pages testDeps pagesClient 2000 2).2.reqs 7).r_reply = none ∧
    ((ceph_osdc_prepare_pages testDeps pagesClient 2000 1).1 = 0 ↔
      ((pagesClient.msgs 2000).hdr_type = testDeps.CEPH_MSG_OSD_OPREPLY ∧
        ∃ req, radix_tree_lookup pagesClient.request_tree (pagesClient.msgs 2000).front_tid =
            some req ∧
          (pagesClient.reqs req).r_num_pages ≥ 1 ∧ (pagesClient.reqs req).r_reply = none)) :=
  ⟨by decide, by decide, by decide, by decide, by decide, by decide,
    (prepare_pages_result testDeps pagesClient 2000 1).1⟩

/-! ### The reply slot -/

/-- What `ceph_osdc_put_request` writes: the reference count of its request. -/
theorem put_request_reqs {s s' : ceph_osd_client} {req : Nat}
    (h : ceph_osdc_put_request s req = some s') :
    s'.reqs = upd s.reqs req { s.reqs req with r_ref := (s.reqs req).r_ref - 1 } ∧
    s'.msgs = s.msgs ∧ s'.request_tree = s.request_tree ∧
    s'.num_requests = s.num_requests ∧ s'.timeout_tid = s.timeout_tid := by
  unfold ceph_osdc_put_request at h
  simp only at h
  split_ifs at h <;> simp only [Option.some.injEq] at h <;> subst h <;>
    exact ⟨rfl, rfl, rfl, rfl, rfl⟩

/-- The requests, the messages and the tree as `__register_next_request_timeout`
leaves them: as they were. -/
theorem register_next_reqs {D : Deps} {s s' : ceph_osd_client} {req : Nat}
    (h : __register_next_request_timeout D s req = some s') :
    s'.reqs = s.reqs ∧ s'.msgs = s.msgs ∧ s'.request_tree = s.request_tree ∧
    s'.num_requests = s.num_requests ∧ s'.osdmap = s.osdmap ∧
    s'.osd_timeout = s.osd_timeout ∧ s'.jiffies = s.jiffies ∧
    ∃ t, s'.trace = s.trace ++ t ∧ ∀ e ∈ t, ∃ j, e = Event.schedule_timeout j := by
  unfold __register_next_request_timeout at h
  simp only at h
  split at h
  · obtain ⟨j, hj⟩ := reschedule_timeout_eq h
    subst hj
    exact ⟨rfl, rfl, rfl, rfl, rfl, rfl, rfl, [Event.schedule_timeout j], rfl,
      fun e he => ⟨j, by simpa using he⟩⟩
  · simp only [Option.some.injEq] at h
    subst h
    exact ⟨rfl, rfl, rfl, rfl, rfl, rfl, rfl, [], by simp, fun e he => by simp at he⟩

/-- What `__unregister_request` writes of the requests: the reference count of
its request. -/
theorem unregister_request_reqs {D : Deps} {s s' : ceph_osd_client} {req : Nat}
    (h : __unregister_request D s req = some s') :
    s'.reqs = upd s.reqs req { s.reqs req with r_ref := (s.reqs req).r_ref - 1 } ∧
    s'.msgs = s.msgs := by
  unfold __unregister_request at h
  simp only at h
  split_ifs at h with h1 h2
  · split at h
    · exact absurd h (by simp)
    · rename_i s3 h3
      obtain ⟨q1, q2, _⟩ := register_next_reqs h3
      obtain ⟨p1, p2, _⟩ := put_request_reqs h
      rw [p1, p2, q1, q2]
      exact ⟨rfl, rfl⟩
  · obtain ⟨p1, p2, _⟩ := put_request_reqs h
    rw [p1, p2]
    exact ⟨rfl, rfl⟩
  · obtain ⟨p1, p2, _⟩ := put_request_reqs h
    rw [p1, p2]
    exact ⟨rfl, rfl⟩

/-- A change of the reference count leaves the reply slot alone. -/
theorem upd_ref_reply (f : Nat → ceph_osd_request) (req p : Nat) (x : Int) :
    (upd f req { f req with r_ref := x } p).r_reply = (f p).r_reply := by
  by_cases hp : p = req
  · subst hp
    simp [upd]
  · simp [upd, hp]

/-- A call of `ceph_osdc_handle_reply` leaves every reply slot as it was, or
fills an empty slot with its message. -/
theorem handle_reply_slot {D : Deps} {s s' : ceph_osd_client} {msg : Nat}
    (h : ceph_osdc_handle_reply D s msg = some s') (p : Nat) :
    (s'.reqs p).r_reply = (s.reqs p).r_reply ∨
    ((s.reqs p).r_reply = none ∧ (s'.reqs p).r_reply = some msg) := by
  have hget : ∀ req, ((get_request (s.log Event.mutex_lock) req).reqs p).r_reply =
      (s.reqs p).r_reply := by
    intro req
    exact upd_ref_reply s.reqs req p _
  have htail : ∀ (req : Nat) (s2 : ceph_osd_client),
      (match __unregister_request D s2 req with
        | none => none
        | some s3 =>
          ceph_osdc_put_request
            (if ((s3.log Event.mutex_unlock).reqs req).r_callback then
              (s3.log Event.mutex_unlock).log (Event.callback req)
            else (s3.log Event.mutex_unlock).log (Event.complete req)) req) = some s' →
      (s'.reqs p).r_reply = (s2.reqs p).r_reply := by
    intro req s2 ht
    split at ht
    · exact absurd ht (by simp)
    · rename_i s3 h3
      obtain ⟨u1, _⟩ := unregister_request_reqs h3
      obtain ⟨p1, _⟩ := put_request_reqs ht
      have hx : (if ((s3.log Event.mutex_unlock).reqs req).r_callback then
          (s3.log Event.mutex_unlock).log (Event.callback req)
          else (s3.log Event.mutex_unlock).log (Event.complete req)).reqs = s3.reqs := by
        split_ifs <;> rfl
      rw [p1, hx, upd_ref_reply, u1, upd_ref_reply]
  unfold ceph_osdc_handle_reply at h
  simp only at h
  split_ifs at h with h1 h2
  · simp only [Option.some.injEq] at h
    subst h
    exact Or.inl rfl
  · simp only [Option.some.injEq] at h
    subst h
    exact Or.inl rfl
  · split at h
    · simp only [Option.some.injEq] at h
      subst h
      exact Or.inl rfl
    · rename_i req hl
      split_ifs at h with hs hn
      · have := htail req _ h
        rw [this]
        by_cases hp : p = req
        · subst hp
          right
          refine ⟨?_, ?_⟩
          · rw [← hget p]; exact hn
          · simp [ceph_osd_client.setReq, upd]
        · left
          rw [← hget req]
          simp [ceph_osd_client.setReq, ceph_osd_client.log, upd, hp]
      · have := htail req _ h
        rw [this]
        exact Or.inl (hget req)
      · obtain ⟨p1, _⟩ := put_request_reqs h
        rw [p1, upd_ref_reply]
        exact Or.inl (hget req)

/-- A call of `ceph_osdc_prepare_pages` leaves every reply slot as it was, or
fills an empty slot with its message. -/
theorem prepare_pages_slot (D : Deps) (s : ceph_osd_client) (m : Nat) (want : Int) (p : Nat) :
    ((ceph_osdc_prepare_pages D s m want).2.reqs p).r_reply = (s.reqs p).r_reply ∨
    ((s.reqs p).r_reply = none ∧
      ((ceph_osdc_prepare_pages D s m want).2.reqs p).r_reply = some m) := by
  by_cases htype : (s.msgs m).hdr_type = D.CEPH_MSG_OSD_OPREPLY
  · by_cases hex : ∃ req, radix_tree_lookup s.request_tree (s.msgs m).front_tid = some req ∧
        (s.reqs req).r_num_pages ≥ want ∧ (s.reqs req).r_reply = none
    · obtain ⟨req, hl, hc⟩ := hex
      rw [prepare_pages_ok D s m req want htype hl hc]
      by_cases hp : p = req
      · subst hp
        right
        exact ⟨hc.2, by simp [upd]⟩
      · left
        simp [upd, hp]
    · rw [prepare_pages_refused D s m want htype (fun req hl hc => hex ⟨req, hl, hc⟩)]
      exact Or.inl rfl
  · rw [prepare_pages_wrong_type D s m want htype]
    exact Or.inl rfl

/-- One call leaves every reply slot as it was, or fills an empty slot. -/
theorem reply_call_slot {D : Deps} {s s' : ceph_osd_client} {c : ReplyCall}
    (h : reply_call D s c = some s') (p : Nat) :
    (s'.reqs p).r_reply = (s.reqs p).r_reply ∨
    ((s.reqs p).r_reply = none ∧ ∃ m, (s'.reqs p).r_reply = some m) := by
  cases c with
  | prepare_pages m want =>
    simp only [reply_call, Option.some.injEq] at h
    subst h
    rcases prepare_pages_slot D s m want p with h1 | ⟨h1, h2⟩
    · exact Or.inl h1
    · exact Or.inr ⟨h1, m, h2⟩
  | handle_reply msg =>
    rcases handle_reply_slot h p with h1 | ⟨h1, h2⟩
    · exact Or.inl h1
    · exact Or.inr ⟨h1, msg, h2⟩

/-- A sequence of calls leaves every reply slot as it was, or has filled a
slot that was empty. -/
theorem reply_calls_slot (D : Deps) (p : Nat) :
    ∀ (calls : List ReplyCall) (s s' : ceph_osd_client), reply_calls D s calls = some s' →
      (s'.reqs p).r_reply = (s.reqs p).r_reply ∨
      ((s.reqs p).r_reply = none ∧ ∃ m, (s'.reqs p).r_reply = some m) := by
  intro calls
  induction calls with
  | nil =>
    intro s s' h
    simp only [reply_calls, Option.some.injEq] at h
    subst h
    exact Or.inl rfl
  | cons c cs ih =>
    intro s s' h
    simp only [reply_calls] at h
    split at h
    · exact absurd h (by simp)
    · rename_i s1 h1
      rcases reply_call_slot h1 p with a | ⟨a1, m, a2⟩
      · rcases ih s1 s' h with b | ⟨b1, b2⟩
        · exact Or.inl (b.trans a)
        · exact Or.inr ⟨a ▸ b1, b2⟩
      · rcases ih s1 s' h with b | ⟨b1, _⟩
        · exact Or.inr ⟨a1, m, b.trans a2⟩
        · rw [a2] at b1
          exact absurd b1 (by simp)

/-- A run over `pre ++ post` is a run over `pre` followed by a run over `post`. -/
theorem reply_calls_append (D : Deps) :
    ∀ (pre post : List ReplyCall) (s : ceph_osd_client),
      reply_calls D s (pre ++ post) =
        match reply_calls D s pre with
        | none => none
        | some s1 => reply_calls D s1 post := by
  intro pre
  induction pre with
  | nil => intro post s; rfl
  | cons c cs ih =>
    intro post s
    simp only [List.cons_append, reply_calls]
    cases reply_call D s c with
    | none => rfl
    | some s1 => exact ih post s1

/-- C24: over every sequence of calls of `ceph_osdc_prepare_pages` and
`ceph_osdc_handle_reply` that the client gets through, the reply slot of a
request is set at most once.  A slot that holds a message at the start, or
after any part of the sequence, holds the same message at the end: no later
call replaces the message or empties the slot.  Over the whole sequence a slot
is as it was or went from empty to holding a message.  The slot starts empty:
the request that `ceph_osdc_new_request` builds has an empty reply slot. -/
theorem reply_slot_set_once (D : Deps) (s s' : ceph_osd_client) (calls : List ReplyCall)
    (h : reply_calls D s calls = some s') :
    (∀ p m, (s.reqs p).r_reply = some m → (s'.reqs p).r_reply = some m) ∧
    (∀ pre post s1, calls = pre ++ post → reply_calls D s pre = some s1 →
      ∀ p m, (s1.reqs p).r_reply = some m → (s'.reqs p).r_reply = some m) ∧
    (∀ p, (s'.reqs p).r_reply = (s.reqs p).r_reply ∨
      ((s.reqs p).r_reply = none ∧ ∃ m, (s'.reqs p).r_reply = some m)) ∧
    (∀ (E : Env) (x x1 : ceph_osd_client) (layout : ceph_file_layout)
      (ino off len op req plen : Nat),
      ceph_osdc_new_request D E x layout ino off len op = Except.ok (req, plen, x1) →
      (x1.reqs req).r_reply = none) := by
  have key : ∀ (cs : List ReplyCall) (a b : ceph_osd_client), reply_calls D a cs = some b →
      ∀ p m, (a.reqs p).r_reply = some m → (b.reqs p).r_reply = some m := by
    intro cs a b hab p m hm
    rcases reply_calls_slot D p cs a b hab with e | ⟨e, _⟩
    · rw [e]; exact hm
    · rw [hm] at e
      exact absurd e (by simp)
  refine ⟨key calls s s' h, ?_, fun p => reply_calls_slot D p calls s s' h, ?_⟩
  · intro pre post s1 hsplit hpre
    subst hsplit
    rw [reply_calls_append, hpre] at h
    exact key post s1 s' h
  · intro E x x1 layout ino off len op req plen hnew
    unfold ceph_osdc_new_request at hnew
    split at hnew
    · simp at hnew
    · split at hnew
      · simp at hnew
      · simp only [Except.ok.injEq, Prod.mk.injEq] at hnew
        obtain ⟨h1, _, h3⟩ := hnew
        subst h1
        subst h3
        simp [ceph_osd_client.setReq, ceph_osd_client.setMsg, upd]

/-- C24 on two replies for the request of tid 1: the slot is empty at first,
the first call sets it to the message at 2000, and after the three further
calls, the last of which completes the request, it still holds that message. -/
theorem reply_slot_set_once_witness :
    (twoRepliesClient.reqs 7).r_reply = none ∧
    (reply_calls testDeps twoRepliesClient (twoRepliesCalls.take 1)).map
      (fun x => (x.reqs 7).r_reply) = some (some 2000) ∧
    (reply_calls testDeps twoRepliesClient (twoRepliesCalls.take 3)).map
      (fun x => ((x.reqs 7).r_reply, radix_tree_lookup x.request_tree 1)) =
      some (some 2000, some 7) ∧
    ∃ s', reply_calls testDeps twoRepliesClient twoRepliesCalls = some s' ∧
      (s'.reqs 7).r_reply = some 2000 ∧ radix_tree_lookup s'.request_tree 1 = none ∧
      (∀ p m, (twoRepliesClient.reqs p).r_reply = some m → (s'.reqs p).r_reply = some m) ∧
      (∀ pre post s1, twoRepliesCalls = pre ++ post →
        reply_calls testDeps twoRepliesClient pre = some s1 →
        ∀ p m, (s1.reqs p).r_reply = some m → (s'.reqs p).r_reply = some m) ∧
      (∀ p, (s'.reqs p).r_reply = (twoRepliesClient.reqs p).r_reply ∨
        ((twoRepliesClient.reqs p).r_reply = none ∧ ∃ m, (s'.reqs p).r_reply = some m)) ∧
      (∀ (E : Env) (x x1 : ceph_osd_client) (layout : ceph_file_layout)
        (ino off len op req plen : Nat),
        ceph_osdc_new_request testDeps E x layout ino off len op = Except.ok (req, plen, x1) →
        (x1.reqs req).r_reply = none) :=
  ⟨by decide, by decide, by decide,
    (reply_calls testDeps twoRepliesClient twoRepliesCalls).getD twoRepliesClient,
    rfl, by decide, by decide,
    reply_slot_set_once testDeps twoRepliesClient _ twoRepliesCalls rfl⟩

/-! ### The interrupted synchronous request -/

/-- After an interrupted wait, `do_sync_request` marks the request, then takes
the pages from the outgoing message, then from the reply when there is one. -/
theorem do_sync_finish_interrupted (x : ceph_osd_client) (req : Nat) (rc : Int)
    (hint : rc < 0) :
    do_sync_finish x req rc = some (rc,
      match (x.reqs req).r_reply with
      | some rp => revoke_pages (revoke_pages (mark_aborted x req) (x.reqs req).r_request) rp
      | none => revoke_pages (mark_aborted x req) (x.reqs req).r_request) := by
  rw [do_sync_finish_unfold]
  simp only [hint, if_true]
  have h1 : ((x.setReq req { x.reqs req with r_aborted := true }).reqs req).r_request =
      (x.reqs req).r_request := by
    simp [ceph_osd_client.setReq, upd]
  rw [h1]
  have h2 : (((((x.setReq req { x.reqs req with r_aborted := true }).log
      (Event.page_mutex_lock (x.reqs req).r_request)).setMsg (x.reqs req).r_request
        { (x.setReq req { x.reqs req with r_aborted := true }).msgs (x.reqs req).r_request with
          pages := none }).log (Event.page_mutex_unlock (x.reqs req).r_request)).reqs
            req).r_reply = (x.reqs req).r_reply := by
    simp [ceph_osd_client.setReq, ceph_osd_client.setMsg, ceph_osd_client.log, upd]
  rw [h2]
  change (match (x.reqs req).r_reply with
    | some rp => some (rc,
        revoke_pages (revoke_pages (mark_aborted x req) (x.reqs req).r_request) rp)
    | none => some (rc, revoke_pages (mark_aborted x req) (x.reqs req).r_request)) = _
  cases (x.reqs req).r_reply <;> rfl

theorem mark_aborted_fields (x : ceph_osd_client) (req : Nat) :
    ((mark_aborted x req).reqs req).r_aborted = true ∧
    (∀ p, p ≠ req → (mark_aborted x req).reqs p = x.reqs p) ∧
    (mark_aborted x req).msgs = x.msgs ∧ (mark_aborted x req).trace = x.trace ∧
    (mark_aborted x req).request_tree = x.request_tree ∧
    (mark_aborted x req).num_requests = x.num_requests ∧
    (mark_aborted x req).timeout_tid = x.timeout_tid := by
  refine ⟨?_, ?_, rfl, rfl, rfl, rfl, rfl⟩
  · simp [mark_aborted, ceph_osd_client.setReq, upd]
  · intro p hp
    simp [mark_aborted, ceph_osd_client.setReq, upd, hp]

theorem revoke_pages_fields (x : ceph_osd_client) (m : Nat) :
    ((revoke_pages x m).msgs m).pages = none ∧
    (∀ q, q ≠ m → (revoke_pages x m).msgs q = x.msgs q) ∧
    (∀ q, (x.msgs q).pages = none → ((revoke_pages x m).msgs q).pages = none) ∧
    (revoke_pages x m).reqs = x.reqs ∧
    (revoke_pages x m).trace = x.trace ++ [Event.page_mutex_lock m, Event.page_mutex_unlock m] ∧
    (revoke_pages x m).request_tree = x.request_tree ∧
    (revoke_pages x m).num_requests = x.num_requests ∧
    (revoke_pages x m).timeout_tid = x.timeout_tid := by
  refine ⟨?_, ?_, ?_, rfl, ?_, rfl, rfl, rfl⟩
  · simp [revoke_pages, ceph_osd_client.setMsg, ceph_osd_client.log, upd]
  · intro q hq
    simp [revoke_pages, ceph_osd_client.setMsg, ceph_osd_client.log, upd, hq]
  · intro q hq
    by_cases hqm : q = m
    · subst hqm
      simp [revoke_pages, ceph_osd_client.setMsg, ceph_osd_client.log, upd]
    · simp [revoke_pages, ceph_osd_client.setMsg, ceph_osd_client.log, upd, hqm, hq]
  · simp [revoke_pages, ceph_osd_client.setMsg, ceph_osd_client.log]

theorem do_sync_finish_trail (x : ceph_osd_client) (req : Nat) (rc : Int) (hint : rc < 0) :
    do_sync_finish x req rc = some (rc, ((do_sync_abort x req).getLast?).getD x) := by
  unfold do_sync_finish
  rw [if_pos hint]

/-- Every client of the abort path has the requests, the tree, the count and
the tid of the timer of the client after `req->r_aborted = 1`, and neither a
completion nor a send has been added to the log. -/
theorem do_sync_abort_registry (x : ceph_osd_client) (req : Nat) :
    ∀ t ∈ do_sync_abort x req,
      t.reqs = (mark_aborted x req).reqs ∧ t.request_tree = x.request_tree ∧
      t.num_requests = x.num_requests ∧ t.timeout_tid = x.timeout_tid ∧
      completions t.trace = completions x.trace ∧ sends t.trace = sends x.trace := by
  intro t ht
  cases hr : (x.reqs req).r_reply with
  | none =>
    rw [do_sync_abort_none x req hr] at ht
    simp only [List.mem_cons, List.mem_singleton, List.not_mem_nil, or_false] at ht
    rcases ht with h | h | h | h <;> subst h <;>
      simp [mark_aborted, revoke_pages, ceph_osd_client.setReq, ceph_osd_client.setMsg,
        ceph_osd_client.log, completions_append, completions, sends_append, sends]
  | some rp =>
    rw [do_sync_abort_some x req rp hr] at ht
    simp only [List.mem_cons, List.mem_singleton, List.not_mem_nil, or_false] at ht
    rcases ht with h | h | h | h | h | h | h <;> subst h <;>
      simp [mark_aborted, revoke_pages, ceph_osd_client.setReq, ceph_osd_client.setMsg,
        ceph_osd_client.log, completions_append, completions, sends_append, sends]

/-- The messages along the abort path, by the number `i` of statements already
executed after `req->r_aborted = 1`. -/
theorem do_sync_abort_msgs (x : ceph_osd_client) (req : Nat) (i : Nat) (t : ceph_osd_client)
    (ht : (do_sync_abort x req)[i]? = some t) :
    (i < 2 → t.msgs = x.msgs ∧ t.reqs = (mark_aborted x req).reqs) ∧
    (2 ≤ i → (t.msgs (x.reqs req).r_request).pages = none) ∧
    (i < 5 → ∀ m, m ≠ (x.reqs req).r_request → t.msgs m = x.msgs m) ∧
    (5 ≤ i → ∀ rp, (x.reqs req).r_reply = some rp → (t.msgs rp).pages = none) ∧
    (∀ m, m ≠ (x.reqs req).r_request → (x.reqs req).r_reply ≠ some m → t.msgs m = x.msgs m) := by
  cases hr : (x.reqs req).r_reply with
  | none =>
    rw [do_sync_abort_none x req hr] at ht
    rcases i with _ | _ | _ | _ | i
    all_goals simp at ht
    all_goals subst ht
    all_goals refine ⟨?_, ?_, ?_, ?_, ?_⟩
    all_goals first
      | (intro hi; omega)
      | (intro hi rp hrp; simp at hrp; done)
      | (intro hi; simp [mark_aborted, revoke_pages, ceph_osd_client.setReq,
          ceph_osd_client.setMsg, ceph_osd_client.log, upd]; done)
      | (intro hi m hm; simp [mark_aborted, revoke_pages, ceph_osd_client.setReq,
          ceph_osd_client.setMsg, ceph_osd_client.log, upd, hm]; done)
      | (intro m hm _; simp [mark_aborted, revoke_pages, ceph_osd_client.setReq,
          ceph_osd_client.setMsg, ceph_osd_client.log, upd, hm])
  | some rp =>
    rw [do_sync_abort_some x req rp hr] at ht
    rcases i with _ | _ | _ | _ | _ | _ | _ | i
    all_goals simp at ht
    all_goals subst ht
    all_goals refine ⟨?_, ?_, ?_, ?_, ?_⟩
    all_goals first
      | (intro hi; omega)
      | (intro hi; simp [mark_aborted, revoke_pages, ceph_osd_client.setReq,
          ceph_osd_client.setMsg, ceph_osd_client.log, upd]; done)
      | (intro hi; by_cases hq : (x.reqs req).r_request = rp <;>
          simp [mark_aborted, revoke_pages, ceph_osd_client.setReq,
          ceph_osd_client.setMsg, ceph_osd_client.log, upd, hq]; done)
      | (intro hi m hm; simp [mark_aborted, revoke_pages, ceph_osd_client.setReq,
          ceph_osd_client.setMsg, ceph_osd_client.log, upd, hm]; done)
      | (intro m hm hm2
         have hne : m ≠ rp := fun hc => hm2 (by rw [hc])
         simp [mark_aborted, revoke_pages, ceph_osd_client.setReq,
          ceph_osd_client.setMsg, ceph_osd_client.log, upd, hm, hne])

theorem do_sync_abort_last (x : ceph_osd_client) (req : Nat) :
    ∃ t, (do_sync_abort x req).getLast? = some t ∧
      (((x.reqs req).r_reply = none ∧ (do_sync_abort x req).length = 4 ∧
          (do_sync_abort x req)[3]? = some t ∧
          t.trace = x.trace ++ [Event.page_mutex_lock (x.reqs req).r_request,
            Event.page_mutex_unlock (x.reqs req).r_request]) ∨
        (∃ rp, (x.reqs req).r_reply = some rp ∧ (do_sync_abort x req).length = 7 ∧
          (do_sync_abort x req)[6]? = some t ∧
          t.trace = x.trace ++ [Event.page_mutex_lock (x.reqs req).r_request,
            Event.page_mutex_unlock (x.reqs req).r_request, Event.page_mutex_lock rp,
            Event.page_mutex_unlock rp])) := by
  cases hr : (x.reqs req).r_reply with
  | none =>
    rw [do_sync_abort_none x req hr]
    exact ⟨_, rfl, Or.inl ⟨rfl, rfl, rfl, by
      simp [mark_aborted, revoke_pages, ceph_osd_client.setReq, ceph_osd_client.setMsg,
        ceph_osd_client.log]⟩⟩
  | some rp =>
    rw [do_sync_abort_some x req rp hr]
    exact ⟨_, rfl, Or.inr ⟨rp, rfl, rfl, rfl, by
      simp [mark_aborted, revoke_pages, ceph_osd_client.setReq, ceph_osd_client.setMsg,
        ceph_osd_client.log]⟩⟩

theorem do_sync_abort_head (x : ceph_osd_client) (req : Nat) :
    (do_sync_abort x req).head? = some (mark_aborted x req) := by
  cases hr : (x.reqs req).r_reply with
  | none => rw [do_sync_abort_none x req hr]; rfl
  | some rp => rw [do_sync_abort_some x req rp hr]; rfl

/-- C26: when `start_request` has returned 0 with the client `s1` and the wait
is interrupted (it returns a code < 0, leaving the client `x = (wait s1).2`),
`do_sync_request` returns that code with the client after the last statement
of the abort path `do_sync_abort x req`, which lists the client after each
statement in program order.  The first statement is `req->r_aborted = 1`: the
first client of the path is `mark_aborted x req`, where every message and the
log are still as the wait left them, so that no pages pointer has been
cleared when the flag is set.  In every client of the path the flag is set;
the clients before the third have all the messages of `x`; from the third on
the pages pointer of the outgoing message is cleared; the clients before the
sixth have every other message as in `x`; the path has a sixth client only
when a reply is attached, and from the sixth on the pages pointer of the
reply is cleared.  The request is not unregistered: in every client of the
path, so also in the one returned, the tree, `num_requests` and
`timeout_tid` are as the wait left them, and so are the other fields of the
request, the other requests and the other messages.  Neither a callback nor a
completion fires and nothing is sent; the log gains only the locking of the
`page_mutex` of the two messages, in this order. -/
theorem do_sync_request_interrupted (D : Deps) (s s1 : ceph_osd_client) (req : Nat)
    (nomem : Bool) (wait : ceph_osd_client → Int × ceph_osd_client)
    (hstart : start_request D s req nomem = some (0, s1))
    (hint : (wait s1).1 < 0) :
    ∃ s', do_sync_request D s req nomem wait = some ((wait s1).1, s') ∧
      (do_sync_abort (wait s1).2 req).getLast? = some s' ∧
      (do_sync_abort (wait s1).2 req).head? = some (mark_aborted (wait s1).2 req) ∧
      (mark_aborted (wait s1).2 req).msgs = (wait s1).2.msgs ∧
      (mark_aborted (wait s1).2 req).trace = (wait s1).2.trace ∧
      (∀ i t, (do_sync_abort (wait s1).2 req)[i]? = some t →
        (t.reqs req).r_aborted = true ∧
        (i < 2 → t.msgs = (wait s1).2.msgs) ∧
        (2 ≤ i → (t.msgs ((wait s1).2.reqs req).r_request).pages = none) ∧
        (i < 5 → ∀ m, m ≠ ((wait s1).2.reqs req).r_request → t.msgs m = (wait s1).2.msgs m) ∧
        (5 ≤ i → ∀ rp, ((wait s1).2.reqs req).r_reply = some rp → (t.msgs rp).pages = none) ∧
        t.reqs = (mark_aborted (wait s1).2 req).reqs ∧
        (∀ p, p ≠ req → t.reqs p = (wait s1).2.reqs p) ∧
        (∀ m, m ≠ ((wait s1).2.reqs req).r_request → ((wait s1).2.reqs req).r_reply ≠ some m →
          t.msgs m = (wait s1).2.msgs m) ∧
        t.request_tree = (wait s1).2.request_tree ∧
        t.num_requests = (wait s1).2.num_requests ∧
        t.timeout_tid = (wait s1).2.timeout_tid ∧
        completions t.trace = completions (wait s1).2.trace ∧
        sends t.trace = sends (wait s1).2.trace) ∧
      (((wait s1).2.reqs req).r_reply = none →
        (do_sync_abort (wait s1).2 req).length = 4 ∧
        s'.trace = (wait s1).2.trace ++
          [Event.page_mutex_lock ((wait s1).2.reqs req).r_request,
           Event.page_mutex_unlock ((wait s1).2.reqs req).r_request]) ∧
      (∀ rp, ((wait s1).2.reqs req).r_reply = some rp →
        (do_sync_abort (wait s1).2 req).length = 7 ∧ (s'.msgs rp).pages = none ∧
        s'.trace = (wait s1).2.trace ++
          [Event.page_mutex_lock ((wait s1).2.reqs req).r_request,
           Event.page_mutex_unlock ((wait s1).2.reqs req).r_request,
           Event.page_mutex_lock rp, Event.page_mutex_unlock rp]) ∧
      (s'.reqs req).r_aborted = true ∧
      (s'.msgs ((wait s1).2.reqs req).r_request).pages = none ∧
      s'.reqs = (mark_aborted (wait s1).2 req).reqs ∧
      (∀ p, p ≠ req → s'.reqs p = (wait s1).2.reqs p) ∧
      (∀ m, m ≠ ((wait s1).2.reqs req).r_request → ((wait s1).2.reqs req).r_reply ≠ some m →
        s'.msgs m = (wait s1).2.msgs m) ∧
      s'.request_tree = (wait s1).2.request_tree ∧
      s'.num_requests = (wait s1).2.num_requests ∧
      s'.timeout_tid = (wait s1).2.timeout_tid ∧
      completions s'.trace = completions (wait s1).2.trace ∧
      sends s'.trace = sends (wait s1).2.trace := by
  have h0 : ¬ ((0 : Int) ≠ 0) := by decide
  have hcall : do_sync_request D s req nomem wait =
      do_sync_finish (wait s1).2 req (wait s1).1 := by
    unfold do_sync_request
    rw [hstart]
    simp only [h0, if_false]
  obtain ⟨a1, a2, a3, a4, -, -, -⟩ := mark_aborted_fields (wait s1).2 req
  have key : ∀ i t, (do_sync_abort (wait s1).2 req)[i]? = some t →
      (t.reqs req).r_aborted = true ∧
      (i < 2 → t.msgs = (wait s1).2.msgs) ∧
      (2 ≤ i → (t.msgs ((wait s1).2.reqs req).r_request).pages = none) ∧
      (i < 5 → ∀ m, m ≠ ((wait s1).2.reqs req).r_request → t.msgs m = (wait s1).2.msgs m) ∧
      (5 ≤ i → ∀ rp, ((wait s1).2.reqs req).r_reply = some rp → (t.msgs rp).pages = none) ∧
      t.reqs = (mark_aborted (wait s1).2 req).reqs ∧
      (∀ p, p ≠ req → t.reqs p = (wait s1).2.reqs p) ∧
      (∀ m, m ≠ ((wait s1).2.reqs req).r_request → ((wait s1).2.reqs req).r_reply ≠ some m →
        t.msgs m = (wait s1).2.msgs m) ∧
      t.request_tree = (wait s1).2.request_tree ∧
      t.num_requests = (wait s1).2.num_requests ∧
      t.timeout_tid = (wait s1).2.timeout_tid ∧
      completions t.trace = completions (wait s1).2.trace ∧
      sends t.trace = sends (wait s1).2.trace := by
    intro i t ht
    obtain ⟨m1, m2, m3, m4, m5⟩ := do_sync_abort_msgs (wait s1).2 req i t ht
    obtain ⟨r1, r2, r3, r4, r5, r6⟩ :=
      do_sync_abort_registry (wait s1).2 req t (List.getElem?_mem ht)
    refine ⟨?_, fun hi => (m1 hi).1, m2, m3, m4, r1, ?_, m5, r2, r3, r4, r5, r6⟩
    · rw [r1]; exact a1
    · intro p hp
      rw [r1]; exact a2 p hp
  obtain ⟨t, hlast, hshape⟩ := do_sync_abort_last (wait s1).2 req
  have hfin := do_sync_finish_trail (wait s1).2 req (wait s1).1 hint
  rw [hlast] at hfin
  rw [hcall, hfin]
  refine ⟨t, rfl, hlast, do_sync_abort_head _ _, a3, a4, key, ?_⟩
  rcases hshape with ⟨hr, hlen, h3, htr⟩ | ⟨rp, hr, hlen, h6, htr⟩
  · obtain ⟨k1, -, k3, -, -, k6, k7, k8, k9, k10, k11, k12, k13⟩ := key 3 t h3
    refine ⟨fun _ => ⟨hlen, htr⟩, ?_, k1, k3 (by decide), k6, k7, k8, k9, k10, k11, k12, k13⟩
    intro rp hrp
    rw [hr] at hrp
    exact absurd hrp (by simp)
  · obtain ⟨k1, -, k3, -, k5, k6, k7, k8, k9, k10, k11, k12, k13⟩ := key 6 t h6
    refine ⟨?_, ?_, k1, k3 (by decide), k6, k7, k8, k9, k10, k11, k12, k13⟩
    · intro hn
      rw [hr] at hn
      exact absurd hn (by simp)
    · intro rp2 hrp
      have he : rp2 = rp := by
        rw [hr] at hrp
        exact (Option.some.inj hrp).symm
      subst he
      exact ⟨hlen, k5 (by decide) _ hr, htr⟩

/-- C26 on the request of tid 1 whose outgoing message (address 1007) carries
its pages and whose reply starts to arrive at address 2000 before the wait is
interrupted: the call returns -512 with `r_aborted` set and both pages
pointers cleared, and the request is still registered under tid 1 with no
completion recorded.  The seven clients of the abort path show the order: the
flag is set in the first, where both messages still have their pages; the
outgoing message loses them in the third and the reply in the sixth. -/
theorem do_sync_request_interrupted_witness :
    (do_sync_request testDeps pagedSyncClient 7 false interruptedWait).map
      (fun r => (r.1, (r.2.reqs 7).r_aborted, (r.2.msgs 1007).pages, (r.2.msgs 2000).pages,
        (r.2.reqs 7).r_reply)) = some (-512, true, none, none, some 2000) ∧
    (do_sync_request testDeps pagedSyncClient 7 false interruptedWait).map
      (fun r => (radix_tree_lookup r.2.request_tree 1, completions r.2.trace,
        r.2.trace.reverse.take 4)) =
      some (some 7, [], [Event.page_mutex_unlock 2000, Event.page_mutex_lock 2000,
        Event.page_mutex_unlock 1007, Event.page_mutex_lock 1007]) ∧
    ∃ s1, start_request testDeps pagedSyncClient 7 false = some (0, s1) ∧
      (((interruptedWait s1).2.reqs 7).r_aborted, ((interruptedWait s1).2.msgs 1007).pages,
        ((interruptedWait s1).2.msgs 2000).pages) = (false, some 7, some 7) ∧
      (do_sync_abort (interruptedWait s1).2 7).map
        (fun t => ((t.reqs 7).r_aborted, (t.msgs 1007).pages, (t.msgs 2000).pages)) =
        [(true, some 7, some 7), (true, some 7, some 7), (true, none, some 7),
         (true, none, some 7), (true, none, some 7), (true, none, none),
         (true, none, none)] ∧
      ∃ s', do_sync_request testDeps pagedSyncClient 7 false interruptedWait = some ((interruptedWait s1).1, s') ∧
        (do_sync_abort (interruptedWait s1).2 7).getLast? = some s' ∧
        (do_sync_abort (interruptedWait s1).2 7).head? =
          some (mark_aborted (interruptedWait s1).2 7) ∧
        (mark_aborted (interruptedWait s1).2 7).msgs = (interruptedWait s1).2.msgs ∧
        (mark_aborted (interruptedWait s1).2 7).trace = (interruptedWait s1).2.trace ∧
        (∀ i t, (do_sync_abort (interruptedWait s1).2 7)[i]? = some t →
          (t.reqs 7).r_aborted = true ∧
          (i < 2 → t.msgs = (interruptedWait s1).2.msgs) ∧
          (2 ≤ i → (t.msgs ((interruptedWait s1).2.reqs 7).r_request).pages = none) ∧
          (i < 5 → ∀ m, m ≠ ((interruptedWait s1).2.reqs 7).r_request →
            t.msgs m = (interruptedWait s1).2.msgs m) ∧
          (5 ≤ i → ∀ rp, ((interruptedWait s1).2.reqs 7).r_reply = some rp →
            (t.msgs rp).pages = none) ∧
          t.reqs = (mark_aborted (interruptedWait s1).2 7).reqs ∧
          (∀ p, p ≠ 7 → t.reqs p = (interruptedWait s1).2.reqs p) ∧
          (∀ m, m ≠ ((interruptedWait s1).2.reqs 7).r_request →
            ((interruptedWait s1).2.reqs 7).r_reply ≠ some m →
            t.msgs m = (interruptedWait s1).2.msgs m) ∧
          t.request_tree = (interruptedWait s1).2.request_tree ∧
          t.num_requests = (interruptedWait s1).2.num_requests ∧
          t.timeout_tid = (interruptedWait s1).2.timeout_tid ∧
          completions t.trace = completions (interruptedWait s1).2.trace ∧
          sends t.trace = sends (interruptedWait s1).2.trace) ∧
        (((interruptedWait s1).2.reqs 7).r_reply = none →
          (do_sync_abort (interruptedWait s1).2 7).length = 4 ∧
          s'.trace = (interruptedWait s1).2.trace ++
            [Event.page_mutex_lock ((interruptedWait s1).2.reqs 7).r_request,
             Event.page_mutex_unlock ((interruptedWait s1).2.reqs 7).r_request]) ∧
        (∀ rp, ((interruptedWait s1).2.reqs 7).r_reply = some rp →
          (do_sync_abort (interruptedWait s1).2 7).length = 7 ∧ (s'.msgs rp).pages = none ∧
          s'.trace = (interruptedWait s1).2.trace ++
            [Event.page_mutex_lock ((interruptedWait s1).2.reqs 7).r_request,
             Event.page_mutex_unlock ((interruptedWait s1).2.reqs 7).r_request,
             Event.page_mutex_lock rp, Event.page_mutex_unlock rp]) ∧
        (s'.reqs 7).r_aborted = true ∧
        (s'.msgs ((interruptedWait s1).2.reqs 7).r_request).pages = none ∧
        s'.reqs = (mark_aborted (interruptedWait s1).2 7).reqs ∧
        (∀ p, p ≠ 7 → s'.reqs p = (interruptedWait s1).2.reqs p) ∧
        (∀ m, m ≠ ((interruptedWait s1).2.reqs 7).r_request →
          ((interruptedWait s1).2.reqs 7).r_reply ≠ some m →
          s'.msgs m = (interruptedWait s1).2.msgs m) ∧
        s'.request_tree = (interruptedWait s1).2.request_tree ∧
        s'.num_requests = (interruptedWait s1).2.num_requests ∧
        s'.timeout_tid = (interruptedWait s1).2.timeout_tid ∧
        completions s'.trace = completions (interruptedWait s1).2.trace ∧
        sends s'.trace = sends (interruptedWait s1).2.trace :=
  ⟨by decide, by decide,
    ((start_request testDeps pagedSyncClient 7 false).map Prod.snd).getD pagedSyncClient, rfl,
    by decide, by decide,
    do_sync_request_interrupted testDeps pagedSyncClient _ 7 false interruptedWait rfl
      (by decide)⟩

/-! ### The timer handler -/

theorem logs_nil (s : ceph_osd_client) : s.logs [] = s := by
  simp [ceph_osd_client.logs]

theorem log_eq_logs (s : ceph_osd_client) (e : Event) : s.log e = s.logs [e] := rfl

theorem logs_logs (s : ceph_osd_client) (t u : List Event) :
    (s.logs t).logs u = s.logs (t ++ u) := by
  simp [ceph_osd_client.logs]

theorem timeout_pings_cons (D : Deps) (s : ceph_osd_client) (e : Nat × Nat)
    (t : List (Nat × Nat)) :
    timeout_pings D s (e :: t) =
      (if timed_out D s (s.reqs e.2) then
        [Event.ping (s.reqs e.2).r_last_osd (s.reqs e.2).r_last_osd_addr] else []) ++
      timeout_pings D s t := by
  unfold timeout_pings
  by_cases h : timed_out D s (s.reqs e.2) = true
  · simp [List.filter_cons, h]
  · simp [List.filter_cons, h]

/-- The ping loop of `handle_timeout` over a well-formed registry whose tids
are below 2^64 - 1: it ends, and it records the pings of the entries from the
first lookup on, in the order of the tree, and nothing else. -/
theorem timeout_loop_walk (D : Deps) (s : ceph_osd_client)
    (hsorted : (s.request_tree.map Prod.fst).Pairwise (fun a b => a < b))
    (hown : ∀ e ∈ s.request_tree, (s.reqs e.2).r_tid = e.1)
    (hfit : ∀ e ∈ s.request_tree, e.1 + 1 < U64) :
    ∀ (suf pre : List (Nat × Nat)) (t : List Event) (next_tid fuel : Nat),
      s.request_tree = pre ++ suf →
      (∀ e ∈ pre, e.1 < next_tid) → (∀ e ∈ suf, next_tid ≤ e.1) →
      suf.length < fuel →
      timeout_loop D fuel (s.logs t) (radix_tree_gang_lookup s.request_tree next_tid) =
        some (s.logs (t ++ timeout_pings D s suf)) := by
  intro suf
  induction suf with
  | nil =>
    intro pre t next_tid fuel hsplit hpre _ hfuel
    obtain ⟨f, rfl⟩ : ∃ f, fuel = f + 1 := ⟨fuel - 1, by simp at hfuel; omega⟩
    have hl : radix_tree_gang_lookup s.request_tree next_tid = none := by
      rw [hsplit, gang_lookup_append _ _ _ hpre]
      rfl
    rw [hl]
    simp [timeout_loop, timeout_pings]
  | cons e suf ih =>
    intro pre t next_tid fuel hsplit hpre hsuf hfuel
    obtain ⟨f, rfl⟩ : ∃ f, fuel = f + 1 := ⟨fuel - 1, by simp at hfuel; omega⟩
    have hemem : e ∈ s.request_tree := by rw [hsplit]; simp
    have hl : radix_tree_gang_lookup s.request_tree next_tid = some e.2 := by
      rw [hsplit, gang_lookup_append _ _ _ hpre]
      have := hsuf e (List.mem_cons_self _ _)
      simp [radix_tree_gang_lookup, List.find?_cons, this]
    have hlt : ∀ x ∈ suf, e.1 < x.1 := by
      intro x hx
      rw [hsplit, List.map_append, List.pairwise_append] at hsorted
      have := hsorted.2.1
      rw [List.map_cons, List.pairwise_cons] at this
      exact this.1 x.1 (List.mem_map_of_mem _ hx)
    have hnext : ((s.reqs e.2).r_tid + 1) % U64 = e.1 + 1 := by
      rw [hown e hemem]
      exact Nat.mod_eq_of_lt (hfit e hemem)
    have hpre2 : ∀ x ∈ pre ++ [e], x.1 < e.1 + 1 := by
      intro x hx
      rw [List.mem_append, List.mem_singleton] at hx
      rcases hx with hx | hx
      · have := hpre x hx
        have := hsuf e (List.mem_cons_self _ _)
        omega
      · rw [hx]; omega
    have hsuf2 : ∀ x ∈ suf, e.1 + 1 ≤ x.1 := by
      intro x hx
      have := hlt x hx
      omega
    have hfuel2 : suf.length < f := by
      simp only [List.length_cons] at hfuel
      omega
    rw [hl, timeout_pings_cons]
    unfold timeout_loop
    simp only
    have hr : ((s.logs t).reqs e.2) = s.reqs e.2 := rfl
    rw [hr, hnext]
    have hcond : time_after (s.logs t).jiffies
        (toU64 (((s.reqs e.2).r_last_stamp : Int) + timer_period D (s.logs t))) =
        timed_out D s (s.reqs e.2) := rfl
    rw [hcond]
    by_cases hto : timed_out D s (s.reqs e.2) = true
    · simp only [hto, if_true]
      have hstate : (s.logs t).log (Event.ping (s.reqs e.2).r_last_osd
          (s.reqs e.2).r_last_osd_addr) =
          s.logs (t ++ [Event.ping (s.reqs e.2).r_last_osd (s.reqs e.2).r_last_osd_addr]) := by
        rw [log_eq_logs, logs_logs]
      rw [hstate]
      have := ih (pre ++ [e])
        (t ++ [Event.ping (s.reqs e.2).r_last_osd (s.reqs e.2).r_last_osd_addr])
        (e.1 + 1) f (by rw [hsplit]; simp) hpre2 hsuf2 hfuel2
      simp only [List.append_assoc] at this ⊢
      exact this
    · simp only [hto, if_false, Bool.false_eq_true, List.nil_append]
      exact ih (pre ++ [e]) t (e.1 + 1) f (by rw [hsplit]; simp) hpre2 hsuf2 hfuel2

/-- A tree in ascending order is its entries below `k` followed by its entries
from `k` on. -/
theorem sorted_split_at (k : Nat) :
    ∀ t : List (Nat × Nat), (t.map Prod.fst).Pairwise (fun a b => a < b) →
      t = t.filter (fun e => decide (e.1 < k)) ++ t.filter (fun e => decide (k ≤ e.1)) := by
  intro t
  induction t with
  | nil => intro _; rfl
  | cons e t ih =>
    intro hs
    rw [List.map_cons, List.pairwise_cons] at hs
    by_cases hk : e.1 < k
    · have hk2 : ¬ k ≤ e.1 := by omega
      simp only [List.filter_cons, hk, hk2, decide_True, decide_False, if_true, if_false,
        Bool.false_eq_true, List.cons_append]
      rw [← ih hs.2]
    · have hk2 : k ≤ e.1 := by omega
      have h1 : t.filter (fun e => decide (e.1 < k)) = [] := by
        rw [List.filter_eq_nil_iff]
        intro x hx
        have := hs.1 x.1 (List.mem_map_of_mem _ hx)
        simp only [decide_eq_true_eq]
        omega
      have h2 : t.filter (fun e => decide (k ≤ e.1)) = t := by
        rw [List.filter_eq_self]
        intro x hx
        have := hs.1 x.1 (List.mem_map_of_mem _ hx)
        simp only [decide_eq_true_eq]
        omega
      simp only [List.filter_cons, hk, hk2, decide_True, decide_False, if_true, if_false,
        Bool.false_eq_true, List.nil_append, h1, h2]

/-- The client as `__register_next_request_timeout` leaves it when it
returns: `timeout_tid` may have moved and the timer may have been armed. -/
theorem register_next_shape {D : Deps} {x x' : ceph_osd_client} {req : Nat}
    (h : __register_next_request_timeout D x req = some x') :
    ∃ k T, x' = ({ x with timeout_tid := k }).logs T ∧
      (T = [] ∨ ∃ j, T = [Event.schedule_timeout j]) := by
  unfold __register_next_request_timeout at h
  simp only at h
  split at h
  · obtain ⟨j, hj⟩ := reschedule_timeout_eq h
    exact ⟨_, [Event.schedule_timeout j], hj, Or.inr ⟨j, rfl⟩⟩
  · simp only [Option.some.injEq] at h
    subst h
    exact ⟨x.timeout_tid, [], (logs_nil _).symm, Or.inl rfl⟩

/-- With a timer period other than zero `__register_next_request_timeout`
returns, whatever request it is given. -/
theorem register_next_total (D : Deps) (x : ceph_osd_client) (req : Nat)
    (htimer : timer_period D x ≠ 0) :
    ∃ x', __register_next_request_timeout D x req = some x' := by
  unfold __register_next_request_timeout
  simp only
  split
  · obtain ⟨j, hj⟩ := reschedule_timeout_total D
      { x with timeout_tid := (x.reqs _).r_tid } (x.reqs req).r_last_stamp htimer
    exact ⟨_, hj⟩
  · exact ⟨_, rfl⟩

/-- The ping loop records pings only, when it ends. -/
theorem timeout_loop_shape (D : Deps) :
    ∀ (fuel : Nat) (x : ceph_osd_client) (got : Option Nat) (x' : ceph_osd_client),
      timeout_loop D fuel x got = some x' →
      ∃ t, x' = x.logs t ∧ ∀ e ∈ t, ∃ o a, e = Event.ping o a := by
  intro fuel
  induction fuel with
  | zero => intro x got x' h; simp [timeout_loop] at h
  | succ n ih =>
    intro x got x' h
    cases got with
    | none =>
      simp only [timeout_loop, Option.some.injEq] at h
      subst h
      exact ⟨[], (logs_nil _).symm, fun e he => by simp at he⟩
    | some req =>
      simp only [timeout_loop] at h
      split_ifs at h with hc
      · obtain ⟨t, ht, hp⟩ := ih _ _ _ h
        refine ⟨Event.ping (x.reqs req).r_last_osd (x.reqs req).r_last_osd_addr :: t, ?_, ?_⟩
        · rw [ht, log_eq_logs, logs_logs]
          rfl
        · intro e he
          rw [List.mem_cons] at he
          rcases he with he | he
          · exact ⟨_, _, he⟩
          · exact hp e he
      · exact ih _ _ _ h

/-- The client as `handle_timeout` leaves it when it returns: `timeout_tid`
may have moved, and the events recorded are those of the semaphore, of the
mutex, of the request for a map, of the timer, and pings. -/
theorem handle_timeout_shape {D : Deps} {s s' : ceph_osd_client} {u : Option Nat}
    (h : handle_timeout D s u = some s') :
    ∃ k t, s' = ({ s with timeout_tid := k }).logs t ∧ ∀ e ∈ t, is_timer_event e = true := by
  obtain ⟨osdmap, req, s2, s3, hmap, hreq, h2, h3, h⟩ := handle_timeout_some h
  have h := h.symm
  obtain ⟨k, T, hT, hT2⟩ := register_next_shape h2
  obtain ⟨t, ht, hp⟩ := timeout_loop_shape D _ _ _ _ h3
  refine ⟨k, [Event.down_read, Event.request_osdmap ((osdmap.epoch + 1) % U32),
    Event.mutex_lock] ++ T ++ t ++ [Event.mutex_unlock, Event.up_read], ?_, ?_⟩
  · rw [← h, ht, hT]
    simp [ceph_osd_client.log, ceph_osd_client.logs]
  · intro e he
    simp only [List.mem_append, List.mem_cons, List.mem_singleton, List.not_mem_nil,
      or_false] at he
    rcases he with (((he | he | he) | he) | he) | he | he
    · rw [he]; rfl
    · rw [he]; rfl
    · rw [he]; rfl
    · rcases hT2 with hT2 | ⟨j, hT2⟩
      · rw [hT2] at he; simp at he
      · rw [hT2] at he
        simp only [List.mem_singleton] at he
        rw [he]; rfl
    · obtain ⟨o, a, hoa⟩ := hp e he
      rw [hoa]; rfl
    · rw [he]; rfl
    · rw [he]; rfl

/-- The timer handler on a client with a current map, a well-formed registry
whose tids are below 2^64 - 1, a request found by the lookup from `timeout_tid`
and a timer period other than zero: it returns, whatever the unassigned
variable would hold; it asks the monitor client for the next map, may move `timeout_tid` and arm
the timer, and pings the last target of every request that passes the test of
the handler among the entries with a tid of at least `timeout_tid`, in the
order of the tree, and of no other request. -/
theorem handle_timeout_spec (D : Deps) (s : ceph_osd_client) (u : Option Nat)
    (osdmap : ceph_osdmap) (req : Nat)
    (hmap : s.osdmap = some osdmap)
    (hsorted : (s.request_tree.map Prod.fst).Pairwise (fun a b => a < b))
    (hown : ∀ e ∈ s.request_tree, (s.reqs e.2).r_tid = e.1)
    (hfit : ∀ e ∈ s.request_tree, e.1 + 1 < U64)
    (hgot : radix_tree_gang_lookup s.request_tree s.timeout_tid = some req)
    (htimer : timer_period D s ≠ 0) :
    ∃ k T, handle_timeout D s u = some (({ s with timeout_tid := k }).logs
        ([Event.down_read, Event.request_osdmap ((osdmap.epoch + 1) % U32), Event.mutex_lock] ++
          T ++
          timeout_pings D s (s.request_tree.filter (fun e => decide (s.timeout_tid ≤ e.1))) ++
          [Event.mutex_unlock, Event.up_read])) ∧
      (T = [] ∨ ∃ j, T = [Event.schedule_timeout j]) := by
  obtain ⟨s2, h2⟩ := register_next_total D
    (((s.log Event.down_read).log (Event.request_osdmap ((osdmap.epoch + 1) % U32))).log
      Event.mutex_lock) req htimer
  obtain ⟨k, T, hT, hT2⟩ := register_next_shape h2
  have hs2 : s2 = ({ s with timeout_tid := k }).logs
      ([Event.down_read, Event.request_osdmap ((osdmap.epoch + 1) % U32), Event.mutex_lock] ++
        T) := by
    rw [hT]
    simp [ceph_osd_client.log, ceph_osd_client.logs]
  have hwalk := timeout_loop_walk D { s with timeout_tid := k } hsorted hown hfit
    (s.request_tree.filter (fun e => decide (s.timeout_tid ≤ e.1)))
    (s.request_tree.filter (fun e => decide (e.1 < s.timeout_tid)))
    ([Event.down_read, Event.request_osdmap ((osdmap.epoch + 1) % U32), Event.mutex_lock] ++ T)
    s.timeout_tid (s.request_tree.length + 1)
    (sorted_split_at s.timeout_tid s.request_tree hsorted)
    (by
      intro e he
      rw [List.mem_filter] at he
      simpa using he.2)
    (by
      intro e he
      rw [List.mem_filter] at he
      simpa using he.2)
    (by
      have := List.length_filter_le (fun e => decide (s.timeout_tid ≤ e.1)) s.request_tree
      omega)
  refine ⟨k, T, ?_, hT2⟩
  unfold handle_timeout
  simp only
  have hm0 : (s.log Event.down_read).osdmap = some osdmap := hmap
  rw [hm0]
  simp only
  have hg : radix_tree_gang_lookup
      (((s.log Event.down_read).log (Event.request_osdmap ((osdmap.epoch + 1) % U32))).log
        Event.mutex_lock).request_tree
      (((s.log Event.down_read).log (Event.request_osdmap ((osdmap.epoch + 1) % U32))).log
        Event.mutex_lock).timeout_tid = some req := hgot
  rw [hg]
  simp only [Option.orElse]
  rw [h2]
  simp only
  have h3 : timeout_loop D (s2.request_tree.length + 1) s2 (some req) =
      some (({ s with timeout_tid := k }).logs
        (([Event.down_read, Event.request_osdmap ((osdmap.epoch + 1) % U32),
          Event.mutex_lock] ++ T) ++
          timeout_pings D { s with timeout_tid := k }
            (s.request_tree.filter (fun e => decide (s.timeout_tid ≤ e.1))))) := by
    rw [hs2, ← hgot]
    exact hwalk
  rw [h3]
  simp [ceph_osd_client.log, ceph_osd_client.logs, timeout_pings, timed_out, timer_period]

/-- None of the events of `handle_timeout` is a completion. -/
theorem completions_timer_events :
    ∀ t : List Event, (∀ e ∈ t, is_timer_event e = true) → completions t = [] := by
  intro t
  induction t with
  | nil => intro _; rfl
  | cons e t ih =>
    intro h
    have he := h e (List.mem_cons_self _ _)
    have ht := ih (fun x hx => h x (List.mem_cons_of_mem _ hx))
    cases e <;> simp [is_timer_event] at he <;> simp [completions, ht]

/-- The timer handler returns on every client with a current map, a well-formed
registry whose tids are below 2^64 - 1, a request found by the lookup from
`timeout_tid`, and a timer period other than zero. -/
theorem handle_timeout_returns (D : Deps) (s : ceph_osd_client) (u : Option Nat)
    (osdmap : ceph_osdmap) (req : Nat) (hmap : s.osdmap = some osdmap) (hinv : RegistryInv s)
    (hfit : ∀ e ∈ s.request_tree, e.1 + 1 < 2 ^ 64)
    (hgot : radix_tree_gang_lookup s.request_tree s.timeout_tid = some req)
    (htimer : timer_period D s ≠ 0) :
    ∃ s', handle_timeout D s u = some s' := by
  obtain ⟨k, T, h, _⟩ := handle_timeout_spec D s u osdmap req hmap hinv.sorted hinv.own_tid
    hfit hgot htimer
  exact ⟨_, h⟩

/-- C27: `handle_timeout` never removes a request from the registry and never
delivers a completion.  For every state and whatever the unassigned variable
holds, when the handler returns, the tree (so every lookup), `num_requests`,
every request (its reply slot, reference count and aborted flag included) and
every message are the same as before; the client differs from the one before
in `timeout_tid` and in the log at most, and what the handler has added to the
log are events of the semaphore, of the mutex, of the request for a map, of
the timer, and pings: neither a callback nor a completion. -/
theorem handle_timeout_keeps_registry (D : Deps) (s s' : ceph_osd_client) (u : Option Nat)
    (h : handle_timeout D s u = some s') :
    s'.request_tree = s.request_tree ∧ s'.num_requests = s.num_requests ∧
    (∀ tid, radix_tree_lookup s'.request_tree tid = radix_tree_lookup s.request_tree tid) ∧
    s'.reqs = s.reqs ∧
    (∀ p, (s'.reqs p).r_reply = (s.reqs p).r_reply ∧ (s'.reqs p).r_ref = (s.reqs p).r_ref ∧
      (s'.reqs p).r_aborted = (s.reqs p).r_aborted) ∧
    s'.msgs = s.msgs ∧
    { s' with timeout_tid := s.timeout_tid, trace := s.trace } = s ∧
    completions s'.trace = completions s.trace ∧
    ∃ t, s'.trace = s.trace ++ t ∧ ∀ e ∈ t, is_timer_event e = true := by
  obtain ⟨k, t, hs, ht⟩ := handle_timeout_shape h
  subst hs
  refine ⟨rfl, rfl, fun _ => rfl, rfl, fun _ => ⟨rfl, rfl, rfl⟩, rfl, rfl, ?_, t, rfl, ht⟩
  show completions (s.trace ++ t) = _
  rw [completions_append, completions_timer_events t ht, List.append_nil]

/-- C27 on the client with two requests sent long ago: the handler returns
(the lookup from `timeout_tid` finds the request of tid 1), both requests stay
registered with their references, and what it records are the request for the
map of epoch 6, the timer and two pings. -/
theorem handle_timeout_keeps_registry_witness :
    handle_timeout testDeps timerClient none = some timerFired ∧
    (timerClient.request_tree, timerClient.num_requests, (timerClient.reqs 7).r_ref,
      (timerClient.reqs 8).r_ref) = ([(1, 7), (2, 8)], 2, 2, 2) ∧
    (timerFired.request_tree, timerFired.num_requests, (timerFired.reqs 7).r_ref,
      (timerFired.reqs 8).r_ref, completions timerFired.trace) =
      ([(1, 7), (2, 8)], 2, 2, 2, []) ∧
    (timerFired.timeout_tid, timerFired.trace.drop timerClient.trace.length) =
      (2, [Event.down_read, Event.request_osdmap 6, Event.mutex_lock,
        Event.schedule_timeout 2000, Event.ping 5 105, Event.ping 6 106,
        Event.mutex_unlock, Event.up_read]) ∧
    (timerFired.request_tree = timerClient.request_tree ∧
      timerFired.num_requests = timerClient.num_requests ∧
      (∀ tid, radix_tree_lookup timerFired.request_tree tid =
        radix_tree_lookup timerClient.request_tree tid) ∧
      timerFired.reqs = timerClient.reqs ∧
      (∀ p, (timerFired.reqs p).r_reply = (timerClient.reqs p).r_reply ∧
        (timerFired.reqs p).r_ref = (timerClient.reqs p).r_ref ∧
        (timerFired.reqs p).r_aborted = (timerClient.reqs p).r_aborted) ∧
      timerFired.msgs = timerClient.msgs ∧
      { timerFired with timeout_tid := timerClient.timeout_tid, trace := timerClient.trace } =
        timerClient ∧
      completions timerFired.trace = completions timerClient.trace ∧
      ∃ t, timerFired.trace = timerClient.trace ++ t ∧ ∀ e ∈ t, is_timer_event e = true) :=
  ⟨rfl, by decide, by decide, by decide,
    handle_timeout_keeps_registry testDeps timerClient timerFired none rfl⟩

/-- C28 fails on the code.  Two requests are registered, tid 1 (last sent to
osd 5) and tid 2 (last sent to osd 6); for both, `jiffies` is after
`r_last_stamp + osd_timeout * HZ`.  The first run of the handler, with
`timeout_tid` 1, pings both osds and moves `timeout_tid` to 2.  The second run
starts its walk at the lookup from `timeout_tid` 2: it pings osd 6 only,
although the request of tid 1 is still registered and still passes the test;
it moves `timeout_tid` back to 1. -/
theorem handle_timeout_skips_below_timeout_tid :
    timerClient.request_tree = [(1, 7), (2, 8)] ∧ timerClient.timeout_tid = 1 ∧
    timed_out testDeps timerClient (timerClient.reqs 7) = true ∧
    timed_out testDeps timerClient (timerClient.reqs 8) = true ∧
    (handle_timeout testDeps timerClient none).map
      (fun x => (pings (x.trace.drop timerClient.trace.length), x.timeout_tid)) =
      some ([(5, 105), (6, 106)], 2) ∧
    handle_timeout testDeps timerClient none = some timerFired ∧
    timerFired.request_tree = [(1, 7), (2, 8)] ∧ timerFired.timeout_tid = 2 ∧
    timed_out testDeps timerFired (timerFired.reqs 7) = true ∧
    timed_out testDeps timerFired (timerFired.reqs 8) = true ∧
    ((timerFired.reqs 7).r_last_osd, (timerFired.reqs 7).r_last_osd_addr) = (5, 105) ∧
    (handle_timeout testDeps timerFired none).map
      (fun x => (pings (x.trace.drop timerFired.trace.length), x.timeout_tid,
        radix_tree_lookup x.request_tree 1)) = some ([(6, 106)], 1, some 7) := by
  refine ⟨by decide, by decide, by decide, by decide, by decide, rfl, by decide, by decide,
    by decide, by decide, by decide, by decide⟩

/-! ### The delay of the timer -/

/-- The remainder of C of a negative value by a positive divisor lies in
`(-b, 0]`. -/
theorem tmod_neg_range (a b : Int) (ha : a < 0) (hb : 0 < b) :
    -b < a.tmod b ∧ a.tmod b ≤ 0 := by
  have h1 : a.tmod b = -((-a).tmod b) := by
    rw [Int.tmod_def, Int.tmod_def, Int.neg_tdiv]
    ring
  have h2 : 0 ≤ (-a).tmod b := Int.tmod_nonneg _ (by omega)
  have h3 : (-a).tmod b < b := Int.tmod_lt_of_pos _ hb
  omega

/-- The delay computed by `reschedule_timeout` is the one in the event. -/
theorem reschedule_timeout_unfold (D : Deps) (s : ceph_osd_client) (base_time : Nat) :
    reschedule_timeout D s base_time =
      if wrapLong (timer_period D s - elapsed_since s base_time) < 0 then
        if timer_period D s = 0 then none
        else some (s.log (Event.schedule_timeout
          ((wrapLong (timer_period D s - elapsed_since s base_time)).tmod (timer_period D s) +
            timer_period D s)))
      else some (s.log (Event.schedule_timeout
        (wrapLong (timer_period D s - elapsed_since s base_time)))) := rfl

/-- C29, as stated, fails at two kinds of input.  With `osd_timeout` = 2^30 > 0
and `HZ` = 100 the `int` product `osd_timeout * HZ` wraps to 0: armed without a
base time the timer gets the delay 0, and armed with a base time in the past
the difference is negative and the divisor of the remainder is zero, so that
the call faults.  With `osd_timeout` = 30, a period of 3000 jiffies, and a base
time 5 jiffies after `jiffies`, the delay is 3005, which is not in
[0, 3000]. -/
theorem reschedule_timeout_delay_out_of_range :
    0 < hugeTimeoutClient.osd_timeout ∧ hugeTimeoutClient.osd_timeout < 2 ^ 31 ∧
    timer_period testDeps hugeTimeoutClient = 0 ∧
    (reschedule_timeout testDeps hugeTimeoutClient 0).map
      (fun x => x.trace.drop hugeTimeoutClient.trace.length) =
      some [Event.schedule_timeout 0] ∧
    elapsed_since hugeTimeoutClient 4000 = 1000 ∧
    (reschedule_timeout testDeps hugeTimeoutClient 4000).isSome = false ∧
    0 < timerClient.osd_timeout ∧ timer_period testDeps timerClient = 3000 ∧
    timerClient.jiffies = 5000 ∧ elapsed_since timerClient 5005 = -5 ∧
    (reschedule_timeout testDeps timerClient 5005).map
      (fun x => x.trace.drop timerClient.trace.length) =
      some [Event.schedule_timeout 3005] := by
  refine ⟨by decide, by decide, by decide, by decide, by decide, by decide, by decide,
    by decide, by decide, by decide, by decide⟩

/-- C29, amended: for every `osd_timeout` > 0 whose product with `HZ` (> 0)
fits in an `int`, the period `osd_timeout * HZ` is not zero and
`reschedule_timeout` returns, arming the timer (before jiffy rounding) with a
delay `j` as follows.  When `base_time` is 0 the delay is the period.  When
the difference of the period and the time elapsed since `base_time`, a `long`,
is not negative, the delay is this difference.  When the difference is
negative, the delay is its remainder by the period plus the period, which lies
in (0, period].  For every base time that is not after `jiffies` the
difference is the plain one and the delay lies in [0, period]. -/
theorem reschedule_timeout_delay (D : Deps) (s : ceph_osd_client) (base_time : Nat)
    (hhz : 0 < D.HZ) (hpos : 0 < s.osd_timeout) (hfit : s.osd_timeout * D.HZ < 2 ^ 31) :
    timer_period D s = s.osd_timeout * D.HZ ∧ timer_period D s ≠ 0 ∧
    ∃ j, reschedule_timeout D s base_time = some (s.log (Event.schedule_timeout j)) ∧
      (base_time = 0 → j = s.osd_timeout * D.HZ) ∧
      (0 ≤ wrapLong (s.osd_timeout * D.HZ - elapsed_since s base_time) →
        j = wrapLong (s.osd_timeout * D.HZ - elapsed_since s base_time)) ∧
      (wrapLong (s.osd_timeout * D.HZ - elapsed_since s base_time) < 0 →
        j = (wrapLong (s.osd_timeout * D.HZ - elapsed_since s base_time)).tmod
            (s.osd_timeout * D.HZ) + s.osd_timeout * D.HZ ∧
        0 < j ∧ j ≤ s.osd_timeout * D.HZ) ∧
      (0 ≤ elapsed_since s base_time →
        wrapLong (s.osd_timeout * D.HZ - elapsed_since s base_time) =
          s.osd_timeout * D.HZ - elapsed_since s base_time ∧
        0 ≤ j ∧ j ≤ s.osd_timeout * D.HZ) := by
  have hprod : 0 < s.osd_timeout * D.HZ := Int.mul_pos hpos hhz
  have hT : timer_period D s = s.osd_timeout * D.HZ := by
    unfold timer_period
    exact wrapInt_of_range _ (by omega) hfit
  have hT0 : timer_period D s ≠ 0 := by rw [hT]; omega
  have hel : -2 ^ 63 ≤ elapsed_since s base_time ∧ elapsed_since s base_time < 2 ^ 63 := by
    unfold elapsed_since
    split_ifs
    · unfold toInt64 U64
      split_ifs <;> omega
    · omega
  have hzero : base_time = 0 → elapsed_since s base_time = 0 := by
    intro hb
    simp [elapsed_since, hb]
  have hplain : 0 ≤ elapsed_since s base_time →
      wrapLong (s.osd_timeout * D.HZ - elapsed_since s base_time) =
        s.osd_timeout * D.HZ - elapsed_since s base_time := by
    intro h0
    apply wrapLong_of_range <;> omega
  refine ⟨hT, hT0, ?_⟩
  rw [reschedule_timeout_unfold, hT]
  by_cases hneg : wrapLong (s.osd_timeout * D.HZ - elapsed_since s base_time) < 0
  · have hne : ¬ s.osd_timeout * D.HZ = 0 := by omega
    simp only [hneg, if_true, hne, if_false]
    obtain ⟨r1, r2⟩ := tmod_neg_range _ _ hneg hprod
    refine ⟨_, rfl, ?_, ?_, ?_, ?_⟩
    · intro hb
      have := hplain (by rw [hzero hb])
      rw [hzero hb] at this
      omega
    · intro hc
      omega
    · intro _
      exact ⟨rfl, by omega, by omega⟩
    · intro h0
      exact ⟨hplain h0, by omega, by omega⟩
  · simp only [hneg, if_false]
    refine ⟨_, rfl, ?_, ?_, ?_, ?_⟩
    · intro hb
      have := hplain (by rw [hzero hb])
      rw [hzero hb] at this
      omega
    · intro _
      rfl
    · intro hc
      exact hc.elim
    · intro h0
      have := hplain h0
      exact ⟨this, by omega, by omega⟩

/-- C29 on the period of 3000 jiffies, armed 4000 jiffies after the base time:
the difference is -1000 and the delay is 2000. -/
theorem reschedule_timeout_delay_witness :
    elapsed_since timerClient 1000 = 4000 ∧
    (reschedule_timeout testDeps timerClient 1000).map
      (fun x => x.trace.drop timerClient.trace.length) =
      some [Event.schedule_timeout 2000] ∧
    timer_period testDeps timerClient = timerClient.osd_timeout * testDeps.HZ ∧
    timer_period testDeps timerClient ≠ 0 ∧
    ∃ j, reschedule_timeout testDeps timerClient 1000 =
        some (timerClient.log (Event.schedule_timeout j)) ∧
      ((1000 : Nat) = 0 → j = timerClient.osd_timeout * testDeps.HZ) ∧
      (0 ≤ wrapLong (timerClient.osd_timeout * testDeps.HZ - elapsed_since timerClient 1000) →
        j = wrapLong (timerClient.osd_timeout * testDeps.HZ -
          elapsed_since timerClient 1000)) ∧
      (wrapLong (timerClient.osd_timeout * testDeps.HZ - elapsed_since timerClient 1000) < 0 →
        j = (wrapLong (timerClient.osd_timeout * testDeps.HZ -
            elapsed_since timerClient 1000)).tmod (timerClient.osd_timeout * testDeps.HZ) +
          timerClient.osd_timeout * testDeps.HZ ∧
        0 < j ∧ j ≤ timerClient.osd_timeout * testDeps.HZ) ∧
      (0 ≤ elapsed_since timerClient 1000 →
        wrapLong (timerClient.osd_timeout * testDeps.HZ - elapsed_since timerClient 1000) =
          timerClient.osd_timeout * testDeps.HZ - elapsed_since timerClient 1000 ∧
        0 ≤ j ∧ j ≤ timerClient.osd_timeout * testDeps.HZ) :=
  ⟨by decide, by decide,
    reschedule_timeout_delay testDeps timerClient 1000 (by decide) (by decide) (by decide)⟩

/-! ### Reference counts: what each operation leaves -/

theorem upd_ref_ref (f : Nat → ceph_osd_request) (req p : Nat) (x : Int) :
    (upd f req { f req with r_ref := x } p).r_ref = if p = req then x else (f p).r_ref := by
  by_cases hp : p = req
  · subst hp
    simp [upd]
  · simp [upd, hp]

theorem setReq_flags_ref (x : ceph_osd_client) (req q : Nat) (f : Nat) :
    ((x.setReq req { x.reqs req with r_flags := f }).reqs q).r_ref = (x.reqs q).r_ref := by
  by_cases hq : q = req
  · subst hq
    simp [ceph_osd_client.setReq, upd]
  · simp [ceph_osd_client.setReq, upd, hq]

/-- No reference is taken or dropped by `send_request`. -/
theorem send_request_ref {D : Deps} {s s' : ceph_osd_client} {req : Nat} {rc : Int}
    (h : send_request D s req = some (rc, s')) (p : Nat) :
    (s'.reqs p).r_ref = (s.reqs p).r_ref := by
  unfold send_request at h
  split at h
  · exact absurd h (by simp)
  · simp only at h
    split_ifs at h
    · simp only [Option.some.injEq, Prod.mk.injEq] at h
      rw [← h.2]
      rfl
    · simp only [Option.some.injEq, Prod.mk.injEq] at h
      rw [← h.2]
      by_cases hp : p = req
      · subst hp
        simp [ceph_osd_client.log, ceph_osd_client.setReq, ceph_osd_client.setMsg, upd]
      · simp [ceph_osd_client.log, ceph_osd_client.setReq, ceph_osd_client.setMsg, upd, hp]

/-- A pass of the loop of `kick_requests` drops the reference it takes. -/
theorem kick_one_ref {D : Deps} {who : Option ceph_entity_addr} {s s' : ceph_osd_client}
    {req : Nat} {inc : Int} (h : kick_one D who s req = some (s', inc)) (p : Nat) :
    (s'.reqs p).r_ref = (s.reqs p).r_ref := by
  have hget : ∀ q, ((get_request s req).reqs q).r_ref =
      if q = req then (s.reqs req).r_ref + 1 else (s.reqs q).r_ref := by
    intro q
    exact upd_ref_ref s.reqs req q _
  unfold kick_one at h
  simp only at h
  split at h
  · exact absurd h (by simp)
  · split_ifs at h with hosd hkick hab
    · simp only [Option.some.injEq, Prod.mk.injEq] at h
      rw [← h.1]
      by_cases hp : p = req
      · subst hp
        simp [ceph_osd_client.setReq, upd]
      · simp [ceph_osd_client.setReq, upd, hp]
    · split at h
      · exact absurd h (by simp)
      · rename_i s2 hs2
        split at h
        · exact absurd h (by simp)
        · rename_i s3 hs3
          simp only [Option.some.injEq, Prod.mk.injEq] at h
          rw [← h.1]
          obtain ⟨p1, _⟩ := put_request_reqs hs3
          simp only [Option.some.injEq] at hs2
          show (s3.reqs p).r_ref = _
          rw [p1, upd_ref_ref, ← hs2]
          show (if p = req then ((get_request s req).reqs req).r_ref - 1
            else ((get_request s req).reqs p).r_ref) = _
          rw [hget, hget]
          by_cases hp : p = req
          · subst hp
            simp
          · simp [hp]
    · split at h
      · exact absurd h (by simp)
      · rename_i s2 hs2
        split at h
        · exact absurd h (by simp)
        · rename_i s3 hs3
          simp only [Option.some.injEq, Prod.mk.injEq] at h
          rw [← h.1]
          obtain ⟨p1, _⟩ := put_request_reqs hs3
          rw [Option.map_eq_some'] at hs2
          obtain ⟨⟨rc, s4⟩, hs4, rfl⟩ := hs2
          have h4 := send_request_ref hs4
          show (s3.reqs p).r_ref = _
          rw [p1, upd_ref_ref, h4, h4]
          rw [setReq_flags_ref, setReq_flags_ref]
          show (if p = req then ((get_request s req).reqs req).r_ref - 1
            else ((get_request s req).reqs p).r_ref) = _
          rw [hget, hget]
          by_cases hp : p = req
          · subst hp
            simp
          · simp [hp]
    · simp only [Option.some.injEq, Prod.mk.injEq] at h
      rw [← h.1]

theorem kick_loop_ref (D : Deps) (who : Option ceph_entity_addr) (p : Nat) :
    ∀ (fuel : Nat) (s : ceph_osd_client) (next_tid : Nat) (needmap : Int)
      (s' : ceph_osd_client) (n' : Int),
      kick_loop D who fuel s next_tid needmap = some (s', n') →
      (s'.reqs p).r_ref = (s.reqs p).r_ref := by
  intro fuel
  induction fuel with
  | zero => intro s next_tid needmap s' n' h; simp [kick_loop] at h
  | succ n ih =>
    intro s next_tid needmap s' n' h
    unfold kick_loop at h
    split at h
    · simp only [Option.some.injEq, Prod.mk.injEq] at h
      rw [← h.1]
    · split at h
      · exact absurd h (by simp)
      · rename_i s1 inc h1
        rw [ih _ _ _ _ _ h, kick_one_ref h1]

/-- The walk of `kick_requests` leaves every reference count as it was. -/
theorem kick_requests_ref {D : Deps} {s s' : ceph_osd_client}
    {who : Option ceph_entity_addr} (h : kick_requests D s who = some s') (p : Nat) :
    (s'.reqs p).r_ref = (s.reqs p).r_ref := by
  unfold kick_requests at h
  simp only at h
  split at h
  · exact absurd h (by simp)
  · rename_i s1 needmap hk
    have h1 := kick_loop_ref D who p _ _ _ _ _ _ hk
    split_ifs at h
    · split at h
      · exact absurd h (by simp)
      · simp only [Option.some.injEq] at h; subst h
        exact h1
    · simp only [Option.some.injEq] at h; subst h
      exact h1

theorem ite_setReply_ref (c : Prop) [Decidable c] (x : ceph_osd_client) (req q m : Nat)
    (e : Event) :
    ((if c then (x.log e).setReq req { x.reqs req with r_reply := some m } else x).reqs q).r_ref =
      (x.reqs q).r_ref := by
  split_ifs
  · by_cases hq : q = req
    · subst hq
      simp [ceph_osd_client.setReq, ceph_osd_client.log, upd]
    · simp [ceph_osd_client.setReq, ceph_osd_client.log, upd, hq]
  · rfl

/-- The reference counts after `ceph_osdc_handle_reply`: the request that the
reply completes has lost one reference, every other count is as before. -/
theorem handle_reply_ref {D : Deps} {s s' : ceph_osd_client} {msg : Nat}
    (h : ceph_osdc_handle_reply D s msg = some s') (p : Nat) :
    (s'.reqs p).r_ref =
      if reply_completes D s msg = some p then (s.reqs p).r_ref - 1 else (s.reqs p).r_ref := by
  have hget : ∀ req q, ((get_request (s.log Event.mutex_lock) req).reqs q).r_ref =
      if q = req then (s.reqs req).r_ref + 1 else (s.reqs q).r_ref := by
    intro req q
    exact upd_ref_ref s.reqs req q _
  have hgetr : ∀ req, ((get_request (s.log Event.mutex_lock) req).reqs req).r_reply =
      (s.reqs req).r_reply := by
    intro req
    exact upd_ref_reply s.reqs req req _
  have htail : ∀ (req : Nat) (s2 : ceph_osd_client),
      (match __unregister_request D s2 req with
        | none => none
        | some s3 =>
          ceph_osdc_put_request
            (if ((s3.log Event.mutex_unlock).reqs req).r_callback then
              (s3.log Event.mutex_unlock).log (Event.callback req)
            else (s3.log Event.mutex_unlock).log (Event.complete req)) req) = some s' →
      (s'.reqs p).r_ref = if p = req then (s2.reqs req).r_ref - 1 - 1 else (s2.reqs p).r_ref := by
    intro req s2 ht
    split at ht
    · exact absurd ht (by simp)
    · rename_i s3 h3
      obtain ⟨u1, _⟩ := unregister_request_reqs h3
      obtain ⟨p1, _⟩ := put_request_reqs ht
      have hx : (if ((s3.log Event.mutex_unlock).reqs req).r_callback then
          (s3.log Event.mutex_unlock).log (Event.callback req)
          else (s3.log Event.mutex_unlock).log (Event.complete req)).reqs = s3.reqs := by
        split_ifs <;> rfl
      rw [p1, hx, upd_ref_ref, u1, upd_ref_ref, upd_ref_ref]
      by_cases hp : p = req
      · simp [hp]
      · simp [hp]
  unfold reply_completes
  unfold ceph_osdc_handle_reply at h
  simp only at h
  split_ifs at h with h1 h2
  · simp only [Option.some.injEq] at h
    subst h
    simp [h1]
    rfl
  · simp only [Option.some.injEq] at h
    subst h
    simp [h1, h2]
    rfl
  · simp only [h1, h2, if_false]
    have hl0 : radix_tree_lookup (s.log Event.mutex_lock).request_tree (s.msgs msg).front_tid =
        radix_tree_lookup s.request_tree (s.msgs msg).front_tid := rfl
    rw [hl0] at h
    cases hl : radix_tree_lookup s.request_tree (s.msgs msg).front_tid with
    | none =>
      rw [hl] at h
      simp only [Option.some.injEq] at h
      subst h
      simp
      rfl
    | some req =>
      rw [hl] at h
      simp only at h
      rw [hgetr req] at h
      by_cases hs : (s.reqs req).r_reply = none ∨ (s.reqs req).r_reply = some msg
      · simp only [hs, if_true] at h ⊢
        have := htail req _ h
        rw [this, ite_setReply_ref, ite_setReply_ref, hget, hget]
        by_cases hp : p = req
        · subst hp
          simp
        · have hne : ¬ (some req = some p) := by
            intro hc
            exact hp (Option.some.inj hc).symm
          simp [hp, hne]
      · simp only [hs, if_false] at h ⊢
        obtain ⟨p1, _⟩ := put_request_reqs h
        rw [p1, upd_ref_ref, hget, hget]
        by_cases hp : p = req
        · subst hp
          simp
        · simp [hp]

/-- A reply that completes a request registered in a well-formed registry, the
request holding a reference: `ceph_osdc_handle_reply` returns. -/
theorem handle_reply_returns (D : Deps) (s : ceph_osd_client) (msg req : Nat)
    (hlen1 : D.sizeof_reply_head ≤ (s.msgs msg).front_len)
    (hlen2 : (s.msgs msg).front_len = reply_front_len D (s.msgs msg).front_num_ops)
    (hinv : RegistryInv s)
    (hfit : ∀ e ∈ s.request_tree, e.1 < 2 ^ 64)
    (hnum : s.num_requests = s.request_tree.length)
    (htimer : (s.reqs req).r_tid = s.timeout_tid → s.num_requests ≠ 1 → timer_period D s ≠ 0)
    (hlook : radix_tree_lookup s.request_tree (s.msgs msg).front_tid = some req)
    (hslot : (s.reqs req).r_reply = none ∨ (s.reqs req).r_reply = some msg)
    (href : 0 < (s.reqs req).r_ref) :
    ∃ s', ceph_osdc_handle_reply D s msg = some s' := by
  have hmem := lookup_mem hlook
  have htid : (s.reqs req).r_tid = (s.msgs msg).front_tid := hinv.own_tid _ hmem
  have c1 : ¬ (s.msgs msg).front_len < D.sizeof_reply_head := by omega
  have c2 : ¬ (s.msgs msg).front_len ≠ reply_front_len D (s.msgs msg).front_num_ops := by
    simpa using hlen2
  have hl : radix_tree_lookup (s.log Event.mutex_lock).request_tree (s.msgs msg).front_tid =
      some req := hlook
  -- the state in which the slot holds the message
  have hx : ∃ x : ceph_osd_client,
      (if ((get_request (s.log Event.mutex_lock) req).reqs req).r_reply = none then
        ((get_request (s.log Event.mutex_lock) req).log (Event.msg_get msg)).setReq req
          { (get_request (s.log Event.mutex_lock) req).reqs req with r_reply := some msg }
      else get_request (s.log Event.mutex_lock) req) = x ∧
      x.request_tree = s.request_tree ∧ x.num_requests = s.num_requests ∧
      x.osd_timeout = s.osd_timeout ∧
      (∀ p, (x.reqs p).r_tid = (s.reqs p).r_tid) ∧
      (x.reqs req).r_ref = (s.reqs req).r_ref + 1 ∧ (x.reqs req).r_reply = some msg ∧
      (x.reqs req).r_callback = (s.reqs req).r_callback ∧
      completions x.trace = completions s.trace := by
    have hr : ((get_request (s.log Event.mutex_lock) req).reqs req).r_reply =
        (s.reqs req).r_reply := by
      simp [get_request, ceph_osd_client.setReq, ceph_osd_client.log, upd]
    rw [hr]
    by_cases hnone : (s.reqs req).r_reply = none
    · rw [if_pos hnone]
      refine ⟨_, rfl, rfl, rfl, rfl, fun p => ?_, ?_, ?_, ?_, ?_⟩
      · by_cases hp : p = req
        · subst hp
          simp [get_request, ceph_osd_client.setReq, ceph_osd_client.log, upd]
        · simp [get_request, ceph_osd_client.setReq, ceph_osd_client.log, upd, hp]
      · simp [get_request, ceph_osd_client.setReq, ceph_osd_client.log, upd]
      · simp [get_request, ceph_osd_client.setReq, ceph_osd_client.log, upd]
      · simp [get_request, ceph_osd_client.setReq, ceph_osd_client.log, upd]
      · simp [get_request, ceph_osd_client.setReq, ceph_osd_client.log, completions_append,
          completions]
    · rw [if_neg hnone]
      have hsome : (s.reqs req).r_reply = some msg := by
        rcases hslot with h | h
        · exact absurd h hnone
        · exact h
      refine ⟨_, rfl, rfl, rfl, rfl, fun p => ?_, ?_, ?_, ?_, ?_⟩
      · by_cases hp : p = req
        · subst hp
          simp [get_request, ceph_osd_client.setReq, ceph_osd_client.log, upd]
        · simp [get_request, ceph_osd_client.setReq, ceph_osd_client.log, upd, hp]
      · simp [get_request, ceph_osd_client.setReq, ceph_osd_client.log, upd]
      · simp [get_request, ceph_osd_client.setReq, ceph_osd_client.log, upd, hsome]
      · simp [get_request, ceph_osd_client.setReq, ceph_osd_client.log, upd]
      · simp [get_request, ceph_osd_client.setReq, ceph_osd_client.log, completions_append,
          completions]
  obtain ⟨x, hxe, x1, x2, x3, x4, x5, x6, x7, x8⟩ := hx
  have x9 : x.timeout_tid = s.timeout_tid := by
    rw [← hxe]
    split_ifs <;> rfl
  have htimerx : (x.reqs req).r_tid = x.timeout_tid → x.num_requests ≠ 1 →
      timer_period D x ≠ 0 := by
    intro h1 h2
    have ht := htimer (by rw [← x4 req, ← x9]; exact h1) (by rw [← x2]; exact h2)
    unfold timer_period at ht ⊢
    rw [x3]
    exact ht
  have hslot1 : ((get_request (s.log Event.mutex_lock) req).reqs req).r_reply = none ∨
      ((get_request (s.log Event.mutex_lock) req).reqs req).r_reply = some msg := by
    have hr : ((get_request (s.log Event.mutex_lock) req).reqs req).r_reply =
        (s.reqs req).r_reply := by
      simp [get_request, ceph_osd_client.setReq, ceph_osd_client.log, upd]
    rw [hr]
    exact hslot
  obtain ⟨s3, s', t1, t2, t3, t4, t5, t6, t7, t8, _, t10⟩ := handle_reply_tail D x req msg
    (by rw [x1]; exact hinv.sorted)
    (by intro e he; rw [x1] at he; rw [x4]; exact hinv.own_tid e he)
    (by rw [x1, x4, htid]; exact hmem)
    (by intro e he; rw [x1] at he; exact hfit e he)
    (by rw [x5]; omega)
    (by rw [x1, x2]; exact hnum)
    htimerx
    x6
  refine ⟨s', ?_⟩
  unfold ceph_osdc_handle_reply
  simp only [c1, c2, if_false, hl, hslot1, if_true, hxe, t1]
  exact t4

/-- On its paths that complete nothing `ceph_osdc_handle_reply` returns, given
that a request registered under the tid of the reply holds a reference. -/
theorem handle_reply_returns_idle (D : Deps) (s : ceph_osd_client) (msg : Nat)
    (hidle : reply_completes D s msg = none)
    (href : ∀ req, radix_tree_lookup s.request_tree (s.msgs msg).front_tid = some req →
      0 < (s.reqs req).r_ref) :
    ∃ s', ceph_osdc_handle_reply D s msg = some s' := by
  unfold reply_completes at hidle
  unfold ceph_osdc_handle_reply
  simp only
  split_ifs with h1 h2
  · exact ⟨_, rfl⟩
  · exact ⟨_, rfl⟩
  · simp only [h1, h2, if_false] at hidle
    have hl0 : radix_tree_lookup (s.log Event.mutex_lock).request_tree (s.msgs msg).front_tid =
        radix_tree_lookup s.request_tree (s.msgs msg).front_tid := rfl
    rw [hl0]
    cases hl : radix_tree_lookup s.request_tree (s.msgs msg).front_tid with
    | none => exact ⟨_, rfl⟩
    | some req =>
      rw [hl] at hidle
      simp only at hidle
      have hs : ¬ ((s.reqs req).r_reply = none ∨ (s.reqs req).r_reply = some msg) := by
        intro hc
        simp [hc] at hidle
      have hs1 : ¬ (((get_request (s.log Event.mutex_lock) req).reqs req).r_reply = none ∨
          ((get_request (s.log Event.mutex_lock) req).reqs req).r_reply = some msg) := by
        have hgr : ((get_request (s.log Event.mutex_lock) req).reqs req).r_reply =
            (s.reqs req).r_reply := upd_ref_reply s.reqs req req _
        rw [hgr]
        exact hs
      simp only [hs1, if_false]
      obtain ⟨s', hp, _⟩ := get_put_request (s.log Event.mutex_lock) req (href req hl)
      exact ⟨s', hp⟩

/-- A registration that succeeds: the tid is the next one, the request is in
the tree under it and holds one more reference. -/
theorem register_request_ok (D : Deps) (s : ceph_osd_client) (req : Nat)
    (hwrap : s.last_tid + 1 < 2 ^ 64)
    (hl : radix_tree_lookup s.request_tree (s.last_tid + 1) = none) :
    ∃ s1, register_request D s req false = some (0, s1) ∧
      s1.request_tree = tree_put s.request_tree (s.last_tid + 1) req ∧
      s1.last_tid = s.last_tid + 1 ∧ s1.num_requests = s.num_requests + 1 ∧
      s1.osd_timeout = s.osd_timeout ∧
      (s1.reqs req).r_tid = s.last_tid + 1 ∧
      (s1.reqs req).r_ref = (s.reqs req).r_ref + 1 ∧
      (s1.reqs req).r_reply = (s.reqs req).r_reply ∧
      (∀ p, p ≠ req → s1.reqs p = s.reqs p) ∧
      (∀ m, (s1.msgs m).front_len = (s.msgs m).front_len ∧
        (s1.msgs m).front_num_ops = (s.msgs m).front_num_ops ∧
        ((s.msgs m).front_tid = s.last_tid + 1 → (s1.msgs m).front_tid = s.last_tid + 1)) := by
  have hmod : (s.last_tid + 1) % U64 = s.last_tid + 1 := Nat.mod_eq_of_lt hwrap
  have hins : radix_tree_insert s.request_tree (s.last_tid + 1) req false =
      (0, tree_put s.request_tree (s.last_tid + 1) req) := by
    simp [radix_tree_insert, hl]
  have hmsg : ∀ (m h : Nat), ((upd s.msgs h { s.msgs h with front_tid := s.last_tid + 1 }) m).front_len =
        (s.msgs m).front_len ∧
      ((upd s.msgs h { s.msgs h with front_tid := s.last_tid + 1 }) m).front_num_ops =
        (s.msgs m).front_num_ops ∧
      ((s.msgs m).front_tid = s.last_tid + 1 →
        ((upd s.msgs h { s.msgs h with front_tid := s.last_tid + 1 }) m).front_tid =
          s.last_tid + 1) := by
    intro m h
    by_cases hm : m = h
    · subst hm
      simp [upd]
    · simp [upd, hm]
  unfold register_request
  simp only [ceph_osd_client.log, ceph_osd_client.setReq, ceph_osd_client.setMsg, hmod, hins,
    lt_self_iff_false, if_false]
  by_cases hz : s.num_requests = 0
  · simp only [get_request, ceph_osd_client.setReq, hz, if_true]
    rw [reschedule_timeout_zero]
    simp only [ceph_osd_client.log]
    refine ⟨_, rfl, rfl, rfl, ?_, rfl, ?_, ?_, ?_, ?_, ?_⟩
    · simp [hz]
    · simp [upd]
    · simp [upd]
    · simp [upd]
    · intro p hp
      simp [upd, hp]
    · intro m
      simpa [upd] using hmsg m _
  · simp only [get_request, ceph_osd_client.setReq, hz, if_false]
    refine ⟨_, rfl, rfl, rfl, rfl, rfl, ?_, ?_, ?_, ?_, ?_⟩
    · simp [upd]
    · simp [upd]
    · simp [upd]
    · intro p hp
      simp [upd, hp]
    · intro m
      simpa [upd] using hmsg m _

/-- A lookup of an index that no entry has finds nothing. -/
theorem lookup_none_of_ne (t : List (Nat × Nat)) (k : Nat) (h : ∀ e ∈ t, e.1 ≠ k) :
    radix_tree_lookup t k = none := by
  unfold radix_tree_lookup
  rw [Option.map_eq_none', List.find?_eq_none]
  intro e he
  simpa using h e he

/-! ### The page count of an extent -/

theorem toInt32_small (x : Nat) (h : x < 2 ^ 31) : toInt32 x = (x : Int) := by
  unfold toInt32 U32
  have h1 : x % 2 ^ 32 = x := Nat.mod_eq_of_lt (by omega)
  rw [h1, if_pos h]

theorem calc_pages_for_eq (D : Deps) (off len : Nat)
    (h : off + len + 2 ^ D.PAGE_CACHE_SHIFT - 1 < 2 ^ 64) :
    calc_pages_for D off len =
      toInt32 ((off + len + 2 ^ D.PAGE_CACHE_SHIFT - 1) / 2 ^ D.PAGE_CACHE_SHIFT
        - off / 2 ^ D.PAGE_CACHE_SHIFT) := by
  have hP : 0 < 2 ^ D.PAGE_CACHE_SHIFT := Nat.two_pow_pos _
  unfold calc_pages_for U64
  have h1 : (off + len + 2 ^ D.PAGE_CACHE_SHIFT - 1) % 2 ^ 64 =
      off + len + 2 ^ D.PAGE_CACHE_SHIFT - 1 := Nat.mod_eq_of_lt h
  have h2 : off % 2 ^ 64 = off := Nat.mod_eq_of_lt (by omega)
  rw [h1, h2]
  have h3 : off / 2 ^ D.PAGE_CACHE_SHIFT ≤
      (off + len + 2 ^ D.PAGE_CACHE_SHIFT - 1) / 2 ^ D.PAGE_CACHE_SHIFT :=
    Nat.div_le_div_right (by omega)
  have h4 : (off + len + 2 ^ D.PAGE_CACHE_SHIFT - 1) / 2 ^ D.PAGE_CACHE_SHIFT < 2 ^ 64 :=
    lt_of_le_of_lt (Nat.div_le_self _ _) h
  congr 1
  have h5 : (off + len + 2 ^ D.PAGE_CACHE_SHIFT - 1) / 2 ^ D.PAGE_CACHE_SHIFT + 2 ^ 64
      - off / 2 ^ D.PAGE_CACHE_SHIFT =
      ((off + len + 2 ^ D.PAGE_CACHE_SHIFT - 1) / 2 ^ D.PAGE_CACHE_SHIFT
        - off / 2 ^ D.PAGE_CACHE_SHIFT) + 2 ^ 64 := by omega
  rw [h5, Nat.add_mod_right]
  have h6 := Nat.sub_le ((off + len + 2 ^ D.PAGE_CACHE_SHIFT - 1) / 2 ^ D.PAGE_CACHE_SHIFT)
    (off / 2 ^ D.PAGE_CACHE_SHIFT)
  exact Nat.mod_eq_of_lt (by omega)

theorem pages_div_succ (P x : Nat) (hP : 0 < P) (hx : 1 ≤ x) :
    (x + P - 1) / P = (x - 1) / P + 1 := by
  have : x + P - 1 = (x - 1) + P := by omega
  rw [this, Nat.add_div_right _ hP]

theorem pages_div_add_le (P a b : Nat) (hP : 0 < P) : (a + b) / P ≤ a / P + b / P + 1 := by
  have ha := Nat.div_add_mod a P
  have hb := Nat.div_add_mod b P
  have hra := Nat.mod_lt a hP
  have hrb := Nat.mod_lt b hP
  have : (a + b) / P < a / P + b / P + 2 := by
    apply Nat.div_lt_of_lt_mul
    have e : P * (a / P + b / P + 2) = P * (a / P) + P * (b / P) + 2 * P := by ring
    rw [e]
    omega
  omega

/-- At a page-aligned offset a zero-length extent maps onto no page. -/
theorem calc_pages_for_aligned_zero (D : Deps) (off : Nat) (hoff : off < 2 ^ 64)
    (hal : off % 2 ^ D.PAGE_CACHE_SHIFT = 0) : calc_pages_for D off 0 = 0 := by
  have hP : 0 < 2 ^ D.PAGE_CACHE_SHIFT := Nat.two_pow_pos _
  unfold calc_pages_for U64
  have h2 : off % 2 ^ 64 = off := Nat.mod_eq_of_lt hoff
  rw [h2]
  have hq := Nat.div_add_mod off (2 ^ D.PAGE_CACHE_SHIFT)
  rw [hal, Nat.add_zero] at hq
  have h1 : (off + 0 + 2 ^ D.PAGE_CACHE_SHIFT - 1) % 2 ^ 64 / 2 ^ D.PAGE_CACHE_SHIFT =
      off / 2 ^ D.PAGE_CACHE_SHIFT := by
    by_cases hs : D.PAGE_CACHE_SHIFT ≤ 64
    · -- the page size divides 2^64, so the rounded-up end does not wrap
      have hdvd : 2 ^ D.PAGE_CACHE_SHIFT ∣ 2 ^ 64 := Nat.pow_dvd_pow 2 hs
      obtain ⟨c, hc⟩ := hdvd
      have hlt : off / 2 ^ D.PAGE_CACHE_SHIFT < c := by
        apply Nat.div_lt_of_lt_mul
        rw [← hc]; exact hoff
      have hle : 2 ^ D.PAGE_CACHE_SHIFT * (off / 2 ^ D.PAGE_CACHE_SHIFT + 1) ≤
          2 ^ D.PAGE_CACHE_SHIFT * c := Nat.mul_le_mul_left _ hlt
      rw [Nat.mul_add, Nat.mul_one, hq, ← hc] at hle
      have hn : (off + 0 + 2 ^ D.PAGE_CACHE_SHIFT - 1) % 2 ^ 64 =
          off + 0 + 2 ^ D.PAGE_CACHE_SHIFT - 1 := Nat.mod_eq_of_lt (by omega)
      rw [hn]
      have e : off + 0 + 2 ^ D.PAGE_CACHE_SHIFT - 1 =
          (2 ^ D.PAGE_CACHE_SHIFT - 1) + 2 ^ D.PAGE_CACHE_SHIFT * (off / 2 ^ D.PAGE_CACHE_SHIFT) := by
        omega
      rw [e, Nat.add_mul_div_left _ _ hP, Nat.div_eq_of_lt (by omega)]
      omega
    · have hbig : 2 ^ 64 < 2 ^ D.PAGE_CACHE_SHIFT :=
        Nat.pow_lt_pow_right (by norm_num) (by omega)
      have h0 : off / 2 ^ D.PAGE_CACHE_SHIFT = 0 := Nat.div_eq_of_lt (by omega)
      rw [h0]
      apply Nat.div_eq_of_lt
      exact lt_trans (Nat.mod_lt _ (by norm_num)) hbig
  rw [h1]
  have h3 : off / 2 ^ D.PAGE_CACHE_SHIFT < 2 ^ 64 :=
    lt_of_le_of_lt (Nat.div_le_self _ _) hoff
  have h5 : off / 2 ^ D.PAGE_CACHE_SHIFT + 2 ^ 64 - off / 2 ^ D.PAGE_CACHE_SHIFT = 2 ^ 64 := by
    omega
  rw [h5, Nat.mod_self]
  rfl

theorem calc_pages_for_unaligned_zero (D : Deps) (off : Nat)
    (hal : off % 2 ^ D.PAGE_CACHE_SHIFT ≠ 0)
    (h : off + 2 ^ D.PAGE_CACHE_SHIFT - 1 < 2 ^ 64) : calc_pages_for D off 0 = 1 := by
  have hP : 0 < 2 ^ D.PAGE_CACHE_SHIFT := Nat.two_pow_pos _
  rw [calc_pages_for_eq D off 0 (by simpa using h)]
  have hq := Nat.div_add_mod off (2 ^ D.PAGE_CACHE_SHIFT)
  have hr := Nat.mod_lt off hP
  have e : off + 0 + 2 ^ D.PAGE_CACHE_SHIFT - 1 =
      (off % 2 ^ D.PAGE_CACHE_SHIFT - 1) +
        2 ^ D.PAGE_CACHE_SHIFT * (off / 2 ^ D.PAGE_CACHE_SHIFT + 1) := by
    rw [Nat.mul_add, Nat.mul_one]
    omega
  rw [e, Nat.add_mul_div_left _ _ hP, Nat.div_eq_of_lt (by omega)]
  have : 0 + (off / 2 ^ D.PAGE_CACHE_SHIFT + 1) - off / 2 ^ D.PAGE_CACHE_SHIFT = 1 := by omega
  rw [this]
  rfl

theorem new_request_num_pages {D : Deps} {E : Env} {osdc s1 : ceph_osd_client}
    {layout : ceph_file_layout} {ino off len op req len1 : Nat}
    (h : ceph_osdc_new_request D E osdc layout ino off len op = Except.ok (req, len1, s1)) :
    len1 = (D.calc_file_object_mapping layout off len).plen ∧
    (s1.reqs req).r_num_pages = calc_pages_for D off len1 ∧
    (s1.reqs req).r_ref = 1 := by
  unfold ceph_osdc_new_request at h
  split at h
  · exact absurd h (by simp)
  · split at h
    · exact absurd h (by simp)
    · simp only [Except.ok.injEq, Prod.mk.injEq] at h
      obtain ⟨h1, h2, h3⟩ := h
      subst h1 h2 h3
      simp [ceph_osd_client.setReq, upd]

/-- C34 counterexample: at the offset 1 a zero-length extent maps onto one page. -/
theorem calc_pages_for_zero_length_unaligned : calc_pages_for testDeps 1 0 = 1 := by
  decide

/-- C34 (amended): `calc_pages_for(off, 0)` is 0 at every page-aligned offset
and 1 at every other offset whose rounded-up end stays below 2^64; so a request
built for a zero-length extent at a page-aligned offset has `r_num_pages = 0`
and the allocation loop of the read path allocates no page. -/
theorem calc_pages_for_zero_length (D : Deps) (off : Nat) (hoff : off < 2 ^ 64) :
    (off % 2 ^ D.PAGE_CACHE_SHIFT = 0 →
      calc_pages_for D off 0 = 0 ∧
      ∀ (E : Env) (osdc s1 : ceph_osd_client) (layout : ceph_file_layout)
        (ino len op req len1 : Nat),
        ceph_osdc_new_request D E osdc layout ino off len op = Except.ok (req, len1, s1) →
        len1 = 0 →
        (s1.reqs req).r_num_pages = 0 ∧
        alloc_pages_loop E req (s1.reqs req).r_num_pages
          ((s1.reqs req).r_num_pages.toNat + 1) 0 s1 = (true, s1)) ∧
    (off % 2 ^ D.PAGE_CACHE_SHIFT ≠ 0 → off + 2 ^ D.PAGE_CACHE_SHIFT - 1 < 2 ^ 64 →
      calc_pages_for D off 0 = 1) := by
  refine ⟨fun hal => ⟨calc_pages_for_aligned_zero D off hoff hal, ?_⟩,
    fun hal h => calc_pages_for_unaligned_zero D off hal h⟩
  intro E osdc s1 layout ino len op req len1 hnew hlen
  have hn := (new_request_num_pages hnew).2.1
  rw [hlen, calc_pages_for_aligned_zero D off hoff hal] at hn
  refine ⟨hn, ?_⟩
  rw [hn]
  simp [alloc_pages_loop]

/-- C34 at the offsets 8192 (page-aligned) and 5 of a machine with pages of
4096 bytes. -/
theorem calc_pages_for_zero_length_witness :
    (8192 : Nat) < 2 ^ 64 ∧ calc_pages_for testDeps 8192 0 = 0 ∧
    calc_pages_for testDeps 5 0 = 1 :=
  ⟨by norm_num,
    ((calc_pages_for_zero_length testDeps 8192 (by norm_num)).1 (by decide)).1,
    (calc_pages_for_zero_length testDeps 5 (by norm_num)).2 (by decide) (by decide)⟩

/-- C35 counterexample: for `off = 0` and `len = 2^43` with pages of 4096 bytes
the range meets 2^31 pages, and the `int` result is -2^31. -/
theorem calc_pages_for_truncates :
    0 + 2 ^ 43 + 2 ^ testDeps.PAGE_CACHE_SHIFT - 1 < 2 ^ 64 ∧
    calc_pages_for testDeps 0 (2 ^ 43) = -2 ^ 31 ∧
    ((0 + 2 ^ 43 - 1) / 2 ^ testDeps.PAGE_CACHE_SHIFT : Nat) - (0 / 2 ^ testDeps.PAGE_CACHE_SHIFT : Nat) + 1
      = 2 ^ 31 := by
  refine ⟨by decide, by decide, by decide⟩

/-- C35 (amended): for `len >= 1` with `off + len + PAGE_CACHE_SIZE - 1 < 2^64`
and a page count below 2^31 (the result is an `int`), `calc_pages_for(off, len)`
is the number of pages the byte range `[off, off+len)` meets,
`(off+len-1)/PAGE_CACHE_SIZE - off/PAGE_CACHE_SIZE + 1`; it is at least 1 and
at most `(len-1)/PAGE_CACHE_SIZE + 2`. -/
theorem calc_pages_for_count (D : Deps) (off len : Nat) (hlen : 1 ≤ len)
    (h : off + len + 2 ^ D.PAGE_CACHE_SHIFT - 1 < 2 ^ 64)
    (hint : (off + len - 1) / 2 ^ D.PAGE_CACHE_SHIFT - off / 2 ^ D.PAGE_CACHE_SHIFT + 1
      < 2 ^ 31) :
    calc_pages_for D off len =
      (((off + len - 1) / 2 ^ D.PAGE_CACHE_SHIFT - off / 2 ^ D.PAGE_CACHE_SHIFT + 1 : Nat) : Int) ∧
    1 ≤ calc_pages_for D off len ∧
    calc_pages_for D off len ≤ (((len - 1) / 2 ^ D.PAGE_CACHE_SHIFT + 2 : Nat) : Int) := by
  have hP : 0 < 2 ^ D.PAGE_CACHE_SHIFT := Nat.two_pow_pos _
  have h1 := pages_div_succ (2 ^ D.PAGE_CACHE_SHIFT) (off + len) hP (by omega)
  have h2 : off / 2 ^ D.PAGE_CACHE_SHIFT ≤ (off + len - 1) / 2 ^ D.PAGE_CACHE_SHIFT :=
    Nat.div_le_div_right (by omega)
  have h3 := pages_div_add_le (2 ^ D.PAGE_CACHE_SHIFT) off (len - 1) hP
  have e3 : off + (len - 1) = off + len - 1 := by omega
  rw [e3] at h3
  have heq : calc_pages_for D off len =
      (((off + len - 1) / 2 ^ D.PAGE_CACHE_SHIFT - off / 2 ^ D.PAGE_CACHE_SHIFT + 1 : Nat) : Int) := by
    rw [calc_pages_for_eq D off len h, h1]
    have e : (off + len - 1) / 2 ^ D.PAGE_CACHE_SHIFT + 1 - off / 2 ^ D.PAGE_CACHE_SHIFT =
        (off + len - 1) / 2 ^ D.PAGE_CACHE_SHIFT - off / 2 ^ D.PAGE_CACHE_SHIFT + 1 := by omega
    rw [e]
    exact toInt32_small _ hint
  refine ⟨heq, ?_, ?_⟩
  · rw [heq]; omega
  · rw [heq]; omega

/-- C35 for the range of 5000 bytes from the offset 4000, which meets the pages
0, 1 and 2. -/
theorem calc_pages_for_count_witness :
    1 ≤ 5000 ∧ calc_pages_for testDeps 4000 5000 = 3 :=
  ⟨by norm_num, (calc_pages_for_count testDeps 4000 5000 (by norm_num) (by decide) (by decide)).1⟩

/-! ### The timer handler when the lookup finds nothing -/

theorem gang_lookup_zero_of_ne_nil (t : List (Nat × Nat)) (h : t ≠ []) :
    ∃ n, radix_tree_gang_lookup t 0 = some n := by
  cases t with
  | nil => exact absurd rfl h
  | cons e t => exact ⟨e.2, by simp [radix_tree_gang_lookup, List.find?_cons]⟩

/-- C36: in every state with a map in which the lookup from `timeout_tid` finds
no request, `handle_timeout` does not skip the re-arm: it runs
`__register_next_request_timeout` on the variable `req` that was never assigned.
When that variable holds no address of a request, the read of `req->r_tid`
faults.  When the stack slot happens to hold the address `u` of a request, the
call is made on `u` and the ping loop is not entered: with an empty registry
the call changes nothing, and with a registry that is not empty the timer is
re-armed from `u`: the delay is computed from the `r_last_stamp` read through
`u`, and the new `timeout_tid` is the tid of the request found from the `r_tid`
read through `u`. -/
theorem handle_timeout_undefined_request (D : Deps) (s : ceph_osd_client)
    (osdmap : ceph_osdmap) (hmap : s.osdmap = some osdmap)
    (hgot : radix_tree_gang_lookup s.request_tree s.timeout_tid = none) :
    handle_timeout D s none = none ∧
    (∀ u, handle_timeout D s (some u) =
      (__register_next_request_timeout D
        (s.logs [Event.down_read, Event.request_osdmap ((osdmap.epoch + 1) % U32),
          Event.mutex_lock]) u).map
        (fun s2 => s2.logs [Event.mutex_unlock, Event.up_read])) ∧
    (∀ u, s.request_tree = [] →
      handle_timeout D s (some u) =
        some (s.logs [Event.down_read, Event.request_osdmap ((osdmap.epoch + 1) % U32),
          Event.mutex_lock, Event.mutex_unlock, Event.up_read])) ∧
    (∀ u, s.request_tree ≠ [] →
      ∃ n, (radix_tree_gang_lookup s.request_tree (((s.reqs u).r_tid + 1) % U64) = some n ∨
          radix_tree_gang_lookup s.request_tree 0 = some n) ∧
        handle_timeout D s (some u) =
          (reschedule_timeout D
            { (s.logs [Event.down_read, Event.request_osdmap ((osdmap.epoch + 1) % U32),
                Event.mutex_lock]) with timeout_tid := (s.reqs n).r_tid }
            (s.reqs u).r_last_stamp).map
            (fun s2 => s2.logs [Event.mutex_unlock, Event.up_read])) := by
  have hm0 : (s.log Event.down_read).osdmap = some osdmap := hmap
  have hg : radix_tree_gang_lookup
      (((s.log Event.down_read).log (Event.request_osdmap ((osdmap.epoch + 1) % U32))).log
        Event.mutex_lock).request_tree
      (((s.log Event.down_read).log (Event.request_osdmap ((osdmap.epoch + 1) % U32))).log
        Event.mutex_lock).timeout_tid = none := hgot
  have hs : ((s.log Event.down_read).log
      (Event.request_osdmap ((osdmap.epoch + 1) % U32))).log Event.mutex_lock =
      s.logs [Event.down_read, Event.request_osdmap ((osdmap.epoch + 1) % U32),
        Event.mutex_lock] := by
    simp [ceph_osd_client.logs, ceph_osd_client.log]
  have h0 : handle_timeout D s none = none := by
    unfold handle_timeout
    simp only
    rw [hm0]
    simp only
    rw [hg]
    rfl
  have h1 : ∀ u, handle_timeout D s (some u) =
      (__register_next_request_timeout D
        (s.logs [Event.down_read, Event.request_osdmap ((osdmap.epoch + 1) % U32),
          Event.mutex_lock]) u).map
        (fun s2 => s2.logs [Event.mutex_unlock, Event.up_read]) := by
    intro u
    unfold handle_timeout
    simp only
    rw [hm0]
    simp only
    rw [hg, hs]
    simp only [Option.orElse]
    cases hr : __register_next_request_timeout D
        (s.logs [Event.down_read, Event.request_osdmap ((osdmap.epoch + 1) % U32),
          Event.mutex_lock]) u with
    | none => rfl
    | some s2 =>
      simp [timeout_loop, ceph_osd_client.logs, ceph_osd_client.log]
  refine ⟨h0, h1, fun u hempty => ?_, fun u hne => ?_⟩
  · rw [h1]
    unfold __register_next_request_timeout
    simp [ceph_osd_client.logs, hempty, radix_tree_gang_lookup]
  · rw [h1]
    obtain ⟨n0, hn0⟩ := gang_lookup_zero_of_ne_nil s.request_tree hne
    unfold __register_next_request_timeout
    simp only [ceph_osd_client.logs]
    cases hl : radix_tree_gang_lookup s.request_tree (((s.reqs u).r_tid + 1) % U64) with
    | none =>
      refine ⟨n0, Or.inr hn0, ?_⟩
      simp only [hn0]
    | some n =>
      by_cases hc : (s.reqs n).r_tid = s.timeout_tid
      · refine ⟨n0, Or.inr hn0, ?_⟩
        simp only [hc, if_true, hn0]
      · refine ⟨n, Or.inl rfl, ?_⟩
        simp only [hc, if_false]

/-- C36 on the client with the tids 1 and 2 registered and `timeout_tid` at 3:
the lookup finds nothing.  With no address of a request in the unassigned
variable the handler faults.  With the address of a request left in it the
outcome follows that value: with the address 7 (tid 1, stamp 1000) the timer
moves to tid 2 with a delay of 2000, with the address 8 (tid 2, stamp 1200) to
tid 1 with a delay of 2200. -/
theorem handle_timeout_undefined_request_witness :
    staleTimerClient.osdmap = some testMap ∧
    radix_tree_gang_lookup staleTimerClient.request_tree staleTimerClient.timeout_tid = none ∧
    handle_timeout testDeps staleTimerClient none = none ∧
    handle_timeout testDeps staleTimerClient (some 7) =
      (__register_next_request_timeout testDeps
        (staleTimerClient.logs [Event.down_read,
          Event.request_osdmap ((testMap.epoch + 1) % U32), Event.mutex_lock]) 7).map
        (fun s2 => s2.logs [Event.mutex_unlock, Event.up_read]) ∧
    (handle_timeout testDeps staleTimerClient (some 7)).map
      (fun x => (x.timeout_tid, x.trace.drop staleTimerClient.trace.length)) =
      some (2, [Event.down_read, Event.request_osdmap 6, Event.mutex_lock,
        Event.schedule_timeout 2000, Event.mutex_unlock, Event.up_read]) ∧
    (handle_timeout testDeps staleTimerClient (some 8)).map
      (fun x => (x.timeout_tid, x.trace.drop staleTimerClient.trace.length)) =
      some (1, [Event.down_read, Event.request_osdmap 6, Event.mutex_lock,
        Event.schedule_timeout 2200, Event.mutex_unlock, Event.up_read]) :=
  ⟨rfl, by decide,
    (handle_timeout_undefined_request testDeps staleTimerClient testMap rfl (by decide)).1,
    (handle_timeout_undefined_request testDeps staleTimerClient testMap rfl (by decide)).2.1 7,
    by decide, by decide⟩

/-! ### Locks: `request_mutex` and `map_sem` -/

/-- C38, failing input: the request of tid 1 holds the message at address 2000
in its reply slot when the reply at address 2001 arrives for tid 1.
`ceph_osdc_handle_reply` takes `request_mutex`, finds the slot taken and leaves
through `goto done`, which is placed after `mutex_unlock`: the only call it
records is `mutex_lock`, and the mutex is held when the handler returns.  The
same holds when the slot was filled by `ceph_osdc_prepare_pages` for the first
reply.  On the sibling path for an unknown tid the mutex is released. -/
theorem handle_reply_returns_with_mutex_held :
    request_mutex_held false dupReplyClient.trace = false ∧
    (dupReplyClient.reqs 7).r_reply = some 2000 ∧
    (ceph_osdc_handle_reply testDeps dupReplyClient 2001).map
      (fun s => (s.trace.drop dupReplyClient.trace.length,
        request_mutex_held false s.trace)) = some ([Event.mutex_lock], true) ∧
    (reply_calls testDeps twoRepliesClient (twoRepliesCalls.take 3)).map
      (fun s => request_mutex_held false s.trace) = some true ∧
    (ceph_osdc_handle_reply testDeps (replyClient.setMsg 2001 strayReply) 2001).map
      (fun s => (s.trace.drop replyClient.trace.length,
        request_mutex_held false s.trace)) =
      some ([Event.mutex_lock, Event.mutex_unlock], false) := by
  refine ⟨by decide, by decide, by decide, by decide, by decide⟩

/-- C39, failing input: a map message of three bytes.  The check
`ceph_decode_need(&p, end, sizeof(fsid), bad)` is made before `down_write`, and
`bad:` calls `up_write`: the handler releases a write hold it never acquired.
On the path of a foreign filesystem identifier it takes and releases nothing,
and on the paths through `done:` and on `bad:` after `down_write` the calls are
balanced. -/
theorem handle_map_short_message_unbalanced :
    decode_need truncatedFsidMsg.front_bytes 16 = false ∧
    (ceph_osdc_handle_map testDeps (mapClient truncatedFsidMsg) 3000).map
      (fun s => s.trace.drop (mapClient truncatedFsidMsg).trace.length) =
      some [Event.derr_corrupt_map, Event.up_write] ∧
    (ceph_osdc_handle_map testDeps (mapClient truncatedFsidMsg) 3000).map
      (fun s => map_sem_run SemHold.free
        (s.trace.drop (mapClient truncatedFsidMsg).trace.length)) = some none ∧
    (ceph_osdc_handle_map testDeps (mapClient foreignMsg) 3000).map
      (fun s => map_sem_run SemHold.free
        (s.trace.drop (mapClient foreignMsg).trace.length)) = some (some SemHold.free) ∧
    (ceph_osdc_handle_map testDeps (mapClient twoIncsMsg) 3000).map
      (fun s => map_sem_run SemHold.free
        (s.trace.drop (mapClient twoIncsMsg).trace.length)) = some (some SemHold.free) ∧
    (ceph_osdc_handle_map testDeps (mapClient cutMsg) 3000).map
      (fun s => map_sem_run SemHold.free
        (s.trace.drop (mapClient cutMsg).trace.length)) = some (some SemHold.free) := by
  refine ⟨by decide, by decide, by decide, by decide, by decide, by decide⟩

/-- Without a current map the exit `done:` faults: it reads `osdc->osdmap->epoch`. -/
theorem handle_map_done_absent_map (D : Deps) (x : ceph_osd_client)
    (nm : Option ceph_osdmap) (h : x.osdmap = none) : handle_map_done D x nm = none := by
  unfold handle_map_done
  simp only
  have : (x.log Event.downgrade_write).osdmap = none := h
  rw [this]

/-- C40, failing input: a client right after `ceph_osdc_init` (no map) receives
a well-formed map message for its filesystem that carries no map, or only
incrementals.  The loops guard their reads with `osdc->osdmap &&` and leave the
map absent; the handler reaches `done:` and reads `osdc->osdmap->epoch` of the
absent map: the call faults.  With a full map in the message it returns. -/
theorem handle_map_reads_absent_map :
    (freshClient noMapsMsg).osdmap = none ∧
    ceph_osdc_handle_map testDeps (freshClient noMapsMsg) 3000 = none ∧
    ceph_osdc_handle_map testDeps (freshClient twoIncsMsg) 3000 = none ∧
    (inc_loop testDeps 2 ((twoIncsMsg.front_bytes.drop 16).drop 4)
      ((freshClient twoIncsMsg).log Event.down_write) none).client.osdmap = none ∧
    ((ceph_osdc_handle_map testDeps (freshClient twoFullsMsg) 3000).map
      (fun s => s.osdmap.map (fun m => m.epoch))) = some (some 8) := by
  refine ⟨rfl, rfl, rfl, by decide, by decide⟩

/-! ### Reading a single page -/

theorem option_pair_eq {α β : Type} (x : Option (α × β)) (a : α) (d : β)
    (h : x.map Prod.fst = some a) : x = some (a, (x.map Prod.snd).getD d) := by
  cases x with
  | none => simp at h
  | some r =>
    obtain ⟨r1, r2⟩ := r
    simp only [Option.map_some', Option.some.injEq] at h
    simp [h]

/-- When the request cannot be built, `ceph_osdc_readpage` returns the error of
the constructor and leaves the client as it was. -/
theorem readpage_no_request (D : Deps) (E : Env) (osdc : ceph_osd_client)
    (layout : ceph_file_layout) (ino off len : Nat) (e : Int)
    (hnew : ceph_osdc_new_request D E osdc layout ino off len D.CEPH_OSD_OP_READ =
      Except.error e) :
    ceph_osdc_readpage D E osdc layout ino off len = some (e, osdc) := by
  unfold ceph_osdc_readpage
  rw [hnew]

/-- C32: when the request built by `ceph_osdc_readpage` is for a whole page and
its synchronous execution yields `rc`, leaving the caller's reference in place,
the call returns: 0 when `rc` is `-ENOENT`, and `rc` itself (a negative code or
the byte count) in every other case. -/
theorem readpage_result (D : Deps) (E : Env) (osdc s1 s2 : ceph_osd_client)
    (layout : ceph_file_layout) (ino off len req len1 : Nat) (rc : Int)
    (hnew : ceph_osdc_new_request D E osdc layout ino off len D.CEPH_OSD_OP_READ =
      Except.ok (req, len1, s1))
    (hpage : len1 = 2 ^ D.PAGE_CACHE_SHIFT)
    (hsync : do_sync_request D s1 req (E.nomem s1) (E.wait req) = some (rc, s2))
    (href : 0 < (s2.reqs req).r_ref) :
    ∃ s3, ceph_osdc_put_request s2 req = some s3 ∧
      ceph_osdc_readpage D E osdc layout ino off len =
        some (if rc = -ENOENT then 0 else rc, s3) ∧
      (rc = -ENOENT → ceph_osdc_readpage D E osdc layout ino off len = some (0, s3)) ∧
      (rc ≠ -ENOENT → ceph_osdc_readpage D E osdc layout ino off len = some (rc, s3)) := by
  obtain ⟨s3, hput, _⟩ := put_request_total s2 req href
  have hmain : ceph_osdc_readpage D E osdc layout ino off len =
      some (if rc = -ENOENT then 0 else rc, s3) := by
    unfold ceph_osdc_readpage
    rw [hnew]
    simp only [hpage, ne_eq, not_true_eq_false, if_false, hsync, hput]
    split_ifs <;> rfl
  refine ⟨s3, hput, hmain, fun h => ?_, fun h => ?_⟩
  · rw [hmain, if_pos h]
  · rw [hmain, if_neg h]

/-- C32 on three runs for the page at offset 0: the osd answers `-ENOENT`
(the result field holds 2^32 - 2) and the call returns 0; it answers `-EFAULT`
and the call returns -14; it delivers the 4096 bytes and the call returns 4096. -/
theorem readpage_result_witness :
    (ceph_osdc_readpage testDeps (resultEnv (2 ^ 32 - 2)) idleClient s1Layout 17 0 4096).map
      Prod.fst = some 0 ∧
    (ceph_osdc_readpage testDeps (resultEnv (2 ^ 32 - 14)) idleClient s1Layout 17 0 4096).map
      Prod.fst = some (-14) ∧
    (ceph_osdc_readpage testDeps testEnv idleClient s1Layout 17 0 4096).map
      Prod.fst = some 4096 := by
  refine ⟨?_, ?_, ?_⟩
  · obtain ⟨s3, _, _, h, _⟩ := readpage_result testDeps (resultEnv (2 ^ 32 - 2)) idleClient
      readpageBuilt (readpageDone (resultEnv (2 ^ 32 - 2)))
      s1Layout 17 0 4096 50 4096 (-2) rfl rfl
      (option_pair_eq _ _ _ (by decide)) (by decide)
    rw [h rfl]; rfl
  · obtain ⟨s3, _, _, _, h⟩ := readpage_result testDeps (resultEnv (2 ^ 32 - 14)) idleClient
      readpageBuilt (readpageDone (resultEnv (2 ^ 32 - 14)))
      s1Layout 17 0 4096 50 4096 (-14) rfl rfl
      (option_pair_eq _ _ _ (by decide)) (by decide)
    rw [h (by decide)]; rfl
  · obtain ⟨s3, _, _, _, h⟩ := readpage_result testDeps testEnv idleClient
      readpageBuilt (readpageDone testEnv)
      s1Layout 17 0 4096 50 4096 4096 rfl rfl
      (option_pair_eq _ _ _ (by decide)) (by decide)
    rw [h (by decide)]; rfl

/-! ### Synchronous write -/

theorem sync_write_rest_zero (len1 : Nat) : toU64 ((len1 : Int) - (len1 : Int)) = 0 := by
  simp [toU64]

/-- One pass of the loop of `ceph_osdc_sync_write` is all there is: whatever the
fuel, the outcome is that of the single request. -/
theorem sync_write_loop_eq (D : Deps) (E : Env) (layout : ceph_file_layout)
    (ino fuel : Nat) (osdc : ceph_osd_client) (off len : Nat) (finalrc : Int) :
    sync_write_loop D E layout ino (fuel + 1) osdc off len finalrc =
      match ceph_osdc_new_request D E osdc layout ino off len D.CEPH_OSD_OP_WRITE with
      | Except.error e => some (e, osdc)
      | Except.ok (req, len1, s1) =>
        (sync_write_request D E s1 req off len1).map
          (fun r => (if r.1 = 0 then toInt32 (toU64 finalrc + len1) else r.1, r.2)) := by
  unfold sync_write_loop
  cases hnew : ceph_osdc_new_request D E osdc layout ino off len D.CEPH_OSD_OP_WRITE with
  | error e => rfl
  | ok v =>
    obtain ⟨req, len1, s1⟩ := v
    simp only
    cases hr : sync_write_request D E s1 req off len1 with
    | none => rfl
    | some r =>
      obtain ⟨rc, s5⟩ := r
      simp only [Option.map_some', sync_write_rest_zero]
      split_ifs with h1 h2
      · exact absurd h2 (by decide)
      · rfl
      · rfl

theorem new_request_message {D : Deps} {E : Env} {osdc s1 : ceph_osd_client}
    {layout : ceph_file_layout} {ino off len op req len1 : Nat}
    (h : ceph_osdc_new_request D E osdc layout ino off len op = Except.ok (req, len1, s1)) :
    (s1.msgs (s1.reqs req).r_request).op_op = op ∧
    (s1.msgs (s1.reqs req).r_request).op_offset =
      (D.calc_file_object_mapping layout off len).objoff ∧
    (s1.msgs (s1.reqs req).r_request).op_length =
      (D.calc_file_object_mapping layout off len).objlen ∧
    registry s1 = registry osdc ∧ s1.trace = osdc.trace := by
  unfold ceph_osdc_new_request at h
  split at h
  · exact absurd h (by simp)
  · split at h
    · exact absurd h (by simp)
    · simp only [Except.ok.injEq, Prod.mk.injEq] at h
      obtain ⟨h1, h2, h3⟩ := h
      subst h1 h2 h3
      refine ⟨?_, ?_, ?_, rfl, rfl⟩ <;>
        simp [ceph_osd_client.setReq, ceph_osd_client.setMsg, upd]

/-- C31, as stated, fails: a write of 2^44 bytes within one object, acknowledged
by the osd, succeeds, and the call returns 0, not the length: the length is
added to the `int` local `finalrc`. -/
theorem sync_write_returns_truncated_length :
    (testDeps.calc_file_object_mapping hugeLayout 0 (2 ^ 44)).plen = 2 ^ 44 ∧
    (ceph_osdc_sync_write testDeps (resultEnv 0) idleClient hugeLayout 17 0 (2 ^ 44)).map
      (fun r => (r.1, (sends r.2.trace).length, completions r.2.trace)) =
      some (0, 1, [Event.complete 50]) := by
  refine ⟨by decide, by decide⟩

/-- C31 (amended): `ceph_osdc_sync_write` makes one pass, whatever the extent:
for every amount of fuel the outcome is that of the single request built for
the shortened extent `off~len1` (`len1` is the length that the mapping of the
extent onto its object leaves, and the op of the request covers that part of
the object only).  The call returns the error of the constructor when no
request can be built; it returns `len1` as an `int` (`len1` itself when it is
below 2^31) when the request yields 0, and the code that the request yields
otherwise. -/
theorem sync_write_single_request (D : Deps) (E : Env) (osdc : ceph_osd_client)
    (layout : ceph_file_layout) (ino off len : Nat) :
    (∀ fuel, sync_write_loop D E layout ino (fuel + 1) osdc off len 0 =
      ceph_osdc_sync_write D E osdc layout ino off len) ∧
    (∀ e, ceph_osdc_new_request D E osdc layout ino off len D.CEPH_OSD_OP_WRITE =
        Except.error e →
      ceph_osdc_sync_write D E osdc layout ino off len = some (e, osdc)) ∧
    (∀ req len1 s1,
      ceph_osdc_new_request D E osdc layout ino off len D.CEPH_OSD_OP_WRITE =
        Except.ok (req, len1, s1) →
      len1 = (D.calc_file_object_mapping layout off len).plen ∧
      (s1.msgs (s1.reqs req).r_request).op_offset =
        (D.calc_file_object_mapping layout off len).objoff ∧
      (s1.msgs (s1.reqs req).r_request).op_length =
        (D.calc_file_object_mapping layout off len).objlen ∧
      ceph_osdc_sync_write D E osdc layout ino off len =
        (sync_write_request D E s1 req off len1).map
          (fun r => (if r.1 = 0 then toInt32 len1 else r.1, r.2)) ∧
      (len1 < 2 ^ 31 → toInt32 len1 = (len1 : Int))) := by
  have hz : ∀ len1 : Nat, toInt32 (toU64 0 + len1) = toInt32 len1 := by
    intro len1
    simp [toU64]
  refine ⟨fun fuel => ?_, fun e he => ?_, fun req len1 s1 hnew => ?_⟩
  · unfold ceph_osdc_sync_write
    rw [sync_write_loop_eq, sync_write_loop_eq]
  · unfold ceph_osdc_sync_write
    rw [sync_write_loop_eq, he]
  · have hm := new_request_message hnew
    refine ⟨(new_request_num_pages hnew).1, hm.2.1, hm.2.2.1, ?_, toInt32_small len1⟩
    unfold ceph_osdc_sync_write
    rw [sync_write_loop_eq, hnew]
    simp only [hz]

/-- C31 on a write of 16 bytes that crosses the boundary between two objects of
4 MiB: one request, for the 8 bytes up to the boundary, and the return value 8. -/
theorem sync_write_single_request_witness :
    ceph_osdc_new_request testDeps (resultEnv 0) idleClient s1Layout 17 4194296 16
      testDeps.CEPH_OSD_OP_WRITE = Except.ok (50, 8, builtClient 4194296 16 2) ∧
    sync_write_loop testDeps (resultEnv 0) s1Layout 17 (5 + 1) idleClient 4194296 16 0 =
      ceph_osdc_sync_write testDeps (resultEnv 0) idleClient s1Layout 17 4194296 16 ∧
    ceph_osdc_sync_write testDeps (resultEnv 0) idleClient s1Layout 17 4194296 16 =
      (sync_write_request testDeps (resultEnv 0) (builtClient 4194296 16 2) 50 4194296 8).map
        (fun r => (if r.1 = 0 then toInt32 8 else r.1, r.2)) ∧
    (ceph_osdc_sync_write testDeps (resultEnv 0) idleClient s1Layout 17 4194296 16).map
      (fun r => (r.1, r.2.last_tid)) = some (8, 1) ∧
    (ceph_osdc_sync_write testDeps (resultEnv 0) idleClient s1Layout 17 4194296 16).map
      (fun r => (sends r.2.trace).map (fun e => (e.2.op_op, e.2.op_offset, e.2.op_length))) =
      some [(2, 4194296, 8)] ∧
    (ceph_osdc_sync_write testDeps (resultEnv 0) idleClient s1Layout 17 4194296 16).map
      (fun r => (sends r.2.trace).map (fun e => (e.2.hdr_data_len, e.2.front_flags))) =
      some [(8, 37)] :=
  ⟨rfl,
    (sync_write_single_request testDeps (resultEnv 0) idleClient s1Layout 17 4194296 16).1 5,
    ((sync_write_single_request testDeps (resultEnv 0) idleClient s1Layout 17 4194296 16).2.2
      50 8 (builtClient 4194296 16 2) rfl).2.2.2.1,
    by decide, by decide, by decide⟩

/-! ### A page allocation that fails -/

theorem put_request_keeps_registry {s s' : ceph_osd_client} {req : Nat}
    (h : ceph_osdc_put_request s req = some s') : registry s' = registry s := by
  unfold ceph_osdc_put_request at h
  simp only at h
  split_ifs at h <;> simp only [Option.some.injEq] at h <;> subst h <;> rfl

theorem send_request_keeps_registry {D : Deps} {s s' : ceph_osd_client} {req : Nat} {rc : Int}
    (h : send_request D s req = some (rc, s')) : registry s' = registry s := by
  unfold send_request at h
  split at h
  · exact absurd h (by simp)
  · simp only at h
    split_ifs at h <;>
      (simp only [Option.some.injEq, Prod.mk.injEq] at h; rw [← h.2]; rfl)

theorem kick_one_keeps_registry {D : Deps} {who : Option ceph_entity_addr}
    {s s' : ceph_osd_client} {req : Nat} {inc : Int}
    (h : kick_one D who s req = some (s', inc)) : registry s' = registry s := by
  unfold kick_one at h
  simp only at h
  split at h
  · exact absurd h (by simp)
  · split_ifs at h with hosd hkick hab
    · simp only [Option.some.injEq, Prod.mk.injEq] at h
      rw [← h.1]; rfl
    · split at h
      · exact absurd h (by simp)
      · rename_i s2 hs2
        split at h
        · exact absurd h (by simp)
        · rename_i s3 hs3
          simp only [Option.some.injEq, Prod.mk.injEq] at h
          rw [← h.1]
          simp only [Option.some.injEq] at hs2
          have hp := put_request_keeps_registry hs3
          rw [← hs2] at hp
          exact hp
    · split at h
      · exact absurd h (by simp)
      · rename_i s2 hs2
        split at h
        · exact absurd h (by simp)
        · rename_i s3 hs3
          simp only [Option.some.injEq, Prod.mk.injEq] at h
          rw [← h.1]
          rw [Option.map_eq_some'] at hs2
          obtain ⟨⟨rc, s4⟩, hs4, rfl⟩ := hs2
          have hp := put_request_keeps_registry hs3
          have hq := send_request_keeps_registry hs4
          exact hp.trans hq
    · simp only [Option.some.injEq, Prod.mk.injEq] at h
      rw [← h.1]

theorem kick_loop_keeps_registry (D : Deps) (who : Option ceph_entity_addr) :
    ∀ (fuel : Nat) (s : ceph_osd_client) (next_tid : Nat) (needmap : Int)
      (s' : ceph_osd_client) (n' : Int),
      kick_loop D who fuel s next_tid needmap = some (s', n') → registry s' = registry s := by
  intro fuel
  induction fuel with
  | zero => intro s next_tid needmap s' n' h; simp [kick_loop] at h
  | succ n ih =>
    intro s next_tid needmap s' n' h
    unfold kick_loop at h
    split at h
    · simp only [Option.some.injEq, Prod.mk.injEq] at h
      rw [← h.1]
    · split at h
      · exact absurd h (by simp)
      · rename_i s1 inc h1
        exact (ih _ _ _ _ _ h).trans (kick_one_keeps_registry h1)

theorem kick_requests_keeps_registry {D : Deps} {s s' : ceph_osd_client}
    {who : Option ceph_entity_addr} (h : kick_requests D s who = some s') :
    registry s' = registry s := by
  unfold kick_requests at h
  simp only at h
  split at h
  · exact absurd h (by simp)
  · rename_i s1 needmap hk
    have h1 : registry s1 = registry s := by
      have := kick_loop_keeps_registry D who _ _ _ _ _ _ hk
      exact this
    split_ifs at h
    · split at h
      · exact absurd h (by simp)
      · simp only [Option.some.injEq] at h; subst h
        exact h1
    · simp only [Option.some.injEq] at h; subst h
      exact h1

theorem handle_reset_keeps_registry {D : Deps} {s s' : ceph_osd_client}
    {addr : ceph_entity_addr} (h : ceph_osdc_handle_reset D s addr = some s') :
    registry s' = registry s := by
  unfold ceph_osdc_handle_reset at h
  split at h
  · exact absurd h (by simp)
  · rename_i s1 hk
    simp only [Option.some.injEq] at h; subst h
    have := kick_requests_keeps_registry hk
    exact this

theorem prepare_pages_keeps_registry (D : Deps) (s : ceph_osd_client) (m : Nat) (want : Int) :
    registry (ceph_osdc_prepare_pages D s m want).2 = registry s := by
  by_cases htype : (s.msgs m).hdr_type = D.CEPH_MSG_OSD_OPREPLY
  · by_cases hc : ∃ req, radix_tree_lookup s.request_tree (s.msgs m).front_tid = some req ∧
        (s.reqs req).r_num_pages ≥ want ∧ (s.reqs req).r_reply = none
    · obtain ⟨req, hl, hc⟩ := hc
      rw [prepare_pages_ok D s m req want htype hl hc]
      rfl
    · rw [prepare_pages_refused D s m want htype (fun req hl hx => hc ⟨req, hl, hx⟩)]
      rfl
  · rw [prepare_pages_wrong_type D s m want htype]

theorem timeout_loop_keeps_registry {D : Deps} {fuel : Nat} {s s' : ceph_osd_client}
    {got : Option Nat} (h : timeout_loop D fuel s got = some s') :
    registry s' = registry s ∧ s'.reqs = s.reqs := by
  obtain ⟨t, ht, _⟩ := timeout_loop_shape D _ _ _ _ h
  subst ht
  exact ⟨rfl, rfl⟩

theorem inc_loop_keeps_registry (D : Deps) :
    ∀ (nr : Nat) (p : List Nat) (s : ceph_osd_client) (nm : Option ceph_osdmap),
      registry (inc_loop D nr p s nm).client = registry s := by
  intro nr
  induction nr with
  | zero => intro p s nm; rfl
  | succ n ih =>
    intro p s nm
    unfold inc_loop
    simp only
    split_ifs
    · split
      · split_ifs
        · split
          · rfl
          · exact ih _ _ _
        · exact ih _ _ _
      · exact ih _ _ _
    · rfl
    · rfl

theorem full_loop_keeps_registry (D : Deps) :
    ∀ (nr : Nat) (p : List Nat) (s : ceph_osd_client) (nm : Option ceph_osdmap),
      registry (full_loop D nr p s nm).client = registry s := by
  intro nr
  induction nr with
  | zero => intro p s nm; rfl
  | succ n ih =>
    intro p s nm
    unfold full_loop
    simp only
    split_ifs
    · exact ih _ _ _
    · exact ih _ _ _
    · split
      · rfl
      · exact ih _ _ _
    · rfl
    · rfl

theorem handle_map_done_keeps_registry {D : Deps} {s s' : ceph_osd_client}
    {nm : Option ceph_osdmap} (h : handle_map_done D s nm = some s') :
    registry s' = registry s := by
  unfold handle_map_done at h
  simp only at h
  split at h
  · exact absurd h (by simp)
  · split_ifs at h
    · split at h
      · exact absurd h (by simp)
      · rename_i s2 hk
        simp only [Option.some.injEq] at h; subst h
        have := kick_requests_keeps_registry hk
        exact this
    · simp only [Option.some.injEq] at h; subst h
      rfl

theorem handle_map_bad_keeps_registry {s s' : ceph_osd_client}
    (h : handle_map_bad s = some s') : registry s' = registry s := by
  simp only [handle_map_bad, Option.some.injEq] at h
  subst h
  rfl

theorem handle_map_keeps_registry {D : Deps} {s s' : ceph_osd_client} {msg : Nat}
    (h : ceph_osdc_handle_map D s msg = some s') : registry s' = registry s := by
  unfold ceph_osdc_handle_map at h
  simp only at h
  split_ifs at h
  · simp only [Option.some.injEq] at h; subst h; rfl
  · split at h
    · rename_i s1 hl
      have := inc_loop_keeps_registry D
        (le_value (List.take 4 (List.drop 16 (s.msgs msg).front_bytes)))
        (List.drop 4 (List.drop 16 (s.msgs msg).front_bytes)) (s.log Event.down_write) none
      rw [hl] at this
      exact (handle_map_bad_keeps_registry h).trans this
    · rename_i p2 s1 newmap hl
      have h1 := inc_loop_keeps_registry D
        (le_value (List.take 4 (List.drop 16 (s.msgs msg).front_bytes)))
        (List.drop 4 (List.drop 16 (s.msgs msg).front_bytes)) (s.log Event.down_write) none
      rw [hl] at h1
      have h1s : registry s1 = registry s := h1
      split_ifs at h
      · exact (handle_map_done_keeps_registry h).trans h1s
      · split at h
        · rename_i s2 hf
          have h2 := full_loop_keeps_registry D (le_value (List.take 4 p2)) (List.drop 4 p2)
            s1 newmap
          rw [hf] at h2
          exact ((handle_map_bad_keeps_registry h).trans h2).trans h1s
        · rename_i p3 s2 nm2 hf
          have h2 := full_loop_keeps_registry D (le_value (List.take 4 p2)) (List.drop 4 p2)
            s1 newmap
          rw [hf] at h2
          exact ((handle_map_done_keeps_registry h).trans h2).trans h1s
      · exact (handle_map_bad_keeps_registry h).trans h1s
  · have := handle_map_bad_keeps_registry h
    exact this
  · exact handle_map_bad_keeps_registry h

theorem do_sync_finish_keeps_registry {s s' : ceph_osd_client} {req : Nat} {wrc rc : Int}
    (h : do_sync_finish s req wrc = some (rc, s')) : registry s' = registry s := by
  rw [do_sync_finish_unfold] at h
  simp only at h
  split_ifs at h
  · split at h <;>
      (simp only [Option.some.injEq, Prod.mk.injEq] at h
       rw [← h.2]
       simp only [registry, ceph_osd_client.log, ceph_osd_client.setMsg,
         ceph_osd_client.setReq])
  · split at h
    · exact absurd h (by simp)
    · split_ifs at h <;> simp only [Option.some.injEq, Prod.mk.injEq] at h <;>
        (rw [← h.2])

/-! ### The request count and the tid of the timer -/

theorem count_inv_congr {s s' : ceph_osd_client} (hi : CountInv s)
    (hr : registry s' = registry s) (ht : ∀ p, (s'.reqs p).r_tid = (s.reqs p).r_tid) :
    CountInv s' := by
  simp only [registry, Prod.mk.injEq] at hr
  obtain ⟨_, h2, h3, h4⟩ := hr
  refine ⟨by rw [h2]; exact hi.sorted, ?_, by rw [h3, h2]; exact hi.count, ?_⟩
  · intro e he
    rw [h2] at he
    rw [ht]
    exact hi.own_tid e he
  · intro hp
    rw [h3] at hp
    obtain ⟨e, he, hk⟩ := hi.timer hp
    exact ⟨e, by rw [h2]; exact he, by rw [h4]; exact hk⟩

theorem count_inv_frame {s s' : ceph_osd_client} (hi : CountInv s) (hf : Frame s s')
    (hr : registry s' = registry s) : CountInv s' :=
  count_inv_congr hi hr (fun p => hf.tid p)

theorem tree_put_mem (k v : Nat) :
    ∀ (t : List (Nat × Nat)) (e : Nat × Nat), e ∈ tree_put t k v ↔ e = (k, v) ∨ e ∈ t := by
  intro t
  induction t with
  | nil => intro e; simp [tree_put]
  | cons a t ih =>
    intro e
    unfold tree_put
    split_ifs
    · simp
    · rw [List.mem_cons, ih, List.mem_cons]
      tauto

theorem tree_put_length (k v : Nat) :
    ∀ t : List (Nat × Nat), (tree_put t k v).length = t.length + 1 := by
  intro t
  induction t with
  | nil => rfl
  | cons a t ih =>
    unfold tree_put
    split_ifs
    · rfl
    · simp [ih]

theorem tree_put_sorted (k v : Nat) :
    ∀ t : List (Nat × Nat), (t.map Prod.fst).Pairwise (fun a b => a < b) →
      (∀ e ∈ t, e.1 ≠ k) → ((tree_put t k v).map Prod.fst).Pairwise (fun a b => a < b) := by
  intro t
  induction t with
  | nil => intro _ _; simp [tree_put]
  | cons a t ih =>
    intro hs hne
    have hs0 := hs
    rw [List.map_cons, List.pairwise_cons] at hs
    unfold tree_put
    split_ifs with hk
    · rw [List.map_cons, List.pairwise_cons]
      refine ⟨?_, hs0⟩
      intro b hb
      rw [List.map_cons, List.mem_cons] at hb
      rcases hb with hb | hb
      · rw [hb]; exact hk
      · exact lt_trans hk (hs.1 b hb)
    · rw [List.map_cons, List.pairwise_cons]
      refine ⟨?_, ih hs.2 (fun e he => hne e (List.mem_cons_of_mem _ he))⟩
      intro b hb
      obtain ⟨e, he, rfl⟩ := List.mem_map.mp hb
      rw [tree_put_mem] at he
      rcases he with he | he
      · subst he
        have := hne a (List.mem_cons_self _ _)
        show a.1 < k
        omega
      · exact hs.1 e.1 (List.mem_map_of_mem _ he)

theorem lookup_none_ne {t : List (Nat × Nat)} {k : Nat} (h : radix_tree_lookup t k = none) :
    ∀ e ∈ t, e.1 ≠ k := by
  unfold radix_tree_lookup at h
  rw [Option.map_eq_none', List.find?_eq_none] at h
  intro e he
  simpa using h e he

theorem insert_ok {t : List (Nat × Nat)} {k v : Nat} {nomem : Bool}
    (h : ¬ (radix_tree_insert t k v nomem).1 < 0) :
    radix_tree_lookup t k = none ∧ (radix_tree_insert t k v nomem).2 = tree_put t k v := by
  unfold radix_tree_insert at h ⊢
  split_ifs at h ⊢ with h1 h2
  · exact absurd (by decide : (-ENOMEM : Int) < 0) h
  · exact absurd (by decide : (-EEXIST : Int) < 0) h
  · refine ⟨?_, rfl⟩
    cases hl : radix_tree_lookup t k with
    | none => rfl
    | some x => rw [hl] at h2; exact absurd rfl h2

/-- What `register_request` does to the index, to the count and to the tid of
the timer: nothing when the insertion fails; otherwise the tid was free, the
request is inserted under it, the count goes up by one, and `timeout_tid`
becomes the new tid when no request was registered. -/
theorem register_request_count {D : Deps} {s s' : ceph_osd_client} {req : Nat} {nomem : Bool}
    {rc : Int} (h : register_request D s req nomem = some (rc, s')) :
    (s'.request_tree = s.request_tree ∧ s'.num_requests = s.num_requests ∧
      s'.timeout_tid = s.timeout_tid) ∨
    (radix_tree_lookup s.request_tree ((s.last_tid + 1) % U64) = none ∧
      s'.request_tree = tree_put s.request_tree ((s.last_tid + 1) % U64) req ∧
      s'.num_requests = s.num_requests + 1 ∧
      s'.timeout_tid = if s.num_requests = 0 then (s.last_tid + 1) % U64 else s.timeout_tid) := by
  unfold register_request at h
  simp only at h
  split_ifs at h with hneg hzero
  · left
    simp only [Option.some.injEq, Prod.mk.injEq] at h
    rw [← h.2]
    exact ⟨rfl, rfl, rfl⟩
  · right
    have hok := insert_ok hneg
    have hz : s.num_requests = 0 := hzero
    split at h
    · exact absurd h (by simp)
    · rename_i s5 h5
      obtain ⟨e, he⟩ := reschedule_timeout_eq h5
      simp only [Option.some.injEq, Prod.mk.injEq] at h
      rw [← h.2, he]
      exact ⟨hok.1, hok.2, rfl, by rw [if_pos hz]; rfl⟩
  · right
    have hok := insert_ok hneg
    have hz : ¬ s.num_requests = 0 := hzero
    simp only [Option.some.injEq, Prod.mk.injEq] at h
    rw [← h.2]
    exact ⟨hok.1, hok.2, rfl, by rw [if_neg hz]; rfl⟩

theorem register_request_inv {D : Deps} {s s' : ceph_osd_client} {req : Nat} {nomem : Bool}
    {rc : Int} (h : register_request D s req nomem = some (rc, s')) (hi : CountInv s)
    (hfresh : ∀ e ∈ s.request_tree, e.2 ≠ req) : CountInv s' := by
  have hs := register_request_step h
  have hold : ∀ e ∈ s.request_tree, (s'.reqs e.2).r_tid = e.1 := by
    intro e he
    rw [hs.tid, if_neg (hfresh e he)]
    exact hi.own_tid e he
  rcases register_request_count h with ⟨h1, h2, h3⟩ | ⟨hl, h1, h2, h3⟩
  · refine ⟨by rw [h1]; exact hi.sorted, ?_, by rw [h2, h1]; exact hi.count, ?_⟩
    · intro e he
      rw [h1] at he
      exact hold e he
    · intro hp
      rw [h2] at hp
      obtain ⟨e, he, hk⟩ := hi.timer hp
      exact ⟨e, by rw [h1]; exact he, by rw [h3]; exact hk⟩
  · refine ⟨?_, ?_, ?_, ?_⟩
    · rw [h1]
      exact tree_put_sorted _ _ _ hi.sorted (lookup_none_ne hl)
    · intro e he
      rw [h1, tree_put_mem] at he
      rcases he with he | he
      · subst he
        rw [hs.tid]
        simp
      · exact hold e he
    · rw [h2, h1, tree_put_length, hi.count]
      push_cast
      ring
    · intro _
      rw [h3, h1]
      split_ifs with hz
      · exact ⟨((s.last_tid + 1) % U64, req), (tree_put_mem _ _ _ _).mpr (Or.inl rfl), rfl⟩
      · have hpos : 0 < s.num_requests := by
          have := hi.count
          omega
        obtain ⟨e, he, hk⟩ := hi.timer hpos
        exact ⟨e, (tree_put_mem _ _ _ _).mpr (Or.inr he), hk⟩

theorem start_request_inv {D : Deps} {s s' : ceph_osd_client} {req : Nat} {nomem : Bool}
    {rc : Int} (h : start_request D s req nomem = some (rc, s')) (hi : CountInv s)
    (hfresh : ∀ e ∈ s.request_tree, e.2 ≠ req) : CountInv s' := by
  unfold start_request at h
  split at h
  · exact absurd h (by simp)
  · rename_i rc1 s1 hreg
    have h1 := register_request_inv hreg hi hfresh
    split_ifs at h
    · simp only [Option.some.injEq, Prod.mk.injEq] at h
      rw [← h.2]; exact h1
    · split at h
      · exact absurd h (by simp)
      · rename_i rc2 s2 hsend
        simp only [Option.some.injEq, Prod.mk.injEq] at h
        rw [← h.2]
        have hk := send_request_keeps_registry hsend
        have hf := send_request_frame hsend
        have h2 : CountInv (s1.log Event.down_read) :=
          count_inv_congr h1 rfl (fun _ => rfl)
        have h3 : CountInv s2 := count_inv_congr h2 hk (fun p => hf.tid p)
        exact count_inv_congr h3 rfl (fun _ => rfl)

/-- What `__register_next_request_timeout` leaves in place, and where it puts
`timeout_tid`: on the tid of a request of the index, unless the index is empty. -/
theorem register_next_timer {D : Deps} {x x' : ceph_osd_client} {req : Nat}
    (h : __register_next_request_timeout D x req = some x') :
    registry x' = (x.last_tid, x.request_tree, x.num_requests, x'.timeout_tid) ∧
    x'.reqs = x.reqs ∧
    ((x.request_tree = [] ∧ x'.timeout_tid = x.timeout_tid) ∨
      ∃ e ∈ x.request_tree, x'.timeout_tid = (x.reqs e.2).r_tid) := by
  unfold __register_next_request_timeout at h
  simp only at h
  split at h
  · rename_i next_req hret
    obtain ⟨j, hj⟩ := reschedule_timeout_eq h
    subst hj
    refine ⟨rfl, rfl, Or.inr ?_⟩
    have hmem : ∃ i, radix_tree_gang_lookup x.request_tree i = some next_req := by
      split at hret
      · exact ⟨0, hret⟩
      · rename_i n hn
        split_ifs at hret
        · exact ⟨0, hret⟩
        · simp only [Option.some.injEq] at hret
          subst hret
          exact ⟨_, hn⟩
    obtain ⟨i, hi⟩ := hmem
    obtain ⟨e, he, he2, _⟩ := gang_lookup_mem hi
    exact ⟨e, he, by rw [he2]; rfl⟩
  · rename_i hret
    simp only [Option.some.injEq] at h
    subst h
    refine ⟨rfl, rfl, Or.inl ⟨?_, rfl⟩⟩
    by_contra hne
    obtain ⟨n0, hn0⟩ := gang_lookup_zero_of_ne_nil x.request_tree hne
    split at hret
    · rw [hn0] at hret; exact absurd hret (by simp)
    · split_ifs at hret
      · rw [hn0] at hret; exact absurd hret (by simp)

theorem unregister_request_inv {D : Deps} {s s' : ceph_osd_client} {req : Nat}
    (h : __unregister_request D s req = some s') (hi : CountInv s)
    (hreg : radix_tree_lookup s.request_tree (s.reqs req).r_tid = some req) : CountInv s' := by
  have hmem : ((s.reqs req).r_tid, req) ∈ s.request_tree := lookup_mem hreg
  have hlen := delete_length _ hi.sorted _ hmem
  simp only at hlen
  have hsub : ∀ e ∈ radix_tree_delete s.request_tree (s.reqs req).r_tid,
      e ∈ s.request_tree ∧ e.1 ≠ (s.reqs req).r_tid := by
    intro e he
    unfold radix_tree_delete at he
    rw [List.mem_filter] at he
    exact ⟨he.1, by simpa using he.2⟩
  have hsurv : ∀ e ∈ s.request_tree, e.1 ≠ (s.reqs req).r_tid →
      e ∈ radix_tree_delete s.request_tree (s.reqs req).r_tid := by
    intro e he hne
    unfold radix_tree_delete
    rw [List.mem_filter]
    exact ⟨he, by simpa using hne⟩
  have hsorted : ((radix_tree_delete s.request_tree (s.reqs req).r_tid).map
      Prod.fst).Pairwise (fun a b => a < b) :=
    hi.sorted.sublist ((List.filter_sublist _).map Prod.fst)
  have hreqs := (unregister_request_reqs h).1
  have htid : ∀ p, (s'.reqs p).r_tid = (s.reqs p).r_tid := by
    intro p
    rw [hreqs]
    by_cases hp : p = req
    · subst hp; simp [upd]
    · simp [upd, hp]
  have key : s'.request_tree = radix_tree_delete s.request_tree (s.reqs req).r_tid →
      s'.num_requests = s.num_requests - 1 →
      (0 < s.num_requests - 1 →
        ∃ e ∈ radix_tree_delete s.request_tree (s.reqs req).r_tid, e.1 = s'.timeout_tid) →
      CountInv s' := by
    intro h1 h2 h3
    refine ⟨by rw [h1]; exact hsorted, ?_, ?_, ?_⟩
    · intro e he
      rw [h1] at he
      rw [htid]
      exact hi.own_tid e (hsub e he).1
    · rw [h2, h1, hi.count, ← hlen]
      push_cast
      ring
    · intro hp
      rw [h2] at hp
      obtain ⟨e, he, hk⟩ := h3 hp
      exact ⟨e, by rw [h1]; exact he, hk⟩
  unfold __unregister_request at h
  simp only at h
  split_ifs at h with h1 h2
  · split at h
    · exact absurd h (by simp)
    · rename_i s3 h3
      obtain ⟨q1, q2, q3⟩ := register_next_timer h3
      have hp := put_request_keeps_registry h
      rw [q1] at hp
      simp only [registry, Prod.mk.injEq] at hp
      obtain ⟨_, p2, p3, p4⟩ := hp
      refine key p2 p3 (fun hpos => ?_)
      rcases q3 with ⟨hnil, _⟩ | ⟨e, he, hk⟩
      · exfalso
        have hnil2 : radix_tree_delete s.request_tree (s.reqs req).r_tid = [] := hnil
        rw [hnil2] at hlen
        have := hi.count
        simp only [List.length_nil] at hlen
        omega
      · refine ⟨e, he, ?_⟩
        rw [p4, hk]
        exact (hi.own_tid e (hsub e he).1).symm
  · have hp := put_request_keeps_registry h
    simp only [registry, Prod.mk.injEq] at hp
    obtain ⟨_, p2, p3, p4⟩ := hp
    refine key p2 p3 (fun hpos => ?_)
    exfalso
    have hz : s.num_requests - 1 = 0 := by
      by_contra hc
      exact h2 hc
    omega
  · have hp := put_request_keeps_registry h
    simp only [registry, Prod.mk.injEq] at hp
    obtain ⟨_, p2, p3, p4⟩ := hp
    refine key p2 p3 (fun hpos => ?_)
    have hne : (s.reqs req).r_tid ≠ s.timeout_tid := h1
    obtain ⟨e, he, hk⟩ := hi.timer (by omega)
    refine ⟨e, hsurv e he (by rw [hk]; exact fun hc => hne hc.symm), ?_⟩
    rw [p4]
    exact hk

theorem handle_reply_inv {D : Deps} {s s' : ceph_osd_client} {msg : Nat}
    (h : ceph_osdc_handle_reply D s msg = some s') (hi : CountInv s) : CountInv s' := by
  unfold ceph_osdc_handle_reply at h
  simp only at h
  split_ifs at h
  · simp only [Option.some.injEq] at h; subst h
    exact count_inv_congr hi rfl (fun _ => rfl)
  · simp only [Option.some.injEq] at h; subst h
    exact count_inv_congr hi rfl (fun _ => rfl)
  · split at h
    · simp only [Option.some.injEq] at h; subst h
      exact count_inv_congr hi rfl (fun _ => rfl)
    · rename_i req hreq
      have hreq2 : radix_tree_lookup s.request_tree (s.msgs msg).front_tid = some req := hreq
      have hown : (s.reqs req).r_tid = (s.msgs msg).front_tid :=
        hi.own_tid _ (lookup_mem hreq2)
      have hg : Frame s (get_request (s.log Event.mutex_lock) req) :=
        (frame_log _ _).trans (get_request_frame _ _)
      have hig : CountInv (get_request (s.log Event.mutex_lock) req) :=
        count_inv_frame hi hg rfl
      split_ifs at h with hc hn
      · split at h
        · exact absurd h (by simp)
        · rename_i s3 h3
          have hf2 : Frame s (((get_request (s.log Event.mutex_lock) req).log
              (Event.msg_get msg)).setReq req
              { (get_request (s.log Event.mutex_lock) req).reqs req with
                r_reply := some msg }) :=
            Frame.setReq_right (hg.log_right _) rfl (fun h => h) ⟨0, (Nat.or_zero _).symm⟩
          have hi2 := count_inv_frame hi hf2 rfl
          have hi3 : CountInv s3 := by
            refine unregister_request_inv h3 hi2 ?_
            rw [hf2.tid req, hown]
            exact hreq2
          have hi5 : CountInv (if ((s3.log Event.mutex_unlock).reqs req).r_callback then
              (s3.log Event.mutex_unlock).log (Event.callback req)
              else (s3.log Event.mutex_unlock).log (Event.complete req)) := by
            split_ifs <;> exact count_inv_congr hi3 rfl (fun _ => rfl)
          exact count_inv_congr hi5 (put_request_keeps_registry h)
            (fun p => (put_request_frame h).tid p)
      · split at h
        · exact absurd h (by simp)
        · rename_i s3 h3
          have hi3 : CountInv s3 := by
            refine unregister_request_inv h3 hig ?_
            rw [hg.tid req, hown]
            exact hreq2
          have hi5 : CountInv (if ((s3.log Event.mutex_unlock).reqs req).r_callback then
              (s3.log Event.mutex_unlock).log (Event.callback req)
              else (s3.log Event.mutex_unlock).log (Event.complete req)) := by
            split_ifs <;> exact count_inv_congr hi3 rfl (fun _ => rfl)
          exact count_inv_congr hi5 (put_request_keeps_registry h)
            (fun p => (put_request_frame h).tid p)
      · exact count_inv_congr hig (put_request_keeps_registry h)
          (fun p => (put_request_frame h).tid p)

theorem handle_timeout_inv {D : Deps} {s s' : ceph_osd_client} {u : Option Nat}
    (h : handle_timeout D s u = some s') (hi : CountInv s) : CountInv s' := by
  obtain ⟨osdmap, req, s2, s3, hmap, hreq, h2, h3, h⟩ := handle_timeout_some h
  subst h
  obtain ⟨q1, q2, q3⟩ := register_next_timer h2
  obtain ⟨r1, r2⟩ := timeout_loop_keeps_registry h3
  rw [q1] at r1
  simp only [registry, Prod.mk.injEq] at r1
  obtain ⟨_, p2, p3, p4⟩ := r1
  have e2 : s3.request_tree = s.request_tree := p2
  have e3 : s3.num_requests = s.num_requests := p3
  have e5 : s3.reqs = s.reqs := by rw [r2, q2]; rfl
  refine ⟨?_, ?_, ?_, ?_⟩
  · show (s3.request_tree.map Prod.fst).Pairwise _
    rw [e2]; exact hi.sorted
  · intro e he
    have he2 : e ∈ s3.request_tree := he
    rw [e2] at he2
    show (s3.reqs e.2).r_tid = e.1
    rw [e5]
    exact hi.own_tid e he2
  · show s3.num_requests = (s3.request_tree.length : Int)
    rw [e3, e2]; exact hi.count
  · intro hp
    have hp2 : 0 < s3.num_requests := hp
    rw [e3] at hp2
    show ∃ e ∈ s3.request_tree, e.1 = s3.timeout_tid
    rw [e2, p4]
    rcases q3 with ⟨_, hk⟩ | ⟨e, he, hk⟩
    · rw [hk]
      exact hi.timer hp2
    · refine ⟨e, he, ?_⟩
      rw [hk]
      exact (hi.own_tid e he).symm

/-- Every admissible operation keeps the counting invariant. -/
theorem run_count_inv {D : Deps} {s s' : ceph_osd_client} {op : Op} (hi : CountInv s)
    (hadm : op.admissible s) (hreg : op.on_registered s) (h : run D s op = some s') :
    CountInv s' := by
  cases op with
  | register req nomem =>
    simp only [run, Option.map_eq_some'] at h
    obtain ⟨⟨rc, s1⟩, h1, rfl⟩ := h
    exact register_request_inv h1 hi hadm
  | start req nomem =>
    simp only [run, Option.map_eq_some'] at h
    obtain ⟨⟨rc, s1⟩, h1, rfl⟩ := h
    exact start_request_inv h1 hi hadm
  | unregister req => exact unregister_request_inv h hi hreg
  | put req =>
    exact count_inv_congr hi (put_request_keeps_registry h) (fun p => (put_request_frame h).tid p)
  | send req =>
    simp only [run, Option.map_eq_some'] at h
    obtain ⟨⟨rc, s1⟩, h1, rfl⟩ := h
    exact count_inv_congr hi (send_request_keeps_registry h1)
      (fun p => (send_request_frame h1).tid p)
  | sync_finish req wrc =>
    simp only [run, Option.map_eq_some'] at h
    obtain ⟨⟨rc, s1⟩, h1, rfl⟩ := h
    exact count_inv_congr hi (do_sync_finish_keeps_registry h1)
      (fun p => (do_sync_finish_frame h1).tid p)
  | handle_reply msg => exact handle_reply_inv h hi
  | kick who =>
    exact count_inv_congr hi (kick_requests_keeps_registry h)
      (fun p => (kick_requests_frame h).tid p)
  | handle_reset addr =>
    exact count_inv_congr hi (handle_reset_keeps_registry h)
      (fun p => (handle_reset_frame h).tid p)
  | handle_map msg =>
    exact count_inv_congr hi (handle_map_keeps_registry h)
      (fun p => (handle_map_frame h).tid p)
  | prepare_pages m want =>
    simp only [run, Option.some.injEq] at h
    rw [← h]
    exact count_inv_congr hi (prepare_pages_keeps_registry D s m want)
      (fun p => (prepare_pages_frame D s m want).tid p)
  | handle_timeout u => exact handle_timeout_inv h hi
  | env_msg m msg =>
    simp only [run, Option.some.injEq] at h
    rw [← h]; exact count_inv_congr hi rfl (fun _ => rfl)
  | env_time j =>
    simp only [run, Option.some.injEq] at h
    rw [← h]; exact count_inv_congr hi rfl (fun _ => rfl)
  | env_send_rc rc =>
    simp only [run, Option.some.injEq] at h
    rw [← h]; exact count_inv_congr hi rfl (fun _ => rfl)

theorem reached_count_inv (D : Deps) (s : ceph_osd_client) (h : Reached D s) : CountInv s := by
  induction h with
  | init osdc =>
    refine ⟨?_, ?_, ?_, ?_⟩ <;> simp [ceph_osdc_init]
  | step s s' op _ hadm hreg hrun ih => exact run_count_inv ih hadm hreg hrun

/-- C37: in every state reachable from `ceph_osdc_init` by the operations of the
client (`register_request`, successful or failed, for a request that is not in
the index; `__unregister_request` of a registered request;
`ceph_osdc_handle_reply`; `handle_timeout`; and the others: sends, resubmission,
map handling, page preparation, the moves of the surroundings), `num_requests`
equals the number of requests in the index, and whenever `num_requests > 0`,
`timeout_tid` is the tid of a request that is in the index. -/
theorem registry_count_and_timer (D : Deps) (s : ceph_osd_client) (h : Reached D s) :
    s.num_requests = (s.request_tree.length : Int) ∧
    (0 < s.num_requests →
      ∃ e ∈ s.request_tree, e.1 = s.timeout_tid ∧ (s.reqs e.2).r_tid = s.timeout_tid ∧
        radix_tree_lookup s.request_tree s.timeout_tid = some e.2) := by
  have hi := reached_count_inv D s h
  refine ⟨hi.count, fun hp => ?_⟩
  obtain ⟨e, he, hk⟩ := hi.timer hp
  refine ⟨e, he, hk, by rw [hi.own_tid e he]; exact hk, ?_⟩
  rw [← hk]
  exact lookup_of_mem_sorted _ hi.sorted e he

theorem oneLeftClient_reached : Reached testDeps oneLeftClient := by
  have h0 : Reached testDeps testClient := Reached.init _
  have h1 : Reached testDeps testClient1 :=
    Reached.step testClient testClient1 (Op.register 7 false) h0
      (by intro e he; simp [testClient, ceph_osdc_init] at he) trivial rfl
  have h2 : Reached testDeps twoReqClient :=
    Reached.step testClient1 twoReqClient (Op.register 8 false) h1
      (by
        intro e he
        have ht : testClient1.request_tree = [(1, 7)] := by decide
        rw [ht, List.mem_singleton] at he
        subst he
        decide) trivial rfl
  exact Reached.step twoReqClient oneLeftClient (Op.unregister 7) h2 trivial
    (by
      show radix_tree_lookup twoReqClient.request_tree (twoReqClient.reqs 7).r_tid = some 7
      decide) rfl

/-- C37 on the client after the registration of the requests at the addresses 7
and 8 (tids 1 and 2) and the removal of the first: one request is counted, the
index holds the request of tid 2, and the timer has moved from tid 1 to tid 2. -/
theorem registry_count_and_timer_witness :
    Reached testDeps oneLeftClient ∧
    oneLeftClient.num_requests = 1 ∧ oneLeftClient.request_tree = [(2, 8)] ∧
    oneLeftClient.timeout_tid = 2 ∧ twoReqClient.timeout_tid = 1 ∧
    (oneLeftClient.num_requests = (oneLeftClient.request_tree.length : Int) ∧
      (0 < oneLeftClient.num_requests →
        ∃ e ∈ oneLeftClient.request_tree, e.1 = oneLeftClient.timeout_tid ∧
          (oneLeftClient.reqs e.2).r_tid = oneLeftClient.timeout_tid ∧
          radix_tree_lookup oneLeftClient.request_tree oneLeftClient.timeout_tid =
            some e.2)) :=
  ⟨oneLeftClient_reached, by decide, by decide, by decide, by decide,
    registry_count_and_timer testDeps oneLeftClient oneLeftClient_reached⟩

/-! ### Reference balance of a completed request -/

/-- Registration followed by the reply that completes the request: both calls
return, and the request ends with the reference count it had before.  The
request registered last is alone in the registry or is not the one named by
`timeout_tid`, so that its removal does not re-arm the timer. -/
theorem register_then_reply (D : Deps) (s : ceph_osd_client) (req msg : Nat)
    (hinv : RegistryInv s) (hfresh : ∀ e ∈ s.request_tree, e.2 ≠ req)
    (hwrap : s.last_tid + 1 < 2 ^ 64)
    (hnum : s.num_requests = s.request_tree.length)
    (htimer : 0 < s.num_requests → ∃ e ∈ s.request_tree, e.1 = s.timeout_tid)
    (href : 0 ≤ (s.reqs req).r_ref)
    (hlen1 : D.sizeof_reply_head ≤ (s.msgs msg).front_len)
    (hlen2 : (s.msgs msg).front_len = reply_front_len D (s.msgs msg).front_num_ops)
    (htid : (s.msgs msg).front_tid = s.last_tid + 1)
    (hslot : (s.reqs req).r_reply = none ∨ (s.reqs req).r_reply = some msg) :
    ∃ s1 s2, register_request D s req false = some (0, s1) ∧
      (s1.reqs req).r_ref = (s.reqs req).r_ref + 1 ∧
      reply_completes D s1 msg = some req ∧
      ceph_osdc_handle_reply D s1 msg = some s2 ∧
      (s2.reqs req).r_ref = (s.reqs req).r_ref ∧
      ∀ p, p ≠ req → (s2.reqs p).r_ref = (s.reqs p).r_ref := by
  have hkeys : ∀ e ∈ s.request_tree, e.1 < s.last_tid + 1 := by
    intro e he
    have := hinv.le_last e he
    omega
  have hl : radix_tree_lookup s.request_tree (s.last_tid + 1) = none :=
    lookup_none_of_ne _ _ (fun e he => by have := hkeys e he; omega)
  obtain ⟨s1, hreg, r1, r2, r3, r4, r5, r6, r7, r8, r9⟩ := register_request_ok D s req hwrap hl
  obtain ⟨hinv1, _⟩ := inv_of_regstep hinv hwrap hfresh (register_request_step hreg)
  obtain ⟨m1, m2, m3⟩ := r9 msg
  have hlook1 : radix_tree_lookup s1.request_tree (s1.msgs msg).front_tid = some req := by
    rw [m3 htid, r1]
    exact lookup_tree_put _ _ _ hl
  have hslot1 : (s1.reqs req).r_reply = none ∨ (s1.reqs req).r_reply = some msg := by
    rw [r7]; exact hslot
  have hlen11 : D.sizeof_reply_head ≤ (s1.msgs msg).front_len := by rw [m1]; exact hlen1
  have hlen21 : (s1.msgs msg).front_len = reply_front_len D (s1.msgs msg).front_num_ops := by
    rw [m1, m2]; exact hlen2
  have hcomp : reply_completes D s1 msg = some req := by
    unfold reply_completes
    have c1 : ¬ (s1.msgs msg).front_len < D.sizeof_reply_head := by omega
    have c2 : ¬ (s1.msgs msg).front_len ≠ reply_front_len D (s1.msgs msg).front_num_ops := by
      simpa using hlen21
    simp only [c1, c2, if_false, hlook1, hslot1, if_true]
  obtain ⟨s2, h2⟩ := handle_reply_returns D s1 msg req hlen11 hlen21 hinv1
    (by
      intro e he
      have := hinv1.le_last e he
      rw [r2] at this
      omega)
    (by
      rw [r3, r1, tree_put_eq_append _ _ _ hkeys, hnum]
      simp)
    (by
      intro h1 h2
      exfalso
      rcases register_request_count hreg with ⟨_, c2, _⟩ | ⟨_, _, _, c3⟩
      · rw [r3] at c2
        omega
      · by_cases hz : s.num_requests = 0
        · apply h2
          rw [r3, hz]
          rfl
        · rw [if_neg hz] at c3
          have hpos : 0 < s.num_requests := by
            have := hnum
            omega
          obtain ⟨e, he, hk⟩ := htimer hpos
          have hle := hinv.le_last e he
          rw [r5, c3, ← hk] at h1
          omega)
    hlook1 hslot1 (by rw [r6]; omega)
  refine ⟨s1, s2, hreg, r6, hcomp, h2, ?_, ?_⟩
  · rw [handle_reply_ref h2 req, hcomp, if_pos rfl, r6]
    ring
  · intro p hp
    have hne : ¬ (some req = some p) := by
      intro hc
      exact hp (Option.some.inj hc).symm
    rw [handle_reply_ref h2 p, hcomp, if_neg hne, r8 p hp]

/-- C30: reference balance.  For a request that is not registered and has the
reference count c >= 0, in a well-formed registry (tree in ascending order,
every request under its own tid, tids at most `last_tid` < 2^64 - 1,
`num_requests` the number of entries, `timeout_tid` the tid of a registered
request when there is one), `register_request` followed by the
`ceph_osdc_handle_reply` that completes it leaves the count at c: both calls
return, the count is c + 1 in between (the reference of the registry), and the
handler takes one reference and drops two, one in `__unregister_request` and
one at its end.  Each of `kick_requests`, `ceph_osdc_prepare_pages`,
`handle_timeout` (whatever its unassigned variable holds) and the paths of
`ceph_osdc_handle_reply` that complete nothing (bad front length, unknown
tid, slot taken by another message) leaves the reference count of every
request as it was whenever it returns; and with a current map and a
well-formed registry whose requests hold a reference and whose tids are below
2^64 - 1 these calls return, `handle_timeout` when the timer period is not
zero and its lookup from `timeout_tid` finds a request. -/
theorem reference_balance (D : Deps) (s : ceph_osd_client) :
    (∀ req msg, RegistryInv s → (∀ e ∈ s.request_tree, e.2 ≠ req) →
      s.last_tid + 1 < 2 ^ 64 → s.num_requests = s.request_tree.length →
      (0 < s.num_requests → ∃ e ∈ s.request_tree, e.1 = s.timeout_tid) →
      0 ≤ (s.reqs req).r_ref →
      D.sizeof_reply_head ≤ (s.msgs msg).front_len →
      (s.msgs msg).front_len = reply_front_len D (s.msgs msg).front_num_ops →
      (s.msgs msg).front_tid = s.last_tid + 1 →
      ((s.reqs req).r_reply = none ∨ (s.reqs req).r_reply = some msg) →
      ∃ s1 s2, register_request D s req false = some (0, s1) ∧
        (s1.reqs req).r_ref = (s.reqs req).r_ref + 1 ∧
        reply_completes D s1 msg = some req ∧
        ceph_osdc_handle_reply D s1 msg = some s2 ∧
        (s2.reqs req).r_ref = (s.reqs req).r_ref ∧
        ∀ p, p ≠ req → (s2.reqs p).r_ref = (s.reqs p).r_ref) ∧
    (∀ who s', kick_requests D s who = some s' →
      ∀ p, (s'.reqs p).r_ref = (s.reqs p).r_ref) ∧
    (∀ m want p, ((ceph_osdc_prepare_pages D s m want).2.reqs p).r_ref = (s.reqs p).r_ref) ∧
    (∀ u s', handle_timeout D s u = some s' → ∀ p, (s'.reqs p).r_ref = (s.reqs p).r_ref) ∧
    (∀ msg s', reply_completes D s msg = none → ceph_osdc_handle_reply D s msg = some s' →
      ∀ p, (s'.reqs p).r_ref = (s.reqs p).r_ref) ∧
    (∀ osdmap, s.osdmap = some osdmap → RegistryInv s →
      (∀ e ∈ s.request_tree, e.1 + 1 < 2 ^ 64 ∧ 0 < (s.reqs e.2).r_ref) →
      (∀ who, ∃ s', kick_requests D s who = some s') ∧
      (timer_period D s ≠ 0 →
        ∀ u req, radix_tree_gang_lookup s.request_tree s.timeout_tid = some req →
        ∃ s', handle_timeout D s u = some s') ∧
      (∀ msg, reply_completes D s msg = none →
        ∃ s', ceph_osdc_handle_reply D s msg = some s')) := by
  refine ⟨?_, ?_, ?_, ?_, ?_, ?_⟩
  · intro req msg hinv hfresh hwrap hnum htimer href hlen1 hlen2 htid hslot
    exact register_then_reply D s req msg hinv hfresh hwrap hnum htimer href hlen1 hlen2 htid
      hslot
  · intro who s' h p
    exact kick_requests_ref h p
  · intro m want p
    by_cases htype : (s.msgs m).hdr_type = D.CEPH_MSG_OSD_OPREPLY
    · by_cases hex : ∃ req, radix_tree_lookup s.request_tree (s.msgs m).front_tid = some req ∧
          (s.reqs req).r_num_pages ≥ want ∧ (s.reqs req).r_reply = none
      · obtain ⟨req, hl, hc⟩ := hex
        rw [prepare_pages_ok D s m req want htype hl hc]
        by_cases hp : p = req
        · subst hp
          simp [upd]
        · simp [upd, hp]
      · rw [prepare_pages_refused D s m want htype (fun req hl hc => hex ⟨req, hl, hc⟩)]
    · rw [prepare_pages_wrong_type D s m want htype]
  · intro u s' h p
    obtain ⟨k, t, hs, _⟩ := handle_timeout_shape h
    rw [hs]
    rfl
  · intro msg s' hidle h p
    rw [handle_reply_ref h p, hidle]
    simp
  · intro osdmap hmap hinv hwf
    refine ⟨fun who => ?_, fun htimer u req hgot => ?_, fun msg hidle => ?_⟩
    · exact kick_requests_total D s who osdmap hmap hinv.sorted hinv.own_tid hwf
    · obtain ⟨k, T, h, _⟩ := handle_timeout_spec D s u osdmap req hmap hinv.sorted
        hinv.own_tid (fun e he => (hwf e he).1) hgot htimer
      exact ⟨_, h⟩
    · exact handle_reply_returns_idle D s msg hidle
        (fun req hl => (hwf _ (lookup_mem hl)).2)

/-- C30 on the client with the tids 1 and 2 registered: the request at address
9, with one reference, is registered under tid 3 (two references) and
completed by the reply at address 2003, which leaves it with one reference;
a resubmission walk that sends both registered requests again leaves their
counts at 2, and the walk, the timer handler (its lookup finds the request of
tid 1) and the replies that complete nothing return. -/
theorem reference_balance_witness :
    (balanceClient.reqs 9).r_ref = 1 ∧ balanceClient.last_tid = 2 ∧
    ((register_request testDeps balanceClient 9 false).map
      (fun r => (r.1, (r.2.reqs 9).r_ref))) = some (0, 2) ∧
    (∃ s1 s2, register_request testDeps balanceClient 9 false = some (0, s1) ∧
      (s1.reqs 9).r_ref = (balanceClient.reqs 9).r_ref + 1 ∧
      reply_completes testDeps s1 2003 = some 9 ∧
      ceph_osdc_handle_reply testDeps s1 2003 = some s2 ∧
      (s2.reqs 9).r_ref = (balanceClient.reqs 9).r_ref ∧
      ∀ p, p ≠ 9 → (s2.reqs p).r_ref = (balanceClient.reqs p).r_ref) ∧
    (kick_requests testDeps balanceClient (some 105)).map
      (fun x => ((x.reqs 7).r_ref, (x.reqs 8).r_ref, (sends x.trace).length)) =
      some (2, 2, 2) ∧
    radix_tree_gang_lookup balanceClient.request_tree balanceClient.timeout_tid = some 7 ∧
    ((∀ who, ∃ s', kick_requests testDeps balanceClient who = some s') ∧
      (timer_period testDeps balanceClient ≠ 0 →
        ∀ u req,
        radix_tree_gang_lookup balanceClient.request_tree balanceClient.timeout_tid =
          some req →
        ∃ s', handle_timeout testDeps balanceClient u = some s') ∧
      (∀ msg, reply_completes testDeps balanceClient msg = none →
        ∃ s', ceph_osdc_handle_reply testDeps balanceClient msg = some s')) :=
  ⟨by decide, by decide, by decide,
    (reference_balance testDeps balanceClient).1 9 2003 ⟨by decide, by decide, by decide⟩
      (by decide) (by decide) (by decide) (by decide) (by decide) (by decide) (by decide)
      (by decide) (by decide),
    by decide, by decide,
    (reference_balance testDeps balanceClient).2.2.2.2.2 testMap rfl
      ⟨by decide, by decide, by decide⟩ (by decide)⟩

/-! ### Map ingestion: the incrementals of a message -/

/-- C11: `ceph_osdc_handle_map` returns on a message of the mount, given a
well-formed registry whose tids are below 2^64 - 1 and, when there is no
current map, a message that brings a full map, and it treats the incremental
maps of the message by the rule of `apply_contiguous`: going through the list
in order, an incremental is applied if and only if its epoch is the epoch of
the map current at that moment + 1 (in `u32`, as the code computes it), and
any other incremental is skipped with the current map unchanged.  With a
current map `c`: when an incremental of the message is for the successor of
the epoch of `c`, or when the message is found corrupt, the current map after
the call is `apply_contiguous` of the incrementals from `c`; when no
incremental is for that successor, all of them are skipped, the rule leaves
`c`, and with no full map in the message the current map after the call is
`c`.  With no current map every incremental is skipped: the map stays absent
when the message is found corrupt, and otherwise the map after the call is
decoded from the last full map. -/
theorem handle_map_incremental_rule (D : Deps) (s : ceph_osd_client) (msg : Nat)
    (hfsid : (le_value ((s.msgs msg).front_bytes.take 8),
      le_value (((s.msgs msg).front_bytes.drop 8).take 8)) = s.monmap_fsid)
    (hinv : RegistryInv s)
    (hwf : ∀ e ∈ s.request_tree, e.1 + 1 < 2 ^ 64 ∧ 0 < (s.reqs e.2).r_ref)
    (hcur : s.osdmap = none → msg_fulls (s.msgs msg).front_bytes ≠ []) :
    ∃ s', ceph_osdc_handle_map D s msg = some s' ∧
      (∀ c, s.osdmap = some c →
        ((found_corrupt s' ∨
            ∃ e ∈ msg_incs (s.msgs msg).front_bytes, e.1 = (c.epoch + 1) % U32) →
          s'.osdmap = some (apply_contiguous D (msg_incs (s.msgs msg).front_bytes) c)) ∧
        ((∀ e ∈ msg_incs (s.msgs msg).front_bytes, e.1 ≠ (c.epoch + 1) % U32) →
          apply_contiguous D (msg_incs (s.msgs msg).front_bytes) c = c ∧
          (msg_fulls (s.msgs msg).front_bytes = [] → s'.osdmap = some c))) ∧
      (s.osdmap = none →
        (found_corrupt s' → s'.osdmap = none) ∧
        (¬ found_corrupt s' →
          ∃ e m, (msg_fulls (s.msgs msg).front_bytes).getLast? = some e ∧
            D.osdmap_decode e.2 = Except.ok m ∧ s'.osdmap = some m)) ∧
      (∀ cur, apply_contiguous D [] cur = cur) ∧
      (∀ e rest cur m, e.1 = (cur.epoch + 1) % U32 →
        D.apply_incremental e.2 cur = Except.ok m →
        apply_contiguous D (e :: rest) cur = apply_contiguous D rest m) ∧
      (∀ e rest cur, e.1 ≠ (cur.epoch + 1) % U32 →
        apply_contiguous D (e :: rest) cur = apply_contiguous D rest cur) := by
  obtain ⟨s', h⟩ := handle_map_total D s msg hinv hwf hcur
  refine ⟨s', h, ?_, ?_, fun _ => rfl, ?_, ?_⟩
  · intro c hc
    have hout := (handle_map_outcome h).1
    constructor
    · intro hcase
      by_cases hcor : found_corrupt s'
      · rw [hout hcor, hc]
        rfl
      · rcases hcase with hcase | hex
        · exact absurd hcase hcor
        · exact ((handle_map_full_map_rule_of_done D s s' msg h hfsid hcor).2 c _ hc hex rfl).1
    · intro hno
      have hskip := apply_contiguous_skip D _ c hno
      refine ⟨hskip, fun hnil => ?_⟩
      by_cases hcor : found_corrupt s'
      · rw [hout hcor, hc]
        simp only [Option.map_some', hskip]
      · have hno2 : ∀ c2, s.osdmap = some c2 →
            ∀ e ∈ msg_incs (s.msgs msg).front_bytes, e.1 ≠ (c2.epoch + 1) % U32 := by
          intro c2 hc2
          rw [hc] at hc2
          simp only [Option.some.injEq] at hc2
          subst hc2
          exact hno
        have := ((handle_map_full_map_rule_of_done D s s' msg h hfsid hcor).1 hno2).1
          (by rw [hnil]; rfl)
        rw [this, hc]
  · intro hn
    constructor
    · intro hcor
      rw [(handle_map_outcome h).1 hcor, hn]
      rfl
    · intro hcor
      rcases handle_map_accepted h hfsid hcor with
        ⟨c, m, hc, _⟩ | ⟨_, e, m, hlast, _, hdec, hd⟩ | ⟨_, hold, _⟩
      · rw [hn] at hc
        exact absurd hc (by simp)
      · exact ⟨e, m, hlast, hdec, (handle_map_done_out hd).1⟩
      · exfalso
        have hne := hcur hn
        cases hl : (msg_fulls (s.msgs msg).front_bytes).getLast? with
        | none => exact hne (List.getLast?_eq_none_iff.mp hl)
        | some e =>
          obtain ⟨c, hc, _⟩ := hold e hl
          rw [hn] at hc
          exact absurd hc (by simp)
  · intro e rest cur m he hm
    simp only [apply_contiguous, he, if_true, hm]
  · intro e rest cur he
    have : ¬ ((cur.epoch + 1) % U32 = e.1) := fun hc => he hc.symm
    simp only [apply_contiguous, this, if_false]

/-- C11 on a message with the incrementals for the epochs 9, 6 and 8, handled
at epoch 5: the first is skipped (9 is not 5 + 1), the second is applied
(epoch 6), the third is judged against epoch 6 and skipped (8 is not 6 + 1);
the current map after the call is the map of epoch 6 made by the second.  On
the message with the incrementals for 6 and 7 both are applied, one after the
other. -/
theorem handle_map_incremental_rule_witness :
    msg_incs skipIncsMsg.front_bytes = [(9, [3]), (6, [6]), (8, [2])] ∧
    (mapClient skipIncsMsg).osdmap.map (fun m => (m.epoch, m.crush)) = some (5, 5) ∧
    (ceph_osdc_handle_map testDeps (mapClient skipIncsMsg) 3000).map
      (fun s => (s.trace.getLast?, s.osdmap.map (fun m => (m.epoch, m.crush)))) =
      some (some Event.up_read, some (6, 6)) ∧
    (ceph_osdc_handle_map testDeps (mapClient twoIncsMsg) 3000).map
      (fun s => (s.trace.getLast?, s.osdmap.map (fun m => (m.epoch, m.crush)))) =
      some (some Event.up_read, some (7, 4)) ∧
    ∃ s', ceph_osdc_handle_map testDeps (mapClient skipIncsMsg) 3000 = some s' ∧
      (∀ c, (mapClient skipIncsMsg).osdmap = some c →
        ((found_corrupt s' ∨
            ∃ e ∈ msg_incs ((mapClient skipIncsMsg).msgs 3000).front_bytes,
              e.1 = (c.epoch + 1) % U32) →
          s'.osdmap = some (apply_contiguous testDeps
            (msg_incs ((mapClient skipIncsMsg).msgs 3000).front_bytes) c)) ∧
        ((∀ e ∈ msg_incs ((mapClient skipIncsMsg).msgs 3000).front_bytes,
            e.1 ≠ (c.epoch + 1) % U32) →
          apply_contiguous testDeps
            (msg_incs ((mapClient skipIncsMsg).msgs 3000).front_bytes) c = c ∧
          (msg_fulls ((mapClient skipIncsMsg).msgs 3000).front_bytes = [] → s'.osdmap = some c))) ∧
      ((mapClient skipIncsMsg).osdmap = none →
        (found_corrupt s' → s'.osdmap = none) ∧
        (¬ found_corrupt s' →
          ∃ e m,
            (msg_fulls ((mapClient skipIncsMsg).msgs 3000).front_bytes).getLast? = some e ∧
            testDeps.osdmap_decode e.2 = Except.ok m ∧ s'.osdmap = some m)) ∧
      (∀ cur, apply_contiguous testDeps [] cur = cur) ∧
      (∀ e rest cur m, e.1 = (cur.epoch + 1) % U32 →
        testDeps.apply_incremental e.2 cur = Except.ok m →
        apply_contiguous testDeps (e :: rest) cur = apply_contiguous testDeps rest m) ∧
      (∀ e rest cur, e.1 ≠ (cur.epoch + 1) % U32 →
        apply_contiguous testDeps (e :: rest) cur = apply_contiguous testDeps rest cur) :=
  ⟨by decide, by decide, by decide, by decide,
    handle_map_incremental_rule testDeps (mapClient skipIncsMsg) 3000 (by decide)
      ⟨by decide, by decide, by decide⟩ (by decide) (fun h => by cases h)⟩

/-! ### A timer period of zero -/

/-- C16, as stated, fails when the timer period is zero: in the registry with
the tids 1 and 2 (requests at the addresses 7 and 8, each holding two
references, `num_requests` 2, `timeout_tid` 1) at time 5000, the request of
tid 1 was last sent at time 1000.  `__unregister_request` for it removes it
from the tree, finds that `timeout_tid` named it and that the request of tid 2
remains, and calls `__register_next_request_timeout`, where
`reschedule_timeout` computes 0 - 4000 < 0 and takes the remainder by the
period, which is zero: the call faults before `ceph_osdc_put_request`, and no
reference is released. -/
theorem unregister_request_zero_period :
    timer_period testDeps zeroTimeoutClient = 0 ∧
    zeroTimeoutClient.request_tree = [(1, 7), (2, 8)] ∧
    ((zeroTimeoutClient.reqs 7).r_tid, (zeroTimeoutClient.reqs 8).r_tid,
      zeroTimeoutClient.timeout_tid, zeroTimeoutClient.num_requests) = (1, 2, 1, 2) ∧
    ((zeroTimeoutClient.reqs 7).r_ref, (zeroTimeoutClient.reqs 7).r_last_stamp,
      zeroTimeoutClient.jiffies) = (2, 1000, 5000) ∧
    elapsed_since zeroTimeoutClient 1000 = 4000 ∧
    (reschedule_timeout testDeps zeroTimeoutClient 1000).isSome = false ∧
    (__unregister_request testDeps zeroTimeoutClient 7).isSome = false ∧
    (__unregister_request testDeps zeroTimeoutClient 8).map
      (fun s => (s.request_tree, s.timeout_tid, s.num_requests, (s.reqs 8).r_ref)) =
      some ([(1, 7)], 1, 1, 1) := by
  refine ⟨by decide, by decide, by decide, by decide, by decide, by decide, by decide, by decide⟩

/-- C20, as stated, fails when the timer period is zero: the client of the
counterexample to C16 holds a reply with a valid front for tid 1, whose
request is registered with an empty reply slot.  `ceph_osdc_handle_reply`
finds the request, puts the message in the slot and calls
`__unregister_request`, which faults in `reschedule_timeout` on the remainder
by the zero period: no completion fires. -/
theorem handle_reply_zero_period :
    timer_period testDeps zeroTimeoutReplyClient = 0 ∧
    testDeps.sizeof_reply_head ≤ (zeroTimeoutReplyClient.msgs 2001).front_len ∧
    (zeroTimeoutReplyClient.msgs 2001).front_len =
      reply_front_len testDeps (zeroTimeoutReplyClient.msgs 2001).front_num_ops ∧
    radix_tree_lookup zeroTimeoutReplyClient.request_tree
      (zeroTimeoutReplyClient.msgs 2001).front_tid = some 7 ∧
    (zeroTimeoutReplyClient.reqs 7).r_reply = none ∧
    reply_completes testDeps zeroTimeoutReplyClient 2001 = some 7 ∧
    (zeroTimeoutReplyClient.timeout_tid, zeroTimeoutReplyClient.num_requests,
      (zeroTimeoutReplyClient.reqs 7).r_last_stamp, zeroTimeoutReplyClient.jiffies) =
      (1, 2, 1000, 5000) ∧
    (ceph_osdc_handle_reply testDeps zeroTimeoutReplyClient 2001).isSome = false := by
  refine ⟨by decide, by decide, by decide, by decide, by decide, by decide, by decide, by decide⟩

end Ceph
